import Mathlib

/-!
# Tenant data synchronisation engine

A shallow embedding of `server/src/services/shopifyService.js` (the paginated
fetcher `fetchPaginatedData`, the three entity synchronisers `syncCustomers`,
`syncOrders`, `syncProducts`, and `fullSync`) and of
`server/src/services/scheduler.js` (the quick and full sync of a tenant, the
two scheduler ticks and the manual sync), followed by the properties proved
about them.

Layout of the development:

* `Js`       : the fragment of the JavaScript runtime the service relies on
               (numbers as doubles, dynamic values, truthiness, property reads,
               `toString`, `parseFloat`, `parseInt`, the two string operations
               used on the link header);
* `Store`    : the relational store behind the Prisma client, as explicit state;
* `ShopifyService` : the methods of the class, one definition per method;
* `SchedulerService` : the methods of the scheduler;
* the theorems.

Inside `ShopifyService` every asynchronous call is awaited before the next
statement runs, so `await` is plain sequencing there. The scheduler starts
calls that are in flight together; see `SchedulerService`.
-/

set_option autoImplicit false

namespace Js

/-! ## Numbers -/

/-- A JavaScript number: `NaN`, an infinity, negative zero, or another finite
double, given by its exact value `m / 10 ^ s` (every finite double has a finite
decimal expansion). -/
inductive Num where
  | nan
  | inf (neg : Bool)
  | dec (mant : Int) (scale : Nat)
  | negZero
  deriving DecidableEq, Repr

namespace Num

/-- Canonical form of `m / 10 ^ s`: trailing zeros of the fraction removed. -/
def ofDec (mant : Int) : Nat → Num
  | 0 => .dec mant 0
  | s + 1 => if mant % 10 = 0 then ofDec (mant / 10) s else .dec mant (s + 1)

/-- The number a natural number denotes (exact for the naturals that are
doubles, among them all below `2 ^ 53`). -/
def ofNat (n : Nat) : Num := .dec (Int.ofNat n) 0

/-- Reading of `x > 0` for a number `x`. -/
def isPos : Num → Bool
  | .nan => false
  | .inf neg => !neg
  | .dec m _ => decide (0 < m)
  | .negZero => false

/-- Numbers that are falsy: `NaN` and the two zeros. -/
def isFalsy : Num → Bool
  | .nan => true
  | .inf _ => false
  | .dec m _ => decide (m = 0)
  | .negZero => true

/-- Zero with a sign. -/
def zero (neg : Bool) : Num := if neg then .negZero else .dec 0 0

/-- The greatest sum `k` of steps taken from the list, in order, that keeps
`a * base ^ k ≤ b`; with the steps `2 ^ j, ..., 2, 1` this is the greatest
`k < 2 ^ (j + 1)` with `a * base ^ k ≤ b`, when `a ≤ b`. -/
def stepsBelow (base a b : Nat) : List Nat → Nat → Nat
  | [], k => k
  | step :: rest, k =>
    if a * base ^ (k + step) ≤ b then stepsBelow base a b rest (k + step)
    else stepsBelow base a b rest k

/-- The steps an exponent search can use, largest first: the powers of two
`1, 2, 4, ...` taken from the list as long as `a * base ^ step ≤ b`. -/
def usableSteps (base a b : Nat) : List Nat → List Nat → List Nat
  | [], used => used
  | step :: rest, used =>
    if a * base ^ step ≤ b then usableSteps base a b rest (step :: used) else used

/-- The powers of two below 2048. -/
def steps : List Nat := [1, 2, 4, 8, 16, 32, 64, 128, 256, 512, 1024]

/-- The greatest `k` below 2048 with `a * base ^ k ≤ b`, for `a ≤ b`. -/
def expBelow (base a b : Nat) : Nat :=
  stepsBelow base a b (usableSteps base a b steps []) 0

/-- The exponent `e` with `base ^ e ≤ p / q < base ^ (e + 1)`, for positive
`p` and `q` (kept within 2048 in size, which is beyond the range of the
doubles). -/
def logFloor (base p q : Nat) : Int :=
  if q ≤ p then (expBelow base q p : Nat)
  else -((expBelow base p (q - 1) : Nat) + 1 : Int)

/-- The quotient `num / den` rounded to the nearest integer, ties to even. -/
def divRound (num den : Nat) : Nat :=
  let quot := num / den
  let rem := num % den
  if 2 * rem < den then quot
  else if den < 2 * rem then quot + 1
  else quot + quot % 2

/-- The number `±M * 2 ^ u`, exactly. -/
def ofBinary (neg : Bool) (M : Nat) (u : Int) : Num :=
  if M = 0 then zero neg
  else
    let mant : Int := if neg then -(M : Int) else (M : Int)
    if 0 ≤ u then .dec (mant * 2 ^ u.toNat) 0
    else ofDec (mant * 5 ^ (-u).toNat) (-u).toNat

/-- The Number value for `±p / q` (`q` positive): the double nearest to it,
ties to the even significand, an infinity from `2 ^ 1024 - 2 ^ 970` on. An
integer below `2 ^ 53` is a double. -/
def ofRatio (neg : Bool) (p q : Nat) : Num :=
  if p = 0 then zero neg
  else if p % q = 0 ∧ p / q < 2 ^ 53 then
    .dec (if neg then -((p / q : Nat) : Int) else ((p / q : Nat) : Int)) 0
  else
    let e := logFloor 2 p q
    if 1024 ≤ e then .inf neg
    else
      let u : Int := max e (-1022) - 52
      let M := if 0 ≤ u then divRound p (q * 2 ^ u.toNat) else divRound (p * 2 ^ (-u).toNat) q
      if u = 971 ∧ M = 2 ^ 53 then .inf neg else ofBinary neg M u

/-- The number of decimal digits of a natural number. -/
def digitCount (m : Nat) : Nat := (Nat.toDigits 10 m).length

/-- The Number value for `±m * 10 ^ x`. Powers of ten far outside the range of
the doubles are not computed: from `10 ^ 310` on the value is an infinity, and
below `10 ^ -330` it is a zero. -/
def ofScientific (neg : Bool) (m : Nat) (x : Int) : Num :=
  if m = 0 then zero neg
  else if 310 ≤ x then .inf neg
  else if x + (digitCount m : Int) ≤ -330 then zero neg
  else if 0 ≤ x then ofRatio neg (m * 10 ^ x.toNat) 1
  else ofRatio neg m (10 ^ (-x).toNat)

/-- The candidates of `k` digits for the text of the positive number `p / q`
whose decimal exponent is `n` (`10 ^ (n - 1) ≤ p / q < 10 ^ n`): the integers
next to `p / q * 10 ^ (k - n)` that read back as the number, the nearer one
first (the even one on a tie). -/
def digitCandidates (p q : Nat) (n : Int) (k : Nat) : List Nat :=
  let x : Int := (k : Int) - n
  let a := if 0 ≤ x then p * 10 ^ x.toNat else p
  let b := if 0 ≤ x then q else q * 10 ^ (-x).toNat
  let lo := a / b
  let hi := lo + 1
  let target := ofRatio false p q
  let okLo := decide (ofScientific false lo (-x) = target)
  let okHi := decide (ofScientific false hi (-x) = target)
  let loFirst := decide (2 * (a - lo * b) < b) || (decide (2 * (a - lo * b) = b) && lo % 2 = 0)
  let ordered := if loFirst then [(lo, okLo), (hi, okHi)] else [(hi, okHi), (lo, okLo)]
  (ordered.filter (fun c => c.2)).map (fun c => c.1)

/-- The digits of the text of the positive number `p / q`, as the integer `s`
they spell, with the digit count `k` at which they were found: as few digits as
read back as the number, at most 17. -/
def shortestDigits (p q : Nat) (n : Int) : List Nat → Nat × Nat
  | [] => (p * 10 ^ (17 - n).toNat / (q * 10 ^ (n - 17).toNat), 17)
  | k :: rest =>
    match digitCandidates p q n k with
    | s :: _ => (s, k)
    | [] => shortestDigits p q n rest

/-- The digit counts tried for the text of a number. -/
def digitCounts : List Nat := [1, 2, 3, 4, 5, 6, 7, 8, 9, 10, 11, 12, 13, 14, 15, 16, 17]

/-- Trailing zeros removed, at most `fuel` of them. -/
def stripZeros : Nat → Nat → Nat
  | 0, s => s
  | fuel + 1, s => if s ≠ 0 ∧ s % 10 = 0 then stripZeros fuel (s / 10) else s

/-- The text of a positive number from its digits `s` and its decimal point
position `n` (`Number::toString`, radix 10): plain digits up to
`10 ^ 21`, a leading `0.` down to `10 ^ -6`, and the exponent form beyond. -/
def formatDigits (s : Nat) (n : Int) : String :=
  let ds := Nat.toDigits 10 s
  let k : Int := ds.length
  if k ≤ n ∧ n ≤ 21 then String.mk (ds ++ List.replicate (n - k).toNat '0')
  else if 0 < n ∧ n ≤ 21 then String.mk (ds.take n.toNat ++ '.' :: ds.drop n.toNat)
  else if -6 < n ∧ n ≤ 0 then String.mk ('0' :: '.' :: List.replicate (-n).toNat '0' ++ ds)
  else
    let e := n - 1
    let tail := (if e < 0 then '-' else '+') :: Nat.toDigits 10 e.natAbs
    match ds with
    | [d] => String.mk (d :: 'e' :: tail)
    | d :: more => String.mk (d :: '.' :: more ++ 'e' :: tail)
    | [] => ""

/-- The text of the positive number `p / q`. The digits found with `k` digits
may spell the next power of ten; the point position follows the digits
actually found. -/
def positiveText (p q : Nat) : String :=
  let n := logFloor 10 p q + 1
  match shortestDigits p q n digitCounts with
  | (s, k) => formatDigits (stripZeros 20 s) (n - (k : Int) + (digitCount s : Int))

/-- `Number.prototype.toString` (radix 10). -/
def toStr : Num → String
  | .nan => "NaN"
  | .inf false => "Infinity"
  | .inf true => "-Infinity"
  | .negZero => "0"
  | .dec m s =>
    if m = 0 then "0"
    else if s = 0 ∧ m.natAbs < 2 ^ 53 then toString m
    else (if m < 0 then "-" else "") ++ positiveText m.natAbs (10 ^ s)

end Num

/-! ## Values -/

/-- A value that JSON data (a response body, a fetched record) can hold, plus
`undefined`, which property reads produce. -/
inductive Val where
  | undefined
  | null
  | bool (b : Bool)
  | num (n : Num)
  | str (s : String)
  | arr (items : List Val)
  | obj (fields : List (String × Val))
  deriving Repr

/-- A thrown JavaScript error: its `message`, and the body of the HTTP response
attached to it (`error.response.data`) when it is a request error that carries
one. -/
structure Error where
  message : String
  response : Option Val := none
  deriving Repr

/-- A `TypeError` raised by the runtime. -/
def typeError (msg : String) : Error := { message := msg }

/-- An `Error` built by `new Error(msg)`. -/
def newError (msg : String) : Error := { message := msg }

/-- Own property lookup in the field list of an object. -/
def lookup (k : String) : List (String × Val) → Option Val
  | [] => none
  | (k1, v) :: rest => if k1 = k then some v else lookup k rest

/-- Truthiness (`ToBoolean`). -/
def truthy : Val → Bool
  | .undefined => false
  | .null => false
  | .bool b => b
  | .num n => !n.isFalsy
  | .str s => decide (s ≠ "")
  | .arr _ => true
  | .obj _ => true

/-- The expression `a || b` (both operands are pure in every use below). -/
def or (a b : Val) : Val := if truthy a then a else b

/-- The property read `v.k` (also `v[k]` with a string key), for the keys the
service reads: data keys and `length`. Reading from `undefined` or `null`
throws; methods inherited from the built-in prototypes are not data and are
handled where they are called. The length of a string is counted in code
points. -/
def getProp (v : Val) (k : String) : Except Error Val :=
  match v with
  | .undefined =>
    .error (typeError ("Cannot read properties of undefined (reading '" ++ k ++ "')"))
  | .null =>
    .error (typeError ("Cannot read properties of null (reading '" ++ k ++ "')"))
  | .obj fields => .ok ((lookup k fields).getD .undefined)
  | .arr items => .ok (if k = "length" then .num (Num.ofNat items.length) else .undefined)
  | .str s => .ok (if k = "length" then .num (Num.ofNat s.length) else .undefined)
  | _ => .ok .undefined

/-- Prepends the text of one array element to the texts of the following ones,
propagating the first exception in evaluation order. -/
def consText (a : Except Error String) (b : Except Error (List String)) :
    Except Error (List String) :=
  match a, b with
  | .error e, _ => .error e
  | .ok _, .error e => .error e
  | .ok x, .ok xs => .ok (x :: xs)

mutual
/-- The abstract operation `ToString`. Data objects print as `[object Object]`
unless an own, hence non-callable, `toString` field hides the inherited
method, in which case the conversion throws. An array prints as its elements
joined by commas (`Array.prototype.join`). -/
def toStr : Val → Except Error String
  | .undefined => .ok "undefined"
  | .null => .ok "null"
  | .bool b => .ok (if b then "true" else "false")
  | .num n => .ok n.toStr
  | .str s => .ok s
  | .obj fields =>
    match lookup "toString" fields with
    | some _ => .error (typeError "Cannot convert object to primitive value")
    | none => .ok "[object Object]"
  | .arr items => (elemTexts items).map (fun ss => ",".intercalate ss)
/-- The texts of the elements of an array inside a join: `null` and
`undefined` elements print as the empty string. -/
def elemTexts : List Val → Except Error (List String)
  | [] => .ok []
  | .undefined :: rest => consText (.ok "") (elemTexts rest)
  | .null :: rest => consText (.ok "") (elemTexts rest)
  | v :: rest => consText (toStr v) (elemTexts rest)
end

/-- The method call `v.toString()`. -/
def callToString : Val → Except Error String
  | .undefined => .error (typeError "Cannot read properties of undefined (reading 'toString')")
  | .null => .error (typeError "Cannot read properties of null (reading 'toString')")
  | .obj fields =>
    match lookup "toString" fields with
    | some _ => .error (typeError "toString is not a function")
    | none => .ok "[object Object]"
  | v => toStr v

/-! ## Text -/

/-- The code points removed by `trim` and matched by the white-space class of
regular expressions: ECMAScript WhiteSpace and LineTerminator. -/
def isSpace (c : Char) : Bool :=
  let n := c.toNat
  n = 9 || n = 10 || n = 11 || n = 12 || n = 13 || n = 32 || n = 0xA0 || n = 0x1680
    || (0x2000 ≤ n && n ≤ 0x200A) || n = 0x2028 || n = 0x2029 || n = 0x202F
    || n = 0x205F || n = 0x3000 || n = 0xFEFF

/-- Leading white space removed. -/
def trimStart (cs : List Char) : List Char := cs.dropWhile isSpace

/-- The method `trim` on the characters of a string. -/
def trim (cs : List Char) : List Char := ((trimStart cs).reverse.dropWhile isSpace).reverse

/-- Whether `cs` begins with `pre`. -/
def startsWith : List Char → List Char → Bool
  | [], _ => true
  | _ :: _, [] => false
  | p :: ps, c :: cs => p = c && startsWith ps cs

/-- The method `includes`: whether `needle` occurs in the text. -/
def includes (needle : List Char) : List Char → Bool
  | [] => startsWith needle []
  | c :: cs => startsWith needle (c :: cs) || includes needle cs

/-- The text before the first occurrence of `sep` (all of it when there is none). -/
def beforeFirst (sep : List Char) : List Char → List Char
  | [] => []
  | c :: cs => if startsWith sep (c :: cs) then [] else c :: beforeFirst sep cs

/-- The text after the first occurrence of `sep`, when there is one. -/
def afterFirst (sep : List Char) : List Char → Option (List Char)
  | [] => none
  | c :: cs => if startsWith sep (c :: cs) then some ((c :: cs).drop sep.length)
               else afterFirst sep cs

/-- The expression `s.split(sep)[1]` for a non-empty separator: the piece between
the first and the second occurrence of `sep`, `none` (`undefined`) when `sep`
does not occur. -/
def splitSecond (sep s : List Char) : Option (List Char) :=
  (afterFirst sep s).map (beforeFirst sep)

/-! ## Numeric conversions -/

/-- The value of `c` as a digit in the given radix. -/
def digitOf (radix : Nat) (c : Char) : Option Nat :=
  let n := c.toNat
  let d : Option Nat :=
    if 48 ≤ n && n ≤ 57 then some (n - 48)
    else if 97 ≤ n && n ≤ 122 then some (n - 87)
    else if 65 ≤ n && n ≤ 90 then some (n - 55)
    else none
  d.filter (fun v => decide (v < radix))

/-- Reads the longest run of digits: the accumulated value, the number of
digits read and the remaining text. -/
def readDigits (radix : Nat) : List Char → Nat → Nat → Nat × Nat × List Char
  | [], acc, cnt => (acc, cnt, [])
  | c :: cs, acc, cnt =>
    match digitOf radix c with
    | some d => readDigits radix cs (acc * radix + d) (cnt + 1)
    | none => (acc, cnt, c :: cs)

/-- Reads an optional sign; `true` stands for minus. -/
def readSign : List Char → Bool × List Char
  | '-' :: t => (true, t)
  | '+' :: t => (false, t)
  | cs => (false, cs)

/-- Reads an optional exponent part: `e` or `E`, an optional sign and at least
one digit. -/
def readExponent (cs : List Char) : Int × List Char :=
  match cs with
  | c :: t =>
    if c = 'e' || c = 'E' then
      match readSign t with
      | (neg, t1) =>
        match readDigits 10 t1 0 0 with
        | (v, cnt, rest) =>
          if cnt = 0 then (0, cs) else ((if neg then -(v : Int) else (v : Int)), rest)
    else (0, cs)
  | [] => (0, [])

/-- The Number value for `±m * 10 ^ (e - fracLen)`. -/
def scaleBy (neg : Bool) (m fracLen : Nat) (e : Int) : Num :=
  Num.ofScientific neg m (e - (fracLen : Int))

/-- Reads the longest leading `StrDecimalLiteral`: an optional sign, then
`Infinity` or digits with an optional fraction and exponent. -/
def readDecimalLiteral (cs : List Char) : Option (Num × List Char) :=
  match readSign cs with
  | (neg, cs1) =>
    if startsWith "Infinity".toList cs1 then some (.inf neg, cs1.drop 8)
    else
      match readDigits 10 cs1 0 0 with
      | (ip, ic, cs2) =>
        let frac : Nat × Nat × List Char :=
          match cs2 with
          | '.' :: t => if ic = 0 && (readDigits 10 t 0 0).2.1 = 0 then (ip, 0, cs2)
                        else readDigits 10 t ip 0
          | _ => (ip, 0, cs2)
        match frac with
        | (m, fc, cs3) =>
          if ic + fc = 0 then none
          else
            match readExponent cs3 with
            | (e, cs4) => some (scaleBy neg m fc e, cs4)

/-- The global function `parseFloat`. -/
def parseFloat (v : Val) : Except Error Num :=
  match toStr v with
  | .error e => .error e
  | .ok s =>
    match readDecimalLiteral (trimStart s.toList) with
    | some (n, _) => .ok n
    | none => .ok .nan

/-- The global function `parseInt` called without a radix. -/
def parseInt (v : Val) : Except Error Num :=
  match toStr v with
  | .error e => .error e
  | .ok s =>
    match readSign (trimStart s.toList) with
    | (neg, cs) =>
      let hex := startsWith "0x".toList cs || startsWith "0X".toList cs
      match (if hex then readDigits 16 (cs.drop 2) 0 0 else readDigits 10 cs 0 0) with
      | (v, cnt, _) =>
        if cnt = 0 then .ok .nan
        else .ok (Num.ofRatio neg v 1)

/-- The numeric value of a string (`StringToNumber`). -/
def strToNumber (s : String) : Num :=
  let cs := trim s.toList
  let radixOf : Option Nat :=
    if startsWith "0x".toList cs || startsWith "0X".toList cs then some 16
    else if startsWith "0o".toList cs || startsWith "0O".toList cs then some 8
    else if startsWith "0b".toList cs || startsWith "0B".toList cs then some 2
    else none
  if cs = [] then Num.ofNat 0
  else
    match radixOf with
    | some r =>
      match readDigits r (cs.drop 2) 0 0 with
      | (v, cnt, rest) => if cnt ≠ 0 && rest = [] then Num.ofRatio false v 1 else .nan
    | none =>
      match readDecimalLiteral cs with
      | some (n, []) => n
      | _ => .nan

/-- The abstract operation `ToNumber`. -/
def toNumber : Val → Except Error Num
  | .undefined => .ok .nan
  | .null => .ok (Num.ofNat 0)
  | .bool b => .ok (Num.ofNat (if b then 1 else 0))
  | .num n => .ok n
  | .str s => .ok (strToNumber s)
  | v => (toStr v).map strToNumber

/-- The comparison `v > 0`. -/
def gtZero (v : Val) : Except Error Bool := (toNumber v).map Num.isPos

/-- The values a `for ... of` loop visits: the elements of an array, the
characters of a string; other data values are not iterable. -/
def iterate : Val → Except Error (List Val)
  | .arr items => .ok items
  | .str s => .ok (s.toList.map (fun c => Val.str (String.mk [c])))
  | _ => .error (typeError "value is not iterable")

/-! ## Objects -/

/-- Assignment of key `k` in an object under construction: an existing key
keeps its position and takes the new value, a new key is appended. -/
def setKey (k : String) (v : Val) : List (String × Val) → List (String × Val)
  | [] => [(k, v)]
  | (k1, v1) :: rest => if k1 = k then (k1, v) :: rest else (k1, v1) :: setKey k v rest

/-- The object literal `{ ...base, ...extra }`: the fields of `extra` are
assigned, in order, over those of `base`. -/
def spread (base extra : List (String × Val)) : List (String × Val) :=
  extra.foldl (fun acc kv => setKey kv.1 kv.2 acc) base

/-- The indexed read `v[i]` on a value that is neither `null` nor `undefined`. -/
def getIndex (v : Val) (i : Nat) : Val :=
  match v with
  | .arr items => (items.get? i).getD .undefined
  | .str s => ((s.toList.get? i).map (fun c => Val.str (String.mk [c]))).getD .undefined
  | .obj fields => (lookup (toString i) fields).getD .undefined
  | _ => .undefined

/-- Whether a value is `null` or `undefined`, where optional chaining stops. -/
def nullish : Val → Bool
  | .undefined => true
  | .null => true
  | _ => false

end Js

open Js (Val)

/-! # The external API -/

/-- The tenant row the service is constructed from. -/
structure Tenant where
  id : String
  shopifyUrl : Option String
  accessToken : String
  name : String := ""
  isActive : Bool := true
  deriving DecidableEq, Repr

/-- One GET request as handed to the HTTP client: the URL, the headers and the
query parameters (`params`), in the order the object literal lists them. -/
structure Request where
  url : String
  headers : List (String × String)
  params : List (String × Val)
  deriving Repr

/-- What the service reads of a successful response: the parsed body and the
`link` header (`none` when the header is absent). -/
structure Response where
  data : Val
  link : Option String := none
  deriving Repr

/-- The external commerce API as seen by one invocation: the outcome of the
`i`-th request issued (counting from 0), which may depend on the request. A
failed request (transport error or non-2xx status) is the error the HTTP client
rejects with. -/
abbrev Api := Nat → Request → Except Js.Error Response

/-! # The relational store

The Prisma client is a library outside the repository; its operations are
modelled as functions on an explicit store. Row ids are fresh numbers drawn
from a counter. A write is refused, by throwing, when the schema does not
accept the payload; the schema file is not part of the sources, so its verdict
is a parameter (`Schema`). Reads and the writes of well-formed ledger rows
always succeed. -/

/-- The mapped fields of a customer (the `update` object; `create` adds the key). -/
structure CustomerData where
  email : Val
  firstName : Val
  lastName : Val
  phone : Val
  totalSpent : Js.Num
  ordersCount : Js.Num
  deriving Repr

/-- A stored Customer row. -/
structure CustomerRow where
  id : Nat
  tenantId : String
  shopifyId : String
  data : CustomerData
  deriving Repr

/-- The value of `customerId` in an order payload: `undefined`, `null` or the id
of a Customer row. -/
inductive CustomerRef where
  | undefined
  | null
  | id (n : Nat)
  deriving DecidableEq, Repr

/-- The mapped fields of an order. `processedAt` holds the value the `Date` is
built from, `none` for `null`. -/
structure OrderData where
  orderNumber : Val
  totalPrice : Js.Num
  subtotalPrice : Js.Num
  totalTax : Js.Num
  currency : Val
  financialStatus : Val
  fulfillmentStatus : Val
  processedAt : Option Val
  customerId : CustomerRef
  deriving Repr

/-- A stored Order row. -/
structure OrderRow where
  id : Nat
  tenantId : String
  shopifyId : String
  orderNumber : Val
  totalPrice : Js.Num
  subtotalPrice : Js.Num
  totalTax : Js.Num
  currency : Val
  financialStatus : Val
  fulfillmentStatus : Val
  processedAt : Option Val
  customerId : Option Nat
  deriving Repr

/-- The `data` object of `orderLineItem.create`. -/
structure LineItemData where
  orderId : Nat
  quantity : Js.Num
  price : Js.Num
  title : Val
  variantId : Option String
  deriving Repr

/-- A stored OrderLineItem row. -/
structure LineItemRow where
  id : Nat
  data : LineItemData
  deriving Repr

/-- The mapped fields of a product. -/
structure ProductData where
  title : Val
  handle : Val
  description : Val
  vendor : Val
  productType : Val
  status : Val
  deriving Repr

/-- A stored Product row. -/
structure ProductRow where
  id : Nat
  tenantId : String
  shopifyId : String
  data : ProductData
  deriving Repr

/-- The `data` object of `syncLog.create`. -/
structure SyncLogData where
  tenantId : String
  entityType : String
  status : String
  recordsProcessed : Nat
  recordsFailed : Nat
  errorMessage : Option String
  completedAt : Nat
  deriving DecidableEq, Repr

/-- A stored SyncLog row. -/
structure SyncLogRow where
  id : Nat
  data : SyncLogData
  deriving DecidableEq, Repr

/-- The verdict of the database schema on a write payload. -/
structure Schema where
  acceptsCustomer : String → String → CustomerData → Bool
  acceptsOrder : String → String → OrderData → Bool
  acceptsLineItem : LineItemData → Bool
  acceptsProduct : String → String → ProductData → Bool

/-- The tables the service touches and the id counter. -/
structure Store where
  customers : List CustomerRow := []
  orders : List OrderRow := []
  lineItems : List LineItemRow := []
  products : List ProductRow := []
  syncLogs : List SyncLogRow := []
  nextId : Nat := 0
  deriving Repr

/-- Replaces the first element satisfying `p`. -/
def replaceFirst {α : Type} (p : α → Bool) (new : α) : List α → List α
  | [] => []
  | r :: rs => if p r then new :: rs else r :: replaceFirst p new rs

/-- The write of an `upsert` on a table whose unique key is the predicate `p`:
the row matching the key is replaced by its update when there is one, otherwise
the new row is appended. Returns the resulting row, the resulting table and
whether a row was created. -/
def upsertRows {α : Type} (p : α → Bool) (update : α → α) (create : α)
    (rows : List α) : α × List α × Bool :=
  match rows.find? p with
  | some row => (update row, replaceFirst p (update row) rows, false)
  | none => (create, rows ++ [create], true)

namespace Store

/-- The error a refused write throws. -/
def invalid (model : String) : Js.Error :=
  Js.newError ("Invalid prisma." ++ model ++ " invocation")

/-- The call `prisma.customer.findUnique({ where: { tenantId_shopifyId } })`. -/
def findCustomer (st : Store) (tenantId shopifyId : String) : Option CustomerRow :=
  st.customers.find? (fun r => r.tenantId = tenantId && r.shopifyId = shopifyId)

/-- The call `prisma.customer.upsert({ where, update, create })`: the row with
the key is updated when it exists, otherwise a row is created. -/
def upsertCustomer (schema : Schema) (st : Store) (tenantId shopifyId : String)
    (update create : CustomerData) : Except Js.Error (CustomerRow × Store) :=
  if schema.acceptsCustomer tenantId shopifyId update
      && schema.acceptsCustomer tenantId shopifyId create then
    match upsertRows (fun r => r.tenantId = tenantId && r.shopifyId = shopifyId)
        (fun row => { row with data := update })
        { id := st.nextId, tenantId := tenantId, shopifyId := shopifyId, data := create }
        st.customers with
    | (row, rows, created) =>
      .ok (row, { st with customers := rows, nextId := st.nextId + created.toNat })
  else .error (invalid "customer.upsert()")

/-- The call `prisma.product.upsert({ where, update, create })`. -/
def upsertProduct (schema : Schema) (st : Store) (tenantId shopifyId : String)
    (update create : ProductData) : Except Js.Error (ProductRow × Store) :=
  if schema.acceptsProduct tenantId shopifyId update
      && schema.acceptsProduct tenantId shopifyId create then
    match upsertRows (fun r => r.tenantId = tenantId && r.shopifyId = shopifyId)
        (fun row => { row with data := update })
        { id := st.nextId, tenantId := tenantId, shopifyId := shopifyId, data := create }
        st.products with
    | (row, rows, created) =>
      .ok (row, { st with products := rows, nextId := st.nextId + created.toNat })
  else .error (invalid "product.upsert()")

/-- A field of an `update` object: `undefined` leaves the stored value as it is. -/
def updateField (old new : Val) : Val :=
  match new with
  | .undefined => old
  | v => v

/-- A field of a `create` object: an `undefined` field is left out, and the
column takes `null`. -/
def createField (new : Val) : Val :=
  match new with
  | .undefined => .null
  | v => v

/-- The row an order `update` produces. -/
def applyOrderUpdate (row : OrderRow) (d : OrderData) : OrderRow :=
  { row with
    orderNumber := updateField row.orderNumber d.orderNumber
    totalPrice := d.totalPrice
    subtotalPrice := d.subtotalPrice
    totalTax := d.totalTax
    currency := d.currency
    financialStatus := d.financialStatus
    fulfillmentStatus := d.fulfillmentStatus
    processedAt := d.processedAt
    customerId := match d.customerId with
      | .undefined => row.customerId
      | .null => none
      | .id n => some n }

/-- The row an order `create` produces. -/
def newOrderRow (id : Nat) (tenantId shopifyId : String) (d : OrderData) : OrderRow :=
  { id := id
    tenantId := tenantId
    shopifyId := shopifyId
    orderNumber := createField d.orderNumber
    totalPrice := d.totalPrice
    subtotalPrice := d.subtotalPrice
    totalTax := d.totalTax
    currency := d.currency
    financialStatus := d.financialStatus
    fulfillmentStatus := d.fulfillmentStatus
    processedAt := d.processedAt
    customerId := match d.customerId with
      | .id n => some n
      | _ => none }

/-- The call `prisma.order.upsert({ where, update, create })`. -/
def upsertOrder (schema : Schema) (st : Store) (tenantId shopifyId : String)
    (update create : OrderData) : Except Js.Error (OrderRow × Store) :=
  if schema.acceptsOrder tenantId shopifyId update
      && schema.acceptsOrder tenantId shopifyId create then
    match upsertRows (fun r => r.tenantId = tenantId && r.shopifyId = shopifyId)
        (fun row => applyOrderUpdate row update)
        (newOrderRow st.nextId tenantId shopifyId create)
        st.orders with
    | (row, rows, created) =>
      .ok (row, { st with orders := rows, nextId := st.nextId + created.toNat })
  else .error (invalid "order.upsert()")

/-- The call `prisma.orderLineItem.deleteMany({ where: { orderId } })`. -/
def deleteLineItems (st : Store) (orderId : Nat) : Store :=
  { st with lineItems := st.lineItems.filter (fun r => r.data.orderId ≠ orderId) }

/-- The call `prisma.orderLineItem.create({ data })`. -/
def createLineItem (schema : Schema) (st : Store) (data : LineItemData) :
    Except Js.Error Store :=
  if schema.acceptsLineItem data then
    .ok { st with lineItems := st.lineItems ++ [{ id := st.nextId, data := data }],
                  nextId := st.nextId + 1 }
  else .error (invalid "orderLineItem.create()")

/-- The call `prisma.syncLog.create({ data })`. -/
def createSyncLog (st : Store) (data : SyncLogData) : Store :=
  { st with syncLogs := st.syncLogs ++ [{ id := st.nextId, data := data }],
            nextId := st.nextId + 1 }

end Store

/-! # ShopifyService -/

/-- The fields the constructor sets. -/
structure ShopifyService where
  tenant : Tenant
  domain : String
  baseUrl : String
  headers : List (String × String)
  deriving Repr

namespace ShopifyService

/-- The replacement `.replace(/^https?:\/\//i, '')`: a leading `http://` or
`https://`, in any letter case, is removed. The letters of the pattern are
ASCII letters, which only their own two cases match. -/
def stripScheme (cs : List Char) : List Char :=
  let low := (cs.take 8).map Char.toLower
  if Js.startsWith "https://".toList low then cs.drop 8
  else if Js.startsWith "http://".toList low then cs.drop 7
  else cs

/-- The domain computed by the constructor:
`(tenant.shopifyUrl || '').toString().trim().replace(...).split('/')[0].toLowerCase()`.
The method `toLowerCase` of the runtime, whose table of letters is that of the
Unicode version the runtime ships, is a parameter. -/
def normalizeDomain (toLowerCase : String → String) (shopifyUrl : Option String) : String :=
  let raw := (shopifyUrl.getD "").toList
  toLowerCase (String.mk (Js.beforeFirst ['/'] (stripScheme (Js.trim raw))))

/-- The constructor `new ShopifyService(tenant)`. -/
def new (toLowerCase : String → String) (tenant : Tenant) : ShopifyService :=
  let domain := normalizeDomain toLowerCase tenant.shopifyUrl
  { tenant := tenant
    domain := domain
    baseUrl := "https://" ++ domain ++ "/admin/api/2023-10"
    headers := [("X-Shopify-Access-Token", tenant.accessToken),
                ("Content-Type", "application/json")] }

/-! ## Paginated fetcher -/

/-- The first match of `/<([^>]+)>;\s*rel="next"/` anchored at the head of the
text: the content of capture group 1. -/
def matchNextHere : List Char → Option (List Char)
  | '<' :: rest =>
    let cap := rest.takeWhile (fun c => c ≠ '>')
    match rest.dropWhile (fun c => c ≠ '>') with
    | '>' :: ';' :: t =>
      if cap ≠ [] && Js.startsWith "rel=\"next\"".toList (t.dropWhile Js.isSpace) then some cap
      else none
    | _ => none
  | _ => none

/-- The call `linkHeader.match(/<([^>]+)>;\s*rel="next"/)`: capture group 1 of
the leftmost match. -/
def matchNext : List Char → Option (List Char)
  | [] => none
  | c :: cs =>
    match matchNextHere (c :: cs) with
    | some cap => some cap
    | none => matchNext cs

/-- The value assigned to `nextPageInfo` after a response: `none` stands for
`null` and `undefined`. -/
def nextCursor (link : Option String) : Option String :=
  match link with
  | none => none
  | some linkHeader =>
    if linkHeader ≠ "" && Js.includes "rel=\"next\"".toList linkHeader.toList then
      match matchNext linkHeader.toList with
      | some url => (Js.splitSecond "page_info=".toList url).map String.mk
      | none => none
    else none

/-- Truthiness of `nextPageInfo`. -/
def hasCursor : Option String → Bool
  | some c => decide (c ≠ "")
  | none => false

/-- The `params` object of a request. -/
def requestParams (nextPageInfo : Option String) (limit : Nat)
    (extraParams : List (String × Val)) : List (String × Val) :=
  if hasCursor nextPageInfo then
    Js.spread [("page_info", Val.str (nextPageInfo.getD ""))] extraParams
  else
    Js.spread [("limit", Val.num (Js.Num.ofNat limit))] extraParams

/-- The request `axios.get(baseUrl + endpoint, { headers, params })` issued when
the loop is entered with `nextPageInfo`. -/
def pageRequest (svc : ShopifyService) (endpoint : String) (limit : Nat)
    (extraParams : List (String × Val)) (nextPageInfo : Option String) : Request :=
  { url := svc.baseUrl ++ endpoint
    headers := svc.headers
    params := requestParams nextPageInfo limit extraParams }

/-- The expression `error.response?.data?.errors?.[0] || error.message`. -/
def errorDetail (error : Js.Error) : Val :=
  let data : Val := error.response.getD .undefined
  let errors : Val :=
    if Js.nullish data then .undefined
    else match Js.getProp data "errors" with
      | .ok v => v
      | .error _ => .undefined
  let first : Val := if Js.nullish errors then .undefined else Js.getIndex errors 0
  Js.or first (.str error.message)

/-- The `catch` block of `fetchPaginatedData`: the error it throws. -/
def fetchFailure (endpoint : String) (error : Js.Error) : Js.Error :=
  match Js.toStr (errorDetail error) with
  | .ok detail => Js.newError ("Failed to fetch " ++ endpoint ++ ": " ++ detail)
  | .error e => e

/-- The expression `Array.isArray(x) ? x : []`. -/
def arrayOrEmpty : Val → List Val
  | .arr xs => xs
  | _ => []

/-- One run of `fetchPaginatedData`: the requests issued, in order, and the
outcome (the returned array or the thrown error). -/
structure FetchRun where
  requests : List Request
  result : Except Js.Error (List Val)
  deriving Repr

/-- The `do ... while` loop of `fetchPaginatedData`, entered with the current
`allData`, `nextPageInfo`, `page` and the requests sent so far. Each iteration
uses one unit of `fuel`; `none` means the fuel ran out before the loop ended. -/
def fetchLoop (svc : ShopifyService) (api : Api) (endpoint expectedKey : String) (limit : Nat)
    (extraParams : List (String × Val)) :
    Nat → List Val → Option String → Nat → List Request → Option FetchRun
  | 0, _, _, _, _ => none
  | fuel + 1, allData, nextPageInfo, page, sent =>
    let request := pageRequest svc endpoint limit extraParams nextPageInfo
    match api sent.length request with
    | .error error =>
      some { requests := sent ++ [request], result := .error (fetchFailure endpoint error) }
    | .ok response =>
      match Js.getProp response.data expectedKey with
      | .error error =>
        some { requests := sent ++ [request], result := .error (fetchFailure endpoint error) }
      | .ok found =>
        let items := arrayOrEmpty found
        let allData := allData ++ items
        let nextPageInfo := nextCursor response.link
        let page := page + 1
        if hasCursor nextPageInfo && decide (page ≤ 10) then
          fetchLoop svc api endpoint expectedKey limit extraParams
            fuel allData nextPageInfo page (sent ++ [request])
        else
          some { requests := sent ++ [request], result := .ok allData }

/-- The method `fetchPaginatedData(endpoint, expectedKey, limit = 250, extraParams = {})`.
Ten units of fuel cover the ten iterations the page counter allows. -/
def fetchPaginatedData (svc : ShopifyService) (api : Api) (endpoint expectedKey : String)
    (limit : Nat := 250) (extraParams : List (String × Val) := []) : Option FetchRun :=
  fetchLoop svc api endpoint expectedKey limit extraParams 10 [] none 1 []

/-- The method `fetchCustomers`. -/
def fetchCustomers (svc : ShopifyService) (api : Api) : Option FetchRun :=
  fetchPaginatedData svc api "/customers.json" "customers"

/-- The method `fetchOrders`. -/
def fetchOrders (svc : ShopifyService) (api : Api) : Option FetchRun :=
  fetchPaginatedData svc api "/orders.json" "orders" 250 [("status", Val.str "any")]

/-- The method `fetchProducts`. -/
def fetchProducts (svc : ShopifyService) (api : Api) : Option FetchRun :=
  fetchPaginatedData svc api "/products.json" "products"

/-! ## Entity synchronisers -/

/-- The literal `0` used as numeric fallback. -/
def zero : Val := .num (Js.Num.ofNat 0)

/-- The state after one iteration of a record loop: the store it leaves and the
error its `try` block threw, if any. -/
structure Step where
  store : Store
  error : Option Js.Error := none
  deriving Repr

/-- The mapped customer fields, as written in both the `update` and the
`create` object of `syncCustomers`. -/
def customerFields (shopifyCustomer : Val) : Except Js.Error CustomerData := do
  let email := Js.or (← Js.getProp shopifyCustomer "email") .null
  let firstName := Js.or (← Js.getProp shopifyCustomer "first_name") .null
  let lastName := Js.or (← Js.getProp shopifyCustomer "last_name") .null
  let phone := Js.or (← Js.getProp shopifyCustomer "phone") .null
  let totalSpent ← Js.parseFloat (Js.or (← Js.getProp shopifyCustomer "total_spent") zero)
  let ordersCount ← Js.parseInt (Js.or (← Js.getProp shopifyCustomer "orders_count") zero)
  pure { email := email, firstName := firstName, lastName := lastName, phone := phone,
         totalSpent := totalSpent, ordersCount := ordersCount }

/-- The body of the `try` block inside the loop of `syncCustomers`. -/
def syncCustomerRecord (schema : Schema) (tenantId : String) (st : Store)
    (shopifyCustomer : Val) : Step :=
  let attempt : Except Js.Error Store := do
    let shopifyId ← Js.callToString (← Js.getProp shopifyCustomer "id")
    let update ← customerFields shopifyCustomer
    let create ← customerFields shopifyCustomer
    let (_, st1) ← st.upsertCustomer schema tenantId shopifyId update create
    pure st1
  match attempt with
  | .ok st1 => { store := st1 }
  | .error e => { store := st, error := some e }

/-- The mapped product fields, as written in both the `update` and the `create`
object of `syncProducts`. -/
def productFields (shopifyProduct : Val) : Except Js.Error ProductData := do
  let title := Js.or (← Js.getProp shopifyProduct "title") (.str "")
  let handle := Js.or (← Js.getProp shopifyProduct "handle") (.str "")
  let description := Js.or (← Js.getProp shopifyProduct "body_html") .null
  let vendor := Js.or (← Js.getProp shopifyProduct "vendor") .null
  let productType := Js.or (← Js.getProp shopifyProduct "product_type") .null
  let status := Js.or (← Js.getProp shopifyProduct "status") (.str "active")
  pure { title := title, handle := handle, description := description, vendor := vendor,
         productType := productType, status := status }

/-- The body of the `try` block inside the loop of `syncProducts`. -/
def syncProductRecord (schema : Schema) (tenantId : String) (st : Store)
    (shopifyProduct : Val) : Step :=
  let attempt : Except Js.Error Store := do
    let shopifyId ← Js.callToString (← Js.getProp shopifyProduct "id")
    let update ← productFields shopifyProduct
    let create ← productFields shopifyProduct
    let (_, st1) ← st.upsertProduct schema tenantId shopifyId update create
    pure st1
  match attempt with
  | .ok st1 => { store := st1 }
  | .error e => { store := st, error := some e }

/-- The expression `new Date(v)` for a truthy `v`, kept as the primitive the
date is built from; converting an object to that primitive can throw. -/
def newDate (v : Val) : Except Js.Error Val :=
  match v with
  | .arr items => (Js.toStr (.arr items)).map Val.str
  | .obj fields => (Js.toStr (.obj fields)).map Val.str
  | w => .ok w

/-- The mapped order fields, as written in both the `update` and the `create`
object of `syncOrders`. -/
def orderFields (shopifyOrder : Val) (customerId : CustomerRef) :
    Except Js.Error OrderData := do
  let orderNumber ← Js.getProp shopifyOrder "name"
  let totalPrice ← Js.parseFloat (Js.or (← Js.getProp shopifyOrder "total_price") zero)
  let subtotalPrice ← Js.parseFloat (Js.or (← Js.getProp shopifyOrder "subtotal_price") zero)
  let totalTax ← Js.parseFloat (Js.or (← Js.getProp shopifyOrder "total_tax") zero)
  let currency := Js.or (← Js.getProp shopifyOrder "currency") (.str "USD")
  let financialStatus := Js.or (← Js.getProp shopifyOrder "financial_status") .null
  let fulfillmentStatus := Js.or (← Js.getProp shopifyOrder "fulfillment_status") .null
  let processedRaw ← Js.getProp shopifyOrder "processed_at"
  let processedAt ← if Js.truthy processedRaw then (newDate processedRaw).map some
                    else pure none
  pure { orderNumber := orderNumber, totalPrice := totalPrice, subtotalPrice := subtotalPrice,
         totalTax := totalTax, currency := currency, financialStatus := financialStatus,
         fulfillmentStatus := fulfillmentStatus, processedAt := processedAt,
         customerId := customerId }

/-- The customer lookup at the head of the order loop body: `null` when the
order names no customer, otherwise `customer?.id` for the row found. -/
def resolveCustomer (tenantId : String) (st : Store) (shopifyOrder : Val) :
    Except Js.Error CustomerRef := do
  let named ← Js.getProp shopifyOrder "customer"
  if Js.truthy named then
    let externalId ← Js.callToString (← Js.getProp named "id")
    match st.findCustomer tenantId externalId with
    | some customer => pure (.id customer.id)
    | none => pure .undefined
  else pure .null

/-- The `data` object of one line item. -/
def lineItemFields (orderId : Nat) (lineItem : Val) : Except Js.Error LineItemData := do
  let quantity ← Js.parseInt (Js.or (← Js.getProp lineItem "quantity") zero)
  let price ← Js.parseFloat (Js.or (← Js.getProp lineItem "price") zero)
  let title := Js.or (← Js.getProp lineItem "title") (.str "")
  let variantRaw ← Js.getProp lineItem "variant_id"
  let variantId ← if Js.truthy variantRaw then (Js.callToString variantRaw).map some
                  else pure none
  pure { orderId := orderId, quantity := quantity, price := price, title := title,
         variantId := variantId }

/-- The inner loop `for (const lineItem of shopifyOrder.line_items)`: it stops
at the first line item that throws, keeping the rows created before it. -/
def createLineItems (schema : Schema) (orderId : Nat) : List Val → Store → Step
  | [], st => { store := st }
  | lineItem :: rest, st =>
    match lineItemFields orderId lineItem with
    | .error e => { store := st, error := some e }
    | .ok data =>
      match st.createLineItem schema data with
      | .error e => { store := st, error := some e }
      | .ok st1 => createLineItems schema orderId rest st1

/-- The condition `shopifyOrder.line_items && shopifyOrder.line_items.length > 0`;
the line items are returned when it holds. -/
def lineItemsToSync (shopifyOrder : Val) : Except Js.Error (Option Val) := do
  let lineItems ← Js.getProp shopifyOrder "line_items"
  if Js.truthy lineItems then
    let nonEmpty ← Js.gtZero (← Js.getProp lineItems "length")
    if nonEmpty then pure (some lineItems) else pure none
  else pure none

/-- The block under `// Sync line items`: when the order carries line items,
the stored ones of the order are deleted and the current ones created. -/
def syncLineItems (schema : Schema) (shopifyOrder : Val) (orderId : Nat) (st : Store) : Step :=
  match lineItemsToSync shopifyOrder with
  | .error e => { store := st, error := some e }
  | .ok none => { store := st }
  | .ok (some lineItems) =>
    let st1 := st.deleteLineItems orderId
    match Js.iterate lineItems with
    | .error e => { store := st1, error := some e }
    | .ok items => createLineItems schema orderId items st1

/-- The body of the `try` block inside the loop of `syncOrders`. Writes made
before a throw stay in the store. -/
def syncOrderRecord (schema : Schema) (tenantId : String) (st : Store)
    (shopifyOrder : Val) : Step :=
  let prepared : Except Js.Error (String × OrderData × OrderData) := do
    let customerId ← resolveCustomer tenantId st shopifyOrder
    let shopifyId ← Js.callToString (← Js.getProp shopifyOrder "id")
    let update ← orderFields shopifyOrder customerId
    let create ← orderFields shopifyOrder customerId
    pure (shopifyId, update, create)
  match prepared with
  | .error e => { store := st, error := some e }
  | .ok (shopifyId, update, create) =>
    match st.upsertOrder schema tenantId shopifyId update create with
    | .error e => { store := st, error := some e }
    | .ok (order, st1) => syncLineItems schema shopifyOrder order.id st1

/-- The value returned by a synchroniser. -/
structure SyncCounts where
  recordsProcessed : Nat
  recordsFailed : Nat
  deriving DecidableEq, Repr

/-- The record loop shared by the three synchronisers:
`for (const r of records) { try { body; recordsProcessed++ } catch { recordsFailed++ } }`. -/
def forEachRecord (step : Store → Val → Step) :
    List Val → Store → SyncCounts → Store × SyncCounts
  | [], st, counts => (st, counts)
  | record :: rest, st, counts =>
    match (step st record).error with
    | none =>
      forEachRecord step rest (step st record).store
        { counts with recordsProcessed := counts.recordsProcessed + 1 }
    | some _ =>
      forEachRecord step rest (step st record).store
        { counts with recordsFailed := counts.recordsFailed + 1 }

/-- One run of a synchroniser: the store it leaves, the requests it issued and
the outcome (the returned counts or the rethrown error). -/
structure SyncRun where
  store : Store
  requests : List Request
  result : Except Js.Error SyncCounts
  deriving Repr

/-- The text shared by `syncCustomers`, `syncOrders` and `syncProducts`, which
differ in the fetch, the loop body, the entity type and the message of a
partial run. `clock k` is the value of the `k`-th `new Date()` of the call;
`none` is returned only if the fetch ran out of fuel. -/
def syncEntity (entityType failureMessage : String) (tenantId : String)
    (fetch : Option FetchRun) (step : Store → Val → Step) (clock : Nat → Nat)
    (st : Store) : Option SyncRun :=
  let _startTime := clock 0
  let recordsProcessed := 0
  match fetch with
  | none => none
  | some fetched =>
    match fetched.result with
    | .ok records =>
      match forEachRecord step records st { recordsProcessed := 0, recordsFailed := 0 } with
      | (st1, counts) =>
        let st2 := st1.createSyncLog
          { tenantId := tenantId
            entityType := entityType
            status := if counts.recordsFailed = 0 then "success" else "partial"
            recordsProcessed := counts.recordsProcessed
            recordsFailed := counts.recordsFailed
            errorMessage := if counts.recordsFailed > 0 then some failureMessage else none
            completedAt := clock 1 }
        some { store := st2, requests := fetched.requests, result := .ok counts }
    | .error error =>
      let errorMessage := error.message
      let recordsFailed := 1
      let st1 := st.createSyncLog
        { tenantId := tenantId
          entityType := entityType
          status := "error"
          recordsProcessed := recordsProcessed
          recordsFailed := recordsFailed
          errorMessage := some errorMessage
          completedAt := clock 1 }
      some { store := st1, requests := fetched.requests, result := .error error }

/-- The method `syncCustomers`. -/
def syncCustomers (svc : ShopifyService) (api : Api) (schema : Schema) (clock : Nat → Nat)
    (st : Store) : Option SyncRun :=
  syncEntity "customers" "Some customers failed to sync" svc.tenant.id
    (svc.fetchCustomers api) (syncCustomerRecord schema svc.tenant.id) clock st

/-- The method `syncOrders`. -/
def syncOrders (svc : ShopifyService) (api : Api) (schema : Schema) (clock : Nat → Nat)
    (st : Store) : Option SyncRun :=
  syncEntity "orders" "Some orders failed to sync" svc.tenant.id
    (svc.fetchOrders api) (syncOrderRecord schema svc.tenant.id) clock st

/-- The method `syncProducts`. -/
def syncProducts (svc : ShopifyService) (api : Api) (schema : Schema) (clock : Nat → Nat)
    (st : Store) : Option SyncRun :=
  syncEntity "products" "Some products failed to sync" svc.tenant.id
    (svc.fetchProducts api) (syncProductRecord schema svc.tenant.id) clock st

/-! ## Vocabulary of the statements -/

/-- The cursor with which the `i`-th request of a fetch is issued when the
earlier requests were answered by `resp 0`, `resp 1`, ...: none for the first
request, afterwards whatever the fetcher extracts from the previous response. -/
def cursorInto (resp : Nat → Response) : Nat → Option String
  | 0 => none
  | i + 1 => nextCursor (resp i).link

/-- The items of pages `j`, `j + 1`, ..., `j + k - 1`, concatenated in that order. -/
def concatPages (pages : Nat → List Val) (j k : Nat) : List Val :=
  ((List.range' j k).map pages).flatten

/-- Applies `f` to the first element satisfying `p`. -/
def mapFirst {α : Type} (p : α → Bool) (f : α → α) : List α → List α
  | [] => []
  | x :: xs => if p x then f x :: xs else x :: mapFirst p f xs

/-! ### Keyed tables

The three entity tables are written through `upsertRows` under the key
`(tenantId, shopifyId)`. The definitions below describe a run of upserts on one
table, for any row type with a key, an update and a row constructor. -/

/-- One upsert of the pair `op = (key, data)` on a table and its id counter. -/
def tableUpsert {ρ κ δ : Type} [DecidableEq κ] (key : ρ → κ) (upd : ρ → δ → ρ)
    (mk : Nat → κ → δ → ρ) (op : κ × δ) (t : List ρ × Nat) : List ρ × Nat :=
  match upsertRows (fun r => decide (key r = op.1)) (fun r => upd r op.2)
      (mk t.2 op.1 op.2) t.1 with
  | (_, rows, created) => (rows, t.2 + created.toNat)

/-- A run of upserts, in order. -/
def tableRun {ρ κ δ : Type} [DecidableEq κ] (key : ρ → κ) (upd : ρ → δ → ρ)
    (mk : Nat → κ → δ → ρ) (ops : List (κ × δ)) (t : List ρ × Nat) : List ρ × Nat :=
  ops.foldl (fun acc op => tableUpsert key upd mk op acc) t

/-- A run of updates of the rows already present, in order. -/
def tableModify {ρ κ δ : Type} [DecidableEq κ] (key : ρ → κ) (upd : ρ → δ → ρ)
    (ops : List (κ × δ)) (rows : List ρ) : List ρ :=
  ops.foldl (fun acc op => mapFirst (fun r => decide (key r = op.1)) (fun r => upd r op.2) acc)
    rows

/-- The data a run writes under key `k`, in order. -/
def dataFor {κ δ : Type} [DecidableEq κ] (k : κ) (ops : List (κ × δ)) : List δ :=
  (ops.filter (fun op => decide (op.1 = k))).map (fun op => op.2)

/-- What the development needs of a table: updates keep the key, a new row
carries its key, two updates in a row amount to one, an update is idempotent,
and updating a new row with the data it was created from changes nothing. -/
structure TableLaws {ρ κ δ : Type} (key : ρ → κ) (upd : ρ → δ → ρ)
    (mk : Nat → κ → δ → ρ) : Prop where
  key_upd : ∀ r d, key (upd r d) = key r
  key_mk : ∀ i k d, key (mk i k d) = k
  upd_upd : ∀ a b, ∃ c, ∀ r, upd (upd r a) b = upd r c
  upd_idem : ∀ r a, upd (upd r a) a = upd r a
  upd_mk : ∀ i k d, upd (mk i k d) d = mk i k d

/-- The outcome of each record of a record loop, in order: the error the
record's `try` block threw, or none. -/
def outcomes (step : Store → Val → Step) : List Val → Store → List (Option Js.Error)
  | [], _ => []
  | record :: rest, st => (step st record).error :: outcomes step rest (step st record).store

/-- The number of records of a loop whose `try` block threw. -/
def failures (step : Store → Val → Step) (records : List Val) (st : Store) : Nat :=
  ((outcomes step records st).filter Option.isSome).length

/-- The number of records of a loop whose `try` block completed. -/
def successes (step : Store → Val → Step) (records : List Val) (st : Store) : Nat :=
  ((outcomes step records st).filter Option.isNone).length

/-- The store a record loop leaves. -/
def loopStore (step : Store → Val → Step) : List Val → Store → Store
  | [], st => st
  | record :: rest, st => loopStore step rest (step st record).store

/-- The external id of a fetched record, `record.id.toString()`, when that
expression evaluates. -/
def externalId (record : Val) : Option String :=
  match Js.getProp record "id" with
  | .ok v =>
    match Js.callToString v with
    | .ok s => some s
    | .error _ => none
  | .error _ => none

/-! ### The writes of a run -/

/-- The key of a Customer row. -/
def customerKey (r : CustomerRow) : String × String := (r.tenantId, r.shopifyId)

/-- The update of a Customer row. -/
def customerUpd (r : CustomerRow) (d : CustomerData) : CustomerRow := { r with data := d }

/-- The Customer row created under a key with id `i`. -/
def customerMk (i : Nat) (k : String × String) (d : CustomerData) : CustomerRow :=
  { id := i, tenantId := k.1, shopifyId := k.2, data := d }

/-- The write a customer record amounts to: its key and mapped fields, when the
record maps and the schema accepts the fields; `none` when its `try` block
throws. -/
def customerWrite (schema : Schema) (tenantId : String) (record : Val) :
    Option ((String × String) × CustomerData) :=
  match externalId record, customerFields record with
  | some sid, .ok fields =>
    if schema.acceptsCustomer tenantId sid fields then some ((tenantId, sid), fields) else none
  | _, _ => none

/-- The key of a Product row. -/
def productKey (r : ProductRow) : String × String := (r.tenantId, r.shopifyId)

/-- The update of a Product row. -/
def productUpd (r : ProductRow) (d : ProductData) : ProductRow := { r with data := d }

/-- The Product row created under a key with id `i`. -/
def productMk (i : Nat) (k : String × String) (d : ProductData) : ProductRow :=
  { id := i, tenantId := k.1, shopifyId := k.2, data := d }

/-- The write a product record amounts to. -/
def productWrite (schema : Schema) (tenantId : String) (record : Val) :
    Option ((String × String) × ProductData) :=
  match externalId record, productFields record with
  | some sid, .ok fields =>
    if schema.acceptsProduct tenantId sid fields then some ((tenantId, sid), fields) else none
  | _, _ => none

/-- The key of an Order row. -/
def orderKey (r : OrderRow) : String × String := (r.tenantId, r.shopifyId)

/-- The update of an Order row by a write, which carries the mapped fields and
the id a created row would take. -/
def orderUpd (r : OrderRow) (d : OrderData × Nat) : OrderRow := Store.applyOrderUpdate r d.1

/-- The Order row created under a key by a write. -/
def orderMk (_ : Nat) (k : String × String) (d : OrderData × Nat) : OrderRow :=
  Store.newOrderRow d.2 k.1 k.2 d.1

/-- The write an order record amounts to at a store: its key and mapped fields
(the customer reference is resolved in the store), when the record maps and
the schema accepts the fields. -/
def orderWrite (schema : Schema) (tenantId : String) (st : Store) (record : Val) :
    Option ((String × String) × OrderData) :=
  match externalId record, resolveCustomer tenantId st record with
  | some sid, .ok cref =>
    match orderFields record cref with
    | .ok fields =>
      if schema.acceptsOrder tenantId sid fields then some ((tenantId, sid), fields) else none
    | .error _ => none
  | _, _ => none

/-- The id of the Order row under key `k` once a write under `k` went through:
the id of the row found, or the fresh id of the row created. -/
def orderIdFor (k : String × String) (fresh : Nat) (orders : List OrderRow) : Nat :=
  match orders.find? (fun r => decide (orderKey r = k)) with
  | some row => row.id
  | none => fresh

/-- The id of the Order row stored under key `k`, if any. -/
def orderIdOf (orders : List OrderRow) (k : String × String) : Option Nat :=
  (orders.find? (fun r => decide (orderKey r = k))).map (fun r => r.id)

/-- The data of the line items the inner loop creates for an order, when every
one of them maps and is accepted. -/
def lineData (schema : Schema) (orderId : Nat) : List Val → Option (List LineItemData)
  | [] => some []
  | item :: rest =>
    match lineItemFields orderId item with
    | .ok data =>
      if schema.acceptsLineItem data then (lineData schema orderId rest).map (fun ds => data :: ds)
      else none
    | .error _ => none

/-- What the line-item block does for an order record: `none` when it throws,
`some none` when the record carries no line items to sync, `some (some ds)`
when the stored line items of the order are replaced by `ds`. -/
def linePlan (schema : Schema) (record : Val) (orderId : Nat) :
    Option (Option (List LineItemData)) :=
  match lineItemsToSync record with
  | .error _ => none
  | .ok none => some none
  | .ok (some lineItems) =>
    match Js.iterate lineItems with
    | .error _ => none
    | .ok items => (lineData schema orderId items).map some

/-- The line items per order after the records of a run replaced them, given
the write of each record (`write`) and the id of the order under each key
(`idOf`). -/
def applyPlans (schema : Schema) (write : Val → Option ((String × String) × OrderData))
    (idOf : String × String → Option Nat) :
    List Val → (Nat → List LineItemData) → Nat → List LineItemData
  | [], items => items
  | record :: rest, items =>
    applyPlans schema write idOf rest
      (match write record with
        | some (k, _) =>
          match idOf k with
          | some orderId =>
            match linePlan schema record orderId with
            | some (some ds) => fun o => if o = orderId then ds else items o
            | _ => items
          | none => items
        | none => items)

/-- The stored line items of an order, without their ids, in table order. -/
def lineItemsOf (st : Store) (orderId : Nat) : List LineItemData :=
  (st.lineItems.filter (fun r => decide (r.data.orderId = orderId))).map (fun r => r.data)

/-- The three entity synchronisers. -/
inductive Entity where
  | customers
  | orders
  | products
  deriving DecidableEq, Repr

namespace Entity

/-- The entity type a synchroniser writes into its SyncLog rows. -/
def name : Entity → String
  | .customers => "customers"
  | .orders => "orders"
  | .products => "products"

/-- The fetch a synchroniser starts with. -/
def fetch (e : Entity) (svc : ShopifyService) (api : Api) : Option FetchRun :=
  match e with
  | .customers => svc.fetchCustomers api
  | .orders => svc.fetchOrders api
  | .products => svc.fetchProducts api

/-- The body of a synchroniser's record loop. -/
def step (e : Entity) (schema : Schema) (tenantId : String) : Store → Val → Step :=
  match e with
  | .customers => syncCustomerRecord schema tenantId
  | .orders => syncOrderRecord schema tenantId
  | .products => syncProductRecord schema tenantId

/-- The synchroniser itself: `syncCustomers`, `syncOrders` or `syncProducts`. -/
def sync (e : Entity) (svc : ShopifyService) (api : Api) (schema : Schema)
    (clock : Nat → Nat) (st : Store) : Option SyncRun :=
  match e with
  | .customers => svc.syncCustomers api schema clock st
  | .orders => svc.syncOrders api schema clock st
  | .products => svc.syncProducts api schema clock st

/-- The store holds a row of the entity under the key `(tenantId, shopifyId)`. -/
def hasRow (e : Entity) (st : Store) (tenantId shopifyId : String) : Prop :=
  match e with
  | .customers => ∃ x ∈ st.customers, x.tenantId = tenantId ∧ x.shopifyId = shopifyId
  | .orders => ∃ x ∈ st.orders, x.tenantId = tenantId ∧ x.shopifyId = shopifyId
  | .products => ∃ x ∈ st.products, x.tenantId = tenantId ∧ x.shopifyId = shopifyId

end Entity

end ShopifyService

/-! # Sample data

Concrete tenants, APIs and records on which the statements are evaluated. -/

namespace Sample

/-- A tenant whose stored URL has a scheme, capitals and a trailing slash. -/
def tenant : Tenant :=
  { id := "tenant-1", shopifyUrl := some "https://Demo-Store.myshopify.com/",
    accessToken := "shpat_1" }

/-- The method `toLowerCase` on texts of ASCII characters, where every runtime
agrees: the capitals `A` to `Z` become small letters. The texts of the samples
hold ASCII characters only; other characters are left as they are here. -/
def toLowerCase (s : String) : String := String.mk (s.toList.map Char.toLower)

/-- The service constructed for `tenant`. -/
def service : ShopifyService := ShopifyService.new toLowerCase tenant

/-- A `link` header announcing a next page reached with `cursor`. -/
def nextLink (cursor : String) : String :=
  "<https://demo-store.myshopify.com/admin/api/2023-10/items.json?limit=250&page_info="
    ++ cursor ++ ">; rel=\"next\""

/-- The page an API request asks for: page 0 without a cursor, otherwise the
page whose number (below 16) the cursor spells. -/
def requestedPage (request : Request) : Nat :=
  match Js.lookup "page_info" request.params with
  | some (.str c) => ((List.range 16).find? (fun i => toString i = c)).getD 0
  | _ => 0

/-- Page `i` of an API with `total` pages of `size` items each, nested under
`key`: the items are the numbers `i * size`, ..., `i * size + size - 1`, and
every page but the last announces the next one. -/
def page (key : String) (total size i : Nat) : Response :=
  { data := .obj [(key, .arr ((List.range' (i * size) size).map
      (fun n => Val.num (Js.Num.ofNat n))))]
    link := if i + 1 < total then some (nextLink (toString (i + 1))) else none }

/-- An API with `total` pages that answers each request with the page its
cursor asks for. -/
def pagedApi (key : String) (total size : Nat) : Api :=
  fun _ request => .ok (page key total size (requestedPage request))

/-- An API like `pagedApi` whose request number `failAt` is rejected with
status 401 and an `errors` body. -/
def failingApi (key : String) (total size failAt : Nat) : Api :=
  fun i request =>
    if i = failAt then
      .error { message := "Request failed with status code 401"
               response := some (.obj [("errors", .arr [.str "Invalid API key"])]) }
    else .ok (page key total size (requestedPage request))

/-- An API with a single page holding `items` under `key`. -/
def onePage (key : String) (items : List Val) : Api :=
  fun _ _ => .ok { data := .obj [(key, .arr items)] }

/-- An API whose every request is rejected with status 401. -/
def downApi : Api :=
  fun _ _ => .error { message := "Request failed with status code 401"
                      response := some (.obj [("errors", .arr [.str "Invalid API key"])]) }

/-- Whether a value fits a nullable text column. -/
def textOrNull : Val → Bool
  | .null => true
  | .str _ => true
  | _ => false

/-- A schema that wants text (or `null`) in the text columns it checks and a
number other than `NaN` in the numeric ones. -/
def schema : Schema :=
  { acceptsCustomer := fun _ _ d => textOrNull d.email && decide (d.totalSpent ≠ .nan)
                                      && decide (d.ordersCount ≠ .nan)
    acceptsOrder := fun _ _ d => textOrNull d.orderNumber && decide (d.totalPrice ≠ .nan)
    acceptsLineItem := fun d => decide (d.quantity ≠ .nan) && decide (d.price ≠ .nan)
    acceptsProduct := fun _ _ d => textOrNull d.title }

/-- The clock of the samples: the `k`-th reading is `1000 + k`. -/
def clock (k : Nat) : Nat := 1000 + k

/-- A well-formed customer record. -/
def customerA : Val :=
  .obj [("id", .num (Js.Num.ofNat 1)), ("email", .str "a@x.com"),
        ("total_spent", .str "10.00")]

/-- A second well-formed customer record. -/
def customerB : Val :=
  .obj [("id", .num (Js.Num.ofNat 2)), ("email", .str "b@x.com"), ("first_name", .str "Bo"),
        ("orders_count", .num (Js.Num.ofNat 3))]

/-- A customer record without an id. -/
def customerNoId : Val := .obj [("email", .str "c@x.com")]

/-- A well-formed order record with two line items, naming customer 1. -/
def orderA : Val :=
  .obj [("id", .num (Js.Num.ofNat 7)), ("name", .str "#1001"), ("total_price", .str "25.00"),
        ("customer", .obj [("id", .num (Js.Num.ofNat 1))]),
        ("line_items", .arr [
          .obj [("quantity", .num (Js.Num.ofNat 2)), ("price", .str "3.50"),
                ("title", .str "A"), ("variant_id", .num (Js.Num.ofNat 11))],
          .obj [("quantity", .num (Js.Num.ofNat 1)), ("price", .str "18.00"),
                ("title", .str "B")]])]

/-- A well-formed order record without customer and without line items. -/
def orderB : Val :=
  .obj [("id", .num (Js.Num.ofNat 8)), ("name", .str "#1002"), ("total_price", .str "5.00")]

/-- A well-formed product record. -/
def productA : Val :=
  .obj [("id", .num (Js.Num.ofNat 5)), ("title", .str "Mug"), ("handle", .str "mug")]

end Sample

/-! # The orchestrator -/

namespace ShopifyService

/-- The object `fullSync` returns: the result of each stage. -/
structure FullSyncResults where
  customers : SyncCounts
  orders : SyncCounts
  products : SyncCounts
  deriving DecidableEq, Repr

/-- One run of `fullSync`: the store it leaves, the requests it issued, the
synchronisers it invoked, in order, and the outcome (the returned object or the
rethrown error). -/
structure FullSyncRun where
  store : Store
  requests : List Request
  invoked : List Entity
  result : Except Js.Error FullSyncResults
  deriving Repr

/-- The API as a later stage of one call sees it: the stage's `i`-th request is
request number `sent + i` of the call. -/
def laterApi (api : Api) (sent : Nat) : Api := fun i request => api (sent + i) request

/-- The clock as a later stage of one call sees it, `read` readings into the
call. -/
def laterClock (clock : Nat → Nat) (read : Nat) : Nat → Nat := fun k => clock (read + k)

/-- The method `fullSync`: the three synchronisers are awaited one after the
other; the first error thrown by one of them leaves the `try` block, and the
`catch` block rethrows it. Each synchroniser reads the clock twice. `none` is
returned only if a fetch ran out of fuel. -/
def fullSync (svc : ShopifyService) (api : Api) (schema : Schema) (clock : Nat → Nat)
    (st : Store) : Option FullSyncRun :=
  let results : FullSyncResults :=
    { customers := { recordsProcessed := 0, recordsFailed := 0 }
      orders := { recordsProcessed := 0, recordsFailed := 0 }
      products := { recordsProcessed := 0, recordsFailed := 0 } }
  match svc.syncCustomers api schema clock st with
  | none => none
  | some c =>
    match c.result with
    | .error error =>
      some { store := c.store, requests := c.requests, invoked := [.customers],
             result := .error error }
    | .ok counts =>
      let results := { results with customers := counts }
      match svc.syncOrders (laterApi api c.requests.length) schema (laterClock clock 2)
          c.store with
      | none => none
      | some o =>
        match o.result with
        | .error error =>
          some { store := o.store, requests := c.requests ++ o.requests,
                 invoked := [.customers, .orders], result := .error error }
        | .ok counts =>
          let results := { results with orders := counts }
          match svc.syncProducts (laterApi api (c.requests.length + o.requests.length))
              schema (laterClock clock 4) o.store with
          | none => none
          | some p =>
            match p.result with
            | .error error =>
              some { store := p.store, requests := c.requests ++ o.requests ++ p.requests,
                     invoked := [.customers, .orders, .products], result := .error error }
            | .ok counts =>
              let results := { results with products := counts }
              some { store := p.store, requests := c.requests ++ o.requests ++ p.requests,
                     invoked := [.customers, .orders, .products], result := .ok results }

end ShopifyService

/-! # SchedulerService

The scheduler starts several asynchronous calls that are in flight at the same
time: the two synchronisers of a quick sync, and the runs of the different
tenants of a tick. How the store operations of such calls interleave is outside
the model. The scheduler depends on a call only through how, and when, it
settles; that is what an `Execution` supplies. -/

/-- How and when a promise settles: the instant, and the value it is fulfilled
with or the reason it is rejected with. -/
structure Settlement (α : Type) where
  time : Nat
  outcome : Except Js.Error α
  deriving Repr

namespace Async

/-- The first rejection among promises: the earliest in time, and among
promises rejected at one instant the first in the list. -/
def firstRejection {α : Type} : List (Settlement α) → Option (Nat × Js.Error)
  | [] => none
  | p :: ps =>
    match p.outcome, firstRejection ps with
    | .ok _, later => later
    | .error e, none => some (p.time, e)
    | .error e, some (t, e1) => if p.time ≤ t then some (p.time, e) else some (t, e1)

/-- The awaited `Promise.all(ps)`: the values when every promise is fulfilled,
otherwise the reason of the first rejection, thrown. -/
def all {α : Type} (ps : List (Settlement α)) : Except Js.Error (List α) :=
  match firstRejection ps with
  | some (_, e) => .error e
  | none => .ok (ps.filterMap (fun p => p.outcome.toOption))

/-- An element of the array `Promise.allSettled` is fulfilled with. -/
structure SettledResult (α : Type) where
  status : String
  value : Option α := none
  reason : Option Js.Error := none
  deriving Repr

/-- The awaited `Promise.allSettled(ps)`, which is never rejected. -/
def allSettled {α : Type} (ps : List (Except Js.Error α)) : List (SettledResult α) :=
  ps.map (fun p =>
    match p with
    | .ok v => { status := "fulfilled", value := some v }
    | .error e => { status := "rejected", reason := some e })

end Async

/-- What a query on the Tenant table meets: the rows of the table, or the error
the query is rejected with. -/
abbrev TenantTable := Except Js.Error (List Tenant)

/-- How the calls started by the scheduler settle in the execution at hand,
and the method `toLowerCase` of the runtime it runs on. -/
structure Execution where
  toLowerCase : String → String
  syncCustomers : Tenant → Settlement ShopifyService.SyncCounts
  syncOrders : Tenant → Settlement ShopifyService.SyncCounts
  fullSync : Tenant → Except Js.Error ShopifyService.FullSyncResults

namespace SchedulerService

/-- A method of `ShopifyService` invoked for a tenant. -/
inductive Call where
  | syncCustomers (tenantId : String)
  | syncOrders (tenantId : String)
  | fullSync (tenantId : String)
  deriving DecidableEq, Repr

/-- The call `prisma.tenant.findMany({ where: { isActive: true } })`. -/
def findManyActive (table : TenantTable) : Except Js.Error (List Tenant) :=
  table.map (fun rows => rows.filter (fun t => t.isActive))

/-- The call `prisma.tenant.findUnique({ where: { id } })`. -/
def findUnique (table : TenantTable) (id : String) : Except Js.Error (Option Tenant) :=
  table.map (fun rows => rows.find? (fun t => decide (t.id = id)))

/-- One run of `syncTenant` or `fullSyncTenant`: the service methods it
invoked and how the promise it returns settles. -/
structure TenantRun where
  started : List Call
  outcome : Except Js.Error Unit
  deriving Repr

/-- The method `syncTenant`: the service is constructed, `syncCustomers` and
`syncOrders` are both invoked and awaited together; an error is logged and
rethrown. -/
def syncTenant (exec : Execution) (tenant : Tenant) : TenantRun :=
  let _shopifyService := ShopifyService.new exec.toLowerCase tenant
  let started := [Call.syncCustomers tenant.id, Call.syncOrders tenant.id]
  match Async.all [exec.syncCustomers tenant, exec.syncOrders tenant] with
  | .ok _ => { started := started, outcome := .ok () }
  | .error error => { started := started, outcome := .error error }

/-- The method `fullSyncTenant`: the service is constructed and `fullSync`
awaited; an error is logged and rethrown. -/
def fullSyncTenant (exec : Execution) (tenant : Tenant) : TenantRun :=
  let _shopifyService := ShopifyService.new exec.toLowerCase tenant
  let started := [Call.fullSync tenant.id]
  match exec.fullSync tenant with
  | .ok _ => { started := started, outcome := .ok () }
  | .error error => { started := started, outcome := .error error }

/-- The object `syncTenantById` returns. -/
structure ManualResult where
  success : Bool
  message : String
  deriving DecidableEq, Repr

/-- One run of `syncTenantById`: the service methods invoked and the outcome of
the call (what it returns, or what it throws). -/
structure ManualRun where
  started : List Call
  outcome : Except Js.Error ManualResult
  deriving Repr

/-- The method `syncTenantById`. The `try` block yields the calls started and
its result or the error thrown in it; the `catch` block turns the error into
the returned object. -/
def syncTenantById (table : TenantTable) (exec : Execution) (tenantId : String) : ManualRun :=
  let attempt : List Call × Except Js.Error ManualResult :=
    match findUnique table tenantId with
    | .error error => ([], .error error)
    | .ok none => ([], .error (Js.newError "Tenant not found"))
    | .ok (some tenant) =>
      if !tenant.isActive then ([], .error (Js.newError "Tenant is not active"))
      else
        let run := syncTenant exec tenant
        match run.outcome with
        | .error error => (run.started, .error error)
        | .ok _ =>
          (run.started, .ok { success := true, message := "Sync completed successfully" })
  match attempt.2 with
  | .ok result => { started := attempt.1, outcome := .ok result }
  | .error error =>
    { started := attempt.1, outcome := .ok { success := false, message := error.message } }

/-- One tick of the scheduler: the tenants a run was dispatched for, the service
methods invoked, the settled results of the runs, and the two counts with the
line that reports them (absent when the `catch` block ran). -/
structure Tick where
  dispatched : List Tenant := []
  started : List Call := []
  results : List (Async.SettledResult Unit) := []
  counts : Option (Nat × Nat) := none
  console : List String := []
  deriving Repr

/-- The text shared by `syncAllTenants` and `fullSyncAllTenants`, which differ
in the run dispatched per tenant and in the wording of the console lines
(`found`: the end of the first line, `label`: the start of the last). The
`catch` block only writes the error to the error console, which is not
recorded, and returns. -/
def tick (found label : String) (run : Tenant → TenantRun) (table : TenantTable) :
    Except Js.Error Tick :=
  let attempt : Except Js.Error Tick := do
    let tenants ← findManyActive table
    let line1 := "Found " ++ toString tenants.length ++ found
    let runs := tenants.map run
    let results := Async.allSettled (runs.map (fun r => r.outcome))
    let successful := (results.filter (fun r => r.status = "fulfilled")).length
    let failed := (results.filter (fun r => r.status = "rejected")).length
    let line2 := label ++ toString successful ++ " successful, " ++ toString failed ++ " failed"
    pure { dispatched := tenants
           started := (runs.map (fun r => r.started)).flatten
           results := results
           counts := some (successful, failed)
           console := [line1, line2] }
  match attempt with
  | .ok done => .ok done
  | .error _ => .ok {}

/-- The tick dispatched exactly one run, `run t`, for each active tenant `t` of
the table and none for the others, recorded how each settled, and counted the
fulfilled and the rejected ones; when the table could not be listed it
dispatched nothing. -/
def Tick.accountsFor (report : Tick) (run : Tenant → TenantRun) (table : TenantTable) : Prop :=
  match table with
  | .ok rows =>
    report.dispatched = rows.filter (fun t => t.isActive)
    ∧ report.started
        = ((rows.filter (fun t => t.isActive)).map (fun t => (run t).started)).flatten
    ∧ report.results.map (fun r => r.status)
        = (rows.filter (fun t => t.isActive)).map
            (fun t => if (run t).outcome.isOk then "fulfilled" else "rejected")
    ∧ ∃ successful failed, report.counts = some (successful, failed)
        ∧ successful + failed = (rows.filter (fun t => t.isActive)).length
        ∧ successful
            = (rows.filter (fun t => t.isActive)).countP (fun t => (run t).outcome.isOk)
        ∧ failed
            = (rows.filter (fun t => t.isActive)).countP (fun t => !(run t).outcome.isOk)
  | .error _ => report.dispatched = [] ∧ report.started = [] ∧ report.counts = none

/-- The method `syncAllTenants`. -/
def syncAllTenants (table : TenantTable) (exec : Execution) : Except Js.Error Tick :=
  tick " active tenants to sync" "Sync completed: " (syncTenant exec) table

/-- The method `fullSyncAllTenants`. -/
def fullSyncAllTenants (table : TenantTable) (exec : Execution) : Except Js.Error Tick :=
  tick " active tenants for full sync" "Full sync completed: " (fullSyncTenant exec) table

end SchedulerService

/-! # Further vocabulary -/

namespace ShopifyService

/-- The external id of the customer an order payload names,
`shopifyOrder.customer.id.toString()`, when the payload carries a (truthy)
`customer` and that expression evaluates. -/
def namedCustomer (shopifyOrder : Val) : Option String :=
  match Js.getProp shopifyOrder "customer" with
  | .ok named => if Js.truthy named then externalId named else none
  | .error _ => none

/-- The line item belongs to an order of a tenant other than `tenantId`, among
the given Order rows. -/
def foreignItem (tenantId : String) (orders : List OrderRow) (item : LineItemRow) : Bool :=
  (orders.filter (fun o => decide (o.tenantId ≠ tenantId))).any
    (fun o => decide (o.id = item.data.orderId))

/-- The stores `st` and `st1` hold the same rows of the tenants other than
`tenantId`: the same Customer, Order, Product and SyncLog rows with another
tenant id, and the same line items of the orders of other tenants. -/
def sameOutside (tenantId : String) (st st1 : Store) : Prop :=
  st1.customers.filter (fun r => decide (r.tenantId ≠ tenantId))
      = st.customers.filter (fun r => decide (r.tenantId ≠ tenantId))
  ∧ st1.orders.filter (fun r => decide (r.tenantId ≠ tenantId))
      = st.orders.filter (fun r => decide (r.tenantId ≠ tenantId))
  ∧ st1.products.filter (fun r => decide (r.tenantId ≠ tenantId))
      = st.products.filter (fun r => decide (r.tenantId ≠ tenantId))
  ∧ st1.syncLogs.filter (fun r => decide (r.data.tenantId ≠ tenantId))
      = st.syncLogs.filter (fun r => decide (r.data.tenantId ≠ tenantId))
  ∧ st1.lineItems.filter (foreignItem tenantId st.orders)
      = st.lineItems.filter (foreignItem tenantId st.orders)

/-- The ids of the Order rows are a primary key drawn from the counter: they
are pairwise distinct and below the next id. -/
def orderIdsFresh (st : Store) : Prop :=
  (st.orders.map (fun o => o.id)).Nodup ∧ ∀ o ∈ st.orders, o.id < st.nextId

/-- Every customer reference of an order of the tenant is the id of a Customer
row of the same tenant. -/
def linksWithin (tenantId : String) (st : Store) : Prop :=
  ∀ o ∈ st.orders, o.tenantId = tenantId → ∀ n, o.customerId = some n →
    ∃ c ∈ st.customers, c.id = n ∧ c.tenantId = tenantId

/-- The entity types of the SyncLog rows of `after` that come after the rows of
`before`. -/
def newLogTypes (before after : Store) : List String :=
  (after.syncLogs.drop before.syncLogs.length).map (fun row => row.data.entityType)

/-- The numeric fields the synchronisers map. -/
inductive NumericField where
  | totalSpent
  | ordersCount
  | totalPrice
  | subtotalPrice
  | totalTax
  | quantity
  | price
  deriving DecidableEq, Repr

namespace NumericField

/-- The key under which the fetched record carries the field. -/
def key : NumericField → String
  | .totalSpent => "total_spent"
  | .ordersCount => "orders_count"
  | .totalPrice => "total_price"
  | .subtotalPrice => "subtotal_price"
  | .totalTax => "total_tax"
  | .quantity => "quantity"
  | .price => "price"

/-- The conversion the source applies to the field: `parseInt` for the two
counts, `parseFloat` for the amounts. -/
def parse : NumericField → Val → Except Js.Error Js.Num
  | .ordersCount => Js.parseInt
  | .quantity => Js.parseInt
  | _ => Js.parseFloat

/-- The mapping of `record` (a customer, an order or a line item, according to
the field) goes through and gives the field the value `n`. -/
def mapsTo (f : NumericField) (record : Val) (n : Js.Num) : Prop :=
  match f with
  | .totalSpent => ∃ d, customerFields record = .ok d ∧ d.totalSpent = n
  | .ordersCount => ∃ d, customerFields record = .ok d ∧ d.ordersCount = n
  | .totalPrice => ∃ cref d, orderFields record cref = .ok d ∧ d.totalPrice = n
  | .subtotalPrice => ∃ cref d, orderFields record cref = .ok d ∧ d.subtotalPrice = n
  | .totalTax => ∃ cref d, orderFields record cref = .ok d ∧ d.totalTax = n
  | .quantity => ∃ oid d, lineItemFields oid record = .ok d ∧ d.quantity = n
  | .price => ∃ oid d, lineItemFields oid record = .ok d ∧ d.price = n

end NumericField

/-- The key `(tenantId, externalId)` is unique in each entity table. -/
def keysUnique (st : Store) : Prop :=
  (st.customers.map customerKey).Nodup ∧ (st.orders.map orderKey).Nodup
    ∧ (st.products.map productKey).Nodup

/-- A loop body that acts on the table `get` as keyed upserts: on the stores
satisfying `inv`, a record with `W record = some (k, x)` is upserted under `k`
with data that projects to `x`, and any other record leaves the table as it
is. -/
structure KeyedStep {ρ κ δ ε : Type} [DecidableEq κ] (key : ρ → κ) (upd : ρ → δ → ρ)
    (mk : Nat → κ → δ → ρ) (step : Store → Val → Step) (get : Store → List ρ)
    (inv : Store → Prop) (W : Val → Option (κ × ε)) (proj : δ → ε) : Prop where
  inv_step : ∀ st r, inv st → inv (step st r).store
  written : ∀ st r k x, inv st → W r = some (k, x) →
    ∃ d n, proj d = x ∧ get (step st r).store = (tableUpsert key upd mk (k, d) (get st, n)).1
  skipped : ∀ st r, inv st → W r = none → get (step st r).store = get st

namespace Entity

/-- The upsert of `record` goes through: the record maps and the schema accepts
the mapped fields. For an order the customer reference is resolved in `st`. -/
def upserts (e : Entity) (schema : Schema) (tenantId : String) (st : Store)
    (record : Val) : Bool :=
  match e with
  | .customers => (customerWrite schema tenantId record).isSome
  | .orders => (orderWrite schema tenantId st record).isSome
  | .products => (productWrite schema tenantId record).isSome

/-- Exactly one row is stored under the key `(tenantId, shopifyId)` and it
carries the mapped fields of `record`. For an order, whose `update` object
leaves a field alone where the mapped value is `undefined`, this reads: applying
the record's update to the row changes nothing. -/
def reflects (e : Entity) (st : Store) (tenantId shopifyId : String) (record : Val) : Prop :=
  match e with
  | .customers =>
    ∃ row, st.customers.filter (fun x => decide (customerKey x = (tenantId, shopifyId))) = [row]
      ∧ customerFields record = .ok row.data
  | .orders =>
    ∃ row cref d,
      st.orders.filter (fun x => decide (orderKey x = (tenantId, shopifyId))) = [row]
      ∧ resolveCustomer tenantId st record = .ok cref ∧ orderFields record cref = .ok d
      ∧ Store.applyOrderUpdate row d = row
  | .products =>
    ∃ row, st.products.filter (fun x => decide (productKey x = (tenantId, shopifyId))) = [row]
      ∧ productFields record = .ok row.data

end Entity

end ShopifyService

namespace Sample

/-- An API that serves the three collections, each on a single page, and
answers by the URL requested. -/
def shop (customers orders products : List Val) : Api :=
  fun _ request =>
    if request.url = service.baseUrl ++ "/customers.json" then
      .ok { data := .obj [("customers", .arr customers)] }
    else if request.url = service.baseUrl ++ "/orders.json" then
      .ok { data := .obj [("orders", .arr orders)] }
    else .ok { data := .obj [("products", .arr products)] }

/-- An API like `shop` whose orders endpoint is rejected with status 500. -/
def shopOrdersDown (customers products : List Val) : Api :=
  fun _ request =>
    if request.url = service.baseUrl ++ "/customers.json" then
      .ok { data := .obj [("customers", .arr customers)] }
    else if request.url = service.baseUrl ++ "/orders.json" then
      .error { message := "Request failed with status code 500" }
    else .ok { data := .obj [("products", .arr products)] }

/-- A second, active tenant. -/
def tenantB : Tenant :=
  { id := "tenant-2", shopifyUrl := some "other.myshopify.com", accessToken := "shpat_2",
    name := "Other" }

/-- A tenant that is not active. -/
def tenantOff : Tenant :=
  { id := "tenant-3", shopifyUrl := some "closed.myshopify.com", accessToken := "shpat_3",
    name := "Closed", isActive := false }

/-- An execution in which every call for `tenant-2` is rejected (its shop
refuses the token) and every other call is fulfilled. -/
def oneFails : Execution :=
  let counts : ShopifyService.SyncCounts := { recordsProcessed := 1, recordsFailed := 0 }
  let refused : Js.Error := { message := "Failed to fetch /customers.json: Invalid API key" }
  { toLowerCase := toLowerCase
    syncCustomers := fun t =>
      if t.id = "tenant-2" then { time := 3, outcome := .error refused }
      else { time := 5, outcome := .ok counts }
    syncOrders := fun t =>
      if t.id = "tenant-2" then
        { time := 4, outcome := .error { message := "Failed to fetch /orders.json: Invalid API key" } }
      else { time := 7, outcome := .ok counts }
    fullSync := fun t =>
      if t.id = "tenant-2" then .error refused
      else .ok { customers := counts, orders := counts, products := counts } }

/-- A schema that accepts every payload. -/
def lenient : Schema :=
  { acceptsCustomer := fun _ _ _ => true
    acceptsOrder := fun _ _ _ => true
    acceptsLineItem := fun _ => true
    acceptsProduct := fun _ _ _ => true }

/-- A customer record whose `total_spent` is the text `abc`. -/
def customerAbc : Val :=
  .obj [("id", .num (Js.Num.ofNat 3)), ("email", .str "c@x.com"), ("total_spent", .str "abc")]

/-- Customer 1 of `customerA` as a later record of the same list, with another
address. -/
def customerA2 : Val :=
  .obj [("id", .num (Js.Num.ofNat 1)), ("email", .str "a2@x.com"),
        ("total_spent", .str "12.50")]

/-- The store after customer `customerA` and then order `orderA` were synced
for the sample tenant: one Customer row, one Order row linked to it and the two
line items of the order. -/
def seeded : Store :=
  ShopifyService.loopStore (ShopifyService.syncOrderRecord schema tenant.id) [orderA]
    (ShopifyService.loopStore (ShopifyService.syncCustomerRecord schema tenant.id)
      [customerA] {})

/-- A store that already holds the data of another tenant, `tenant-2`: a
customer with external id 1, an order with external id 7 linked to it, a line
item of that order, a product and a ledger row. -/
def shared : Store :=
  { customers := [{ id := 0, tenantId := "tenant-2", shopifyId := "1",
                    data := { email := .str "z@y.com", firstName := .null, lastName := .null,
                              phone := .null, totalSpent := Js.Num.ofNat 0,
                              ordersCount := Js.Num.ofNat 0 } }]
    orders := [{ id := 1, tenantId := "tenant-2", shopifyId := "7", orderNumber := .str "#9",
                 totalPrice := Js.Num.ofNat 1, subtotalPrice := Js.Num.ofNat 1,
                 totalTax := Js.Num.ofNat 0, currency := .str "USD", financialStatus := .null,
                 fulfillmentStatus := .null, processedAt := none, customerId := some 0 }]
    lineItems := [{ id := 2, data := { orderId := 1, quantity := Js.Num.ofNat 1,
                                       price := Js.Num.ofNat 1, title := .str "Z",
                                       variantId := none } }]
    products := [{ id := 3, tenantId := "tenant-2", shopifyId := "5",
                   data := { title := .str "Cup", handle := .str "cup", description := .null,
                             vendor := .null, productType := .null, status := .str "active" } }]
    syncLogs := [{ id := 4, data := { tenantId := "tenant-2", entityType := "customers",
                                      status := "success", recordsProcessed := 1,
                                      recordsFailed := 0, errorMessage := none,
                                      completedAt := 900 } }]
    nextId := 5 }

/-- The line item `A` of `orderA`. -/
def itemA : Val :=
  .obj [("quantity", .num (Js.Num.ofNat 2)), ("price", .str "3.50"), ("title", .str "A"),
        ("variant_id", .num (Js.Num.ofNat 11))]

/-- A line item `C`. -/
def itemC : Val :=
  .obj [("quantity", .num (Js.Num.ofNat 4)), ("price", .str "1.25"), ("title", .str "C")]

/-- Order 7 of `orderA` with the given customer and line-item fields. -/
def order7 (extra : List (String × Val)) : Val :=
  .obj ([("id", .num (Js.Num.ofNat 7)), ("name", .str "#1001"), ("total_price", .str "25.00")]
    ++ extra)

/-- Order 7 as fetched later, naming a customer (external id 9) that is not
stored. -/
def orderA9 : Val := order7 [("customer", .obj [("id", .num (Js.Num.ofNat 9))])]

/-- Order 7 as fetched later, with the line items `A` and `C`. -/
def orderAC : Val :=
  order7 [("customer", .obj [("id", .num (Js.Num.ofNat 1))]), ("line_items", .arr [itemA, itemC])]

/-- Order 7 as fetched later, with an empty list of line items. -/
def orderANone : Val :=
  order7 [("customer", .obj [("id", .num (Js.Num.ofNat 1))]), ("line_items", .arr [])]

/-- Order 7 as fetched later, without the key `line_items`. -/
def orderAAbsent : Val := order7 [("customer", .obj [("id", .num (Js.Num.ofNat 1))])]

end Sample

/-! # The connection test route -/

namespace Ingestion

/-- The URL requested by the route `POST /test/:tenantId` of
`routes/ingestion.js`: the template literal
`https://${tenant.shopifyUrl}/admin/api/2023-10/shop.json`, built from the
stored URL of the tenant row. -/
def testConnectionUrl (tenant : Tenant) : String :=
  "https://" ++ tenant.shopifyUrl.getD "null" ++ "/admin/api/2023-10/shop.json"

end Ingestion

/-! # Vocabulary for texts -/

namespace Js

/-- The number of positions of a text at which `needle` occurs. -/
def occurrences (needle : List Char) : List Char → Nat
  | [] => 0
  | c :: cs => (if startsWith needle (c :: cs) then 1 else 0) + occurrences needle cs

/-- Whether a character is one of the ASCII capitals `A` to `Z`. -/
def isUpperAscii (c : Char) : Bool := decide (65 ≤ c.toNat ∧ c.toNat ≤ 90)

/-- Whether a character is a decimal digit. -/
def isDecDigit (c : Char) : Bool := decide (48 ≤ c.toNat ∧ c.toNat ≤ 57)

/-- The natural number a text of decimal digits spells. -/
def digitsValue (cs : List Char) : Nat := cs.foldl (fun acc c => acc * 10 + (c.toNat - 48)) 0

/-- The Number value for the decimal text `whole.frac`: the double nearest to
the decimal it spells, which is that decimal when it is a double. -/
def decimalValue (whole frac : List Char) : Num :=
  Num.ofScientific false (digitsValue (whole ++ frac)) (-(frac.length : Int))

end Js

namespace ShopifyService

/-- Whether a text is `http://` or `https://` in some letter case. -/
def isSchemeText (cs : List Char) : Bool :=
  decide (cs.map Char.toLower = "http://".toList)
    || decide (cs.map Char.toLower = "https://".toList)

/-- A text field of a valid record: the text `s` when `some s`, and absent,
`null` or empty when `none`. -/
def textField (text : Option String) (v : Val) : Prop :=
  match text with
  | some s => s ≠ "" ∧ v = .str s
  | none => v = .undefined ∨ v = .null ∨ v = .str ""

/-- The stored value of a text field: the text, or `null` for none. -/
def storedText : Option String → Val
  | some s => .str s
  | none => .null

/-- A valid customer record, as the specification describes one: the external
id, the four texts, the decimal text `total_spent` (its digits before and
after the point) and the count `orders_count` (a whole number below `2 ^ 53`,
absent when `none`). -/
structure ValidCustomer where
  id : String
  email : Option String := none
  firstName : Option String := none
  lastName : Option String := none
  phone : Option String := none
  spentWhole : List Char
  spentFrac : List Char := []
  ordersCount : Option Nat := none

namespace ValidCustomer

/-- The text of `total_spent`: the digits before the point, and when there are
digits after it, the point and those digits. -/
def spentText (c : ValidCustomer) : String :=
  String.mk (if c.spentFrac = [] then c.spentWhole else c.spentWhole ++ '.' :: c.spentFrac)

/-- The fetched record `r` is the valid customer `c`. -/
def describes (c : ValidCustomer) (r : Val) : Prop :=
  externalId r = some c.id
  ∧ (∃ v, Js.getProp r "email" = .ok v ∧ textField c.email v)
  ∧ (∃ v, Js.getProp r "first_name" = .ok v ∧ textField c.firstName v)
  ∧ (∃ v, Js.getProp r "last_name" = .ok v ∧ textField c.lastName v)
  ∧ (∃ v, Js.getProp r "phone" = .ok v ∧ textField c.phone v)
  ∧ c.spentWhole ≠ []
  ∧ (∀ ch ∈ c.spentWhole ++ c.spentFrac, Js.isDecDigit ch = true)
  ∧ Js.getProp r "total_spent" = .ok (.str c.spentText)
  ∧ (∃ v, Js.getProp r "orders_count" = .ok v
      ∧ match c.ordersCount with
        | some n => n < 2 ^ 53 ∧ v = .num (Js.Num.ofNat n)
        | none => v = .undefined ∨ v = .null)

/-- The fields the specification expects in the Customer row of `c`. -/
def expected (c : ValidCustomer) : CustomerData :=
  { email := storedText c.email
    firstName := storedText c.firstName
    lastName := storedText c.lastName
    phone := storedText c.phone
    totalSpent := Js.decimalValue c.spentWhole c.spentFrac
    ordersCount := Js.Num.ofNat (c.ordersCount.getD 0) }

end ValidCustomer

end ShopifyService

/-! # The scheduler lifecycle

`startScheduledSync` and `stopScheduledSync` of `services/scheduler.js` act on
the registry `this.jobs` and on the tasks that `cron.schedule` hands out. A
task fires on its schedule from `start()` to `stop()`, whether or not the
registry still refers to it. -/

namespace SchedulerService

/-- The callback a cron task runs when it fires. -/
inductive Callback where
  | syncAllTenants
  | fullSyncAllTenants
  deriving Repr, DecidableEq

/-- A task returned by `cron.schedule`: its expression, its callback and
whether it is started. -/
structure CronTask where
  expression : String
  callback : Callback
  running : Bool
  deriving Repr, DecidableEq

/-- The state the lifecycle methods act on: every task created so far, in
creation order (a task is named by its position), and the registry
`this.jobs`, a `Map` from names to tasks in insertion order. -/
structure Lifecycle where
  tasks : List CronTask := []
  jobs : List (String × Nat) := []
  deriving Repr, DecidableEq

/-- The call `map.set(name, task)`: an existing name keeps its position and
takes the new task, a new name is appended. -/
def mapSet (name : String) (task : Nat) : List (String × Nat) → List (String × Nat)
  | [] => [(name, task)]
  | (name1, task1) :: rest =>
    if name1 = name then (name, task) :: rest else (name1, task1) :: mapSet name task rest

/-- The calls `task.start()` and `task.stop()` on the task at a position. -/
def setRunning (running : Bool) : Nat → List CronTask → List CronTask
  | _, [] => []
  | 0, task :: rest => { task with running := running } :: rest
  | i + 1, task :: rest => task :: setRunning running i rest

/-- The method `startScheduledSync`: two tasks are created unstarted
(`scheduled: false`), registered under `sync` and `fullSync`, and started. -/
def startScheduledSync (s : Lifecycle) : Lifecycle :=
  let syncJob := s.tasks.length
  let tasks := s.tasks ++ [{ expression := "*/15 * * * *", callback := .syncAllTenants,
                             running := false }]
  let fullSyncJob := tasks.length
  let tasks := tasks ++ [{ expression := "0 * * * *", callback := .fullSyncAllTenants,
                           running := false }]
  let jobs := mapSet "fullSync" fullSyncJob (mapSet "sync" syncJob s.jobs)
  { tasks := setRunning true fullSyncJob (setRunning true syncJob tasks), jobs := jobs }

/-- The outcome of `stopScheduledSync`: the state it leaves and the names it
reports as stopped (`Stopped ${name} job`), in order. -/
structure Stopped where
  state : Lifecycle
  stopped : List String
  deriving Repr, DecidableEq

/-- The method `stopScheduledSync`: every job of the registry is stopped, in
insertion order, and the registry is cleared. -/
def stopScheduledSync (s : Lifecycle) : Stopped :=
  { state := { tasks := s.jobs.foldl (fun tasks job => setRunning false job.2 tasks) s.tasks
               jobs := [] }
    stopped := s.jobs.map (fun job => job.1) }

/-- The number of active triggers: the tasks that are started. -/
def active (s : Lifecycle) : Nat := (s.tasks.filter (fun task => task.running)).length

/-- A call of one of the two lifecycle methods. -/
inductive Op where
  | start
  | stop
  deriving Repr, DecidableEq

/-- The state after one lifecycle call. -/
def Op.apply : Op → Lifecycle → Lifecycle
  | .start, s => startScheduledSync s
  | .stop, s => (stopScheduledSync s).state

/-- The state after a sequence of lifecycle calls. -/
def runOps (ops : List Op) (s : Lifecycle) : Lifecycle :=
  ops.foldl (fun s op => op.apply s) s

/-- Whether no `start` of the sequence follows another `start` without a
`stop` in between; `started` tells whether the sequence begins after a
`start`. -/
def alternates : Bool → List Op → Bool
  | _, [] => true
  | started, .start :: rest => !started && alternates true rest
  | _, .stop :: rest => alternates false rest

/-- Whether the service is started after a sequence of calls: whether the last
call is a `start` (`started` when there is no call). -/
def endsStarted : Bool → List Op → Bool
  | started, [] => started
  | _, .start :: rest => endsStarted true rest
  | _, .stop :: rest => endsStarted false rest

/-- The shape of the state of a service whose calls so far alternate: when it
is not started, the registry is empty and no task is active; when it is
started, the registry names the two tasks created last, which are active, and
no older task is active. -/
def Lifecycle.consistent (started : Bool) (s : Lifecycle) : Prop :=
  if started then
    ∃ older syncJob fullSyncJob, s.tasks = older ++ [syncJob, fullSyncJob]
      ∧ (older.filter (fun task => task.running)).length = 0
      ∧ syncJob.running = true ∧ fullSyncJob.running = true
      ∧ s.jobs = [("sync", older.length), ("fullSync", older.length + 1)]
  else s.jobs = [] ∧ active s = 0

end SchedulerService

/-! # Further samples -/

namespace Sample

/-- A `link` header whose next URL carries `page_info` before another
parameter. -/
def trailingLink : String :=
  "<https://demo-store.myshopify.com/admin/api/2023-10/customers.json?page_info=n1&limit=2>; "
    ++ "rel=\"next\""

/-- A `link` header with a previous relation before the next one, and a
parameter before `page_info` in each URL. -/
def bothLink : String :=
  "<https://demo-store.myshopify.com/admin/api/2023-10/customers.json?limit=2&page_info=p0>; "
    ++ "rel=\"previous\", "
    ++ "<https://demo-store.myshopify.com/admin/api/2023-10/customers.json?limit=2&page_info=n2>; "
    ++ "rel=\"next\""

/-- An API whose first page announces the next one with `trailingLink` and
whose later pages announce none. -/
def trailingApi : Api :=
  fun i _ =>
    .ok { data := .obj [("customers", .arr [.num (Js.Num.ofNat i)])]
          link := if i = 0 then some trailingLink else none }

/-- An API whose every request is rejected with the given response body. -/
def rejecting (body : Val) : Api :=
  fun _ _ => .error { message := "Request failed with status code 401", response := some body }

/-- Order 7 as fetched later, with another currency and the line items `C`
and `null`: the second one makes the inner loop throw. -/
def orderHalf : Val :=
  order7 [("customer", .obj [("id", .num (Js.Num.ofNat 1))]), ("currency", .str "EUR"),
          ("line_items", .arr [itemC, .null])]

/-- The customer record `{id "1", email "a@x.com", total_spent "10.00"}`. -/
def customerText : Val :=
  .obj [("id", .str "1"), ("email", .str "a@x.com"), ("total_spent", .str "10.00")]

/-- The valid customer that `customerText` is. -/
def validCustomer : ShopifyService.ValidCustomer :=
  { id := "1", email := some "a@x.com", spentWhole := "10".toList, spentFrac := "00".toList }

/-- A customer record whose `total_spent` is a whole number that is not a
double. -/
def customerBig : Val :=
  .obj [("id", .num (Js.Num.ofNat 4)), ("email", .str "d@x.com"),
        ("total_spent", .str "9007199254740993")]

/-- A customer record whose `orders_count` is the number `1e21`. -/
def customerMany : Val :=
  .obj [("id", .num (Js.Num.ofNat 5)), ("email", .str "e@x.com"),
        ("orders_count", .num (Js.Num.ofNat (10 ^ 21)))]

/-- The store after customer `customerA` was synced for the sample tenant: one
Customer row and nothing else. -/
def withCustomer : Store :=
  ShopifyService.loopStore (ShopifyService.syncCustomerRecord schema tenant.id) [customerA] {}

/-- Order 7 as a later record of the same fetched list, naming customer 2. -/
def orderAB : Val := order7 [("customer", .obj [("id", .num (Js.Num.ofNat 2))])]

/-- A clock that differs from `clock` in its first reading only. -/
def lateClock (k : Nat) : Nat := if k = 0 then 5 else 1000 + k

end Sample

/-! # Properties of the paginated fetcher -/

namespace ShopifyService

theorem concatPages_succ (pages : Nat → List Val) (j k : Nat) :
    concatPages pages j (k + 1) = pages j ++ concatPages pages (j + 1) k := by
  simp [concatPages, List.range'_succ]

theorem concatPages_length_le (pages : Nat → List Val) (b : Nat) :
    ∀ (k j : Nat), (∀ i, j ≤ i → i < j + k → (pages i).length ≤ b) →
      (concatPages pages j k).length ≤ k * b := by
  intro k
  induction k with
  | zero => intro j _; simp [concatPages]
  | succ k ih =>
    intro j h
    rw [concatPages_succ, List.length_append]
    have h1 := h j (le_refl j) (by omega)
    have h2 := ih (j + 1) (fun i hi1 hi2 => h i (by omega) (by omega))
    have : (k + 1) * b = b + k * b := by ring
    omega

theorem body_items {x : Except Js.Error Val} {items : List Val}
    (h : x.map arrayOrEmpty = .ok items) : ∃ found, x = .ok found ∧ arrayOrEmpty found = items := by
  cases x with
  | error e => simp [Except.map] at h
  | ok found => exact ⟨found, rfl, by simpa [Except.map] using h⟩

/-- Loop specification on an API that serves pages: entered before request `j`
with `k` pages still to come, the loop issues exactly those `k` requests and
returns the accumulated items followed by the items of the `k` pages. -/
theorem fetchLoop_pages (svc : ShopifyService) (api : Api) (endpoint key : String) (limit : Nat)
    (extra : List (String × Val)) (resp : Nat → Response) (pages : Nat → List Val) (n : Nat)
    (hn : n ≤ 10)
    (hserve : ∀ i, i < n →
      api i (pageRequest svc endpoint limit extra (cursorInto resp i)) = .ok (resp i))
    (hbody : ∀ i, i < n → (Js.getProp (resp i).data key).map arrayOrEmpty = .ok (pages i))
    (hmore : ∀ i, i + 1 < n → hasCursor (nextCursor (resp i).link) = true)
    (hlast : hasCursor (nextCursor (resp (n - 1)).link) = false ∨ n = 10) :
    ∀ (k fuel j : Nat) (allData : List Val) (sent : List Request),
      j + (k + 1) = n → k + 1 ≤ fuel → sent.length = j →
      fetchLoop svc api endpoint key limit extra fuel allData (cursorInto resp j) (j + 1) sent
        = some { requests := sent ++ (List.range' j (k + 1)).map
                   (fun i => pageRequest svc endpoint limit extra (cursorInto resp i))
                 result := .ok (allData ++ concatPages pages j (k + 1)) } := by
  intro k
  induction k with
  | zero =>
    intro fuel j allData sent hj hfuel hsent
    obtain ⟨fuel, rfl⟩ : ∃ f, fuel = f + 1 := ⟨fuel - 1, by omega⟩
    have hjn : j < n := by omega
    have hj1 : n - 1 = j := by omega
    have hstop : (hasCursor (nextCursor (resp j).link) && decide (j + 1 + 1 ≤ 10)) = false := by
      rcases hlast with h | h
      · rw [hj1] at h; simp [h]
      · have hj10 : ¬ (j + 1 + 1 ≤ 10) := by omega
        simp [hj10]
    obtain ⟨found, hfound, hitems⟩ := body_items (hbody j hjn)
    simp only [fetchLoop, hsent, hserve j hjn, hfound, hstop, hitems]
    simp [concatPages]
  | succ k ih =>
    intro fuel j allData sent hj hfuel hsent
    obtain ⟨fuel, rfl⟩ : ∃ f, fuel = f + 1 := ⟨fuel - 1, by omega⟩
    have hjn : j < n := by omega
    have hgo : (hasCursor (nextCursor (resp j).link) && decide (j + 1 + 1 ≤ 10)) = true := by
      have h1 := hmore j (by omega)
      have h2 : j + 1 + 1 ≤ 10 := by omega
      simp [h1, h2]
    have hnext := ih fuel (j + 1) (allData ++ pages j)
      (sent ++ [pageRequest svc endpoint limit extra (cursorInto resp j)])
      (by omega) (by omega) (by simp [hsent])
    obtain ⟨found, hfound, hitems⟩ := body_items (hbody j hjn)
    simp only [fetchLoop, hsent, hserve j hjn, hfound, hgo, hitems]
    have hc : cursorInto resp (j + 1) = nextCursor (resp j).link := rfl
    rw [hc] at hnext
    simp only [if_true]
    rw [hnext, concatPages_succ pages j (k + 1)]
    simp [List.range'_succ]

/-- The loop returns for every API: with enough fuel for the pages the counter
still allows, it ends after at least one and at most `11 - page` further
requests. -/
theorem fetchLoop_total (svc : ShopifyService) (api : Api) (endpoint key : String) (limit : Nat)
    (extra : List (String × Val)) :
    ∀ (fuel page : Nat) (allData : List Val) (cursor : Option String) (sent : List Request),
      11 ≤ page + fuel → 0 < fuel →
      ∃ run new, fetchLoop svc api endpoint key limit extra fuel allData cursor page sent = some run
        ∧ run.requests = sent ++ new ∧ 0 < new.length
        ∧ (new.length ≤ 11 - page ∨ new.length = 1) := by
  intro fuel
  induction fuel with
  | zero => intro page allData cursor sent _ h0; omega
  | succ fuel ih =>
    intro page allData cursor sent hfuel _
    rcases hreq : api sent.length (pageRequest svc endpoint limit extra cursor) with e | response
    · exact ⟨{ requests := sent ++ [pageRequest svc endpoint limit extra cursor],
                result := .error (fetchFailure endpoint e) },
        [pageRequest svc endpoint limit extra cursor], by simp only [fetchLoop, hreq],
        rfl, by simp, Or.inr rfl⟩
    · rcases hget : Js.getProp response.data key with e | found
      · exact ⟨{ requests := sent ++ [pageRequest svc endpoint limit extra cursor],
                  result := .error (fetchFailure endpoint e) },
          [pageRequest svc endpoint limit extra cursor],
          by simp only [fetchLoop, hreq, hget], rfl, by simp, Or.inr rfl⟩
      · by_cases hgo : (hasCursor (nextCursor response.link) && decide (page + 1 ≤ 10)) = true
        · have hp : page + 1 ≤ 10 := by
            simp only [Bool.and_eq_true, decide_eq_true_eq] at hgo
            exact hgo.2
          obtain ⟨run, new, hrun, hreqs, _, hlen⟩ :=
            ih (page + 1)
              (allData ++ arrayOrEmpty found)
              (nextCursor response.link)
              (sent ++ [pageRequest svc endpoint limit extra cursor]) (by omega) (by omega)
          refine ⟨run, pageRequest svc endpoint limit extra cursor :: new, ?_, ?_, by simp, ?_⟩
          · simp only [fetchLoop, hreq, hget, hgo, if_true]
            exact hrun
          · rw [hreqs]; simp
          · left
            simp only [List.length_cons]
            omega
        · refine ⟨{ requests := sent ++ [pageRequest svc endpoint limit extra cursor],
                     result := .ok (allData ++ arrayOrEmpty found) },
              [pageRequest svc endpoint limit extra cursor], ?_, rfl, by simp, Or.inr rfl⟩
          have hstop : (hasCursor (nextCursor response.link) && decide (page + 1 ≤ 10)) = false := by
            simpa using hgo
          simp only [fetchLoop, hreq, hget, hstop]
          rfl

theorem hasCursor_iff (c : Option String) :
    hasCursor c = true ↔ ∃ s, c = some s ∧ s ≠ "" := by
  cases c with
  | none => simp [hasCursor]
  | some s => simp [hasCursor]

/-- What every finished run of the loop satisfies, for any API. With `new` the
requests issued by this entry of the loop: the first one carries the entry
cursor; every later one carries the non-empty cursor extracted from the
response to the one before it; a failed request is the last one and makes the
run end with the error built from it; a run that returns a list had every
request answered. -/
theorem fetchLoop_trace (svc : ShopifyService) (api : Api) (endpoint key : String) (limit : Nat)
    (extra : List (String × Val)) :
    ∀ (fuel page : Nat) (allData : List Val) (cursor : Option String) (sent : List Request)
      (run : FetchRun),
      fetchLoop svc api endpoint key limit extra fuel allData cursor page sent = some run →
      ∃ new, run.requests = sent ++ new
        ∧ new.head? = some (pageRequest svc endpoint limit extra cursor)
        ∧ (∀ i r, new[i + 1]? = some r → ∃ rprev resp c, new[i]? = some rprev
            ∧ api (sent.length + i) rprev = .ok resp ∧ nextCursor resp.link = some c ∧ c ≠ ""
            ∧ r = pageRequest svc endpoint limit extra (some c))
        ∧ (∀ i r e, new[i]? = some r → api (sent.length + i) r = .error e →
            run.result = .error (fetchFailure endpoint e) ∧ new.length = i + 1)
        ∧ (∀ items, run.result = .ok items → ∀ i r, new[i]? = some r →
            ∃ resp, api (sent.length + i) r = .ok resp) := by
  intro fuel
  induction fuel with
  | zero => intro page allData cursor sent run h; simp [fetchLoop] at h
  | succ fuel ih =>
    intro page allData cursor sent run h
    have single : ∀ (i : Nat) (r : Request),
        [pageRequest svc endpoint limit extra cursor][i]? = some r →
        i = 0 ∧ r = pageRequest svc endpoint limit extra cursor := by
      intro i r hi
      cases i with
      | zero => simp at hi; exact ⟨rfl, hi.symm⟩
      | succ i => simp at hi
    rcases hreq : api sent.length (pageRequest svc endpoint limit extra cursor) with e | response
    · simp only [fetchLoop, hreq, Option.some.injEq] at h
      subst h
      refine ⟨[pageRequest svc endpoint limit extra cursor], rfl, rfl, ?_, ?_, ?_⟩
      · intro i r hi; simp at hi
      · intro i r e1 hi he
        obtain ⟨rfl, rfl⟩ := single i r hi
        rw [Nat.add_zero, hreq] at he
        cases he
        exact ⟨rfl, rfl⟩
      · intro items hitems; cases hitems
    · rcases hget : Js.getProp response.data key with e | found
      · simp only [fetchLoop, hreq, hget, Option.some.injEq] at h
        subst h
        refine ⟨[pageRequest svc endpoint limit extra cursor], rfl, rfl, ?_, ?_, ?_⟩
        · intro i r hi; simp at hi
        · intro i r e1 hi he
          obtain ⟨rfl, rfl⟩ := single i r hi
          rw [Nat.add_zero, hreq] at he
          cases he
        · intro items hitems; cases hitems
      · by_cases hgo : (hasCursor (nextCursor response.link) && decide (page + 1 ≤ 10)) = true
        · simp only [fetchLoop, hreq, hget, hgo, if_true] at h
          obtain ⟨new, hreqs, hhead, hnext, hfail, hok⟩ := ih _ _ _ _ _ h
          have hlen : (sent ++ [pageRequest svc endpoint limit extra cursor]).length
              = sent.length + 1 := by simp
          obtain ⟨c, hc, hcne⟩ : ∃ c, nextCursor response.link = some c ∧ c ≠ "" := by
            simp only [Bool.and_eq_true] at hgo
            exact (hasCursor_iff _).1 hgo.1
          refine ⟨pageRequest svc endpoint limit extra cursor :: new, ?_, rfl, ?_, ?_, ?_⟩
          · rw [hreqs]; simp
          · intro i r hi
            cases i with
            | zero =>
              have hr : r = pageRequest svc endpoint limit extra (nextCursor response.link) := by
                cases new with
                | nil => simp at hi
                | cons r0 rest =>
                  simp at hi hhead
                  rw [← hi, hhead]
              refine ⟨pageRequest svc endpoint limit extra cursor, response, c, by simp, ?_, hc,
                hcne, ?_⟩
              · simpa using hreq
              · rw [hr, hc]
            | succ i =>
              obtain ⟨rprev, resp, c1, h1, h2, h3, h4, h5⟩ := hnext i r (by simpa using hi)
              refine ⟨rprev, resp, c1, by simpa using h1, ?_, h3, h4, h5⟩
              rw [hlen] at h2
              rw [← h2]
              congr 1
              omega
          · intro i r e hi he
            cases i with
            | zero =>
              simp at hi
              subst hi
              rw [Nat.add_zero, hreq] at he
              cases he
            | succ i =>
              have := hfail i r e (by simpa using hi)
                (by rw [hlen]; rw [← he]; congr 1; omega)
              exact ⟨this.1, by simp [this.2]⟩
          · intro items hitems i r hi
            cases i with
            | zero =>
              simp at hi
              subst hi
              exact ⟨response, by simpa using hreq⟩
            | succ i =>
              obtain ⟨resp, hresp⟩ := hok items hitems i r (by simpa using hi)
              refine ⟨resp, ?_⟩
              rw [← hresp, hlen]
              congr 1
              omega
        · have hstop : (hasCursor (nextCursor response.link) && decide (page + 1 ≤ 10)) = false := by
            simpa using hgo
          simp only [fetchLoop, hreq, hget, hstop, Bool.false_eq_true, if_false,
            Option.some.injEq] at h
          subst h
          refine ⟨[pageRequest svc endpoint limit extra cursor], rfl, rfl, ?_, ?_, ?_⟩
          · intro i r hi; simp at hi
          · intro i r e1 hi he
            obtain ⟨rfl, rfl⟩ := single i r hi
            rw [Nat.add_zero, hreq] at he
            cases he
          · intro items _ i r hi
            obtain ⟨rfl, rfl⟩ := single i r hi
            exact ⟨response, by simpa using hreq⟩

/-- C1. On an API that serves `n` pages, `1 ≤ n ≤ 10`, where every request
succeeds, every page but the last carries a next cursor and the last carries
none, `fetchPaginatedData` issues exactly `n` requests and returns the items of
page 1, then page 2, ..., then page `n`: nothing dropped, duplicated or
reordered. Page `i + 1` is `resp i`; its items are the array under the expected
key (none when the body holds no array there). -/
theorem fetchPaginatedData_returns_all_pages_in_order (svc : ShopifyService) (api : Api)
    (endpoint key : String) (limit : Nat) (extra : List (String × Val))
    (resp : Nat → Response) (pages : Nat → List Val) (n : Nat)
    (h1 : 1 ≤ n) (h10 : n ≤ 10)
    (hserve : ∀ i, i < n →
      api i (pageRequest svc endpoint limit extra (cursorInto resp i)) = .ok (resp i))
    (hbody : ∀ i, i < n → (Js.getProp (resp i).data key).map arrayOrEmpty = .ok (pages i))
    (hmore : ∀ i, i + 1 < n → hasCursor (nextCursor (resp i).link) = true)
    (hlast : hasCursor (nextCursor (resp (n - 1)).link) = false) :
    ∃ run, fetchPaginatedData svc api endpoint key limit extra = some run
      ∧ run.result = .ok (concatPages pages 0 n) ∧ run.requests.length = n := by
  obtain ⟨k, rfl⟩ : ∃ k, n = k + 1 := ⟨n - 1, by omega⟩
  have h := fetchLoop_pages svc api endpoint key limit extra resp pages (k + 1) h10 hserve hbody
    hmore (Or.inl hlast) k 10 0 [] [] (by omega) (by omega) rfl
  refine ⟨_, h, by simp, by simp⟩

/-- C1, evaluated: a three-page API with two items a page yields the six items
in page order. -/
theorem fetchPaginatedData_returns_all_pages_in_order_witness :
    ∃ run, fetchPaginatedData Sample.service (Sample.pagedApi "customers" 3 2)
        "/customers.json" "customers" 250 [] = some run
      ∧ run.result = .ok ((List.range 6).map (fun n => Val.num (Js.Num.ofNat n)))
      ∧ run.requests.length = 3 :=
  fetchPaginatedData_returns_all_pages_in_order Sample.service
    (Sample.pagedApi "customers" 3 2) "/customers.json" "customers" 250 []
    (Sample.page "customers" 3 2)
    (fun i => (List.range' (i * 2) 2).map (fun n => Val.num (Js.Num.ofNat n))) 3
    (by decide) (by decide)
    (by intro i hi; interval_cases i <;> rfl)
    (by intro i hi; interval_cases i <;> rfl)
    (by intro i hi; have hi2 : i < 2 := by omega
        interval_cases i <;> rfl)
    rfl

/-- C2. Whatever the API does, `fetchPaginatedData` returns after at most 10
requests. When the API answers the first ten requests with pages that all
announce a next page (it has more than ten pages), the call returns, without
error, exactly the concatenation of the first ten pages, so at most
`10 * size` items when no page holds more than `size` (2,500 for pages of 250). -/
theorem fetchPaginatedData_stops_at_ten_pages (svc : ShopifyService) (api : Api)
    (endpoint key : String) (limit : Nat) (extra : List (String × Val)) :
    ∃ run, fetchPaginatedData svc api endpoint key limit extra = some run
      ∧ run.requests.length ≤ 10
      ∧ ∀ (resp : Nat → Response) (pages : Nat → List Val),
          (∀ i, i < 10 →
            api i (pageRequest svc endpoint limit extra (cursorInto resp i)) = .ok (resp i)) →
          (∀ i, i < 10 → (Js.getProp (resp i).data key).map arrayOrEmpty = .ok (pages i)) →
          (∀ i, i < 10 → hasCursor (nextCursor (resp i).link) = true) →
          run.result = .ok (concatPages pages 0 10) ∧ run.requests.length = 10
            ∧ ∀ size, (∀ i, i < 10 → (pages i).length ≤ size) →
                (concatPages pages 0 10).length ≤ 10 * size := by
  obtain ⟨run, new, hrun, hreqs, _, hlen⟩ :=
    fetchLoop_total svc api endpoint key limit extra 10 1 [] none [] (by omega) (by omega)
  refine ⟨run, hrun, ?_, ?_⟩
  · rw [hreqs]
    simp only [List.nil_append]
    omega
  · intro resp pages hserve hbody hmore
    have h := fetchLoop_pages svc api endpoint key limit extra resp pages 10 (le_refl 10) hserve
      hbody (fun i hi => hmore i (by omega)) (Or.inr rfl) 9 10 0 [] [] (by omega) (by omega) rfl
    have hrun2 : fetchLoop svc api endpoint key limit extra 10 [] none 1 [] = some run := hrun
    have hc : cursorInto resp 0 = none := rfl
    rw [hc, hrun2, Option.some.injEq] at h
    subst h
    refine ⟨by simp, by simp, ?_⟩
    intro size hsize
    exact concatPages_length_le pages size 10 0 (fun i _ hi => hsize i (by omega))

/-- C2, evaluated: against a 15-page API with 250 items a page the fetch ends
after 10 requests with the 2,500 items of the first ten pages. -/
theorem fetchPaginatedData_stops_at_ten_pages_witness :
    ∃ run, fetchPaginatedData Sample.service (Sample.pagedApi "products" 15 250)
        "/products.json" "products" 250 [] = some run
      ∧ run.requests.length = 10
      ∧ run.result = .ok (concatPages
          (fun i => (List.range' (i * 250) 250).map (fun n => Val.num (Js.Num.ofNat n))) 0 10)
      ∧ (concatPages
          (fun i => (List.range' (i * 250) 250).map (fun n => Val.num (Js.Num.ofNat n)))
          0 10).length ≤ 2500 := by
  obtain ⟨run, hrun, _, h⟩ := fetchPaginatedData_stops_at_ten_pages Sample.service
    (Sample.pagedApi "products" 15 250) "/products.json" "products" 250 []
  obtain ⟨hres, hlen, hsize⟩ := h (Sample.page "products" 15 250)
    (fun i => (List.range' (i * 250) 250).map (fun n => Val.num (Js.Num.ofNat n)))
    (by intro i hi; interval_cases i <;> rfl)
    (by intro i hi; interval_cases i <;> rfl)
    (by intro i hi; interval_cases i <;> rfl)
  exact ⟨run, hrun, hlen, hres, hsize 250 (by intro i _; simp)⟩

/-- C3, as stated, fails: against a two-page API the second request of
`fetchOrders` carries the cursor and, again, the filter `status=any`; its
parameters are not the cursor alone. -/
theorem fetchOrders_cursor_request_resends_filter :
    ∃ run r, fetchOrders Sample.service (Sample.pagedApi "orders" 2 1) = some run
      ∧ run.requests[1]? = some r
      ∧ r.params = [("page_info", Val.str "1"), ("status", Val.str "any")]
      ∧ ¬ ∃ c, r.params = [("page_info", c)] := by
  refine ⟨_, pageRequest Sample.service "/orders.json" 250 [("status", Val.str "any")]
    (some "1"), rfl, rfl, rfl, ?_⟩
  rintro ⟨c, hc⟩
  have hp : (pageRequest Sample.service "/orders.json" 250 [("status", Val.str "any")]
      (some "1")).params = [("page_info", Val.str "1"), ("status", Val.str "any")] := rfl
  rw [hp] at hc
  simp at hc

/-- C3, amended. The first request of `fetchPaginatedData` carries
`{ limit, ...extraParams }`; every later request carries
`{ page_info: cursor, ...extraParams }`, where the cursor is the non-empty one
extracted from the previous response: no `limit` of its own, and the static
filter parameters again. For `fetchOrders` the first request carries `limit=250`
and `status=any`, every later one `page_info` and `status=any`. -/
theorem fetchPaginatedData_request_params (svc : ShopifyService) (api : Api)
    (endpoint key : String) (limit : Nat) (extra : List (String × Val)) :
    (∃ run first, fetchPaginatedData svc api endpoint key limit extra = some run
      ∧ run.requests[0]? = some first
      ∧ first.params = Js.spread [("limit", Val.num (Js.Num.ofNat limit))] extra
      ∧ ∀ i r, run.requests[i + 1]? = some r →
          ∃ rprev resp c, run.requests[i]? = some rprev ∧ api i rprev = .ok resp
            ∧ nextCursor resp.link = some c ∧ c ≠ ""
            ∧ r.params = Js.spread [("page_info", Val.str c)] extra)
    ∧ (∃ run first, fetchOrders svc api = some run
      ∧ run.requests[0]? = some first
      ∧ first.params = [("limit", Val.num (Js.Num.ofNat 250)), ("status", Val.str "any")]
      ∧ ∀ i r, run.requests[i + 1]? = some r →
          ∃ c, c ≠ "" ∧ r.params = [("page_info", Val.str c), ("status", Val.str "any")]) := by
  have general : ∀ (endpoint key : String) (limit : Nat) (extra : List (String × Val)),
      ∃ run first, fetchPaginatedData svc api endpoint key limit extra = some run
        ∧ run.requests[0]? = some first
        ∧ first.params = Js.spread [("limit", Val.num (Js.Num.ofNat limit))] extra
        ∧ ∀ i r, run.requests[i + 1]? = some r →
            ∃ rprev resp c, run.requests[i]? = some rprev ∧ api i rprev = .ok resp
              ∧ nextCursor resp.link = some c ∧ c ≠ ""
              ∧ r.params = Js.spread [("page_info", Val.str c)] extra := by
    intro endpoint key limit extra
    obtain ⟨run, _, hrun, _⟩ :=
      fetchLoop_total svc api endpoint key limit extra 10 1 [] none [] (by omega) (by omega)
    obtain ⟨new, hreqs, hhead, hnext, _, _⟩ :=
      fetchLoop_trace svc api endpoint key limit extra 10 1 [] none [] run hrun
    simp only [List.nil_append] at hreqs
    subst hreqs
    refine ⟨run, pageRequest svc endpoint limit extra none, hrun, ?_, ?_, ?_⟩
    · cases hr : run.requests with
      | nil => rw [hr] at hhead; simp at hhead
      | cons r0 rest => rw [hr] at hhead; simpa using hhead
    · simp [pageRequest, requestParams, hasCursor]
    · intro i r hi
      obtain ⟨rprev, resp, c, h1, h2, h3, h4, h5⟩ := hnext i r hi
      refine ⟨rprev, resp, c, h1, by simpa using h2, h3, h4, ?_⟩
      rw [h5]
      simp [pageRequest, requestParams, hasCursor, h4]
  refine ⟨general endpoint key limit extra, ?_⟩
  obtain ⟨run, first, hrun, hfirst, hparams, hnext⟩ :=
    general "/orders.json" "orders" 250 [("status", Val.str "any")]
  refine ⟨run, first, hrun, hfirst, ?_, ?_⟩
  · rw [hparams]; rfl
  · intro i r hi
    obtain ⟨_, _, c, _, _, _, hc, hp⟩ := hnext i r hi
    exact ⟨c, hc, by rw [hp]; rfl⟩

/-- C4. `fetchPaginatedData` is all-or-nothing. If the request with index `k`
(the `k + 1`-th page request) fails, it is the last request issued and the call
ends with the thrown error built from that failure, which carries no item,
whatever the earlier pages delivered; and a call that returns a list had every
request it issued answered. -/
theorem fetchPaginatedData_all_or_nothing (svc : ShopifyService) (api : Api)
    (endpoint key : String) (limit : Nat) (extra : List (String × Val)) :
    ∃ run, fetchPaginatedData svc api endpoint key limit extra = some run
      ∧ (∀ k r e, run.requests[k]? = some r → api k r = .error e →
          run.result = .error (fetchFailure endpoint e) ∧ run.requests.length = k + 1)
      ∧ (∀ items, run.result = .ok items →
          ∀ k r, run.requests[k]? = some r → ∃ resp, api k r = .ok resp) := by
  obtain ⟨run, _, hrun, _⟩ :=
    fetchLoop_total svc api endpoint key limit extra 10 1 [] none [] (by omega) (by omega)
  obtain ⟨new, hreqs, _, _, hfail, hok⟩ :=
    fetchLoop_trace svc api endpoint key limit extra 10 1 [] none [] run hrun
  simp only [List.nil_append] at hreqs
  subst hreqs
  refine ⟨run, hrun, ?_, ?_⟩
  · intro k r e hk he
    exact hfail k r e hk (by simpa using he)
  · intro items hitems k r hk
    obtain ⟨resp, hresp⟩ := hok items hitems k r hk
    exact ⟨resp, by simpa using hresp⟩

/-- C4, evaluated: when the third request is rejected, after two pages were
fetched, the call issues no further request and ends with the error and no
items. -/
theorem fetchPaginatedData_all_or_nothing_witness :
    ∃ run, fetchPaginatedData Sample.service (Sample.failingApi "customers" 5 2 2)
        "/customers.json" "customers" 250 [] = some run
      ∧ run.requests.length = 3
      ∧ run.result = .error (Js.newError "Failed to fetch /customers.json: Invalid API key") := by
  obtain ⟨run, hrun, hfail, _⟩ := fetchPaginatedData_all_or_nothing Sample.service
    (Sample.failingApi "customers" 5 2 2) "/customers.json" "customers" 250 []
  have hval : fetchPaginatedData Sample.service (Sample.failingApi "customers" 5 2 2)
      "/customers.json" "customers" 250 []
      = some { requests := [pageRequest Sample.service "/customers.json" 250 [] none,
                            pageRequest Sample.service "/customers.json" 250 [] (some "1"),
                            pageRequest Sample.service "/customers.json" 250 [] (some "2")]
               result := .error
                 (Js.newError "Failed to fetch /customers.json: Invalid API key") } := rfl
  rw [hval, Option.some.injEq] at hrun
  subst hrun
  have h := hfail 2 (pageRequest Sample.service "/customers.json" 250 [] (some "2"))
    { message := "Request failed with status code 401"
      response := some (.obj [("errors", .arr [.str "Invalid API key"])]) } rfl rfl
  exact ⟨_, hval, h.2, rfl⟩

end ShopifyService

/-! # Properties of the entity synchronisers -/

namespace ShopifyService

/-! ## Tables -/

theorem replaceFirst_eq_mapFirst {α : Type} (p : α → Bool) (f : α → α) :
    ∀ (l : List α) (row : α), l.find? p = some row →
      replaceFirst p (f row) l = mapFirst p f l := by
  intro l
  induction l with
  | nil => intro row h; simp at h
  | cons x xs ih =>
    intro row h
    by_cases hx : p x = true
    · simp [List.find?, hx] at h
      subst h
      simp [replaceFirst, mapFirst, hx]
    · simp [List.find?, hx] at h
      simp [replaceFirst, mapFirst, hx, ih row h]

theorem mem_mapFirst_of_find {α : Type} (p : α → Bool) (f : α → α) :
    ∀ (l : List α) (row : α), l.find? p = some row → f row ∈ mapFirst p f l := by
  intro l
  induction l with
  | nil => intro row h; simp at h
  | cons x xs ih =>
    intro row h
    by_cases hx : p x = true
    · simp [List.find?, hx] at h
      subst h
      simp [mapFirst, hx]
    · simp [List.find?, hx] at h
      simp [mapFirst, hx, ih row h]

theorem exists_mem_mapFirst {α : Type} (p : α → Bool) (f : α → α) (q : α → Prop)
    (hq : ∀ x, q x → q (f x)) :
    ∀ (l : List α), (∃ x ∈ l, q x) → ∃ x ∈ mapFirst p f l, q x := by
  intro l
  induction l with
  | nil => intro h; simp at h
  | cons y ys ih =>
    rintro ⟨x, hx, hqx⟩
    by_cases hy : p y = true
    · simp only [mapFirst, hy, if_true]
      rcases List.mem_cons.1 hx with rfl | hmem
      · exact ⟨f x, by simp, hq x hqx⟩
      · exact ⟨x, by simp [hmem], hqx⟩
    · simp only [mapFirst, hy]
      rcases List.mem_cons.1 hx with rfl | hmem
      · exact ⟨x, by simp, hqx⟩
      · obtain ⟨z, hz, hqz⟩ := ih ⟨x, hmem, hqx⟩
        exact ⟨z, by simp [hz], hqz⟩

theorem upsertRows_rows {α : Type} (p : α → Bool) (u : α → α) (c : α) (rows : List α) :
    (upsertRows p u c rows).2.1
      = if (rows.find? p).isSome then mapFirst p u rows else rows ++ [c] := by
  unfold upsertRows
  cases h : rows.find? p with
  | none => simp
  | some row => simp [replaceFirst_eq_mapFirst p u rows row h]

theorem upsertRows_row_mem {α : Type} (p : α → Bool) (u : α → α) (c : α) (rows : List α) :
    (upsertRows p u c rows).1 ∈ (upsertRows p u c rows).2.1 := by
  rw [upsertRows_rows]
  unfold upsertRows
  cases h : rows.find? p with
  | none => simp
  | some row => simpa using mem_mapFirst_of_find p u rows row h

theorem upsertRows_keeps {α : Type} (p : α → Bool) (u : α → α) (c : α) (q : α → Prop)
    (hq : ∀ x, q x → q (u x)) (rows : List α) (h : ∃ x ∈ rows, q x) :
    ∃ x ∈ (upsertRows p u c rows).2.1, q x := by
  rw [upsertRows_rows]
  split
  · exact exists_mem_mapFirst p u q hq rows h
  · obtain ⟨x, hx, hqx⟩ := h
    exact ⟨x, by simp [hx], hqx⟩

theorem upsertRows_row_prop {α : Type} (p : α → Bool) (u : α → α) (c : α) (q : α → Prop)
    (hu : ∀ x, p x = true → q (u x)) (hc : q c) (rows : List α) :
    q (upsertRows p u c rows).1 := by
  unfold upsertRows
  cases h : rows.find? p with
  | none => exact hc
  | some row => exact hu row (List.find?_some h)

/-! ## Stores -/

theorem upsertCustomer_ok {schema : Schema} {st st1 : Store} {tid sid : String}
    {u c : CustomerData} {row : CustomerRow}
    (h : st.upsertCustomer schema tid sid u c = .ok (row, st1)) :
    row = (upsertRows (fun r => r.tenantId = tid && r.shopifyId = sid)
        (fun row => { row with data := u })
        { id := st.nextId, tenantId := tid, shopifyId := sid, data := c } st.customers).1
    ∧ st1 = { st with
        customers := (upsertRows (fun r => r.tenantId = tid && r.shopifyId = sid)
          (fun row => { row with data := u })
          { id := st.nextId, tenantId := tid, shopifyId := sid, data := c } st.customers).2.1
        nextId := st.nextId + (upsertRows (fun r => r.tenantId = tid && r.shopifyId = sid)
          (fun row => { row with data := u })
          { id := st.nextId, tenantId := tid, shopifyId := sid, data := c }
          st.customers).2.2.toNat } := by
  unfold Store.upsertCustomer at h
  split at h
  · simp only [Except.ok.injEq, Prod.mk.injEq] at h
    exact ⟨h.1.symm, h.2.symm⟩
  · cases h

theorem upsertProduct_ok {schema : Schema} {st st1 : Store} {tid sid : String}
    {u c : ProductData} {row : ProductRow}
    (h : st.upsertProduct schema tid sid u c = .ok (row, st1)) :
    row = (upsertRows (fun r => r.tenantId = tid && r.shopifyId = sid)
        (fun row => { row with data := u })
        { id := st.nextId, tenantId := tid, shopifyId := sid, data := c } st.products).1
    ∧ st1 = { st with
        products := (upsertRows (fun r => r.tenantId = tid && r.shopifyId = sid)
          (fun row => { row with data := u })
          { id := st.nextId, tenantId := tid, shopifyId := sid, data := c } st.products).2.1
        nextId := st.nextId + (upsertRows (fun r => r.tenantId = tid && r.shopifyId = sid)
          (fun row => { row with data := u })
          { id := st.nextId, tenantId := tid, shopifyId := sid, data := c }
          st.products).2.2.toNat } := by
  unfold Store.upsertProduct at h
  split at h
  · simp only [Except.ok.injEq, Prod.mk.injEq] at h
    exact ⟨h.1.symm, h.2.symm⟩
  · cases h

theorem upsertOrder_ok {schema : Schema} {st st1 : Store} {tid sid : String}
    {u c : OrderData} {row : OrderRow}
    (h : st.upsertOrder schema tid sid u c = .ok (row, st1)) :
    row = (upsertRows (fun r => r.tenantId = tid && r.shopifyId = sid)
        (fun row => Store.applyOrderUpdate row u)
        (Store.newOrderRow st.nextId tid sid c) st.orders).1
    ∧ st1 = { st with
        orders := (upsertRows (fun r => r.tenantId = tid && r.shopifyId = sid)
          (fun row => Store.applyOrderUpdate row u)
          (Store.newOrderRow st.nextId tid sid c) st.orders).2.1
        nextId := st.nextId + (upsertRows (fun r => r.tenantId = tid && r.shopifyId = sid)
          (fun row => Store.applyOrderUpdate row u)
          (Store.newOrderRow st.nextId tid sid c) st.orders).2.2.toNat } := by
  unfold Store.upsertOrder at h
  split at h
  · simp only [Except.ok.injEq, Prod.mk.injEq] at h
    exact ⟨h.1.symm, h.2.symm⟩
  · cases h

theorem outcomes_length (step : Store → Val → Step) :
    ∀ (records : List Val) (st : Store), (outcomes step records st).length = records.length := by
  intro records
  induction records with
  | nil => intro st; rfl
  | cons r rest ih => intro st; simp [outcomes, ih]

theorem successes_add_failures (step : Store → Val → Step) (records : List Val) (st : Store) :
    successes step records st + failures step records st = records.length := by
  rw [← outcomes_length step records st]
  unfold successes failures
  induction outcomes step records st with
  | nil => rfl
  | cons o os ih =>
    cases o with
    | none => simp [List.filter] at ih ⊢; omega
    | some e => simp [List.filter] at ih ⊢; omega

/-- The record loop, in closed form: it leaves `loopStore` and adds the numbers
of completed and of throwing records to the two counters. -/
theorem forEachRecord_eq (step : Store → Val → Step) :
    ∀ (records : List Val) (st : Store) (counts : SyncCounts),
      forEachRecord step records st counts
        = (loopStore step records st,
           { recordsProcessed := counts.recordsProcessed + successes step records st
             recordsFailed := counts.recordsFailed + failures step records st }) := by
  intro records
  induction records with
  | nil => intro st counts; simp [forEachRecord, loopStore, successes, failures, outcomes]
  | cons r rest ih =>
    intro st counts
    cases h : (step st r).error with
    | none =>
      simp only [forEachRecord, h, ih, loopStore]
      simp [successes, failures, outcomes, h, List.filter]
      omega
    | some e =>
      simp only [forEachRecord, h, ih, loopStore]
      simp [successes, failures, outcomes, h, List.filter]
      omega

theorem loopStore_preserves {α : Type} (f : Store → α) (step : Store → Val → Step)
    (h : ∀ st r, f (step st r).store = f st) :
    ∀ (records : List Val) (st : Store), f (loopStore step records st) = f st := by
  intro records
  induction records with
  | nil => intro st; rfl
  | cons r rest ih => intro st; simp only [loopStore]; rw [ih, h]

/-- The two ways the body of the customer loop ends: it throws and leaves the
store as it was, or the upsert of the mapped fields under the record's key
went through. -/
theorem syncCustomerRecord_cases (schema : Schema) (tid : String) (st : Store) (r : Val) :
    (∃ e, syncCustomerRecord schema tid st r = { store := st, error := some e })
    ∨ (∃ sid fields row st1, externalId r = some sid ∧ customerFields r = .ok fields
        ∧ st.upsertCustomer schema tid sid fields fields = .ok (row, st1)
        ∧ syncCustomerRecord schema tid st r = { store := st1, error := none }) := by
  unfold syncCustomerRecord
  rcases h1 : Js.getProp r "id" with e | idv
  · left; exact ⟨e, by simp [h1, bind, Except.bind]⟩
  · rcases h2 : Js.callToString idv with e | sid
    · left; exact ⟨e, by simp [h1, h2, bind, Except.bind]⟩
    · rcases h3 : customerFields r with e | fields
      · left; exact ⟨e, by simp [h1, h2, h3, bind, Except.bind]⟩
      · rcases h4 : st.upsertCustomer schema tid sid fields fields with e | ⟨row, st1⟩
        · left; exact ⟨e, by simp [h1, h2, h3, h4, bind, Except.bind]⟩
        · right
          refine ⟨sid, fields, row, st1, by simp [externalId, h1, h2], rfl, h4, ?_⟩
          simp [h1, h2, h3, h4, bind, Except.bind, pure, Except.pure]

/-- The two ways the body of the product loop ends. -/
theorem syncProductRecord_cases (schema : Schema) (tid : String) (st : Store) (r : Val) :
    (∃ e, syncProductRecord schema tid st r = { store := st, error := some e })
    ∨ (∃ sid fields row st1, externalId r = some sid ∧ productFields r = .ok fields
        ∧ st.upsertProduct schema tid sid fields fields = .ok (row, st1)
        ∧ syncProductRecord schema tid st r = { store := st1, error := none }) := by
  unfold syncProductRecord
  rcases h1 : Js.getProp r "id" with e | idv
  · left; exact ⟨e, by simp [h1, bind, Except.bind]⟩
  · rcases h2 : Js.callToString idv with e | sid
    · left; exact ⟨e, by simp [h1, h2, bind, Except.bind]⟩
    · rcases h3 : productFields r with e | fields
      · left; exact ⟨e, by simp [h1, h2, h3, bind, Except.bind]⟩
      · rcases h4 : st.upsertProduct schema tid sid fields fields with e | ⟨row, st1⟩
        · left; exact ⟨e, by simp [h1, h2, h3, h4, bind, Except.bind]⟩
        · right
          refine ⟨sid, fields, row, st1, by simp [externalId, h1, h2], rfl, h4, ?_⟩
          simp [h1, h2, h3, h4, bind, Except.bind, pure, Except.pure]

theorem syncCustomerRecord_syncLogs (schema : Schema) (tid : String) (st : Store) (r : Val) :
    (syncCustomerRecord schema tid st r).store.syncLogs = st.syncLogs := by
  rcases syncCustomerRecord_cases schema tid st r with ⟨e, h⟩ | ⟨sid, f, row, st1, _, _, hu, h⟩
  · rw [h]
  · rw [h, (upsertCustomer_ok hu).2]

theorem syncProductRecord_syncLogs (schema : Schema) (tid : String) (st : Store) (r : Val) :
    (syncProductRecord schema tid st r).store.syncLogs = st.syncLogs := by
  rcases syncProductRecord_cases schema tid st r with ⟨e, h⟩ | ⟨sid, f, row, st1, _, _, hu, h⟩
  · rw [h]
  · rw [h, (upsertProduct_ok hu).2]

theorem createLineItems_frame (schema : Schema) (orderId : Nat) :
    ∀ (items : List Val) (st : Store),
      (createLineItems schema orderId items st).store.syncLogs = st.syncLogs
      ∧ (createLineItems schema orderId items st).store.customers = st.customers
      ∧ (createLineItems schema orderId items st).store.orders = st.orders
      ∧ (createLineItems schema orderId items st).store.products = st.products := by
  intro items
  induction items with
  | nil => intro st; simp [createLineItems]
  | cons item rest ih =>
    intro st
    rcases h1 : lineItemFields orderId item with e | data
    · simp [createLineItems, h1]
    · rcases h2 : st.createLineItem schema data with e | st1
      · simp [createLineItems, h1, h2]
      · have hst1 : st1.syncLogs = st.syncLogs ∧ st1.customers = st.customers
            ∧ st1.orders = st.orders ∧ st1.products = st.products := by
          unfold Store.createLineItem at h2
          split at h2
          · simp only [Except.ok.injEq] at h2
            subst h2
            simp
          · cases h2
        simp only [createLineItems, h1, h2]
        obtain ⟨a, b, c, d⟩ := ih st1
        exact ⟨a.trans hst1.1, b.trans hst1.2.1, c.trans hst1.2.2.1, d.trans hst1.2.2.2⟩

theorem syncLineItems_frame (schema : Schema) (r : Val) (orderId : Nat) (st : Store) :
    (syncLineItems schema r orderId st).store.syncLogs = st.syncLogs
    ∧ (syncLineItems schema r orderId st).store.customers = st.customers
    ∧ (syncLineItems schema r orderId st).store.orders = st.orders
    ∧ (syncLineItems schema r orderId st).store.products = st.products := by
  unfold syncLineItems
  split
  · simp
  · simp
  · simp only
    split
    · simp [Store.deleteLineItems]
    · rename_i items _
      simpa [Store.deleteLineItems] using
        createLineItems_frame schema orderId items (st.deleteLineItems orderId)

/-- The ways the body of the order loop ends: it throws before any write and
leaves the store as it was, or the order was upserted under the record's key
and the line-item block ran on the resulting store. -/
theorem syncOrderRecord_cases (schema : Schema) (tid : String) (st : Store) (r : Val) :
    (∃ e, syncOrderRecord schema tid st r = { store := st, error := some e })
    ∨ (∃ sid cref fields row st1, externalId r = some sid
        ∧ resolveCustomer tid st r = .ok cref ∧ orderFields r cref = .ok fields
        ∧ st.upsertOrder schema tid sid fields fields = .ok (row, st1)
        ∧ syncOrderRecord schema tid st r = syncLineItems schema r row.id st1) := by
  unfold syncOrderRecord
  rcases h0 : resolveCustomer tid st r with e | cref
  · left; exact ⟨e, by simp [h0, bind, Except.bind]⟩
  · rcases h1 : Js.getProp r "id" with e | idv
    · left; exact ⟨e, by simp [h0, h1, bind, Except.bind]⟩
    · rcases h2 : Js.callToString idv with e | sid
      · left; exact ⟨e, by simp [h0, h1, h2, bind, Except.bind]⟩
      · rcases h3 : orderFields r cref with e | fields
        · left; exact ⟨e, by simp [h0, h1, h2, h3, bind, Except.bind]⟩
        · rcases h4 : st.upsertOrder schema tid sid fields fields with e | ⟨row, st1⟩
          · left; exact ⟨e, by simp [h0, h1, h2, h3, h4, bind, Except.bind, pure, Except.pure]⟩
          · right
            refine ⟨sid, cref, fields, row, st1, by simp [externalId, h1, h2], rfl, h3, h4, ?_⟩
            simp [h0, h1, h2, h3, h4, bind, Except.bind, pure, Except.pure]

/-- The body of the order loop leaves the ledger, the customers and the
products as they were. -/
theorem syncOrderRecord_frame (schema : Schema) (tid : String) (st : Store) (r : Val) :
    (syncOrderRecord schema tid st r).store.syncLogs = st.syncLogs
    ∧ (syncOrderRecord schema tid st r).store.customers = st.customers
    ∧ (syncOrderRecord schema tid st r).store.products = st.products := by
  rcases syncOrderRecord_cases schema tid st r with
    ⟨e, h⟩ | ⟨sid, cref, fields, row, st1, _, _, _, hu, h⟩
  · rw [h]; simp
  · rw [h]
    obtain ⟨a, b, _, d⟩ := syncLineItems_frame schema r row.id st1
    have hst1 := (upsertOrder_ok hu).2
    refine ⟨a.trans ?_, b.trans ?_, d.trans ?_⟩ <;> rw [hst1]

end ShopifyService

/-! # Properties of a synchroniser run -/

namespace ShopifyService

theorem Entity.sync_eq (e : Entity) (svc : ShopifyService) (api : Api) (schema : Schema)
    (clock : Nat → Nat) (st : Store) :
    ∃ msg, e.sync svc api schema clock st
      = syncEntity e.name msg svc.tenant.id (e.fetch svc api) (e.step schema svc.tenant.id)
          clock st := by
  cases e
  · exact ⟨"Some customers failed to sync", rfl⟩
  · exact ⟨"Some orders failed to sync", rfl⟩
  · exact ⟨"Some products failed to sync", rfl⟩

/-- Every fetch of a synchroniser returns: the fuel never runs out. -/
theorem Entity.fetch_total (e : Entity) (svc : ShopifyService) (api : Api) :
    ∃ fetched, e.fetch svc api = some fetched := by
  cases e
  · obtain ⟨run, _, h, _⟩ := fetchLoop_total svc api "/customers.json" "customers" 250 []
      10 1 [] none [] (by omega) (by omega)
    exact ⟨run, h⟩
  · obtain ⟨run, _, h, _⟩ := fetchLoop_total svc api "/orders.json" "orders" 250
      [("status", Val.str "any")] 10 1 [] none [] (by omega) (by omega)
    exact ⟨run, h⟩
  · obtain ⟨run, _, h, _⟩ := fetchLoop_total svc api "/products.json" "products" 250 []
      10 1 [] none [] (by omega) (by omega)
    exact ⟨run, h⟩

theorem Entity.step_syncLogs (e : Entity) (schema : Schema) (tid : String) (st : Store)
    (r : Val) : (e.step schema tid st r).store.syncLogs = st.syncLogs := by
  cases e
  · exact syncCustomerRecord_syncLogs schema tid st r
  · exact (syncOrderRecord_frame schema tid st r).1
  · exact syncProductRecord_syncLogs schema tid st r

/-- A synchroniser whose fetch returned `records`: the loop runs over them,
one SyncLog row is created from the tallies and the tallies are returned. -/
theorem syncEntity_of_fetched (entityType msg tid : String) (fetch : Option FetchRun)
    (step : Store → Val → Step) (clock : Nat → Nat) (st : Store) (fetched : FetchRun)
    (records : List Val) (hf : fetch = some fetched) (hr : fetched.result = .ok records) :
    syncEntity entityType msg tid fetch step clock st
      = some { store := (loopStore step records st).createSyncLog
                 { tenantId := tid
                   entityType := entityType
                   status := if failures step records st = 0 then "success" else "partial"
                   recordsProcessed := successes step records st
                   recordsFailed := failures step records st
                   errorMessage := if failures step records st > 0 then some msg else none
                   completedAt := clock 1 }
               requests := fetched.requests
               result := .ok { recordsProcessed := successes step records st
                               recordsFailed := failures step records st } } := by
  simp [syncEntity, hf, hr, forEachRecord_eq]

/-- A synchroniser whose fetch threw `error`: one SyncLog row with status
`error` is created in the untouched store and the error is rethrown. -/
theorem syncEntity_of_fetch_error (entityType msg tid : String) (fetch : Option FetchRun)
    (step : Store → Val → Step) (clock : Nat → Nat) (st : Store) (fetched : FetchRun)
    (error : Js.Error) (hf : fetch = some fetched) (hr : fetched.result = .error error) :
    syncEntity entityType msg tid fetch step clock st
      = some { store := st.createSyncLog
                 { tenantId := tid
                   entityType := entityType
                   status := "error"
                   recordsProcessed := 0
                   recordsFailed := 1
                   errorMessage := some error.message
                   completedAt := clock 1 }
               requests := fetched.requests
               result := .error error } := by
  simp [syncEntity, hf, hr]

/-! ## Stored rows -/

theorem Entity.step_hasRow_keep (e : Entity) (schema : Schema) (tid : String) (st : Store)
    (r : Val) (t s : String) (h : e.hasRow st t s) :
    e.hasRow (e.step schema tid st r).store t s := by
  cases e
  · rcases syncCustomerRecord_cases schema tid st r with
      ⟨err, hs⟩ | ⟨sid, f, row, st1, _, _, hu, hs⟩
    · simp only [Entity.step, hs]; exact h
    · show ∃ x ∈ (syncCustomerRecord schema tid st r).store.customers,
        x.tenantId = t ∧ x.shopifyId = s
      rw [hs, (upsertCustomer_ok hu).2]
      refine upsertRows_keeps _ _ _ (fun x : CustomerRow => x.tenantId = t ∧ x.shopifyId = s)
        ?_ _ h
      intro x hx; exact hx
  · rcases syncOrderRecord_cases schema tid st r with
      ⟨err, hs⟩ | ⟨sid, cref, f, row, st1, _, _, _, hu, hs⟩
    · simp only [Entity.step, hs]; exact h
    · show ∃ x ∈ (syncOrderRecord schema tid st r).store.orders,
        x.tenantId = t ∧ x.shopifyId = s
      rw [hs, (syncLineItems_frame schema r row.id st1).2.2.1, (upsertOrder_ok hu).2]
      refine upsertRows_keeps _ _ _ (fun x : OrderRow => x.tenantId = t ∧ x.shopifyId = s)
        ?_ _ h
      intro x hx; exact hx
  · rcases syncProductRecord_cases schema tid st r with
      ⟨err, hs⟩ | ⟨sid, f, row, st1, _, _, hu, hs⟩
    · simp only [Entity.step, hs]; exact h
    · show ∃ x ∈ (syncProductRecord schema tid st r).store.products,
        x.tenantId = t ∧ x.shopifyId = s
      rw [hs, (upsertProduct_ok hu).2]
      refine upsertRows_keeps _ _ _ (fun x : ProductRow => x.tenantId = t ∧ x.shopifyId = s)
        ?_ _ h
      intro x hx; exact hx

theorem Entity.step_hasRow_make (e : Entity) (schema : Schema) (tid : String) (st : Store)
    (r : Val) (h : (e.step schema tid st r).error = none) :
    ∃ sid, externalId r = some sid ∧ e.hasRow (e.step schema tid st r).store tid sid := by
  cases e
  · rcases syncCustomerRecord_cases schema tid st r with
      ⟨err, hs⟩ | ⟨sid, f, row, st1, hid, _, hu, hs⟩
    · simp [Entity.step, hs] at h
    · refine ⟨sid, hid, ?_⟩
      show ∃ x ∈ (syncCustomerRecord schema tid st r).store.customers,
        x.tenantId = tid ∧ x.shopifyId = sid
      rw [hs, (upsertCustomer_ok hu).2]
      refine ⟨_, upsertRows_row_mem _ _ _ _, ?_⟩
      refine upsertRows_row_prop _ _ _
        (fun x : CustomerRow => x.tenantId = tid ∧ x.shopifyId = sid) ?_ ⟨rfl, rfl⟩ _
      intro x hx
      simpa using hx
  · rcases syncOrderRecord_cases schema tid st r with
      ⟨err, hs⟩ | ⟨sid, cref, f, row, st1, hid, _, _, hu, hs⟩
    · simp [Entity.step, hs] at h
    · refine ⟨sid, hid, ?_⟩
      show ∃ x ∈ (syncOrderRecord schema tid st r).store.orders,
        x.tenantId = tid ∧ x.shopifyId = sid
      rw [hs, (syncLineItems_frame schema r row.id st1).2.2.1, (upsertOrder_ok hu).2]
      refine ⟨_, upsertRows_row_mem _ _ _ _, ?_⟩
      refine upsertRows_row_prop _ _ _
        (fun x : OrderRow => x.tenantId = tid ∧ x.shopifyId = sid) ?_ ⟨rfl, rfl⟩ _
      intro x hx
      simpa [Store.applyOrderUpdate] using hx
  · rcases syncProductRecord_cases schema tid st r with
      ⟨err, hs⟩ | ⟨sid, f, row, st1, hid, _, hu, hs⟩
    · simp [Entity.step, hs] at h
    · refine ⟨sid, hid, ?_⟩
      show ∃ x ∈ (syncProductRecord schema tid st r).store.products,
        x.tenantId = tid ∧ x.shopifyId = sid
      rw [hs, (upsertProduct_ok hu).2]
      refine ⟨_, upsertRows_row_mem _ _ _ _, ?_⟩
      refine upsertRows_row_prop _ _ _
        (fun x : ProductRow => x.tenantId = tid ∧ x.shopifyId = sid) ?_ ⟨rfl, rfl⟩ _
      intro x hx
      simpa using hx

theorem Entity.loopStore_hasRow_keep (e : Entity) (schema : Schema) (tid t s : String) :
    ∀ (records : List Val) (st : Store), e.hasRow st t s →
      e.hasRow (loopStore (e.step schema tid) records st) t s := by
  intro records
  induction records with
  | nil => intro st h; exact h
  | cons r rest ih =>
    intro st h
    exact ih _ (Entity.step_hasRow_keep e schema tid st r t s h)

/-- Every record whose `try` block completed has, after the loop, a row under
its key. -/
theorem Entity.loopStore_hasRow (e : Entity) (schema : Schema) (tid : String) :
    ∀ (records : List Val) (st : Store) (i : Nat) (record : Val),
      records[i]? = some record →
      (outcomes (e.step schema tid) records st)[i]? = some none →
      ∃ sid, externalId record = some sid
        ∧ e.hasRow (loopStore (e.step schema tid) records st) tid sid := by
  intro records
  induction records with
  | nil => intro st i record h; simp at h
  | cons r rest ih =>
    intro st i record hi ho
    cases i with
    | zero =>
      simp only [List.getElem?_cons_zero, Option.some.injEq] at hi
      subst hi
      simp only [outcomes, List.getElem?_cons_zero, Option.some.injEq] at ho
      obtain ⟨sid, hid, hrow⟩ := Entity.step_hasRow_make e schema tid st r ho
      exact ⟨sid, hid, Entity.loopStore_hasRow_keep e schema tid tid sid rest _ hrow⟩
    | succ i =>
      simp only [List.getElem?_cons_succ] at hi
      simp only [outcomes, List.getElem?_cons_succ] at ho
      exact ih _ i record hi ho

/-! ## The two shapes of a run -/

/-- A synchroniser whose fetch returned `records`: the run returns the two
tallies of the loop and appends one SyncLog row built from them to the store
the loop left. -/
theorem Entity.sync_of_fetched (e : Entity) (svc : ShopifyService) (api : Api)
    (schema : Schema) (clock : Nat → Nat) (st : Store) (fetched : FetchRun)
    (records : List Val)
    (hfetch : e.fetch svc api = some fetched) (hrecords : fetched.result = .ok records) :
    ∃ run row, e.sync svc api schema clock st = some run
      ∧ run.result = .ok
          { recordsProcessed := successes (e.step schema svc.tenant.id) records st
            recordsFailed := failures (e.step schema svc.tenant.id) records st }
      ∧ run.store.syncLogs = st.syncLogs ++ [row]
      ∧ row.data.tenantId = svc.tenant.id ∧ row.data.entityType = e.name
      ∧ row.data.status
          = (if failures (e.step schema svc.tenant.id) records st = 0 then "success"
             else "partial")
      ∧ row.data.recordsProcessed = successes (e.step schema svc.tenant.id) records st
      ∧ row.data.recordsFailed = failures (e.step schema svc.tenant.id) records st
      ∧ run.store.customers = (loopStore (e.step schema svc.tenant.id) records st).customers
      ∧ run.store.orders = (loopStore (e.step schema svc.tenant.id) records st).orders
      ∧ run.store.lineItems = (loopStore (e.step schema svc.tenant.id) records st).lineItems
      ∧ run.store.products = (loopStore (e.step schema svc.tenant.id) records st).products := by
  obtain ⟨msg, hsync⟩ := Entity.sync_eq e svc api schema clock st
  have hrun := syncEntity_of_fetched e.name msg svc.tenant.id (e.fetch svc api)
    (e.step schema svc.tenant.id) clock st fetched records hfetch hrecords
  rw [← hsync] at hrun
  refine ⟨_,
    { id := (loopStore (e.step schema svc.tenant.id) records st).nextId
      data :=
        { tenantId := svc.tenant.id
          entityType := e.name
          status := if failures (e.step schema svc.tenant.id) records st = 0 then "success"
                    else "partial"
          recordsProcessed := successes (e.step schema svc.tenant.id) records st
          recordsFailed := failures (e.step schema svc.tenant.id) records st
          errorMessage := if failures (e.step schema svc.tenant.id) records st > 0
                          then some msg else none
          completedAt := clock 1 } },
    hrun, rfl, ?_, rfl, rfl, rfl, rfl, rfl, rfl, rfl, rfl, rfl⟩
  simp only [Store.createSyncLog]
  rw [loopStore_preserves (fun s => s.syncLogs) _
    (fun s r => Entity.step_syncLogs e schema svc.tenant.id s r)]

/-- A synchroniser whose fetch threw `error`: the run rethrows it, leaving the
store as it was but for one appended SyncLog row with status `error`. -/
theorem Entity.sync_of_fetch_error (e : Entity) (svc : ShopifyService) (api : Api)
    (schema : Schema) (clock : Nat → Nat) (st : Store) (fetched : FetchRun)
    (error : Js.Error)
    (hfetch : e.fetch svc api = some fetched) (herror : fetched.result = .error error) :
    e.sync svc api schema clock st
      = some { store := st.createSyncLog
                 { tenantId := svc.tenant.id
                   entityType := e.name
                   status := "error"
                   recordsProcessed := 0
                   recordsFailed := 1
                   errorMessage := some error.message
                   completedAt := clock 1 }
               requests := fetched.requests
               result := .error error } := by
  obtain ⟨msg, hsync⟩ := Entity.sync_eq e svc api schema clock st
  rw [hsync]
  exact syncEntity_of_fetch_error e.name msg svc.tenant.id (e.fetch svc api)
    (e.step schema svc.tenant.id) clock st fetched error hfetch herror

end ShopifyService

/-! # Claims about the synchronisers -/

namespace ShopifyService

/-- C5, as stated, fails: of two fetched customers one is malformed (`null`);
the run returns `recordsProcessed = 1`, the number of completed upserts, not
the number `2` of attempts. -/
theorem syncCustomers_counts_completed_upserts_only :
    ∃ run, syncCustomers Sample.service
        (Sample.onePage "customers" [Sample.customerA, Val.null])
        Sample.schema Sample.clock {} = some run
      ∧ run.result = .ok { recordsProcessed := 1, recordsFailed := 1 }
      ∧ run.result ≠ .ok { recordsProcessed := 2, recordsFailed := 1 } := by
  refine ⟨_, rfl, rfl, ?_⟩
  intro h
  have h2 : (Except.ok { recordsProcessed := 1, recordsFailed := 1 } :
      Except Js.Error SyncCounts) = .ok { recordsProcessed := 2, recordsFailed := 1 } := h
  simp at h2

/-- C5, amended. When the fetch returns `N` records of which `M > 0` throw in
the record loop, the synchroniser returns `recordsProcessed = N - M` (the
completed upserts) and `recordsFailed = M`, appends one SyncLog row with
status `partial` carrying the same two counts, and the store holds a row under
the key of every record whose upsert completed. -/
theorem sync_partial_failure_counts (e : Entity) (svc : ShopifyService) (api : Api)
    (schema : Schema) (clock : Nat → Nat) (st : Store) (fetched : FetchRun)
    (records : List Val)
    (hfetch : e.fetch svc api = some fetched) (hrecords : fetched.result = .ok records)
    (hfail : 0 < failures (e.step schema svc.tenant.id) records st) :
    ∃ run row, e.sync svc api schema clock st = some run
      ∧ run.result = .ok
          { recordsProcessed :=
              records.length - failures (e.step schema svc.tenant.id) records st
            recordsFailed := failures (e.step schema svc.tenant.id) records st }
      ∧ run.store.syncLogs = st.syncLogs ++ [row]
      ∧ row.data.status = "partial"
      ∧ row.data.recordsProcessed
          = records.length - failures (e.step schema svc.tenant.id) records st
      ∧ row.data.recordsFailed = failures (e.step schema svc.tenant.id) records st
      ∧ ∀ (i : Nat) (record : Val), records[i]? = some record →
          (outcomes (e.step schema svc.tenant.id) records st)[i]? = some none →
          ∃ sid, externalId record = some sid ∧ e.hasRow run.store svc.tenant.id sid := by
  obtain ⟨run, row, hrun, hres, hlogs, _, _, hstatus, hproc, hfailed, hc, ho, _, hp⟩ :=
    Entity.sync_of_fetched e svc api schema clock st fetched records hfetch hrecords
  have hsum := successes_add_failures (e.step schema svc.tenant.id) records st
  have hsucc : successes (e.step schema svc.tenant.id) records st
      = records.length - failures (e.step schema svc.tenant.id) records st := by omega
  have hne : failures (e.step schema svc.tenant.id) records st ≠ 0 := by omega
  refine ⟨run, row, hrun, ?_, hlogs, ?_, ?_, hfailed, ?_⟩
  · rw [hres, hsucc]
  · rw [hstatus, if_neg hne]
  · rw [hproc, hsucc]
  · intro i record hi hout
    obtain ⟨sid, hid, hrow⟩ :=
      Entity.loopStore_hasRow e schema svc.tenant.id records st i record hi hout
    refine ⟨sid, hid, ?_⟩
    cases e
    · simpa only [Entity.hasRow, hc] using hrow
    · simpa only [Entity.hasRow, ho] using hrow
    · simpa only [Entity.hasRow, hp] using hrow

/-- C5 (amended), evaluated: of three fetched customers the second is `null`;
the run returns 2 processed and 1 failed, logs `partial` with these counts and
stores customers 1 and 2. -/
theorem sync_partial_failure_counts_witness :
    ∃ run row, Entity.customers.sync Sample.service
        (Sample.onePage "customers" [Sample.customerA, Val.null, Sample.customerB])
        Sample.schema Sample.clock {} = some run
      ∧ run.result = .ok { recordsProcessed := 2, recordsFailed := 1 }
      ∧ run.store.syncLogs = [row]
      ∧ row.data.status = "partial"
      ∧ row.data.recordsProcessed = 2 ∧ row.data.recordsFailed = 1
      ∧ Entity.customers.hasRow run.store "tenant-1" "1"
      ∧ Entity.customers.hasRow run.store "tenant-1" "2" := by
  obtain ⟨run, row, h1, h2, h3, h4, h5, h6, h7⟩ :=
    sync_partial_failure_counts Entity.customers Sample.service
      (Sample.onePage "customers" [Sample.customerA, Val.null, Sample.customerB])
      Sample.schema Sample.clock {}
      { requests := [pageRequest Sample.service "/customers.json" 250 [] none]
        result := .ok [Sample.customerA, Val.null, Sample.customerB] }
      [Sample.customerA, Val.null, Sample.customerB] rfl rfl (by decide)
  obtain ⟨sid1, hs1, hr1⟩ := h7 0 Sample.customerA rfl rfl
  obtain ⟨sid2, hs2, hr2⟩ := h7 2 Sample.customerB rfl rfl
  have e1 : sid1 = "1" := by
    have : externalId Sample.customerA = some "1" := rfl
    rw [this] at hs1
    exact (Option.some.inj hs1).symm
  have e2 : sid2 = "2" := by
    have : externalId Sample.customerB = some "2" := rfl
    rw [this] at hs2
    exact (Option.some.inj hs2).symm
  subst e1 e2
  exact ⟨run, row, h1, h2, h3, h4, h5, h6, hr1, hr2⟩

/-- C6. A synchroniser throws if and only if its fetch threw, and logs status
`error` if and only if its fetch threw. When the fetch returned a list, however
many of its records are malformed, the call returns the two tallies; every
fetched record has its outcome in the loop and is counted in one of them, so
the loop went on after each failing record. -/
theorem sync_throws_iff_fetch_threw (e : Entity) (svc : ShopifyService) (api : Api)
    (schema : Schema) (clock : Nat → Nat) (st : Store) :
    ∃ fetched run row, e.fetch svc api = some fetched
      ∧ e.sync svc api schema clock st = some run
      ∧ run.store.syncLogs = st.syncLogs ++ [row]
      ∧ ((∃ error, run.result = .error error) ↔ (∃ error, fetched.result = .error error))
      ∧ (row.data.status = "error" ↔ (∃ error, fetched.result = .error error))
      ∧ ∀ records, fetched.result = .ok records →
          run.result = .ok
            { recordsProcessed := successes (e.step schema svc.tenant.id) records st
              recordsFailed := failures (e.step schema svc.tenant.id) records st }
          ∧ (outcomes (e.step schema svc.tenant.id) records st).length = records.length
          ∧ successes (e.step schema svc.tenant.id) records st
              + failures (e.step schema svc.tenant.id) records st = records.length := by
  obtain ⟨fetched, hfetch⟩ := Entity.fetch_total e svc api
  rcases hres : fetched.result with error | records
  · have hrun := Entity.sync_of_fetch_error e svc api schema clock st fetched error hfetch hres
    refine ⟨fetched, _, _, hfetch, hrun, rfl, ?_, ?_, ?_⟩
    · exact ⟨fun _ => ⟨error, hres⟩, fun _ => ⟨error, rfl⟩⟩
    · exact ⟨fun _ => ⟨error, hres⟩, fun _ => rfl⟩
    · intro records h; rw [hres] at h; cases h
  · obtain ⟨run, row, hrun, hresult, hlogs, _, _, hstatus, _⟩ :=
      Entity.sync_of_fetched e svc api schema clock st fetched records hfetch hres
    refine ⟨fetched, run, row, hfetch, hrun, hlogs, ?_, ?_, ?_⟩
    · rw [hresult, hres]
      constructor <;> rintro ⟨_, h⟩ <;> cases h
    · rw [hstatus, hres]
      constructor
      · intro h; split at h <;> simp at h
      · rintro ⟨_, h⟩; cases h
    · intro records2 h
      rw [hres] at h
      cases h
      exact ⟨hresult, outcomes_length _ _ _, successes_add_failures _ _ _⟩

/-- C6, evaluated: a fetched list of three customers of which the first is
`null` and the second has no id does not make `syncCustomers` throw; it
returns 1 processed and 2 failed and logs `partial`. -/
theorem sync_throws_iff_fetch_threw_witness :
    ∃ run row, Entity.customers.sync Sample.service
        (Sample.onePage "customers" [Val.null, Sample.customerNoId, Sample.customerA])
        Sample.schema Sample.clock {} = some run
      ∧ run.result = .ok { recordsProcessed := 1, recordsFailed := 2 }
      ∧ run.store.syncLogs = [row] ∧ row.data.status ≠ "error" := by
  obtain ⟨fetched, run, row, hfetch, hrun, hlogs, _, hstatus, hreturns⟩ :=
    sync_throws_iff_fetch_threw Entity.customers Sample.service
      (Sample.onePage "customers" [Val.null, Sample.customerNoId, Sample.customerA])
      Sample.schema Sample.clock {}
  have hf : Entity.customers.fetch Sample.service
      (Sample.onePage "customers" [Val.null, Sample.customerNoId, Sample.customerA])
      = some { requests := [pageRequest Sample.service "/customers.json" 250 [] none]
               result := .ok [Val.null, Sample.customerNoId, Sample.customerA] } := rfl
  rw [hf, Option.some.injEq] at hfetch
  subst hfetch
  refine ⟨run, row, hrun, (hreturns _ rfl).1, hlogs, ?_⟩
  intro h
  obtain ⟨error, herr⟩ := hstatus.1 h
  cases herr

/-- C7, as stated, fails: when the only fetched customer is malformed, no
record succeeded, and the SyncLog status is `partial` all the same. -/
theorem syncCustomers_logs_partial_when_all_fail :
    ∃ run row, syncCustomers Sample.service (Sample.onePage "customers" [Val.null])
        Sample.schema Sample.clock {} = some run
      ∧ run.result = .ok { recordsProcessed := 0, recordsFailed := 1 }
      ∧ run.store.syncLogs = [row] ∧ row.data.status = "partial" :=
  ⟨_, _, rfl, rfl, rfl, rfl⟩

/-- C7, amended. When the fetch succeeds, the SyncLog status written by a
synchroniser is `success` if and only if no record failed, and `partial` if and
only if at least one record failed, whether or not any record succeeded. -/
theorem sync_log_status (e : Entity) (svc : ShopifyService) (api : Api)
    (schema : Schema) (clock : Nat → Nat) (st : Store) (fetched : FetchRun)
    (records : List Val)
    (hfetch : e.fetch svc api = some fetched) (hrecords : fetched.result = .ok records) :
    ∃ run row, e.sync svc api schema clock st = some run
      ∧ run.store.syncLogs = st.syncLogs ++ [row]
      ∧ (row.data.status = "success"
          ↔ failures (e.step schema svc.tenant.id) records st = 0)
      ∧ (row.data.status = "partial"
          ↔ 0 < failures (e.step schema svc.tenant.id) records st) := by
  obtain ⟨run, row, hrun, _, hlogs, _, _, hstatus, _⟩ :=
    Entity.sync_of_fetched e svc api schema clock st fetched records hfetch hrecords
  refine ⟨run, row, hrun, hlogs, ?_, ?_⟩
  · rw [hstatus]
    by_cases h : failures (e.step schema svc.tenant.id) records st = 0
    · simp [h]
    · simp [h]
  · rw [hstatus]
    by_cases h : failures (e.step schema svc.tenant.id) records st = 0
    · simp [h]
    · simp [h]; omega

/-- C7 (amended), evaluated: two well-formed products give status `success`. -/
theorem sync_log_status_witness :
    ∃ run row, Entity.products.sync Sample.service
        (Sample.onePage "products" [Sample.productA, Sample.productA])
        Sample.schema Sample.clock {} = some run
      ∧ run.store.syncLogs = [row] ∧ row.data.status = "success" := by
  obtain ⟨run, row, hrun, hlogs, hsuccess, _⟩ :=
    sync_log_status Entity.products Sample.service
      (Sample.onePage "products" [Sample.productA, Sample.productA])
      Sample.schema Sample.clock {}
      { requests := [pageRequest Sample.service "/products.json" 250 [] none]
        result := .ok [Sample.productA, Sample.productA] }
      [Sample.productA, Sample.productA] rfl rfl
  exact ⟨run, row, hrun, hlogs, hsuccess.2 (by decide)⟩

/-- C8. Every invocation of a synchroniser appends exactly one SyncLog row, for
its tenant and its entity type, and leaves the rows already in the ledger as
they were: the ledger after the call is the ledger before it plus that row.
This holds whether the fetch fails or returns, with or without failing
records. -/
theorem sync_appends_one_log_row (e : Entity) (svc : ShopifyService) (api : Api)
    (schema : Schema) (clock : Nat → Nat) (st : Store) :
    ∃ run row, e.sync svc api schema clock st = some run
      ∧ run.store.syncLogs = st.syncLogs ++ [row]
      ∧ row.data.tenantId = svc.tenant.id ∧ row.data.entityType = e.name := by
  obtain ⟨fetched, hfetch⟩ := Entity.fetch_total e svc api
  rcases hres : fetched.result with error | records
  · exact ⟨_, _, Entity.sync_of_fetch_error e svc api schema clock st fetched error hfetch hres,
      rfl, rfl, rfl⟩
  · obtain ⟨run, row, hrun, _, hlogs, ht, hn, _⟩ :=
      Entity.sync_of_fetched e svc api schema clock st fetched records hfetch hres
    exact ⟨run, row, hrun, hlogs, ht, hn⟩

/-- C9. When the fetch of a synchroniser throws `error`, the synchroniser
leaves the Customer, Order, OrderLineItem and Product tables as they were,
appends one SyncLog row with status `error`, `recordsProcessed = 0`,
`recordsFailed = 1` and the message of `error`, and rethrows `error`. -/
theorem sync_fetch_error_logged_and_rethrown (e : Entity) (svc : ShopifyService) (api : Api)
    (schema : Schema) (clock : Nat → Nat) (st : Store) (fetched : FetchRun)
    (error : Js.Error)
    (hfetch : e.fetch svc api = some fetched) (herror : fetched.result = .error error) :
    ∃ run, e.sync svc api schema clock st = some run
      ∧ run.result = .error error
      ∧ run.store.customers = st.customers ∧ run.store.orders = st.orders
      ∧ run.store.lineItems = st.lineItems ∧ run.store.products = st.products
      ∧ run.store.syncLogs = st.syncLogs ++
          [{ id := st.nextId
             data := { tenantId := svc.tenant.id
                       entityType := e.name
                       status := "error"
                       recordsProcessed := 0
                       recordsFailed := 1
                       errorMessage := some error.message
                       completedAt := clock 1 } }] :=
  ⟨_, Entity.sync_of_fetch_error e svc api schema clock st fetched error hfetch herror,
    rfl, rfl, rfl, rfl, rfl, rfl⟩

/-- C9, evaluated: against an API that rejects every request, `syncOrders`
rethrows the fetch error and logs it, writing nothing else. -/
theorem sync_fetch_error_logged_and_rethrown_witness :
    ∃ run, Entity.orders.sync Sample.service Sample.downApi Sample.schema Sample.clock {}
        = some run
      ∧ run.result = .error (Js.newError "Failed to fetch /orders.json: Invalid API key")
      ∧ run.store.customers = [] ∧ run.store.orders = []
      ∧ run.store.lineItems = [] ∧ run.store.products = []
      ∧ run.store.syncLogs =
          [{ id := 0
             data := { tenantId := "tenant-1"
                       entityType := "orders"
                       status := "error"
                       recordsProcessed := 0
                       recordsFailed := 1
                       errorMessage := some "Failed to fetch /orders.json: Invalid API key"
                       completedAt := 1001 } }] :=
  sync_fetch_error_logged_and_rethrown Entity.orders Sample.service Sample.downApi
    Sample.schema Sample.clock {}
    { requests := [pageRequest Sample.service "/orders.json" 250
        [("status", Val.str "any")] none]
      result := .error (Js.newError "Failed to fetch /orders.json: Invalid API key") }
    (Js.newError "Failed to fetch /orders.json: Invalid API key") rfl rfl

end ShopifyService

/-! # Idempotence of a run of upserts on a keyed table -/

namespace ShopifyService

section KeyedTable

set_option linter.unusedSectionVars false

variable {ρ κ δ : Type} [DecidableEq κ] (key : ρ → κ) (upd : ρ → δ → ρ)
  (mk : Nat → κ → δ → ρ)

theorem find_mapFirst (f : ρ → ρ) (hf : ∀ r, key (f r) = key r) (k k1 : κ) :
    ∀ rows : List ρ,
      (mapFirst (fun r => decide (key r = k)) f rows).find? (fun r => decide (key r = k1))
        = if k1 = k then (rows.find? (fun r => decide (key r = k))).map f
          else rows.find? (fun r => decide (key r = k1)) := by
  intro rows
  induction rows with
  | nil => simp [mapFirst]
  | cons x xs ih =>
    by_cases hx : key x = k
    · have hm : mapFirst (fun r => decide (key r = k)) f (x :: xs) = f x :: xs := by
        simp [mapFirst, hx]
      rw [hm]
      by_cases hk : k1 = k
      · subst hk
        rw [List.find?_cons_of_pos _ (by simp [hf, hx]), if_pos rfl,
          List.find?_cons_of_pos _ (by simp [hx])]
        rfl
      · have hx1 : ¬ key x = k1 := fun h => hk (h.symm.trans hx)
        rw [List.find?_cons_of_neg _ (by simp [hf, hx1]), if_neg hk,
          List.find?_cons_of_neg _ (by simp [hx1])]
    · have hm : mapFirst (fun r => decide (key r = k)) f (x :: xs)
          = x :: mapFirst (fun r => decide (key r = k)) f xs := by
        simp [mapFirst, hx]
      rw [hm]
      by_cases hx1 : key x = k1
      · have hk : ¬ k1 = k := fun h => hx (hx1.trans h)
        rw [List.find?_cons_of_pos _ (by simp [hx1]), if_neg hk,
          List.find?_cons_of_pos _ (by simp [hx1])]
      · rw [List.find?_cons_of_neg _ (by simp [hx1]), ih]
        by_cases hk : k1 = k
        · rw [if_pos hk, if_pos hk, List.find?_cons_of_neg _ (by simp [hx])]
        · rw [if_neg hk, if_neg hk, List.find?_cons_of_neg _ (by simp [hx1])]

theorem tableUpsert_eq (op : κ × δ) (rows : List ρ) (n : Nat) :
    tableUpsert key upd mk op (rows, n)
      = if (rows.find? (fun r => decide (key r = op.1))).isSome then
          (mapFirst (fun r => decide (key r = op.1)) (fun r => upd r op.2) rows, n)
        else (rows ++ [mk n op.1 op.2], n + 1) := by
  unfold tableUpsert upsertRows
  cases h : rows.find? (fun r => decide (key r = op.1)) with
  | none => simp
  | some row => simp [replaceFirst_eq_mapFirst _ (fun r => upd r op.2) rows row h]

theorem find_tableUpsert (laws : TableLaws key upd mk) (op : κ × δ) (rows : List ρ) (n : Nat)
    (k1 : κ) :
    (tableUpsert key upd mk op (rows, n)).1.find? (fun r => decide (key r = k1))
      = if k1 = op.1 then
          some (match rows.find? (fun r => decide (key r = op.1)) with
            | some r => upd r op.2
            | none => mk n op.1 op.2)
        else rows.find? (fun r => decide (key r = k1)) := by
  rw [tableUpsert_eq]
  cases h : rows.find? (fun r => decide (key r = op.1)) with
  | some row =>
    simp only [Option.isSome_some, if_true]
    rw [find_mapFirst key (fun r => upd r op.2) (fun r => laws.key_upd r op.2), h]
    rfl
  | none =>
    simp only [Option.isSome_none, Bool.false_eq_true, if_false, List.find?_append]
    by_cases hk : k1 = op.1
    · subst hk
      simp [h, List.find?, laws.key_mk]
    · have hne : ¬ key (mk n op.1 op.2) = k1 := by
        rw [laws.key_mk]; exact fun h => hk h.symm
      simp [hk, List.find?, hne]

theorem dataFor_cons (k : κ) (op : κ × δ) (ops : List (κ × δ)) :
    dataFor k (op :: ops) = if op.1 = k then op.2 :: dataFor k ops else dataFor k ops := by
  by_cases h : op.1 = k <;> simp [dataFor, List.filter, h]

theorem tableRun_cons (op : κ × δ) (ops : List (κ × δ)) (t : List ρ × Nat) :
    tableRun key upd mk (op :: ops) t
      = tableRun key upd mk ops (tableUpsert key upd mk op t) := rfl

/-- The row found under a key after a run, when the key was present before:
the row found before, updated with the data the run writes under the key. -/
theorem find_tableRun_of_some (laws : TableLaws key upd mk) (k : κ) :
    ∀ (ops : List (κ × δ)) (rows : List ρ) (n : Nat) (r : ρ),
      rows.find? (fun x => decide (key x = k)) = some r →
      (tableRun key upd mk ops (rows, n)).1.find? (fun x => decide (key x = k))
        = some ((dataFor k ops).foldl upd r) := by
  intro ops
  induction ops with
  | nil => intro rows n r h; simpa [tableRun, dataFor] using h
  | cons op ops ih =>
    intro rows n r h
    rw [tableRun_cons, dataFor_cons]
    have hfind := find_tableUpsert key upd mk laws op rows n k
    by_cases hk : op.1 = k
    · have hk2 : k = op.1 := hk.symm
      rw [if_pos hk2, ← hk2, h] at hfind
      rw [if_pos hk]
      exact ih _ _ _ hfind
    · have hk2 : ¬ k = op.1 := fun h => hk h.symm
      rw [if_neg hk2, h] at hfind
      rw [if_neg hk]
      exact ih _ _ _ hfind

/-- The row found under a key after a run, when the key was absent before and
the run writes `d`, then `ds`, under it: a new row made from `d`, updated with
`ds`. -/
theorem find_tableRun_of_none (laws : TableLaws key upd mk) (k : κ) :
    ∀ (ops : List (κ × δ)) (rows : List ρ) (n : Nat) (d : δ) (ds : List δ),
      rows.find? (fun x => decide (key x = k)) = none → dataFor k ops = d :: ds →
      ∃ i, (tableRun key upd mk ops (rows, n)).1.find? (fun x => decide (key x = k))
        = some (ds.foldl upd (mk i k d)) := by
  intro ops
  induction ops with
  | nil => intro rows n d ds _ h; simp [dataFor] at h
  | cons op ops ih =>
    intro rows n d ds h hd
    rw [tableRun_cons]
    have hfind := find_tableUpsert key upd mk laws op rows n k
    rw [dataFor_cons] at hd
    by_cases hk : op.1 = k
    · have hk2 : k = op.1 := hk.symm
      rw [if_pos hk] at hd
      rw [if_pos hk2, ← hk2, h] at hfind
      simp only [List.cons.injEq] at hd
      have hrun := find_tableRun_of_some key upd mk laws k ops
        (tableUpsert key upd mk op (rows, n)).1 (tableUpsert key upd mk op (rows, n)).2 _ hfind
      refine ⟨n, ?_⟩
      rw [← hd.2, ← hd.1]
      exact hrun
    · have hk2 : ¬ k = op.1 := fun h => hk h.symm
      rw [if_neg hk] at hd
      rw [if_neg hk2, h] at hfind
      exact ih _ _ d ds hfind hd

theorem foldl_upd_eq (laws : TableLaws key upd mk) :
    ∀ (ds : List δ) (d : δ), ∃ c, ∀ r, (d :: ds).foldl upd r = upd r c := by
  intro ds
  induction ds with
  | nil => intro d; exact ⟨d, fun r => rfl⟩
  | cons e es ih =>
    intro d
    obtain ⟨c, hc⟩ := laws.upd_upd d e
    obtain ⟨c2, hc2⟩ := ih c
    refine ⟨c2, fun r => ?_⟩
    have := hc2 r
    simp only [List.foldl_cons] at this ⊢
    rw [hc r]
    exact this

/-- Writing the same data again changes nothing. -/
theorem foldl_upd_twice (laws : TableLaws key upd mk) (ds : List δ) (r : ρ) :
    ds.foldl upd (ds.foldl upd r) = ds.foldl upd r := by
  cases ds with
  | nil => rfl
  | cons d ds =>
    obtain ⟨c, hc⟩ := foldl_upd_eq key upd mk laws ds d
    rw [hc r, hc (upd r c), laws.upd_idem]

/-- After a run, every row found under a key absorbs the data the run writes
under that key. -/
theorem tableRun_fixed (laws : TableLaws key upd mk) (ops : List (κ × δ)) (rows : List ρ)
    (n : Nat) (k : κ) (row : ρ)
    (h : (tableRun key upd mk ops (rows, n)).1.find? (fun x => decide (key x = k)) = some row) :
    (dataFor k ops).foldl upd row = row := by
  cases h0 : rows.find? (fun x => decide (key x = k)) with
  | some r =>
    rw [find_tableRun_of_some key upd mk laws k ops rows n r h0, Option.some.injEq] at h
    rw [← h]
    exact foldl_upd_twice key upd mk laws _ r
  | none =>
    cases hd : dataFor k ops with
    | nil => rfl
    | cons d ds =>
      obtain ⟨i, hi⟩ := find_tableRun_of_none key upd mk laws k ops rows n d ds h0 hd
      rw [hi, Option.some.injEq] at h
      have hrow : row = (d :: ds).foldl upd (mk i k d) := by
        rw [← h, List.foldl_cons, laws.upd_mk]
      rw [hrow]
      exact foldl_upd_twice key upd mk laws _ _

theorem tableModify_nil (ops : List (κ × δ)) : tableModify key upd ops [] = [] := by
  induction ops with
  | nil => rfl
  | cons op ops ih => simpa [tableModify, mapFirst] using ih

theorem tableModify_cons_ops (op : κ × δ) (ops : List (κ × δ)) (rows : List ρ) :
    tableModify key upd (op :: ops) rows
      = tableModify key upd ops
          (mapFirst (fun r => decide (key r = op.1)) (fun r => upd r op.2) rows) := rfl

theorem dataFor_filter_ne (k k0 : κ) (ops : List (κ × δ)) :
    dataFor k (ops.filter (fun op => !decide (op.1 = k0)))
      = if k = k0 then [] else dataFor k ops := by
  induction ops with
  | nil => simp [dataFor]
  | cons op ops ih =>
    by_cases h0 : op.1 = k0
    · have hf : (op :: ops).filter (fun op => !decide (op.1 = k0))
          = ops.filter (fun op => !decide (op.1 = k0)) := by simp [List.filter, h0]
      rw [hf, ih, dataFor_cons]
      by_cases hk : k = k0
      · simp [hk]
      · have : ¬ op.1 = k := fun h => hk (h.symm.trans h0)
        simp [hk, this]
    · have hf : (op :: ops).filter (fun op => !decide (op.1 = k0))
          = op :: ops.filter (fun op => !decide (op.1 = k0)) := by simp [List.filter, h0]
      rw [hf, dataFor_cons, ih, dataFor_cons]
      by_cases hk : k = k0
      · subst hk
        simp [h0]
      · simp [hk]

/-- A run of updates, seen from the head of the table: the head row takes the
data written under its key, and the rest of the table sees the other writes. -/
theorem tableModify_cons (laws : TableLaws key upd mk) :
    ∀ (ops : List (κ × δ)) (row : ρ) (rows : List ρ),
      tableModify key upd ops (row :: rows)
        = (dataFor (key row) ops).foldl upd row
          :: tableModify key upd (ops.filter (fun op => !decide (op.1 = key row))) rows := by
  intro ops
  induction ops with
  | nil => intro row rows; simp [tableModify, dataFor]
  | cons op ops ih =>
    intro row rows
    rw [tableModify_cons_ops, dataFor_cons]
    by_cases h : key row = op.1
    · have hm : mapFirst (fun r => decide (key r = op.1)) (fun r => upd r op.2) (row :: rows)
          = upd row op.2 :: rows := by simp [mapFirst, h]
      have hf : (op :: ops).filter (fun o => !decide (o.1 = key row))
          = ops.filter (fun o => !decide (o.1 = key row)) := by simp [List.filter, h]
      rw [hm, ih, laws.key_upd, hf, if_pos h.symm]
      rfl
    · have hm : mapFirst (fun r => decide (key r = op.1)) (fun r => upd r op.2) (row :: rows)
          = row :: mapFirst (fun r => decide (key r = op.1)) (fun r => upd r op.2) rows := by
        simp [mapFirst, h]
      have h2 : ¬ op.1 = key row := fun e => h e.symm
      have hf : (op :: ops).filter (fun o => !decide (o.1 = key row))
          = op :: ops.filter (fun o => !decide (o.1 = key row)) := by simp [List.filter, h2]
      rw [hm, ih, hf, if_neg h2, tableModify_cons_ops]

/-- A run of updates leaves a table as it is when every row found under a key
already absorbs the data written under that key. -/
theorem tableModify_fixed (laws : TableLaws key upd mk) :
    ∀ (rows : List ρ) (ops : List (κ × δ)),
      (∀ k row, rows.find? (fun x => decide (key x = k)) = some row →
        (dataFor k ops).foldl upd row = row) →
      tableModify key upd ops rows = rows := by
  intro rows
  induction rows with
  | nil => intro ops _; exact tableModify_nil key upd ops
  | cons row rows ih =>
    intro ops h
    rw [tableModify_cons key upd mk laws]
    have hhead := h (key row) row (List.find?_cons_of_pos _ (by simp))
    rw [hhead, ih]
    intro k r hr
    rw [dataFor_filter_ne]
    by_cases hk : k = key row
    · simp [hk]
    · rw [if_neg hk]
      apply h k r
      rw [List.find?_cons_of_neg _ (by simpa using fun e : key row = k => hk e.symm)]
      exact hr

theorem tableRun_eq_modify (laws : TableLaws key upd mk) :
    ∀ (ops : List (κ × δ)) (rows : List ρ) (n : Nat),
      (∀ op ∈ ops, (rows.find? (fun x => decide (key x = op.1))).isSome = true) →
      tableRun key upd mk ops (rows, n) = (tableModify key upd ops rows, n) := by
  intro ops
  induction ops with
  | nil => intro rows n _; rfl
  | cons op ops ih =>
    intro rows n h
    rw [tableRun_cons, tableUpsert_eq, if_pos (h op (by simp)), tableModify_cons_ops]
    apply ih
    intro op1 hop1
    rw [find_mapFirst key (fun r => upd r op.2) (fun r => laws.key_upd r op.2)]
    by_cases hk : op1.1 = op.1
    · rw [if_pos hk]
      simpa using h op (by simp)
    · rw [if_neg hk]
      exact h op1 (by simp [hop1])

theorem dataFor_ne_nil (op : κ × δ) (ops : List (κ × δ)) (h : op ∈ ops) :
    dataFor op.1 ops ≠ [] := by
  induction ops with
  | nil => simp at h
  | cons o os ih =>
    rw [dataFor_cons]
    by_cases ho : o.1 = op.1
    · simp [ho]
    · rw [if_neg ho]
      rcases List.mem_cons.1 h with rfl | hmem
      · exact absurd rfl ho
      · exact ih hmem

theorem tableRun_has_keys (laws : TableLaws key upd mk) (ops : List (κ × δ)) (rows : List ρ)
    (n : Nat) (op : κ × δ) (h : op ∈ ops) :
    ((tableRun key upd mk ops (rows, n)).1.find? (fun x => decide (key x = op.1))).isSome
      = true := by
  cases h0 : rows.find? (fun x => decide (key x = op.1)) with
  | some r => rw [find_tableRun_of_some key upd mk laws op.1 ops rows n r h0]; rfl
  | none =>
    cases hd : dataFor op.1 ops with
    | nil => exact absurd hd (dataFor_ne_nil op ops h)
    | cons d ds =>
      obtain ⟨i, hi⟩ := find_tableRun_of_none key upd mk laws op.1 ops rows n d ds h0 hd
      rw [hi]; rfl

/-- Idempotence of a run of upserts: run again on the table it produced, with
any id counter, it leaves that table and the counter as they are. -/
theorem tableRun_idem (laws : TableLaws key upd mk) (ops : List (κ × δ)) (rows : List ρ)
    (n n1 : Nat) :
    tableRun key upd mk ops ((tableRun key upd mk ops (rows, n)).1, n1)
      = ((tableRun key upd mk ops (rows, n)).1, n1) := by
  rw [tableRun_eq_modify key upd mk laws ops _ n1
    (fun op hop => tableRun_has_keys key upd mk laws ops rows n op hop)]
  rw [tableModify_fixed key upd mk laws _ ops
    (fun k row h => tableRun_fixed key upd mk laws ops rows n k row h)]

theorem tableUpsert_fst_indep (hmk : ∀ i j k d, mk i k d = mk j k d) (op : κ × δ)
    (rows : List ρ) (n m : Nat) :
    (tableUpsert key upd mk op (rows, n)).1 = (tableUpsert key upd mk op (rows, m)).1 := by
  rw [tableUpsert_eq, tableUpsert_eq]
  split
  · rfl
  · simp only [hmk n m]

theorem tableRun_fst_indep (hmk : ∀ i j k d, mk i k d = mk j k d) :
    ∀ (ops : List (κ × δ)) (rows : List ρ) (n m : Nat),
      (tableRun key upd mk ops (rows, n)).1 = (tableRun key upd mk ops (rows, m)).1 := by
  intro ops
  induction ops with
  | nil => intro rows n m; rfl
  | cons op ops ih =>
    intro rows n m
    rw [tableRun_cons, tableRun_cons]
    have h1 : tableUpsert key upd mk op (rows, n)
        = ((tableUpsert key upd mk op (rows, n)).1, (tableUpsert key upd mk op (rows, n)).2) :=
      rfl
    have h2 : tableUpsert key upd mk op (rows, m)
        = ((tableUpsert key upd mk op (rows, n)).1, (tableUpsert key upd mk op (rows, m)).2) := by
      rw [tableUpsert_fst_indep key upd mk hmk op rows n m]
    rw [h1, h2]
    exact ih _ _ _

theorem tableModify_congr {ε : Type} (e : δ → ε)
    (hupd : ∀ r a b, e a = e b → upd r a = upd r b) :
    ∀ (ops1 ops2 : List (κ × δ)),
      ops1.map (fun op => (op.1, e op.2)) = ops2.map (fun op => (op.1, e op.2)) →
      ∀ rows, tableModify key upd ops1 rows = tableModify key upd ops2 rows := by
  intro ops1
  induction ops1 with
  | nil =>
    intro ops2 h rows
    cases ops2 with
    | nil => rfl
    | cons o os => simp at h
  | cons op ops ih =>
    intro ops2 h rows
    cases ops2 with
    | nil => simp at h
    | cons o os =>
      simp only [List.map_cons, List.cons.injEq, Prod.mk.injEq] at h
      obtain ⟨⟨hk, he⟩, hrest⟩ := h
      rw [tableModify_cons_ops, tableModify_cons_ops]
      have hf : (fun r => upd r op.2) = (fun r => upd r o.2) :=
        funext (fun r => hupd r _ _ he)
      rw [hk, hf]
      exact ih os hrest _

/-- Idempotence of a run of upserts, for a second run that writes the same
keys and the same data up to what updates ignore. -/
theorem tableRun_idem_congr {ε : Type} (laws : TableLaws key upd mk) (e : δ → ε)
    (hupd : ∀ r a b, e a = e b → upd r a = upd r b) (ops1 ops2 : List (κ × δ))
    (h : ops1.map (fun op => (op.1, e op.2)) = ops2.map (fun op => (op.1, e op.2)))
    (rows : List ρ) (n n1 : Nat) :
    tableRun key upd mk ops2 ((tableRun key upd mk ops1 (rows, n)).1, n1)
      = ((tableRun key upd mk ops1 (rows, n)).1, n1) := by
  have hkeys : ∀ op ∈ ops2,
      ((tableRun key upd mk ops1 (rows, n)).1.find? (fun x => decide (key x = op.1))).isSome
        = true := by
    intro op hop
    have hmem : (op.1, e op.2) ∈ ops1.map (fun op => (op.1, e op.2)) := by
      rw [h]; exact List.mem_map.2 ⟨op, hop, rfl⟩
    obtain ⟨op1, hop1, heq⟩ := List.mem_map.1 hmem
    simp only [Prod.mk.injEq] at heq
    rw [← heq.1]
    exact tableRun_has_keys key upd mk laws ops1 rows n op1 hop1
  rw [tableRun_eq_modify key upd mk laws ops2 _ n1 hkeys,
    ← tableModify_congr key upd e hupd ops1 ops2 h,
    tableModify_fixed key upd mk laws _ ops1
      (fun k row hf => tableRun_fixed key upd mk laws ops1 rows n k row hf)]

end KeyedTable

end ShopifyService

/-! # Idempotence of the customer and product synchronisers -/

namespace ShopifyService

theorem customerLaws : TableLaws customerKey customerUpd customerMk where
  key_upd := fun _ _ => rfl
  key_mk := fun _ _ _ => rfl
  upd_upd := fun _ b => ⟨b, fun _ => rfl⟩
  upd_idem := fun _ _ => rfl
  upd_mk := fun _ _ _ => rfl

theorem productLaws : TableLaws productKey productUpd productMk where
  key_upd := fun _ _ => rfl
  key_mk := fun _ _ _ => rfl
  upd_upd := fun _ b => ⟨b, fun _ => rfl⟩
  upd_idem := fun _ _ => rfl
  upd_mk := fun _ _ _ => rfl

theorem customerKey_pred (tid sid : String) :
    (fun r : CustomerRow => decide (r.tenantId = tid) && decide (r.shopifyId = sid))
      = (fun r => decide (customerKey r = (tid, sid))) := by
  funext r
  simp [customerKey, Prod.ext_iff, Bool.decide_and]

theorem productKey_pred (tid sid : String) :
    (fun r : ProductRow => decide (r.tenantId = tid) && decide (r.shopifyId = sid))
      = (fun r => decide (productKey r = (tid, sid))) := by
  funext r
  simp [productKey, Prod.ext_iff, Bool.decide_and]

theorem customerWrite_some {schema : Schema} {tid : String} {r : Val}
    {op : (String × String) × CustomerData} (h : customerWrite schema tid r = some op) :
    ∃ idv, Js.getProp r "id" = .ok idv ∧ Js.callToString idv = .ok op.1.2
      ∧ customerFields r = .ok op.2 ∧ schema.acceptsCustomer tid op.1.2 op.2 = true
      ∧ op.1.1 = tid := by
  unfold customerWrite externalId at h
  rcases h1 : Js.getProp r "id" with e | idv
  · simp [h1] at h
  · rcases h2 : Js.callToString idv with e | sid
    · simp [h1, h2] at h
    · rcases h3 : customerFields r with e | fields
      · simp [h1, h2, h3] at h
      · by_cases h4 : schema.acceptsCustomer tid sid fields = true
        · simp [h1, h2, h3, h4] at h
          subst h
          exact ⟨idv, rfl, h2, rfl, h4, rfl⟩
        · simp [h1, h2, h3, h4] at h

theorem customerWrite_none {schema : Schema} {tid : String} {r : Val}
    (h : customerWrite schema tid r = none) (st : Store) :
    ∃ e, syncCustomerRecord schema tid st r = { store := st, error := some e } := by
  rcases syncCustomerRecord_cases schema tid st r with ⟨e, he⟩ | ⟨sid, f, row, st1, h1, h2, h3, _⟩
  · exact ⟨e, he⟩
  · exfalso
    have hacc : schema.acceptsCustomer tid sid f = true := by
      unfold Store.upsertCustomer at h3
      split at h3
      · rename_i hc
        simp only [Bool.and_self] at hc
        exact hc
      · cases h3
    simp [customerWrite, h1, h2, hacc] at h

/-- The body of the customer loop on a record with a write: the write is
upserted and the body completes, at every store. -/
theorem syncCustomerRecord_write {schema : Schema} {tid : String} {r : Val}
    {op : (String × String) × CustomerData} (h : customerWrite schema tid r = some op)
    (st : Store) :
    syncCustomerRecord schema tid st r
      = { store := { st with
            customers := (tableUpsert customerKey customerUpd customerMk op
              (st.customers, st.nextId)).1
            nextId := (tableUpsert customerKey customerUpd customerMk op
              (st.customers, st.nextId)).2 }
          error := none } := by
  obtain ⟨idv, h1, h2, h3, h4, h5⟩ := customerWrite_some h
  obtain ⟨⟨t, sid⟩, fields⟩ := op
  simp only at h2 h3 h4 h5
  subst h5
  simp only [syncCustomerRecord, h1, h2, h3, bind, Except.bind, pure, Except.pure,
    Store.upsertCustomer, h4, Bool.and_self, if_true, tableUpsert, customerKey_pred]
  rfl

theorem productWrite_some {schema : Schema} {tid : String} {r : Val}
    {op : (String × String) × ProductData} (h : productWrite schema tid r = some op) :
    ∃ idv, Js.getProp r "id" = .ok idv ∧ Js.callToString idv = .ok op.1.2
      ∧ productFields r = .ok op.2 ∧ schema.acceptsProduct tid op.1.2 op.2 = true
      ∧ op.1.1 = tid := by
  unfold productWrite externalId at h
  rcases h1 : Js.getProp r "id" with e | idv
  · simp [h1] at h
  · rcases h2 : Js.callToString idv with e | sid
    · simp [h1, h2] at h
    · rcases h3 : productFields r with e | fields
      · simp [h1, h2, h3] at h
      · by_cases h4 : schema.acceptsProduct tid sid fields = true
        · simp [h1, h2, h3, h4] at h
          subst h
          exact ⟨idv, rfl, h2, rfl, h4, rfl⟩
        · simp [h1, h2, h3, h4] at h

theorem productWrite_none {schema : Schema} {tid : String} {r : Val}
    (h : productWrite schema tid r = none) (st : Store) :
    ∃ e, syncProductRecord schema tid st r = { store := st, error := some e } := by
  rcases syncProductRecord_cases schema tid st r with ⟨e, he⟩ | ⟨sid, f, row, st1, h1, h2, h3, _⟩
  · exact ⟨e, he⟩
  · exfalso
    have hacc : schema.acceptsProduct tid sid f = true := by
      unfold Store.upsertProduct at h3
      split at h3
      · rename_i hc
        simp only [Bool.and_self] at hc
        exact hc
      · cases h3
    simp [productWrite, h1, h2, hacc] at h

/-- The body of the product loop on a record with a write. -/
theorem syncProductRecord_write {schema : Schema} {tid : String} {r : Val}
    {op : (String × String) × ProductData} (h : productWrite schema tid r = some op)
    (st : Store) :
    syncProductRecord schema tid st r
      = { store := { st with
            products := (tableUpsert productKey productUpd productMk op
              (st.products, st.nextId)).1
            nextId := (tableUpsert productKey productUpd productMk op
              (st.products, st.nextId)).2 }
          error := none } := by
  obtain ⟨idv, h1, h2, h3, h4, h5⟩ := productWrite_some h
  obtain ⟨⟨t, sid⟩, fields⟩ := op
  simp only at h2 h3 h4 h5
  subst h5
  simp only [syncProductRecord, h1, h2, h3, bind, Except.bind, pure, Except.pure,
    Store.upsertProduct, h4, Bool.and_self, if_true, tableUpsert, productKey_pred]
  rfl

theorem failures_cons (step : Store → Val → Step) (r : Val) (rest : List Val) (st : Store) :
    failures step (r :: rest) st
      = (if (step st r).error.isSome then 1 else 0) + failures step rest (step st r).store := by
  unfold failures
  cases h : (step st r).error with
  | none => simp [outcomes, h, List.filter]
  | some e => simp [outcomes, h, List.filter]; omega

section SimpleEntity

variable {ρ κ δ : Type} [DecidableEq κ] (key : ρ → κ) (upd : ρ → δ → ρ)
  (mk : Nat → κ → δ → ρ)

/-- A record loop whose body is one upsert on one table: no record fails if and
only if every record has a write, and then the loop amounts to the run of the
writes on that table. -/
theorem simpleLoop (step : Store → Val → Step) (write : Val → Option (κ × δ))
    (get : Store → List ρ × Nat) (set : Store → List ρ × Nat → Store)
    (hget : ∀ st t, get (set st t) = t) (hset : ∀ st t t2, set (set st t) t2 = set st t2)
    (hid : ∀ st, set st (get st) = st)
    (hsome : ∀ st r op, write r = some op →
      step st r = { store := set st (tableUpsert key upd mk op (get st)), error := none })
    (hnone : ∀ st r, write r = none → ∃ e, step st r = { store := st, error := some e }) :
    ∀ (records : List Val) (st : Store),
      (failures step records st = 0 ↔ ∀ r ∈ records, (write r).isSome = true)
      ∧ ((∀ r ∈ records, (write r).isSome = true) →
          loopStore step records st
            = set st (tableRun key upd mk (records.filterMap write) (get st))) := by
  intro records
  induction records with
  | nil =>
    intro st
    refine ⟨by simp [failures, outcomes], fun _ => ?_⟩
    simp [loopStore, tableRun, hid]
  | cons r rest ih =>
    intro st
    cases hw : write r with
    | none =>
      obtain ⟨e, he⟩ := hnone st r hw
      refine ⟨?_, ?_⟩
      · rw [failures_cons, he]
        constructor
        · intro h; simp at h
        · intro h
          have := h r (by simp)
          rw [hw] at this
          simp at this
      · intro h
        have := h r (by simp)
        rw [hw] at this
        simp at this
    | some op =>
      have hs := hsome st r op hw
      obtain ⟨ih1, ih2⟩ := ih (set st (tableUpsert key upd mk op (get st)))
      refine ⟨?_, ?_⟩
      · rw [failures_cons, hs]
        simp only [Option.isSome_none, Bool.false_eq_true, if_false, Nat.zero_add]
        rw [ih1]
        constructor
        · intro h x hx
          rcases List.mem_cons.1 hx with rfl | hmem
          · rw [hw]; rfl
          · exact h x hmem
        · intro h x hx
          exact h x (by simp [hx])
      · intro h
        simp only [loopStore, hs]
        rw [ih2 (fun x hx => h x (by simp [hx])), hget, hset]
        simp [List.filterMap_cons, hw, tableRun_cons]

/-- Idempotence of such a loop: run again on the store it left, after the
SyncLog row was added, no record fails and the store stays as it is. -/
theorem simpleLoop_idem (laws : TableLaws key upd mk) (step : Store → Val → Step)
    (write : Val → Option (κ × δ))
    (get : Store → List ρ × Nat) (set : Store → List ρ × Nat → Store)
    (hget : ∀ st t, get (set st t) = t) (hset : ∀ st t t2, set (set st t) t2 = set st t2)
    (hid : ∀ st, set st (get st) = st)
    (hlog : ∀ st d, (get (st.createSyncLog d)).1 = (get st).1)
    (hsome : ∀ st r op, write r = some op →
      step st r = { store := set st (tableUpsert key upd mk op (get st)), error := none })
    (hnone : ∀ st r, write r = none → ∃ e, step st r = { store := st, error := some e })
    (records : List Val) (st : Store) (d : SyncLogData)
    (hvalid : failures step records st = 0) :
    failures step records ((loopStore step records st).createSyncLog d) = 0
    ∧ loopStore step records ((loopStore step records st).createSyncLog d)
        = (loopStore step records st).createSyncLog d := by
  have hall := ((simpleLoop key upd mk step write get set hget hset hid hsome hnone
    records st).1).1 hvalid
  have h1 := (simpleLoop key upd mk step write get set hget hset hid hsome hnone
    records st).2 hall
  obtain ⟨h2a, h2b⟩ := simpleLoop key upd mk step write get set hget hset hid hsome hnone
    records ((loopStore step records st).createSyncLog d)
  refine ⟨h2a.2 hall, ?_⟩
  rw [h2b hall]
  have hg : get ((loopStore step records st).createSyncLog d)
      = ((tableRun key upd mk (records.filterMap write) (get st)).1,
         (get ((loopStore step records st).createSyncLog d)).2) := by
    apply Prod.ext
    · rw [hlog, h1, hget]
    · rfl
  rw [hg, tableRun_idem key upd mk laws, ← hg, hid]

end SimpleEntity

/-- Idempotence of the customer loop. -/
theorem customers_loop_idem (schema : Schema) (tid : String) (records : List Val) (st : Store)
    (d : SyncLogData) (hvalid : failures (syncCustomerRecord schema tid) records st = 0) :
    failures (syncCustomerRecord schema tid) records
        ((loopStore (syncCustomerRecord schema tid) records st).createSyncLog d) = 0
    ∧ loopStore (syncCustomerRecord schema tid) records
          ((loopStore (syncCustomerRecord schema tid) records st).createSyncLog d)
        = (loopStore (syncCustomerRecord schema tid) records st).createSyncLog d :=
  simpleLoop_idem customerKey customerUpd customerMk customerLaws
    (syncCustomerRecord schema tid) (customerWrite schema tid)
    (fun st => (st.customers, st.nextId))
    (fun st t => { st with customers := t.1, nextId := t.2 })
    (fun _ _ => rfl) (fun _ _ _ => rfl) (fun _ => rfl) (fun _ _ => rfl)
    (fun st _ _ h => syncCustomerRecord_write h st)
    (fun st _ h => customerWrite_none h st)
    records st d hvalid

/-- Idempotence of the product loop. -/
theorem products_loop_idem (schema : Schema) (tid : String) (records : List Val) (st : Store)
    (d : SyncLogData) (hvalid : failures (syncProductRecord schema tid) records st = 0) :
    failures (syncProductRecord schema tid) records
        ((loopStore (syncProductRecord schema tid) records st).createSyncLog d) = 0
    ∧ loopStore (syncProductRecord schema tid) records
          ((loopStore (syncProductRecord schema tid) records st).createSyncLog d)
        = (loopStore (syncProductRecord schema tid) records st).createSyncLog d :=
  simpleLoop_idem productKey productUpd productMk productLaws
    (syncProductRecord schema tid) (productWrite schema tid)
    (fun st => (st.products, st.nextId))
    (fun st t => { st with products := t.1, nextId := t.2 })
    (fun _ _ => rfl) (fun _ _ _ => rfl) (fun _ => rfl) (fun _ _ => rfl)
    (fun st _ _ h => syncProductRecord_write h st)
    (fun st _ h => productWrite_none h st)
    records st d hvalid

end ShopifyService

/-! # Idempotence of the order synchroniser -/

namespace ShopifyService

theorem updateField_updateField (x a b : Val) :
    Store.updateField (Store.updateField x a) b
      = Store.updateField x (Store.updateField a b) := by
  cases b <;> rfl

theorem updateField_self (x a : Val) :
    Store.updateField (Store.updateField x a) a = Store.updateField x a := by
  cases a <;> rfl

theorem orderLaws : TableLaws orderKey orderUpd orderMk where
  key_upd := fun _ _ => rfl
  key_mk := fun _ _ _ => rfl
  upd_upd := by
    intro a b
    refine ⟨({ b.1 with
        orderNumber := Store.updateField a.1.orderNumber b.1.orderNumber
        customerId := match b.1.customerId with
          | .undefined => a.1.customerId
          | c => c }, b.2), fun r => ?_⟩
    simp only [orderUpd, Store.applyOrderUpdate, updateField_updateField]
    cases hb : b.1.customerId <;> cases ha : a.1.customerId <;> rfl
  upd_idem := by
    intro r a
    simp only [orderUpd, Store.applyOrderUpdate, updateField_self]
    cases ha : a.1.customerId <;> rfl
  upd_mk := by
    intro i k d
    simp only [orderUpd, orderMk, Store.applyOrderUpdate, Store.newOrderRow]
    cases hn : d.1.orderNumber <;> cases hc : d.1.customerId <;> rfl

theorem orderKey_pred (tid sid : String) :
    (fun r : OrderRow => decide (r.tenantId = tid) && decide (r.shopifyId = sid))
      = (fun r => decide (orderKey r = (tid, sid))) := by
  funext r
  simp [orderKey, Prod.ext_iff, Bool.decide_and]

theorem orderWrite_customers {st st2 : Store} (h : st.customers = st2.customers)
    (schema : Schema) (tid : String) (r : Val) :
    orderWrite schema tid st r = orderWrite schema tid st2 r := by
  simp only [orderWrite, resolveCustomer, Store.findCustomer, h]

theorem orderWrite_some {schema : Schema} {tid : String} {st : Store} {r : Val}
    {op : (String × String) × OrderData} (h : orderWrite schema tid st r = some op) :
    ∃ idv cref, Js.getProp r "id" = .ok idv ∧ Js.callToString idv = .ok op.1.2
      ∧ resolveCustomer tid st r = .ok cref ∧ orderFields r cref = .ok op.2
      ∧ schema.acceptsOrder tid op.1.2 op.2 = true ∧ op.1.1 = tid := by
  unfold orderWrite externalId at h
  rcases h1 : Js.getProp r "id" with e | idv
  · simp [h1] at h
  · rcases h2 : Js.callToString idv with e | sid
    · simp [h1, h2] at h
    · rcases h0 : resolveCustomer tid st r with e | cref
      · simp [h1, h2, h0] at h
      · rcases h3 : orderFields r cref with e | fields
        · simp [h1, h2, h0, h3] at h
        · by_cases h4 : schema.acceptsOrder tid sid fields = true
          · simp [h1, h2, h0, h3, h4] at h
            subst h
            exact ⟨idv, cref, rfl, h2, rfl, h3, h4, rfl⟩
          · simp [h1, h2, h0, h3, h4] at h

theorem orderWrite_none {schema : Schema} {tid : String} {st : Store} {r : Val}
    (h : orderWrite schema tid st r = none) :
    ∃ e, syncOrderRecord schema tid st r = { store := st, error := some e } := by
  rcases syncOrderRecord_cases schema tid st r with
    ⟨e, he⟩ | ⟨sid, cref, f, row, st1, h1, h0, h2, h3, _⟩
  · exact ⟨e, he⟩
  · exfalso
    have hacc : schema.acceptsOrder tid sid f = true := by
      unfold Store.upsertOrder at h3
      split at h3
      · rename_i hc
        simp only [Bool.and_self] at hc
        exact hc
      · cases h3
    simp [orderWrite, h1, h0, h2, hacc] at h

/-- The body of the order loop on a record with a write: the order is
upserted, then the line-item block runs with the id of the upserted row. -/
theorem syncOrderRecord_write {schema : Schema} {tid : String} {st : Store} {r : Val}
    {k : String × String} {f : OrderData} (h : orderWrite schema tid st r = some (k, f)) :
    ∃ n1, syncOrderRecord schema tid st r
      = syncLineItems schema r (orderIdFor k st.nextId st.orders)
          { st with
            orders := (tableUpsert orderKey orderUpd orderMk (k, (f, st.nextId))
              (st.orders, 0)).1
            nextId := n1 } := by
  obtain ⟨idv, cref, h1, h2, h0, h3, h4, h5⟩ := orderWrite_some h
  obtain ⟨t, sid⟩ := k
  simp only at h2 h3 h4 h5
  subst h5
  refine ⟨st.nextId + (upsertRows (fun r => decide (orderKey r = (t, sid)))
    (fun row => Store.applyOrderUpdate row f) (Store.newOrderRow st.nextId t sid f)
    st.orders).2.2.toNat, ?_⟩
  simp only [syncOrderRecord, h0, h1, h2, h3, bind, Except.bind, pure, Except.pure,
    Store.upsertOrder, h4, Bool.and_self, if_true, tableUpsert, orderKey_pred]
  have hid : (upsertRows (fun r => decide (orderKey r = (t, sid)))
      (fun row => Store.applyOrderUpdate row f) (Store.newOrderRow st.nextId t sid f)
      st.orders).1.id = orderIdFor (t, sid) st.nextId st.orders := by
    unfold upsertRows orderIdFor
    cases st.orders.find? (fun r => decide (orderKey r = (t, sid))) <;> rfl
  rw [hid]
  rfl

theorem lineItemFields_orderId {oid : Nat} {item : Val} {d : LineItemData}
    (h : lineItemFields oid item = .ok d) : d.orderId = oid := by
  unfold lineItemFields at h
  simp only [bind, Except.bind, pure, Except.pure] at h
  repeat' split at h
  all_goals (cases h <;> rfl)

/-- The inner line-item loop when every item maps and is accepted: it appends
one row per item, with the mapped data, under the order's id. -/
theorem createLineItems_of_lineData (schema : Schema) (oid : Nat) :
    ∀ (items : List Val) (st : Store) (ds : List LineItemData),
      lineData schema oid items = some ds →
      ∃ rows n1, createLineItems schema oid items st
          = { store := { st with lineItems := st.lineItems ++ rows, nextId := n1 },
              error := none }
        ∧ rows.map (fun r => r.data) = ds ∧ ∀ row ∈ rows, row.data.orderId = oid := by
  intro items
  induction items with
  | nil =>
    intro st ds h
    simp only [lineData, Option.some.injEq] at h
    subst h
    exact ⟨[], st.nextId, by simp [createLineItems], rfl, by simp⟩
  | cons item rest ih =>
    intro st ds h
    rcases h1 : lineItemFields oid item with e | data
    · simp [lineData, h1] at h
    · by_cases h2 : schema.acceptsLineItem data = true
      · simp only [lineData, h1, h2, if_true, Option.map_eq_some'] at h
        obtain ⟨ds1, hds1, rfl⟩ := h
        obtain ⟨rows, n1, hrun, hmap, hall⟩ := ih
          { st with lineItems := st.lineItems ++ [{ id := st.nextId, data := data }],
                    nextId := st.nextId + 1 } ds1 hds1
        refine ⟨{ id := st.nextId, data := data } :: rows, n1, ?_, ?_, ?_⟩
        · simp only [createLineItems, h1, Store.createLineItem, h2, if_true, hrun]
          simp
        · simp [hmap]
        · intro row hrow
          rcases List.mem_cons.1 hrow with rfl | hmem
          · exact lineItemFields_orderId h1
          · exact hall row hmem
      · simp [lineData, h1, h2] at h

theorem createLineItems_of_no_lineData (schema : Schema) (oid : Nat) :
    ∀ (items : List Val) (st : Store), lineData schema oid items = none →
      (createLineItems schema oid items st).error ≠ none := by
  intro items
  induction items with
  | nil => intro st h; simp [lineData] at h
  | cons item rest ih =>
    intro st h
    rcases h1 : lineItemFields oid item with e | data
    · simp [createLineItems, h1]
    · by_cases h2 : schema.acceptsLineItem data = true
      · simp only [lineData, h1, h2, if_true, Option.map_eq_none'] at h
        simp only [createLineItems, h1, Store.createLineItem, h2, if_true]
        exact ih _ h
      · simp [createLineItems, h1, Store.createLineItem, h2]

/-- The line-item block, by its plan. -/
theorem syncLineItems_of_plan (schema : Schema) (r : Val) (oid : Nat) (st : Store) :
    (linePlan schema r oid = none → (syncLineItems schema r oid st).error ≠ none)
    ∧ (linePlan schema r oid = some none →
        syncLineItems schema r oid st = { store := st, error := none })
    ∧ (∀ ds, linePlan schema r oid = some (some ds) →
        ∃ rows n1, syncLineItems schema r oid st
            = { store := { st with
                  lineItems := st.lineItems.filter (fun x => decide (x.data.orderId ≠ oid))
                    ++ rows
                  nextId := n1 },
                error := none }
          ∧ rows.map (fun x => x.data) = ds ∧ ∀ row ∈ rows, row.data.orderId = oid) := by
  unfold linePlan syncLineItems
  rcases h1 : lineItemsToSync r with e | plan
  · simp
  · cases plan with
    | none => simp
    | some li =>
      rcases h2 : Js.iterate li with e | items
      · simp [h2]
      · simp only [h2, Option.map_eq_none', Option.map_eq_some', Option.some.injEq]
        refine ⟨fun h => createLineItems_of_no_lineData schema oid items _ h, ?_, ?_⟩
        · rintro ⟨_, _, h⟩; cases h
        · rintro ds ⟨ds1, hds1, rfl⟩
          obtain ⟨rows, n1, hrun, hmap, hall⟩ := createLineItems_of_lineData schema oid items
            (st.deleteLineItems oid) ds1 hds1
          exact ⟨rows, n1, by rw [hrun]; rfl, hmap, hall⟩

theorem orderIdOf_tableUpsert (op : (String × String) × (OrderData × Nat))
    (rows : List OrderRow) (n : Nat) (k1 : String × String) :
    orderIdOf (tableUpsert orderKey orderUpd orderMk op (rows, n)).1 k1
      = if k1 = op.1 then some (orderIdFor op.1 op.2.2 rows) else orderIdOf rows k1 := by
  unfold orderIdOf
  rw [find_tableUpsert orderKey orderUpd orderMk orderLaws]
  by_cases hk : k1 = op.1
  · simp only [hk, if_true, Option.map_some', orderIdFor]
    cases rows.find? (fun r => decide (orderKey r = op.1)) <;> rfl
  · simp only [hk, if_false]

theorem orderIdFor_of_orderIdOf {rows : List OrderRow} {k : String × String} {x : Nat}
    (h : orderIdOf rows k = some x) (fresh : Nat) : orderIdFor k fresh rows = x := by
  unfold orderIdOf at h
  unfold orderIdFor
  cases hf : rows.find? (fun r => decide (orderKey r = k)) with
  | none => simp [hf] at h
  | some row => simpa [hf] using h

/-- The id of a stored order stays the same through an upsert. -/
theorem orderIdOf_stable (op : (String × String) × (OrderData × Nat))
    (rows : List OrderRow) (n : Nat) (k1 : String × String) (x : Nat)
    (h : orderIdOf rows k1 = some x) :
    orderIdOf (tableUpsert orderKey orderUpd orderMk op (rows, n)).1 k1 = some x := by
  rw [orderIdOf_tableUpsert]
  by_cases hk : k1 = op.1
  · rw [if_pos hk, ← hk, orderIdFor_of_orderIdOf h]
  · rw [if_neg hk, h]

theorem lineItemsOf_replace (st : Store) (oid n1 : Nat) (rows : List LineItemRow)
    (hall : ∀ row ∈ rows, row.data.orderId = oid) (o : Nat) :
    lineItemsOf { st with
        lineItems := st.lineItems.filter (fun x => decide (x.data.orderId ≠ oid)) ++ rows
        nextId := n1 } o
      = if o = oid then rows.map (fun x => x.data) else lineItemsOf st o := by
  unfold lineItemsOf
  simp only [List.filter_append, List.filter_filter, List.map_append]
  by_cases ho : o = oid
  · subst ho
    have h1 : st.lineItems.filter
        (fun a => decide (a.data.orderId = o) && decide (a.data.orderId ≠ o)) = [] := by
      apply List.filter_eq_nil_iff.2
      intro a _
      by_cases ha : a.data.orderId = o <;> simp [ha]
    have h2 : rows.filter (fun r => decide (r.data.orderId = o)) = rows := by
      apply List.filter_eq_self.2
      intro a ha
      simp [hall a ha]
    rw [h1, h2, if_pos rfl]
    rfl
  · have h1 : st.lineItems.filter
        (fun a => decide (a.data.orderId = o) && decide (a.data.orderId ≠ oid))
        = st.lineItems.filter (fun r => decide (r.data.orderId = o)) := by
      apply List.filter_congr
      intro a _
      by_cases ha : a.data.orderId = o
      · have : a.data.orderId ≠ oid := fun h => ho (ha.symm.trans h)
        simp [ha, this, ho]
      · simp [ha]
    have h2 : rows.filter (fun r => decide (r.data.orderId = o)) = [] := by
      apply List.filter_eq_nil_iff.2
      intro a ha
      have := hall a ha
      have hne : ¬ oid = o := fun h => ho h.symm
      simp [this, hne]
    rw [h1, h2, if_neg ho]
    simp

/-- The body of the order loop on a record with a write whose line-item block
has a plan: the body completes, the orders table takes the write, and the
line items per order are those planned. -/
theorem syncOrderRecord_success {schema : Schema} {tid : String} {st : Store} {r : Val}
    {k : String × String} {f : OrderData} {plan : Option (List LineItemData)}
    (hw : orderWrite schema tid st r = some (k, f))
    (hp : linePlan schema r (orderIdFor k st.nextId st.orders) = some plan) :
    (syncOrderRecord schema tid st r).error = none
    ∧ (syncOrderRecord schema tid st r).store.orders
        = (tableUpsert orderKey orderUpd orderMk (k, (f, st.nextId)) (st.orders, 0)).1
    ∧ ∀ o, lineItemsOf (syncOrderRecord schema tid st r).store o
        = match plan with
          | some ds => if o = orderIdFor k st.nextId st.orders then ds else lineItemsOf st o
          | none => lineItemsOf st o := by
  obtain ⟨n1, hstep⟩ := syncOrderRecord_write hw
  rw [hstep]
  obtain ⟨_, hnone, hsome⟩ := syncLineItems_of_plan schema r (orderIdFor k st.nextId st.orders)
    { st with
      orders := (tableUpsert orderKey orderUpd orderMk (k, (f, st.nextId)) (st.orders, 0)).1
      nextId := n1 }
  cases plan with
  | none =>
    rw [hnone hp]
    exact ⟨rfl, rfl, fun o => rfl⟩
  | some ds =>
    obtain ⟨rows, n2, hrun, hmap, hall⟩ := hsome ds hp
    rw [hrun]
    refine ⟨rfl, rfl, fun o => ?_⟩
    have := lineItemsOf_replace
      { st with
        orders := (tableUpsert orderKey orderUpd orderMk (k, (f, st.nextId)) (st.orders, 0)).1
        nextId := n1 } (orderIdFor k st.nextId st.orders) n2 rows hall o
    rw [hmap] at this
    exact this

theorem syncOrderRecord_error_none {schema : Schema} {tid : String} {st : Store} {r : Val}
    (h : (syncOrderRecord schema tid st r).error = none) :
    ∃ k f plan, orderWrite schema tid st r = some (k, f)
      ∧ linePlan schema r (orderIdFor k st.nextId st.orders) = some plan := by
  cases hw : orderWrite schema tid st r with
  | none =>
    obtain ⟨e, he⟩ := orderWrite_none hw
    rw [he] at h
    cases h
  | some op =>
    obtain ⟨k, f⟩ := op
    cases hp : linePlan schema r (orderIdFor k st.nextId st.orders) with
    | some plan => exact ⟨k, f, plan, rfl, hp⟩
    | none =>
      exfalso
      obtain ⟨n1, hstep⟩ := syncOrderRecord_write hw
      rw [hstep] at h
      exact (syncLineItems_of_plan schema r _ _).1 hp h

theorem failures_cons_zero {step : Store → Val → Step} {r : Val} {rest : List Val}
    {st : Store} (h : failures step (r :: rest) st = 0) :
    (step st r).error = none ∧ failures step rest (step st r).store = 0 := by
  rw [failures_cons] at h
  cases he : (step st r).error with
  | none => rw [he] at h; simpa using h
  | some e => rw [he] at h; simp at h

/-- A run of the order loop without failures, described through any map `ι`
that gives the ids of the orders stored at the end of the run: the customers
stay as they were, the orders table is the run of the writes of the records,
the ids of stored orders never change, the line items per order are the plans
of the records applied in order, and every record has a write and a plan. -/
theorem orders_run (schema : Schema) (tid : String) (ι : String × String → Option Nat) :
    ∀ (records : List Val) (st : Store),
      failures (syncOrderRecord schema tid) records st = 0 →
      (∀ k x, orderIdOf (loopStore (syncOrderRecord schema tid) records st).orders k = some x →
        ι k = some x) →
      (loopStore (syncOrderRecord schema tid) records st).customers = st.customers
      ∧ (∃ ops : List ((String × String) × (OrderData × Nat)),
          ops.map (fun op => (op.1, op.2.1)) = records.filterMap (orderWrite schema tid st)
          ∧ (loopStore (syncOrderRecord schema tid) records st).orders
              = (tableRun orderKey orderUpd orderMk ops (st.orders, 0)).1)
      ∧ (∀ k x, orderIdOf st.orders k = some x →
          orderIdOf (loopStore (syncOrderRecord schema tid) records st).orders k = some x)
      ∧ (∀ o, lineItemsOf (loopStore (syncOrderRecord schema tid) records st) o
          = applyPlans schema (orderWrite schema tid st) ι records (lineItemsOf st) o)
      ∧ (∀ r ∈ records, ∃ k f x, orderWrite schema tid st r = some (k, f) ∧ ι k = some x
          ∧ (linePlan schema r x).isSome = true) := by
  intro records
  induction records with
  | nil =>
    intro st _ _
    exact ⟨rfl, ⟨[], rfl, rfl⟩, fun _ _ h => h, fun _ => rfl, fun r hr => by simp at hr⟩
  | cons r rest ih =>
    intro st hvalid hι
    obtain ⟨herr, hrest⟩ := failures_cons_zero hvalid
    obtain ⟨k, f, plan, hw, hp⟩ := syncOrderRecord_error_none herr
    obtain ⟨_, horders, hlines⟩ := syncOrderRecord_success hw hp
    have hcust := (syncOrderRecord_frame schema tid st r).2.1
    have hwrite : orderWrite schema tid (syncOrderRecord schema tid st r).store
        = orderWrite schema tid st :=
      funext (fun x => orderWrite_customers hcust schema tid x)
    obtain ⟨i1, ⟨ops, hops, htable⟩, i3, i4, i5⟩ :=
      ih (syncOrderRecord schema tid st r).store hrest hι
    rw [hwrite] at hops i4 i5
    have hid : orderIdOf (syncOrderRecord schema tid st r).store.orders k
        = some (orderIdFor k st.nextId st.orders) := by
      rw [horders, orderIdOf_tableUpsert]
      simp
    have hιk : ι k = some (orderIdFor k st.nextId st.orders) := hι k _ (i3 k _ hid)
    refine ⟨i1.trans hcust, ⟨(k, (f, st.nextId)) :: ops, ?_, ?_⟩, ?_, ?_, ?_⟩
    · simp [List.filterMap_cons, hw, hops]
    · show (loopStore (syncOrderRecord schema tid) rest (syncOrderRecord schema tid st r).store).orders
        = _
      rw [htable, horders, tableRun_cons]
      exact tableRun_fst_indep orderKey orderUpd orderMk (fun _ _ _ _ => rfl) ops _ _ _
    · intro k1 x hx
      apply i3
      rw [horders]
      exact orderIdOf_stable _ _ _ _ _ hx
    · intro o
      show lineItemsOf (loopStore (syncOrderRecord schema tid) rest
        (syncOrderRecord schema tid st r).store) o = _
      rw [i4 o]
      simp only [applyPlans, hw, hιk, hp]
      congr 1
      funext o1
      rw [hlines o1]
      cases plan <;> rfl
    · intro r1 hr1
      rcases List.mem_cons.1 hr1 with rfl | hmem
      · exact ⟨k, f, _, hw, hιk, by rw [hp]; rfl⟩
      · exact i5 r1 hmem

/-- A run of the order loop on a store in which every record has a write, a
stored order and a plan for that order: no record fails. -/
theorem orders_rerun_succeeds (schema : Schema) (tid : String) :
    ∀ (records : List Val) (t : Store),
      (∀ r ∈ records, ∃ k f x, orderWrite schema tid t r = some (k, f)
        ∧ orderIdOf t.orders k = some x ∧ (linePlan schema r x).isSome = true) →
      failures (syncOrderRecord schema tid) records t = 0 := by
  intro records
  induction records with
  | nil => intro t _; rfl
  | cons r rest ih =>
    intro t h
    obtain ⟨k, f, x, hw, hx, hplan⟩ := h r (by simp)
    have hfor : orderIdFor k t.nextId t.orders = x := orderIdFor_of_orderIdOf hx _
    obtain ⟨plan, hp⟩ := Option.isSome_iff_exists.1 hplan
    rw [← hfor] at hp
    obtain ⟨herr, horders, _⟩ := syncOrderRecord_success hw hp
    have hcust := (syncOrderRecord_frame schema tid t r).2.1
    rw [failures_cons, herr]
    simp only [Option.isSome_none, Bool.false_eq_true, if_false, Nat.zero_add]
    apply ih
    intro r1 hr1
    obtain ⟨k1, f1, x1, hw1, hx1, hplan1⟩ := h r1 (by simp [hr1])
    refine ⟨k1, f1, x1, ?_, ?_, hplan1⟩
    · rw [orderWrite_customers hcust]; exact hw1
    · rw [horders]; exact orderIdOf_stable _ _ _ _ _ hx1

theorem applyPlans_override (schema : Schema)
    (w : Val → Option ((String × String) × OrderData)) (ι : String × String → Option Nat) :
    ∀ records : List Val, ∃ g : Nat → Option (List LineItemData),
      ∀ (items : Nat → List LineItemData) (o : Nat),
        applyPlans schema w ι records items o = (g o).getD (items o) := by
  intro records
  induction records with
  | nil => exact ⟨fun _ => none, fun _ _ => rfl⟩
  | cons r rest ih =>
    obtain ⟨g, hg⟩ := ih
    cases hw : w r with
    | none => exact ⟨g, fun items o => by simp only [applyPlans, hw]; exact hg items o⟩
    | some op =>
      obtain ⟨k, f⟩ := op
      cases hι : ι k with
      | none => exact ⟨g, fun items o => by simp only [applyPlans, hw, hι]; exact hg items o⟩
      | some x =>
        cases hp : linePlan schema r x with
        | none =>
          exact ⟨g, fun items o => by simp only [applyPlans, hw, hι, hp]; exact hg items o⟩
        | some plan =>
          cases plan with
          | none =>
            exact ⟨g, fun items o => by simp only [applyPlans, hw, hι, hp]; exact hg items o⟩
          | some ds =>
            refine ⟨fun o => match g o with
              | some v => some v
              | none => if o = x then some ds else none, fun items o => ?_⟩
            simp only [applyPlans, hw, hι, hp]
            rw [hg]
            cases g o with
            | some v => rfl
            | none =>
              by_cases ho : o = x <;> simp [ho]

/-- Applying the plans of a run a second time changes nothing. -/
theorem applyPlans_idem (schema : Schema)
    (w : Val → Option ((String × String) × OrderData)) (ι : String × String → Option Nat)
    (records : List Val) (items : Nat → List LineItemData) (o : Nat) :
    applyPlans schema w ι records (applyPlans schema w ι records items) o
      = applyPlans schema w ι records items o := by
  obtain ⟨g, hg⟩ := applyPlans_override schema w ι records
  rw [hg, hg]
  cases g o <;> rfl

/-- Idempotence of the order loop: run again on the store it left, after the
SyncLog row was added, no record fails, the customers, orders and products stay
as they are, and every order keeps the same line items. -/
theorem orders_loop_idem (schema : Schema) (tid : String) (records : List Val) (st : Store)
    (d : SyncLogData) (hvalid : failures (syncOrderRecord schema tid) records st = 0) :
    failures (syncOrderRecord schema tid) records
        ((loopStore (syncOrderRecord schema tid) records st).createSyncLog d) = 0
    ∧ (loopStore (syncOrderRecord schema tid) records
          ((loopStore (syncOrderRecord schema tid) records st).createSyncLog d)).customers
        = (loopStore (syncOrderRecord schema tid) records st).customers
    ∧ (loopStore (syncOrderRecord schema tid) records
          ((loopStore (syncOrderRecord schema tid) records st).createSyncLog d)).orders
        = (loopStore (syncOrderRecord schema tid) records st).orders
    ∧ (loopStore (syncOrderRecord schema tid) records
          ((loopStore (syncOrderRecord schema tid) records st).createSyncLog d)).products
        = (loopStore (syncOrderRecord schema tid) records st).products
    ∧ ∀ o, lineItemsOf (loopStore (syncOrderRecord schema tid) records
          ((loopStore (syncOrderRecord schema tid) records st).createSyncLog d)) o
        = lineItemsOf (loopStore (syncOrderRecord schema tid) records st) o := by
  obtain ⟨u1, ⟨ops1, hops1, htable1⟩, _, u4, u5⟩ :=
    orders_run schema tid
      (orderIdOf (loopStore (syncOrderRecord schema tid) records st).orders)
      records st hvalid (fun _ _ h => h)
  have hcust : ((loopStore (syncOrderRecord schema tid) records st).createSyncLog d).customers
      = st.customers := u1
  have hwrite : orderWrite schema tid
      ((loopStore (syncOrderRecord schema tid) records st).createSyncLog d)
      = orderWrite schema tid st :=
    funext (fun x => orderWrite_customers hcust schema tid x)
  have h2 : failures (syncOrderRecord schema tid) records
      ((loopStore (syncOrderRecord schema tid) records st).createSyncLog d) = 0 := by
    apply orders_rerun_succeeds
    intro r hr
    obtain ⟨k, f, x, hw, hx, hplan⟩ := u5 r hr
    exact ⟨k, f, x, by rw [hwrite]; exact hw, hx, hplan⟩
  obtain ⟨v1, ⟨ops2, hops2, htable2⟩, _, _, _⟩ :=
    orders_run schema tid
      (orderIdOf (loopStore (syncOrderRecord schema tid) records
        ((loopStore (syncOrderRecord schema tid) records st).createSyncLog d)).orders)
      records _ h2 (fun _ _ h => h)
  rw [hwrite] at hops2
  have horders : (loopStore (syncOrderRecord schema tid) records
      ((loopStore (syncOrderRecord schema tid) records st).createSyncLog d)).orders
      = (loopStore (syncOrderRecord schema tid) records st).orders := by
    rw [htable2]
    show (tableRun orderKey orderUpd orderMk ops2
      ((loopStore (syncOrderRecord schema tid) records st).orders, 0)).1 = _
    rw [htable1, tableRun_idem_congr orderKey orderUpd orderMk orderLaws Prod.fst
      (fun r a b h => by simp only [orderUpd, h]) ops1 ops2 (hops1.trans hops2.symm)]
  obtain ⟨_, _, _, w4, _⟩ :=
    orders_run schema tid
      (orderIdOf (loopStore (syncOrderRecord schema tid) records st).orders)
      records _ h2 (fun k x h => by rw [horders] at h; exact h)
  refine ⟨h2, v1, horders, ?_, ?_⟩
  · rw [loopStore_preserves (fun s => s.products) _
      (fun s r => (syncOrderRecord_frame schema tid s r).2.2)]
    rfl
  · intro o
    rw [w4 o, hwrite]
    have hitems : lineItemsOf
        ((loopStore (syncOrderRecord schema tid) records st).createSyncLog d)
        = applyPlans schema (orderWrite schema tid st)
            (orderIdOf (loopStore (syncOrderRecord schema tid) records st).orders) records
            (lineItemsOf st) := funext (fun o1 => u4 o1)
    rw [hitems, applyPlans_idem, ← u4 o]

end ShopifyService

/-! # Idempotence of the synchronisers -/

namespace ShopifyService

/-- A synchroniser whose fetch returned `records`, with the store it leaves:
the store of the loop plus one SyncLog row. -/
theorem Entity.sync_of_fetched_store (e : Entity) (svc : ShopifyService) (api : Api)
    (schema : Schema) (clock : Nat → Nat) (st : Store) (fetched : FetchRun)
    (records : List Val)
    (hfetch : e.fetch svc api = some fetched) (hrecords : fetched.result = .ok records) :
    ∃ d, e.sync svc api schema clock st
      = some { store := (loopStore (e.step schema svc.tenant.id) records st).createSyncLog d
               requests := fetched.requests
               result := .ok
                 { recordsProcessed := successes (e.step schema svc.tenant.id) records st
                   recordsFailed := failures (e.step schema svc.tenant.id) records st } } := by
  obtain ⟨msg, hsync⟩ := Entity.sync_eq e svc api schema clock st
  rw [hsync]
  exact ⟨_, syncEntity_of_fetched e.name msg svc.tenant.id (e.fetch svc api)
    (e.step schema svc.tenant.id) clock st fetched records hfetch hrecords⟩

/-- Idempotence of each record loop: run again on the store it left, after the
SyncLog row was added, no record fails, the three entity tables stay as they
are and every order keeps the same line items. -/
theorem Entity.loop_idem (e : Entity) (schema : Schema) (tid : String) (records : List Val)
    (st : Store) (d : SyncLogData) (hvalid : failures (e.step schema tid) records st = 0) :
    failures (e.step schema tid) records
        ((loopStore (e.step schema tid) records st).createSyncLog d) = 0
    ∧ (loopStore (e.step schema tid) records
          ((loopStore (e.step schema tid) records st).createSyncLog d)).customers
        = (loopStore (e.step schema tid) records st).customers
    ∧ (loopStore (e.step schema tid) records
          ((loopStore (e.step schema tid) records st).createSyncLog d)).orders
        = (loopStore (e.step schema tid) records st).orders
    ∧ (loopStore (e.step schema tid) records
          ((loopStore (e.step schema tid) records st).createSyncLog d)).products
        = (loopStore (e.step schema tid) records st).products
    ∧ ∀ o, lineItemsOf (loopStore (e.step schema tid) records
          ((loopStore (e.step schema tid) records st).createSyncLog d)) o
        = lineItemsOf (loopStore (e.step schema tid) records st) o := by
  cases e
  · obtain ⟨h1, h2⟩ := customers_loop_idem schema tid records st d hvalid
    refine ⟨h1, ?_, ?_, ?_, ?_⟩ <;> simp only [Entity.step, h2] <;> intros <;> rfl
  · exact orders_loop_idem schema tid records st d hvalid
  · obtain ⟨h1, h2⟩ := products_loop_idem schema tid records st d hvalid
    refine ⟨h1, ?_, ?_, ?_, ?_⟩ <;> simp only [Entity.step, h2] <;> intros <;> rfl

/-- C10. Idempotence. When the fetch returns a non-empty list of records none
of which fails, running the same synchroniser a second time against the
unchanged API, on the store the first run left, returns the same counts as the
first run (`recordsProcessed` the number of records, which is positive, and
`recordsFailed = 0`) and leaves the Customer, Order and Product tables exactly
as the first run left them (same rows, same keys, same field values, no row
added); every order has the same line items after the second run as after the
first. -/
theorem sync_twice_is_idempotent (e : Entity) (svc : ShopifyService) (api : Api)
    (schema : Schema) (clock1 clock2 : Nat → Nat) (st : Store) (fetched : FetchRun)
    (records : List Val)
    (hfetch : e.fetch svc api = some fetched) (hrecords : fetched.result = .ok records)
    (hnonempty : records ≠ [])
    (hvalid : failures (e.step schema svc.tenant.id) records st = 0) :
    ∃ run1 run2, e.sync svc api schema clock1 st = some run1
      ∧ e.sync svc api schema clock2 run1.store = some run2
      ∧ run1.result = .ok { recordsProcessed := records.length, recordsFailed := 0 }
      ∧ run2.result = .ok { recordsProcessed := records.length, recordsFailed := 0 }
      ∧ 0 < records.length
      ∧ run2.store.customers = run1.store.customers
      ∧ run2.store.orders = run1.store.orders
      ∧ run2.store.products = run1.store.products
      ∧ ∀ orderId, lineItemsOf run2.store orderId = lineItemsOf run1.store orderId := by
  obtain ⟨d1, hrun1⟩ :=
    Entity.sync_of_fetched_store e svc api schema clock1 st fetched records hfetch hrecords
  obtain ⟨hvalid2, hc, ho, hp, hl⟩ :=
    Entity.loop_idem e schema svc.tenant.id records st d1 hvalid
  obtain ⟨d2, hrun2⟩ :=
    Entity.sync_of_fetched_store e svc api schema clock2
      ((loopStore (e.step schema svc.tenant.id) records st).createSyncLog d1)
      fetched records hfetch hrecords
  have hs1 := successes_add_failures (e.step schema svc.tenant.id) records st
  have hs2 := successes_add_failures (e.step schema svc.tenant.id) records
    ((loopStore (e.step schema svc.tenant.id) records st).createSyncLog d1)
  rw [hvalid, Nat.add_zero] at hs1
  rw [hvalid2, Nat.add_zero] at hs2
  refine ⟨_, _, hrun1, hrun2, ?_, ?_, ?_, hc, ho, hp, hl⟩
  · simp only [hs1, hvalid]
  · simp only [hs2, hvalid2]
  · exact List.length_pos.2 hnonempty

/-- C10, evaluated: `syncOrders` run twice on two well-formed orders, one with
two line items, returns 2 processed and 0 failed both times and leaves the
same orders and, for the order with id 0, the same two line items. -/
theorem sync_twice_is_idempotent_witness :
    ∃ run1 run2, Entity.orders.sync Sample.service
        (Sample.onePage "orders" [Sample.orderA, Sample.orderB])
        Sample.schema Sample.clock {} = some run1
      ∧ Entity.orders.sync Sample.service
        (Sample.onePage "orders" [Sample.orderA, Sample.orderB])
        Sample.schema Sample.clock run1.store = some run2
      ∧ run1.result = .ok { recordsProcessed := 2, recordsFailed := 0 }
      ∧ run2.result = .ok { recordsProcessed := 2, recordsFailed := 0 }
      ∧ run2.store.orders = run1.store.orders
      ∧ (lineItemsOf run1.store 0).length = 2
      ∧ lineItemsOf run2.store 0 = lineItemsOf run1.store 0 := by
  obtain ⟨run1, run2, h1, h2, h3, h4, _, _, h7, _, h9⟩ :=
    sync_twice_is_idempotent Entity.orders Sample.service
      (Sample.onePage "orders" [Sample.orderA, Sample.orderB])
      Sample.schema Sample.clock Sample.clock {}
      { requests := [pageRequest Sample.service "/orders.json" 250
          [("status", Val.str "any")] none]
        result := .ok [Sample.orderA, Sample.orderB] }
      [Sample.orderA, Sample.orderB] rfl rfl (by simp) (by decide)
  have hval : Entity.orders.sync Sample.service
      (Sample.onePage "orders" [Sample.orderA, Sample.orderB])
      Sample.schema Sample.clock {} = some run1 → (lineItemsOf run1.store 0).length = 2 := by
    intro h
    have hc : (Entity.orders.sync Sample.service
      (Sample.onePage "orders" [Sample.orderA, Sample.orderB])
      Sample.schema Sample.clock {}).map (fun r => (lineItemsOf r.store 0).length) = some 2 := rfl
    rw [h] at hc
    simpa using hc
  exact ⟨run1, run2, h1, h2, h3, h4, h7, hval h1, h9 0⟩

end ShopifyService

/-! # Numeric fields -/

namespace ShopifyService

theorem parseFloat_zero : Js.parseFloat zero = .ok (Js.Num.ofNat 0) := rfl

theorem parseInt_zero : Js.parseInt zero = .ok (Js.Num.ofNat 0) := rfl

/-- The numeric fields of a mapped customer are the conversions of
`total_spent || 0` and `orders_count || 0`. -/
theorem customerFields_numbers {r : Val} {d : CustomerData} (h : customerFields r = .ok d) :
    ∃ spent count, Js.getProp r "total_spent" = .ok spent
      ∧ Js.getProp r "orders_count" = .ok count
      ∧ Js.parseFloat (Js.or spent zero) = .ok d.totalSpent
      ∧ Js.parseInt (Js.or count zero) = .ok d.ordersCount := by
  unfold customerFields at h
  simp only [bind, Except.bind, pure, Except.pure] at h
  repeat' split at h
  all_goals first
    | (cases h; exact ⟨_, _, by assumption, by assumption, by assumption, by assumption⟩)
    | cases h

/-- The numeric fields of a mapped order are the conversions of
`total_price || 0`, `subtotal_price || 0` and `total_tax || 0`. -/
theorem orderFields_numbers {r : Val} {cref : CustomerRef} {d : OrderData}
    (h : orderFields r cref = .ok d) :
    ∃ total subtotal tax, Js.getProp r "total_price" = .ok total
      ∧ Js.getProp r "subtotal_price" = .ok subtotal
      ∧ Js.getProp r "total_tax" = .ok tax
      ∧ Js.parseFloat (Js.or total zero) = .ok d.totalPrice
      ∧ Js.parseFloat (Js.or subtotal zero) = .ok d.subtotalPrice
      ∧ Js.parseFloat (Js.or tax zero) = .ok d.totalTax := by
  unfold orderFields at h
  simp only [bind, Except.bind, pure, Except.pure] at h
  repeat' split at h
  all_goals first
    | (cases h; exact ⟨_, _, _, by assumption, by assumption, by assumption, by assumption,
        by assumption, by assumption⟩)
    | cases h

/-- The numeric fields of a mapped line item are the conversions of
`quantity || 0` and `price || 0`. -/
theorem lineItemFields_numbers {oid : Nat} {r : Val} {d : LineItemData}
    (h : lineItemFields oid r = .ok d) :
    ∃ quantity price, Js.getProp r "quantity" = .ok quantity
      ∧ Js.getProp r "price" = .ok price
      ∧ Js.parseInt (Js.or quantity zero) = .ok d.quantity
      ∧ Js.parseFloat (Js.or price zero) = .ok d.price := by
  unfold lineItemFields at h
  simp only [bind, Except.bind, pure, Except.pure] at h
  repeat' split at h
  all_goals first
    | (cases h; exact ⟨_, _, by assumption, by assumption, by assumption, by assumption⟩)
    | cases h

/-- A conversion of `v || 0` is zero for a falsy `v` and the conversion of `v`
itself otherwise. -/
theorem fallback_cases (parse : Val → Except Js.Error Js.Num)
    (hzero : parse zero = .ok (Js.Num.ofNat 0)) (v : Val) (n : Js.Num)
    (h : parse (Js.or v zero) = .ok n) :
    (Js.truthy v = false → n = Js.Num.ofNat 0) ∧ (Js.truthy v = true → parse v = .ok n) := by
  unfold Js.or at h
  constructor
  · intro hv
    rw [hv] at h
    simp only [Bool.false_eq_true, if_false] at h
    rw [hzero] at h
    cases h
    rfl
  · intro hv
    rw [hv] at h
    simpa using h

end ShopifyService

namespace ShopifyService

/-- Every numeric field is the source's conversion of `record[key] || 0`. -/
theorem NumericField.mapsTo_parse {f : NumericField} {record : Val} {n : Js.Num}
    (h : f.mapsTo record n) :
    ∃ v, Js.getProp record f.key = .ok v ∧ f.parse (Js.or v zero) = .ok n := by
  cases f
  · obtain ⟨d, hd, rfl⟩ := h
    obtain ⟨s, _, hs, _, hp, _⟩ := customerFields_numbers hd
    exact ⟨s, hs, hp⟩
  · obtain ⟨d, hd, rfl⟩ := h
    obtain ⟨_, c, _, hc, _, hp⟩ := customerFields_numbers hd
    exact ⟨c, hc, hp⟩
  · obtain ⟨cref, d, hd, rfl⟩ := h
    obtain ⟨t, _, _, ht, _, _, hp, _, _⟩ := orderFields_numbers hd
    exact ⟨t, ht, hp⟩
  · obtain ⟨cref, d, hd, rfl⟩ := h
    obtain ⟨_, t, _, _, ht, _, _, hp, _⟩ := orderFields_numbers hd
    exact ⟨t, ht, hp⟩
  · obtain ⟨cref, d, hd, rfl⟩ := h
    obtain ⟨_, _, t, _, _, ht, _, _, hp⟩ := orderFields_numbers hd
    exact ⟨t, ht, hp⟩
  · obtain ⟨oid, d, hd, rfl⟩ := h
    obtain ⟨q, _, hq, _, hp, _⟩ := lineItemFields_numbers hd
    exact ⟨q, hq, hp⟩
  · obtain ⟨oid, d, hd, rfl⟩ := h
    obtain ⟨_, p, _, hq, _, hp⟩ := lineItemFields_numbers hd
    exact ⟨p, hq, hp⟩

theorem NumericField.parse_zero (f : NumericField) : f.parse zero = .ok (Js.Num.ofNat 0) := by
  cases f <;> rfl

/-- C12, as stated, fails: a fetched customer whose `total_spent` is the text
`abc` is mapped to `totalSpent = NaN`, not `0`. Under a schema that accepts the
payload the stored row holds `NaN`; under one that refuses `NaN` the record
fails and no row is stored. -/
theorem syncCustomers_maps_text_to_nan :
    (∃ d, customerFields Sample.customerAbc = .ok d ∧ d.totalSpent = Js.Num.nan
      ∧ d.totalSpent ≠ Js.Num.ofNat 0)
    ∧ (∃ run, syncCustomers Sample.service (Sample.onePage "customers" [Sample.customerAbc])
          Sample.lenient Sample.clock {} = some run
        ∧ run.store.customers.map (fun row => row.data.totalSpent) = [Js.Num.nan])
    ∧ (∃ run, syncCustomers Sample.service (Sample.onePage "customers" [Sample.customerAbc])
          Sample.schema Sample.clock {} = some run
        ∧ run.store.customers.length = 0
        ∧ run.result = .ok { recordsProcessed := 0, recordsFailed := 1 }) := by
  refine ⟨⟨_, rfl, rfl, by decide⟩, ⟨_, rfl, rfl⟩, ⟨_, rfl, rfl, rfl⟩⟩

/-- C12, amended. For every fetched customer, order or line item that is
mapped, each numeric field (`total_spent`, `orders_count`, `total_price`,
`subtotal_price`, `total_tax`, `quantity`, `price`) is `0` when the fetched
value is absent or otherwise falsy (`undefined`, `null`, `0`, `NaN`, the empty
text, `false`), and is the conversion (`parseFloat`, `parseInt` for the two
counts) of the fetched value itself when that value is truthy: the fallback is
applied before the conversion, never after it. -/
theorem numeric_field_zero_fallback (f : NumericField) (record : Val) (n : Js.Num)
    (hmapped : f.mapsTo record n) :
    ∃ v, Js.getProp record f.key = .ok v
      ∧ (Js.truthy v = false → n = Js.Num.ofNat 0)
      ∧ (Js.truthy v = true → f.parse v = .ok n) := by
  obtain ⟨v, hv, hp⟩ := NumericField.mapsTo_parse hmapped
  exact ⟨v, hv, fallback_cases f.parse f.parse_zero v n hp⟩

theorem numeric_field_zero_fallback_witness :
    NumericField.totalSpent.mapsTo Sample.customerB (Js.Num.ofNat 0)
    ∧ NumericField.totalSpent.mapsTo Sample.customerAbc Js.Num.nan
    ∧ (∃ v, Js.getProp Sample.customerB NumericField.totalSpent.key = .ok v
        ∧ (Js.truthy v = false → Js.Num.ofNat 0 = Js.Num.ofNat 0)
        ∧ (Js.truthy v = true → NumericField.totalSpent.parse v = .ok (Js.Num.ofNat 0))) :=
  ⟨⟨_, rfl, rfl⟩, ⟨_, rfl, rfl⟩,
    numeric_field_zero_fallback .totalSpent Sample.customerB (Js.Num.ofNat 0) ⟨_, rfl, rfl⟩⟩

end ShopifyService

/-! # Orders: customer reference and line items -/

namespace ShopifyService

/-- C13: the claim fails where a stored order already carries a customer
reference. The store holds order 7 linked to the Customer row with id 0; order 7
is fetched again naming customer 9, which matches no Customer row. The order is
upserted and counted as processed, but `customerId` is `undefined` in the
`update` object, so the stored reference stays `0` instead of being cleared. -/
theorem syncOrders_update_keeps_stale_customer_link :
    Sample.seeded.orders.map (fun o => (o.shopifyId, o.customerId)) = [("7", some 0)]
    ∧ Sample.seeded.customers.map (fun c => (c.id, c.shopifyId)) = [(0, "1")]
    ∧ resolveCustomer "tenant-1" Sample.seeded Sample.orderA9 = .ok .undefined
    ∧ ∃ run, syncOrders Sample.service (Sample.onePage "orders" [Sample.orderA9])
          Sample.schema Sample.clock Sample.seeded = some run
        ∧ run.result = .ok { recordsProcessed := 1, recordsFailed := 0 }
        ∧ run.store.orders.map (fun o => (o.shopifyId, o.customerId)) = [("7", some 0)] := by
  refine ⟨rfl, rfl, rfl, _, rfl, rfl, rfl⟩

end ShopifyService

namespace ShopifyService

/-- The guard of the line-item block on an array: it holds when the array is
not empty. -/
theorem lineItemsToSync_arr {r : Val} {items : List Val}
    (h : Js.getProp r "line_items" = .ok (.arr items)) (hne : items ≠ []) :
    lineItemsToSync r = .ok (some (.arr items)) := by
  unfold lineItemsToSync
  simp only [bind, Except.bind]
  rw [h]
  cases items with
  | nil => exact absurd rfl hne
  | cons x xs =>
    simp [Js.truthy, Js.getProp, Js.gtZero, Js.toNumber, Except.map, Js.Num.ofNat,
      Js.Num.isPos, pure, Except.pure]

/-- The guard of the line-item block on an empty array: it does not hold. -/
theorem lineItemsToSync_empty {r : Val} (h : Js.getProp r "line_items" = .ok (.arr [])) :
    lineItemsToSync r = .ok none := by
  unfold lineItemsToSync
  simp only [bind, Except.bind]
  rw [h]
  rfl

/-- The guard of the line-item block on a falsy `line_items` (absent, `null`,
...): it does not hold. -/
theorem lineItemsToSync_falsy {r v : Val} (h : Js.getProp r "line_items" = .ok v)
    (hv : Js.truthy v = false) : lineItemsToSync r = .ok none := by
  unfold lineItemsToSync
  simp only [bind, Except.bind]
  rw [h]
  simp [hv, pure, Except.pure]

/-- The data the inner loop creates are the mapped items, one per item and in
the same order. -/
theorem lineData_map (schema : Schema) (oid : Nat) :
    ∀ (items : List Val) (ds : List LineItemData), lineData schema oid items = some ds →
      items.map (lineItemFields oid) = ds.map Except.ok := by
  intro items
  induction items with
  | nil =>
    intro ds h
    simp only [lineData, Option.some.injEq] at h
    subst h
    rfl
  | cons item rest ih =>
    intro ds h
    unfold lineData at h
    split at h
    · rename_i data hdata
      split at h
      · cases hrest : lineData schema oid rest with
        | none => simp [hrest] at h
        | some ds1 =>
          simp only [hrest, Option.map_some', Option.some.injEq] at h
          subst h
          simp [hdata, ih ds1 hrest]
      · cases h
    · cases h

/-- What a completed iteration of the order loop leaves: the order is stored
under the record's key, and the line-item block ran according to its plan. -/
theorem syncOrderRecord_completed {schema : Schema} {tid : String} {st : Store} {r : Val}
    (hok : (syncOrderRecord schema tid st r).error = none) :
    ∃ sid oid plan, externalId r = some sid
      ∧ orderIdOf (syncOrderRecord schema tid st r).store.orders (tid, sid) = some oid
      ∧ linePlan schema r oid = some plan
      ∧ ∀ o, lineItemsOf (syncOrderRecord schema tid st r).store o
          = match plan with
            | some ds => if o = oid then ds else lineItemsOf st o
            | none => lineItemsOf st o := by
  obtain ⟨k, f, plan, hw, hp⟩ := syncOrderRecord_error_none hok
  obtain ⟨idv, cref, hid, hsid, _, _, _, htid⟩ := orderWrite_some hw
  obtain ⟨_, horders, hitems⟩ := syncOrderRecord_success hw hp
  have hk : (tid, k.2) = k := by rw [← htid]
  refine ⟨k.2, orderIdFor k st.nextId st.orders, plan, ?_, ?_, hp, ?_⟩
  rotate_left 2
  · intro o
    have h := hitems o
    cases plan <;> exact h
  · unfold externalId
    rw [hid]
    simp only [hsid]
  · rw [horders, orderIdOf_tableUpsert, hk]
    simp

end ShopifyService

namespace ShopifyService

/-- The plan of the line-item block for a non-empty array of line items: the
mapped items, when every one maps and is accepted. -/
theorem linePlan_arr {schema : Schema} {r : Val} {items : List Val} (oid : Nat)
    (h : Js.getProp r "line_items" = .ok (.arr items)) (hne : items ≠ []) :
    linePlan schema r oid = (lineData schema oid items).map some := by
  unfold linePlan
  rw [lineItemsToSync_arr h hne]
  rfl

/-- A plan exists only if `line_items` could be read. -/
theorem linePlan_getProp {schema : Schema} {r : Val} {oid : Nat}
    {plan : Option (List LineItemData)} (h : linePlan schema r oid = some plan) :
    ∃ found, Js.getProp r "line_items" = .ok found := by
  cases hget : Js.getProp r "line_items" with
  | ok found => exact ⟨found, rfl⟩
  | error e =>
    exfalso
    unfold linePlan lineItemsToSync at h
    simp only [bind, Except.bind] at h
    rw [hget] at h
    cases h

/-- C14, as stated, fails: order 7 is stored with the line items `A` and `B`;
it is fetched again with an empty `line_items` list, and once more without the
key. Both runs process the order, and both leave `A` and `B` stored. -/
theorem syncOrders_keeps_line_items_when_payload_has_none :
    (lineItemsOf Sample.seeded 1).map (fun d => d.title) = [Val.str "A", Val.str "B"]
    ∧ (∃ run, syncOrders Sample.service (Sample.onePage "orders" [Sample.orderANone])
          Sample.schema Sample.clock Sample.seeded = some run
        ∧ run.result = .ok { recordsProcessed := 1, recordsFailed := 0 }
        ∧ orderIdOf run.store.orders ("tenant-1", "7") = some 1
        ∧ (lineItemsOf run.store 1).map (fun d => d.title) = [Val.str "A", Val.str "B"])
    ∧ (∃ run, syncOrders Sample.service (Sample.onePage "orders" [Sample.orderAAbsent])
          Sample.schema Sample.clock Sample.seeded = some run
        ∧ run.result = .ok { recordsProcessed := 1, recordsFailed := 0 }
        ∧ (lineItemsOf run.store 1).map (fun d => d.title) = [Val.str "A", Val.str "B"]) := by
  refine ⟨rfl, ⟨_, rfl, rfl, rfl, rfl⟩, ⟨_, rfl, rfl, rfl⟩⟩

/-- C14, amended. When `syncOrders` processes an order (its loop iteration
completes), the stored line items of that order are replaced by the mapped
items of the payload if the payload's `line_items` is a non-empty list; if it
is an empty list or absent (falsy), the delete is skipped and the stored line
items of the order are left exactly as they were. -/
theorem syncOrders_replaces_line_items_only_when_present (schema : Schema) (tenantId : String)
    (st : Store) (shopifyOrder : Val)
    (hok : (syncOrderRecord schema tenantId st shopifyOrder).error = none) :
    ∃ sid orderId found, externalId shopifyOrder = some sid
      ∧ orderIdOf (syncOrderRecord schema tenantId st shopifyOrder).store.orders
          (tenantId, sid) = some orderId
      ∧ Js.getProp shopifyOrder "line_items" = .ok found
      ∧ (∀ items, found = .arr items → items ≠ [] →
          items.map (lineItemFields orderId)
            = (lineItemsOf (syncOrderRecord schema tenantId st shopifyOrder).store orderId).map
                Except.ok)
      ∧ (found = .arr [] ∨ Js.truthy found = false →
          lineItemsOf (syncOrderRecord schema tenantId st shopifyOrder).store orderId
            = lineItemsOf st orderId) := by
  obtain ⟨sid, oid, plan, hsid, hoid, hplan, hitems⟩ := syncOrderRecord_completed hok
  obtain ⟨found, hfound⟩ := linePlan_getProp hplan
  refine ⟨sid, oid, found, hsid, hoid, hfound, ?_, ?_⟩
  · intro items hf hne
    subst hf
    rw [linePlan_arr oid hfound hne] at hplan
    cases hd : lineData schema oid items with
    | none => simp [hd] at hplan
    | some ds =>
      simp only [hd, Option.map_some', Option.some.injEq] at hplan
      subst hplan
      have h := hitems oid
      simp only [if_true] at h
      rw [h]
      exact lineData_map schema oid items ds hd
  · intro hf
    have hnone : lineItemsToSync shopifyOrder = .ok none := by
      rcases hf with hf | hf
      · subst hf
        exact lineItemsToSync_empty hfound
      · exact lineItemsToSync_falsy hfound hf
    unfold linePlan at hplan
    rw [hnone] at hplan
    simp only [Option.some.injEq] at hplan
    subst hplan
    exact hitems oid

theorem syncOrders_replaces_line_items_only_when_present_witness :
    (lineItemsOf Sample.seeded 1).length = 2
    ∧ ∃ sid orderId found, externalId Sample.orderANone = some sid
      ∧ orderIdOf (syncOrderRecord Sample.schema "tenant-1" Sample.seeded
          Sample.orderANone).store.orders ("tenant-1", sid) = some orderId
      ∧ Js.getProp Sample.orderANone "line_items" = .ok found
      ∧ (∀ items, found = .arr items → items ≠ [] →
          items.map (lineItemFields orderId)
            = (lineItemsOf (syncOrderRecord Sample.schema "tenant-1" Sample.seeded
                Sample.orderANone).store orderId).map Except.ok)
      ∧ (found = .arr [] ∨ Js.truthy found = false →
          lineItemsOf (syncOrderRecord Sample.schema "tenant-1" Sample.seeded
              Sample.orderANone).store orderId
            = lineItemsOf Sample.seeded orderId) :=
  ⟨rfl, syncOrders_replaces_line_items_only_when_present Sample.schema "tenant-1" Sample.seeded
    Sample.orderANone rfl⟩

end ShopifyService

/-! # Key uniqueness and the last write under a key -/

namespace ShopifyService

section KeyedLoop

set_option linter.unusedSectionVars false

variable {ρ κ δ ε : Type} [DecidableEq κ] (key : ρ → κ) (upd : ρ → δ → ρ)
  (mk : Nat → κ → δ → ρ)

theorem map_key_mapFirst (f : ρ → ρ) (hf : ∀ r, key (f r) = key r) (p : ρ → Bool) :
    ∀ rows : List ρ, (mapFirst p f rows).map key = rows.map key := by
  intro rows
  induction rows with
  | nil => rfl
  | cons x xs ih =>
    by_cases hx : p x = true
    · simp [mapFirst, hx, hf]
    · simp [mapFirst, hx, ih]

/-- An upsert keeps the keys of a table pairwise distinct. -/
theorem tableUpsert_nodup (laws : TableLaws key upd mk) (op : κ × δ) (rows : List ρ) (n : Nat)
    (h : (rows.map key).Nodup) :
    ((tableUpsert key upd mk op (rows, n)).1.map key).Nodup := by
  rw [tableUpsert_eq]
  cases hfind : rows.find? (fun r => decide (key r = op.1)) with
  | some row =>
    simp only [Option.isSome_some, if_true]
    rw [map_key_mapFirst key _ (fun r => laws.key_upd r op.2)]
    exact h
  | none =>
    simp only [Option.isSome_none, Bool.false_eq_true, if_false, List.map_append,
      List.map_cons, List.map_nil]
    rw [List.nodup_append]
    refine ⟨h, List.nodup_singleton _, ?_⟩
    intro a ha hb
    rw [List.mem_singleton] at hb
    rw [laws.key_mk] at hb
    rw [List.mem_map] at ha
    obtain ⟨r, hr, hkr⟩ := ha
    rw [List.find?_eq_none] at hfind
    have := hfind r hr
    simp only [decide_eq_true_eq] at this
    exact this (hkr.trans hb)

/-- In a table with distinct keys, the row found under a key is the only row
under that key. -/
theorem filter_key_of_find (k : κ) :
    ∀ (rows : List ρ) (row : ρ), (rows.map key).Nodup →
      rows.find? (fun r => decide (key r = k)) = some row →
      rows.filter (fun r => decide (key r = k)) = [row] := by
  intro rows
  induction rows with
  | nil => intro row _ h; simp at h
  | cons x xs ih =>
    intro row hn hf
    rw [List.map_cons, List.nodup_cons] at hn
    by_cases hx : key x = k
    · rw [List.find?_cons_of_pos _ (by simp [hx])] at hf
      cases hf
      rw [List.filter_cons_of_pos (by simp [hx])]
      congr 1
      rw [List.filter_eq_nil_iff]
      intro a ha
      simp only [decide_eq_true_eq]
      intro hak
      exact hn.1 (List.mem_map.mpr ⟨a, ha, hak.trans hx.symm⟩)
    · rw [List.find?_cons_of_neg _ (by simp [hx])] at hf
      rw [List.filter_cons_of_neg (by simp [hx])]
      exact ih row hn.2 hf

theorem loopStore_append (step : Store → Val → Step) :
    ∀ (a b : List Val) (st : Store),
      loopStore step (a ++ b) st = loopStore step b (loopStore step a st) := by
  intro a
  induction a with
  | nil => intro b st; rfl
  | cons x xs ih => intro b st; exact ih b _

variable (step : Store → Val → Step) (get : Store → List ρ) (inv : Store → Prop)
  (W : Val → Option (κ × ε)) (proj : δ → ε)

theorem keyedLoop_inv (ks : KeyedStep key upd mk step get inv W proj) :
    ∀ (records : List Val) (st : Store), inv st → inv (loopStore step records st) := by
  intro records
  induction records with
  | nil => intro st h; exact h
  | cons r rest ih => intro st h; exact ih _ (ks.inv_step st r h)

/-- A keyed loop keeps the keys of its table pairwise distinct. -/
theorem keyedLoop_nodup (laws : TableLaws key upd mk)
    (ks : KeyedStep key upd mk step get inv W proj) :
    ∀ (records : List Val) (st : Store), inv st → ((get st).map key).Nodup →
      ((get (loopStore step records st)).map key).Nodup := by
  intro records
  induction records with
  | nil => intro st _ h; exact h
  | cons r rest ih =>
    intro st hinv h
    refine ih _ (ks.inv_step st r hinv) ?_
    cases hw : W r with
    | none => rw [ks.skipped st r hinv hw]; exact h
    | some op =>
      obtain ⟨d, n, _, hget⟩ := ks.written st r op.1 op.2 hinv hw
      rw [hget]
      exact tableUpsert_nodup key upd mk laws _ _ _ h

/-- Records that write nothing under `k` leave the row found under `k` as it
is. -/
theorem keyedLoop_find_other (laws : TableLaws key upd mk)
    (ks : KeyedStep key upd mk step get inv W proj) (k : κ) :
    ∀ (records : List Val) (st : Store), inv st →
      (∀ r ∈ records, ∀ x, W r ≠ some (k, x)) →
      (get (loopStore step records st)).find? (fun r => decide (key r = k))
        = (get st).find? (fun r => decide (key r = k)) := by
  intro records
  induction records with
  | nil => intro st _ _; rfl
  | cons r rest ih =>
    intro st hinv hno
    have hrest : ∀ r1 ∈ rest, ∀ x, W r1 ≠ some (k, x) :=
      fun r1 h1 => hno r1 (List.mem_cons_of_mem _ h1)
    have h1 := ih (step st r).store (ks.inv_step st r hinv) hrest
    have h2 : (get (step st r).store).find? (fun r => decide (key r = k))
        = (get st).find? (fun r => decide (key r = k)) := by
      cases hw : W r with
      | none => rw [ks.skipped st r hinv hw]
      | some op =>
        obtain ⟨d, n, hd, hget⟩ := ks.written st r op.1 op.2 hinv hw
        rw [hget, find_tableUpsert key upd mk laws]
        have hne : ¬ k = op.1 := by
          intro hk
          exact hno r (List.mem_cons_self _ _) op.2 (by rw [hw, hk])
        simp only [if_neg hne]
    exact h1.trans h2

/-- After a keyed loop, the row found under `k` satisfies what the last write
under `k` establishes. -/
theorem keyedLoop_last (laws : TableLaws key upd mk)
    (ks : KeyedStep key upd mk step get inv W proj) (q : ε → ρ → Prop)
    (hupd : ∀ r d, q (proj d) (upd r d)) (hmk : ∀ i k d, q (proj d) (mk i k d))
    (k : κ) (x : ε) (before after : List Val) (record : Val) (st : Store) (hinv : inv st)
    (hw : W record = some (k, x)) (hafter : ∀ r ∈ after, ∀ y, W r ≠ some (k, y)) :
    ∃ row, (get (loopStore step (before ++ record :: after) st)).find?
        (fun r => decide (key r = k)) = some row ∧ q x row := by
  rw [loopStore_append]
  have hinv1 := keyedLoop_inv key upd mk step get inv W proj ks before st hinv
  generalize loopStore step before st = st1 at hinv1
  have hfind := keyedLoop_find_other key upd mk step get inv W proj laws ks k after
    (step st1 record).store (ks.inv_step st1 record hinv1) hafter
  have hstep : loopStore step (record :: after) st1 = loopStore step after (step st1 record).store :=
    rfl
  rw [hstep, hfind]
  obtain ⟨d, n, hd, hget⟩ := ks.written st1 record k x hinv1 hw
  rw [hget, find_tableUpsert key upd mk laws]
  simp only [if_true]
  refine ⟨_, rfl, ?_⟩
  rw [← hd]
  cases (get st1).find? (fun r => decide (key r = k)) with
  | none => exact hmk _ _ _
  | some r0 => exact hupd _ _

end KeyedLoop

end ShopifyService

namespace ShopifyService

/-- The body of the customer loop leaves the other tables as they were. -/
theorem syncCustomerRecord_frame (schema : Schema) (tid : String) (st : Store) (r : Val) :
    (syncCustomerRecord schema tid st r).store.orders = st.orders
    ∧ (syncCustomerRecord schema tid st r).store.lineItems = st.lineItems
    ∧ (syncCustomerRecord schema tid st r).store.products = st.products
    ∧ (syncCustomerRecord schema tid st r).store.syncLogs = st.syncLogs := by
  cases hw : customerWrite schema tid r with
  | none =>
    obtain ⟨e, h⟩ := customerWrite_none hw st
    rw [h]
    exact ⟨rfl, rfl, rfl, rfl⟩
  | some op =>
    rw [syncCustomerRecord_write hw st]
    exact ⟨rfl, rfl, rfl, rfl⟩

/-- The body of the product loop leaves the other tables as they were. -/
theorem syncProductRecord_frame (schema : Schema) (tid : String) (st : Store) (r : Val) :
    (syncProductRecord schema tid st r).store.customers = st.customers
    ∧ (syncProductRecord schema tid st r).store.orders = st.orders
    ∧ (syncProductRecord schema tid st r).store.lineItems = st.lineItems
    ∧ (syncProductRecord schema tid st r).store.syncLogs = st.syncLogs := by
  cases hw : productWrite schema tid r with
  | none =>
    obtain ⟨e, h⟩ := productWrite_none hw st
    rw [h]
    exact ⟨rfl, rfl, rfl, rfl⟩
  | some op =>
    rw [syncProductRecord_write hw st]
    exact ⟨rfl, rfl, rfl, rfl⟩

/-- The order table after the body of the order loop, when the upsert goes
through: the line-item block does not touch it. -/
theorem syncOrderRecord_orders {schema : Schema} {tid : String} {st : Store} {r : Val}
    {k : String × String} {f : OrderData} (h : orderWrite schema tid st r = some (k, f)) :
    (syncOrderRecord schema tid st r).store.orders
      = (tableUpsert orderKey orderUpd orderMk (k, (f, st.nextId)) (st.orders, 0)).1 := by
  obtain ⟨n1, hstep⟩ := syncOrderRecord_write h
  rw [hstep]
  exact (syncLineItems_frame schema r _ _).2.2.1

theorem customerKeyed (schema : Schema) (tid : String) :
    KeyedStep customerKey customerUpd customerMk (syncCustomerRecord schema tid)
      (fun st => st.customers) (fun _ => True) (customerWrite schema tid) id where
  inv_step := fun _ _ _ => trivial
  written := by
    intro st r k x _ hw
    refine ⟨x, st.nextId, rfl, ?_⟩
    rw [syncCustomerRecord_write hw st]
  skipped := by
    intro st r _ hw
    obtain ⟨e, h⟩ := customerWrite_none hw st
    rw [h]

theorem productKeyed (schema : Schema) (tid : String) :
    KeyedStep productKey productUpd productMk (syncProductRecord schema tid)
      (fun st => st.products) (fun _ => True) (productWrite schema tid) id where
  inv_step := fun _ _ _ => trivial
  written := by
    intro st r k x _ hw
    refine ⟨x, st.nextId, rfl, ?_⟩
    rw [syncProductRecord_write hw st]
  skipped := by
    intro st r _ hw
    obtain ⟨e, h⟩ := productWrite_none hw st
    rw [h]

theorem orderKeyed (schema : Schema) (tid : String) (st0 : Store) :
    KeyedStep orderKey orderUpd orderMk (syncOrderRecord schema tid)
      (fun st => st.orders) (fun st => st.customers = st0.customers)
      (orderWrite schema tid st0) Prod.fst where
  inv_step := by
    intro st r h
    rw [(syncOrderRecord_frame schema tid st r).2.1]
    exact h
  written := by
    intro st r k x hinv hw
    rw [← orderWrite_customers hinv schema tid r] at hw
    exact ⟨(x, st.nextId), 0, rfl, syncOrderRecord_orders hw⟩
  skipped := by
    intro st r hinv hw
    rw [← orderWrite_customers hinv schema tid r] at hw
    obtain ⟨e, h⟩ := orderWrite_none hw
    rw [h]

/-- A record loop keeps the key unique in each entity table. -/
theorem Entity.loop_keysUnique (e : Entity) (schema : Schema) (tid : String)
    (records : List Val) (st : Store) (h : keysUnique st) :
    keysUnique (loopStore (e.step schema tid) records st) := by
  obtain ⟨hc, ho, hp⟩ := h
  cases e
  · change keysUnique (loopStore (syncCustomerRecord schema tid) records st)
    refine ⟨?_, ?_, ?_⟩
    · exact keyedLoop_nodup customerKey customerUpd customerMk _ _ _ _ _ customerLaws
        (customerKeyed schema tid) records st trivial hc
    · rw [loopStore_preserves (fun s => s.orders) _
        (fun s r => (syncCustomerRecord_frame schema tid s r).1) records st]
      exact ho
    · rw [loopStore_preserves (fun s => s.products) _
        (fun s r => (syncCustomerRecord_frame schema tid s r).2.2.1) records st]
      exact hp
  · change keysUnique (loopStore (syncOrderRecord schema tid) records st)
    refine ⟨?_, ?_, ?_⟩
    · rw [loopStore_preserves (fun s => s.customers) _
        (fun s r => (syncOrderRecord_frame schema tid s r).2.1) records st]
      exact hc
    · exact keyedLoop_nodup orderKey orderUpd orderMk _ _ _ _ _ orderLaws
        (orderKeyed schema tid st) records st rfl ho
    · rw [loopStore_preserves (fun s => s.products) _
        (fun s r => (syncOrderRecord_frame schema tid s r).2.2) records st]
      exact hp
  · change keysUnique (loopStore (syncProductRecord schema tid) records st)
    refine ⟨?_, ?_, ?_⟩
    · rw [loopStore_preserves (fun s => s.customers) _
        (fun s r => (syncProductRecord_frame schema tid s r).1) records st]
      exact hc
    · rw [loopStore_preserves (fun s => s.orders) _
        (fun s r => (syncProductRecord_frame schema tid s r).2.1) records st]
      exact ho
    · exact keyedLoop_nodup productKey productUpd productMk _ _ _ _ _ productLaws
        (productKeyed schema tid) records st trivial hp

end ShopifyService

namespace ShopifyService

theorem externalId_of_id {r idv : Val} {s : String} (h1 : Js.getProp r "id" = .ok idv)
    (h2 : Js.callToString idv = .ok s) : externalId r = some s := by
  unfold externalId
  rw [h1]
  simp only [h2]

theorem resolveCustomer_customers {st st2 : Store} (h : st.customers = st2.customers)
    (tid : String) (r : Val) : resolveCustomer tid st r = resolveCustomer tid st2 r := by
  unfold resolveCustomer Store.findCustomer
  rw [h]

/-- After a record loop, the row under the key of the last record upserted
under that key is the only one, and carries that record's mapped fields. -/
theorem Entity.loop_reflects (e : Entity) (schema : Schema) (tid sid : String)
    (before after : List Val) (record : Val) (st : Store) (hunique : keysUnique st)
    (hid : externalId record = some sid) (hup : e.upserts schema tid st record = true)
    (hafter : ∀ r ∈ after, externalId r = some sid → e.upserts schema tid st r = false) :
    e.reflects (loopStore (e.step schema tid) (before ++ record :: after) st) tid sid
      record := by
  have hu := Entity.loop_keysUnique e schema tid (before ++ record :: after) st hunique
  cases e
  · change (customerWrite schema tid record).isSome = true at hup
    obtain ⟨op, hw⟩ := Option.isSome_iff_exists.mp hup
    obtain ⟨idv, h1, h2, hf, _, ht⟩ := customerWrite_some hw
    have hsid : op.1.2 = sid := by
      have := externalId_of_id h1 h2
      rw [hid] at this
      exact (Option.some.inj this).symm
    have hop : op = ((tid, sid), op.2) := by
      rw [← ht, ← hsid]
    rw [hop] at hw
    have hno : ∀ r ∈ after, ∀ y, customerWrite schema tid r ≠ some ((tid, sid), y) := by
      intro r hr y hwr
      obtain ⟨idv1, g1, g2, _, _, _⟩ := customerWrite_some hwr
      have hfalse := hafter r hr (externalId_of_id g1 g2)
      change (customerWrite schema tid r).isSome = false at hfalse
      rw [hwr] at hfalse
      cases hfalse
    obtain ⟨row, hfind, hq⟩ := keyedLoop_last customerKey customerUpd customerMk
      (syncCustomerRecord schema tid) (fun s => s.customers) (fun _ => True)
      (customerWrite schema tid) id customerLaws (customerKeyed schema tid)
      (fun x row => row.data = x) (fun _ _ => rfl) (fun _ _ _ => rfl)
      (tid, sid) op.2 before after record st trivial hw hno
    refine ⟨row, filter_key_of_find customerKey (tid, sid) _ row hu.1 hfind, ?_⟩
    rw [hq]
    exact hf
  · change (orderWrite schema tid st record).isSome = true at hup
    obtain ⟨op, hw⟩ := Option.isSome_iff_exists.mp hup
    obtain ⟨idv, cref, h1, h2, hres, hf, _, ht⟩ := orderWrite_some hw
    have hsid : op.1.2 = sid := by
      have := externalId_of_id h1 h2
      rw [hid] at this
      exact (Option.some.inj this).symm
    have hop : op = ((tid, sid), op.2) := by
      rw [← ht, ← hsid]
    rw [hop] at hw
    have hno : ∀ r ∈ after, ∀ y, orderWrite schema tid st r ≠ some ((tid, sid), y) := by
      intro r hr y hwr
      obtain ⟨idv1, _, g1, g2, _, _, _, _⟩ := orderWrite_some hwr
      have hfalse := hafter r hr (externalId_of_id g1 g2)
      change (orderWrite schema tid st r).isSome = false at hfalse
      rw [hwr] at hfalse
      cases hfalse
    obtain ⟨row, hfind, hq⟩ := keyedLoop_last orderKey orderUpd orderMk
      (syncOrderRecord schema tid) (fun s => s.orders) (fun s => s.customers = st.customers)
      (orderWrite schema tid st) Prod.fst orderLaws (orderKeyed schema tid st)
      (fun x row => Store.applyOrderUpdate row x = row)
      (fun r d => orderLaws.upd_idem r d) (fun i k d => orderLaws.upd_mk i k d)
      (tid, sid) op.2 before after record st rfl hw hno
    have hcust : (loopStore (syncOrderRecord schema tid) (before ++ record :: after)
        st).customers = st.customers :=
      loopStore_preserves (fun s => s.customers) _
        (fun s r => (syncOrderRecord_frame schema tid s r).2.1) _ st
    refine ⟨row, cref, op.2, filter_key_of_find orderKey (tid, sid) _ row hu.2.1 hfind, ?_,
      hf, hq⟩
    change resolveCustomer tid (loopStore (syncOrderRecord schema tid)
      (before ++ record :: after) st) record = .ok cref
    rw [resolveCustomer_customers hcust]
    exact hres
  · change (productWrite schema tid record).isSome = true at hup
    obtain ⟨op, hw⟩ := Option.isSome_iff_exists.mp hup
    obtain ⟨idv, h1, h2, hf, _, ht⟩ := productWrite_some hw
    have hsid : op.1.2 = sid := by
      have := externalId_of_id h1 h2
      rw [hid] at this
      exact (Option.some.inj this).symm
    have hop : op = ((tid, sid), op.2) := by
      rw [← ht, ← hsid]
    rw [hop] at hw
    have hno : ∀ r ∈ after, ∀ y, productWrite schema tid r ≠ some ((tid, sid), y) := by
      intro r hr y hwr
      obtain ⟨idv1, g1, g2, _, _, _⟩ := productWrite_some hwr
      have hfalse := hafter r hr (externalId_of_id g1 g2)
      change (productWrite schema tid r).isSome = false at hfalse
      rw [hwr] at hfalse
      cases hfalse
    obtain ⟨row, hfind, hq⟩ := keyedLoop_last productKey productUpd productMk
      (syncProductRecord schema tid) (fun s => s.products) (fun _ => True)
      (productWrite schema tid) id productLaws (productKeyed schema tid)
      (fun x row => row.data = x) (fun _ _ => rfl) (fun _ _ _ => rfl)
      (tid, sid) op.2 before after record st trivial hw hno
    refine ⟨row, filter_key_of_find productKey (tid, sid) _ row hu.2.2 hfind, ?_⟩
    rw [hq]
    exact hf

end ShopifyService

namespace ShopifyService

/-- The two ways a synchroniser ends, with the store it leaves: after a
successful fetch, the store of the record loop plus one ledger row; after a
failed fetch, the initial store plus one ledger row. -/
theorem Entity.sync_cases (e : Entity) (svc : ShopifyService) (api : Api) (schema : Schema)
    (clock : Nat → Nat) (st : Store) :
    ∃ fetched, e.fetch svc api = some fetched
      ∧ ((∃ records d, fetched.result = .ok records
            ∧ d.entityType = e.name ∧ d.tenantId = svc.tenant.id
            ∧ e.sync svc api schema clock st
              = some { store := (loopStore (e.step schema svc.tenant.id) records
                         st).createSyncLog d
                       requests := fetched.requests
                       result := .ok
                         { recordsProcessed :=
                             successes (e.step schema svc.tenant.id) records st
                           recordsFailed :=
                             failures (e.step schema svc.tenant.id) records st } })
        ∨ (∃ error d, fetched.result = .error error
            ∧ d.entityType = e.name ∧ d.tenantId = svc.tenant.id
            ∧ e.sync svc api schema clock st
              = some { store := st.createSyncLog d
                       requests := fetched.requests
                       result := .error error })) := by
  obtain ⟨fetched, hfetch⟩ := Entity.fetch_total e svc api
  refine ⟨fetched, hfetch, ?_⟩
  obtain ⟨msg, hsync⟩ := Entity.sync_eq e svc api schema clock st
  cases hres : fetched.result with
  | ok records =>
    left
    refine ⟨records, ?_, rfl, ?_, ?_, ?_⟩
    rotate_left 3
    · rw [hsync]
      exact syncEntity_of_fetched e.name msg svc.tenant.id (e.fetch svc api)
        (e.step schema svc.tenant.id) clock st fetched records hfetch hres
    · rfl
    · rfl
  | error error =>
    right
    exact ⟨error, _, rfl, rfl, rfl,
      Entity.sync_of_fetch_error e svc api schema clock st fetched error hfetch hres⟩

theorem Entity.reflects_createSyncLog {e : Entity} {st : Store} {tid sid : String}
    {record : Val} (d : SyncLogData) (h : e.reflects st tid sid record) :
    e.reflects (st.createSyncLog d) tid sid record := by
  cases e <;> exact h

/-- Starting from a store in which the key `(tenantId, externalId)` is
unique in each entity table, every entity synchroniser returns and leaves the
key unique. When the fetched list holds several records with one external id,
then after the run exactly one row is stored under that key, and the update of
the last of them that was upserted is reflected in it: a Customer or Product
row carries that record's mapped fields, and on an Order row applying that
record's update again changes nothing. -/
theorem sync_keeps_key_unique_last_record_wins (e : Entity) (svc : ShopifyService)
    (api : Api) (schema : Schema) (clock : Nat → Nat) (st : Store)
    (hunique : keysUnique st) :
    ∃ run, e.sync svc api schema clock st = some run
      ∧ keysUnique run.store
      ∧ ∀ (fetched : FetchRun) (before : List Val) (record : Val) (after : List Val)
          (sid : String),
          e.fetch svc api = some fetched →
          fetched.result = .ok (before ++ record :: after) →
          externalId record = some sid →
          e.upserts schema svc.tenant.id st record = true →
          (∀ r ∈ after, externalId r = some sid →
            e.upserts schema svc.tenant.id st r = false) →
          e.reflects run.store svc.tenant.id sid record := by
  obtain ⟨fetched, hfetch, hcase⟩ := Entity.sync_cases e svc api schema clock st
  rcases hcase with ⟨records, d, hres, _, _, hsync⟩ | ⟨error, d, hres, _, _, hsync⟩
  · refine ⟨_, hsync, ?_, ?_⟩
    · exact Entity.loop_keysUnique e schema svc.tenant.id records st hunique
    · intro fetched1 before record after sid hf1 hr1 hid hup hafter
      rw [hfetch] at hf1
      cases hf1
      rw [hres] at hr1
      cases hr1
      exact Entity.reflects_createSyncLog d
        (Entity.loop_reflects e schema svc.tenant.id sid before after record st hunique hid
          hup hafter)
  · refine ⟨_, hsync, hunique, ?_⟩
    intro fetched1 before record after sid hf1 hr1
    rw [hfetch] at hf1
    cases hf1
    rw [hres] at hr1
    cases hr1

theorem sync_keeps_key_unique_last_record_wins_witness :
    keysUnique {}
    ∧ externalId Sample.customerA = some "1" ∧ externalId Sample.customerA2 = some "1"
    ∧ (∃ run, syncCustomers Sample.service
          (Sample.onePage "customers" [Sample.customerA, Sample.customerA2])
          Sample.schema Sample.clock {} = some run
        ∧ run.result = .ok { recordsProcessed := 2, recordsFailed := 0 }
        ∧ run.store.customers.map (fun row => (row.shopifyId, row.data.email))
            = [("1", Val.str "a2@x.com")])
    ∧ ∃ run, Entity.customers.sync Sample.service
          (Sample.onePage "customers" [Sample.customerA, Sample.customerA2])
          Sample.schema Sample.clock {} = some run
        ∧ keysUnique run.store
        ∧ Entity.customers.reflects run.store "tenant-1" "1" Sample.customerA2 := by
  have h0 : keysUnique {} := ⟨List.nodup_nil, List.nodup_nil, List.nodup_nil⟩
  obtain ⟨run, hrun, hu, hall⟩ := sync_keeps_key_unique_last_record_wins .customers
    Sample.service (Sample.onePage "customers" [Sample.customerA, Sample.customerA2])
    Sample.schema Sample.clock {} h0
  refine ⟨h0, rfl, rfl, ⟨_, rfl, rfl, rfl⟩, run, hrun, hu, ?_⟩
  exact hall _ [Sample.customerA] Sample.customerA2 [] "1" rfl rfl rfl rfl
    (fun r hr => absurd hr (List.not_mem_nil r))

/-- C11: on orders the later record does not win the customer link. Customer 1
is stored. The fetched list holds order 7 twice: first naming customer 1, then
naming customer 9, who is not stored. Both records are processed and one row is
stored for order 7, but it keeps the link to customer 1 of the earlier record:
the later record's `customerId` is `undefined`, which the update leaves out.
Synced alone, the later record gives a row without a customer link. -/
theorem syncOrders_later_record_keeps_earlier_customer_link :
    Sample.withCustomer.customers.map (fun row => (row.id, row.shopifyId)) = [(0, "1")]
    ∧ externalId Sample.orderA = some "7" ∧ externalId Sample.orderA9 = some "7"
    ∧ resolveCustomer "tenant-1" Sample.withCustomer Sample.orderA = .ok (.id 0)
    ∧ resolveCustomer "tenant-1" Sample.withCustomer Sample.orderA9 = .ok .undefined
    ∧ (∃ run, syncOrders Sample.service
          (Sample.onePage "orders" [Sample.orderA, Sample.orderA9])
          Sample.schema Sample.clock Sample.withCustomer = some run
        ∧ run.result = .ok { recordsProcessed := 2, recordsFailed := 0 }
        ∧ run.store.orders.map (fun row => (row.shopifyId, row.customerId))
            = [("7", some 0)])
    ∧ ∃ run, syncOrders Sample.service (Sample.onePage "orders" [Sample.orderA9])
          Sample.schema Sample.clock Sample.withCustomer = some run
        ∧ run.result = .ok { recordsProcessed := 1, recordsFailed := 0 }
        ∧ run.store.orders.map (fun row => (row.shopifyId, row.customerId))
            = [("7", none)] := by
  refine ⟨rfl, rfl, rfl, rfl, rfl, ⟨_, rfl, rfl, rfl⟩, ⟨_, rfl, rfl, rfl⟩⟩

end ShopifyService

/-! # The orchestrator -/

namespace ShopifyService

/-- The body of a record loop leaves the ledger and the tables of the other
entities as they were. -/
theorem Entity.step_frame (e : Entity) (schema : Schema) (tid : String) (st : Store) (r : Val) :
    (e.step schema tid st r).store.syncLogs = st.syncLogs
    ∧ (e ≠ .customers → (e.step schema tid st r).store.customers = st.customers)
    ∧ (e ≠ .orders → (e.step schema tid st r).store.orders = st.orders
        ∧ (e.step schema tid st r).store.lineItems = st.lineItems)
    ∧ (e ≠ .products → (e.step schema tid st r).store.products = st.products) := by
  cases e
  · obtain ⟨h1, h2, h3, h4⟩ := syncCustomerRecord_frame schema tid st r
    exact ⟨h4, fun h => absurd rfl h, fun _ => ⟨h1, h2⟩, fun _ => h3⟩
  · obtain ⟨h1, h2, h3⟩ := syncOrderRecord_frame schema tid st r
    exact ⟨h1, fun _ => h2, fun h => absurd rfl h, fun _ => h3⟩
  · obtain ⟨h1, h2, h3, h4⟩ := syncProductRecord_frame schema tid st r
    exact ⟨h4, fun _ => h1, fun _ => ⟨h2, h3⟩, fun h => absurd rfl h⟩

/-- A record loop leaves the ledger and the tables of the other entities as
they were. -/
theorem Entity.loop_frame (e : Entity) (schema : Schema) (tid : String) (records : List Val)
    (st : Store) :
    (loopStore (e.step schema tid) records st).syncLogs = st.syncLogs
    ∧ (e ≠ .customers → (loopStore (e.step schema tid) records st).customers = st.customers)
    ∧ (e ≠ .orders → (loopStore (e.step schema tid) records st).orders = st.orders
        ∧ (loopStore (e.step schema tid) records st).lineItems = st.lineItems)
    ∧ (e ≠ .products → (loopStore (e.step schema tid) records st).products = st.products) := by
  refine ⟨?_, ?_, ?_, ?_⟩
  · exact loopStore_preserves (fun s => s.syncLogs) _
      (fun s r => (Entity.step_frame e schema tid s r).1) records st
  · intro h
    exact loopStore_preserves (fun s => s.customers) _
      (fun s r => (Entity.step_frame e schema tid s r).2.1 h) records st
  · intro h
    exact ⟨loopStore_preserves (fun s => s.orders) _
        (fun s r => ((Entity.step_frame e schema tid s r).2.2.1 h).1) records st,
      loopStore_preserves (fun s => s.lineItems) _
        (fun s r => ((Entity.step_frame e schema tid s r).2.2.1 h).2) records st⟩
  · intro h
    exact loopStore_preserves (fun s => s.products) _
      (fun s r => (Entity.step_frame e schema tid s r).2.2.2 h) records st

/-- Every synchroniser returns, and leaves the store it worked on (`mid`, what
its record loop left, or the initial store after a failed fetch) plus one
ledger row of its entity type; the ledger rows before and the tables of the
other entities are as they were. -/
theorem Entity.sync_summary (e : Entity) (svc : ShopifyService) (api : Api) (schema : Schema)
    (clock : Nat → Nat) (st : Store) :
    ∃ (run : SyncRun) (mid : Store) (d : SyncLogData),
      e.sync svc api schema clock st = some run
      ∧ run.store = mid.createSyncLog d
      ∧ d.entityType = e.name ∧ d.tenantId = svc.tenant.id
      ∧ mid.syncLogs = st.syncLogs
      ∧ (e ≠ .customers → mid.customers = st.customers)
      ∧ (e ≠ .orders → mid.orders = st.orders ∧ mid.lineItems = st.lineItems)
      ∧ (e ≠ .products → mid.products = st.products) := by
  obtain ⟨fetched, _, hcase⟩ := Entity.sync_cases e svc api schema clock st
  rcases hcase with ⟨records, d, _, hd1, hd2, hsync⟩ | ⟨error, d, _, hd1, hd2, hsync⟩
  · obtain ⟨h1, h2, h3, h4⟩ := Entity.loop_frame e schema svc.tenant.id records st
    exact ⟨_, _, d, hsync, rfl, hd1, hd2, h1, h2, h3, h4⟩
  · exact ⟨_, st, d, hsync, rfl, hd1, hd2, rfl, fun _ => rfl, fun _ => ⟨rfl, rfl⟩, fun _ => rfl⟩

theorem newLogTypes_createSyncLog (st mid : Store) (d : SyncLogData) (types : List String)
    (h : newLogTypes st mid = types) (hlen : st.syncLogs.length ≤ mid.syncLogs.length) :
    newLogTypes st (mid.createSyncLog d) = types ++ [d.entityType] := by
  unfold newLogTypes at *
  simp only [Store.createSyncLog]
  rw [List.drop_append_of_le_length hlen, List.map_append, h]
  rfl

theorem newLogTypes_self (st : Store) : newLogTypes st st = [] := by
  simp [newLogTypes]

theorem newLogTypes_of_eq {st mid : Store} (h : mid.syncLogs = st.syncLogs) :
    newLogTypes st mid = [] := by
  simp [newLogTypes, h]

end ShopifyService

namespace ShopifyService

/-- C16. `fullSync` returns. It invokes `syncCustomers`, then `syncOrders`
on the store the first left, then `syncProducts` on the store the second left,
and stops at the first that throws, rethrowing that error: if `syncCustomers`
throws, only it was invoked, the orders, line items and products are untouched
and the only new ledger row is of type `customers`; if `syncOrders` throws,
`syncProducts` was not invoked, the products are untouched and the new ledger
rows are of types `customers` and `orders`. When no stage throws, the result
holds exactly the three stage results. -/
theorem fullSync_stops_at_first_failing_stage (svc : ShopifyService) (api : Api)
    (schema : Schema) (clock : Nat → Nat) (st : Store) :
    ∃ (run : FullSyncRun) (c : SyncRun), fullSync svc api schema clock st = some run
      ∧ svc.syncCustomers api schema clock st = some c
      ∧ (∀ error, c.result = .error error →
          run.result = .error error ∧ run.invoked = [.customers] ∧ run.store = c.store
          ∧ run.store.orders = st.orders ∧ run.store.lineItems = st.lineItems
          ∧ run.store.products = st.products
          ∧ newLogTypes st run.store = ["customers"])
      ∧ (∀ cc, c.result = .ok cc →
          ∃ o : SyncRun, svc.syncOrders (laterApi api c.requests.length) schema
              (laterClock clock 2) c.store = some o
            ∧ (∀ error, o.result = .error error →
                run.result = .error error ∧ run.invoked = [.customers, .orders]
                ∧ run.store = o.store ∧ run.store.products = st.products
                ∧ newLogTypes st run.store = ["customers", "orders"])
            ∧ (∀ oc, o.result = .ok oc →
                ∃ p : SyncRun, svc.syncProducts
                    (laterApi api (c.requests.length + o.requests.length)) schema
                    (laterClock clock 4) o.store = some p
                  ∧ run.invoked = [.customers, .orders, .products]
                  ∧ run.store = p.store
                  ∧ newLogTypes st run.store = ["customers", "orders", "products"]
                  ∧ (∀ error, p.result = .error error → run.result = .error error)
                  ∧ (∀ pc, p.result = .ok pc →
                      run.result = .ok { customers := cc, orders := oc, products := pc }))) := by
  obtain ⟨c, midc, dc, hc, hcs, hcn, _, hcl, _, hco, hcp⟩ :=
    Entity.sync_summary .customers svc api schema clock st
  obtain ⟨o, mido, d2, ho, hos, hon, _, hol, _, _, hop⟩ :=
    Entity.sync_summary .orders svc (laterApi api c.requests.length) schema
      (laterClock clock 2) c.store
  obtain ⟨p, midp, d3, hp, hps, hpn, _, hpl, _, _, _⟩ :=
    Entity.sync_summary .products svc (laterApi api (c.requests.length + o.requests.length))
      schema (laterClock clock 4) o.store
  change svc.syncCustomers api schema clock st = some c at hc
  change svc.syncOrders (laterApi api c.requests.length) schema (laterClock clock 2) c.store
    = some o at ho
  change svc.syncProducts (laterApi api (c.requests.length + o.requests.length)) schema
    (laterClock clock 4) o.store = some p at hp
  have hlogc : newLogTypes st c.store = ["customers"] := by
    rw [hcs, newLogTypes_createSyncLog st midc dc [] (newLogTypes_of_eq hcl) (by rw [hcl]), hcn]
    rfl
  have hlenc : st.syncLogs.length ≤ c.store.syncLogs.length := by
    rw [hcs]
    simp [Store.createSyncLog, hcl]
  have hlogo : newLogTypes st o.store = ["customers", "orders"] := by
    rw [hos, newLogTypes_createSyncLog st mido d2 ["customers"]
      (by unfold newLogTypes at *; rw [hol]; exact hlogc) (by rw [hol]; exact hlenc), hon]
    rfl
  have hleno : st.syncLogs.length ≤ o.store.syncLogs.length := by
    rw [hos]
    simp only [Store.createSyncLog, List.length_append, hol]
    omega
  have hlogp : newLogTypes st p.store = ["customers", "orders", "products"] := by
    rw [hps, newLogTypes_createSyncLog st midp d3 ["customers", "orders"]
      (by unfold newLogTypes at *; rw [hpl]; exact hlogo) (by rw [hpl]; exact hleno), hpn]
    rfl
  have hcframe : c.store.orders = st.orders ∧ c.store.lineItems = st.lineItems
      ∧ c.store.products = st.products := by
    rw [hcs]
    exact ⟨(hco (by decide)).1, (hco (by decide)).2, hcp (by decide)⟩
  have hoprod : o.store.products = st.products := by
    rw [hos]
    exact (hop (by decide)).trans hcframe.2.2
  cases hcr : c.result with
  | error e1 =>
    refine ⟨{ store := c.store, requests := c.requests, invoked := [.customers],
              result := .error e1 }, c, ?_, hc, ?_, ?_⟩
    · unfold fullSync
      simp only [hc, hcr]
    · intro error herr
      rw [hcr] at herr
      cases herr
      exact ⟨rfl, rfl, rfl, hcframe.1, hcframe.2.1, hcframe.2.2, hlogc⟩
    · intro cc hcc
      rw [hcr] at hcc
      cases hcc
  | ok cc =>
    cases hor : o.result with
    | error e2 =>
      refine ⟨{ store := o.store, requests := c.requests ++ o.requests,
                invoked := [.customers, .orders], result := .error e2 }, c, ?_, hc, ?_, ?_⟩
      · unfold fullSync
        simp only [hc, hcr, ho, hor]
      · intro error herr
        rw [hcr] at herr
        cases herr
      · intro cc1 hcc
        rw [hcr] at hcc
        cases hcc
        refine ⟨o, ho, ?_, ?_⟩
        · intro error herr
          rw [hor] at herr
          cases herr
          exact ⟨rfl, rfl, rfl, hoprod, hlogo⟩
        · intro oc hoc
          rw [hor] at hoc
          cases hoc
    | ok oc =>
      cases hpr : p.result with
      | error e3 =>
        refine ⟨{ store := p.store, requests := c.requests ++ o.requests ++ p.requests,
                  invoked := [.customers, .orders, .products], result := .error e3 },
          c, ?_, hc, ?_, ?_⟩
        · unfold fullSync
          simp only [hc, hcr, ho, hor, hp, hpr]
        · intro error herr
          rw [hcr] at herr
          cases herr
        · intro cc1 hcc
          rw [hcr] at hcc
          cases hcc
          refine ⟨o, ho, ?_, ?_⟩
          · intro error herr
            rw [hor] at herr
            cases herr
          · intro oc1 hoc
            rw [hor] at hoc
            cases hoc
            refine ⟨p, hp, rfl, rfl, hlogp, ?_, ?_⟩
            · intro error herr
              rw [hpr] at herr
              cases herr
              rfl
            · intro pc hpc
              rw [hpr] at hpc
              cases hpc
      | ok pc =>
        refine ⟨{ store := p.store, requests := c.requests ++ o.requests ++ p.requests,
                  invoked := [.customers, .orders, .products],
                  result := .ok { customers := cc, orders := oc, products := pc } },
          c, ?_, hc, ?_, ?_⟩
        · unfold fullSync
          simp only [hc, hcr, ho, hor, hp, hpr]
        · intro error herr
          rw [hcr] at herr
          cases herr
        · intro cc1 hcc
          rw [hcr] at hcc
          cases hcc
          refine ⟨o, ho, ?_, ?_⟩
          · intro error herr
            rw [hor] at herr
            cases herr
          · intro oc1 hoc
            rw [hor] at hoc
            cases hoc
            refine ⟨p, hp, rfl, rfl, hlogp, ?_, ?_⟩
            · intro error herr
              rw [hpr] at herr
              cases herr
            · intro pc1 hpc
              rw [hpr] at hpc
              cases hpc
              rfl

end ShopifyService

namespace ShopifyService

/-- A run of `fullSync` against a shop whose orders endpoint is down: the
customer is stored, the error of the orders stage is rethrown, and the product
stage never runs. -/
theorem fullSync_orders_down :
    ∃ run, fullSync Sample.service (Sample.shopOrdersDown [Sample.customerA] [Sample.productA])
        Sample.schema Sample.clock {} = some run
      ∧ run.invoked = [.customers, .orders]
      ∧ run.result.toOption = none
      ∧ run.store.customers.length = 1 ∧ run.store.products.length = 0
      ∧ run.store.syncLogs.map (fun row => (row.data.entityType, row.data.status))
          = [("customers", "success"), ("orders", "error")]
      ∧ run.requests.map (fun request => request.url)
          = ["https://demo-store.myshopify.com/admin/api/2023-10/customers.json",
             "https://demo-store.myshopify.com/admin/api/2023-10/orders.json"] :=
  ⟨_, rfl, rfl, rfl, rfl, rfl, rfl, rfl⟩

/-- A complete run of `fullSync` on an empty store. -/
theorem fullSync_complete :
    ∃ run, fullSync Sample.service
        (Sample.shop [Sample.customerA] [Sample.orderA, Sample.orderB] [Sample.productA])
        Sample.schema Sample.clock {} = some run
      ∧ run.invoked = [.customers, .orders, .products]
      ∧ run.result.toOption
          = some { customers := { recordsProcessed := 1, recordsFailed := 0 }
                   orders := { recordsProcessed := 2, recordsFailed := 0 }
                   products := { recordsProcessed := 1, recordsFailed := 0 } }
      ∧ run.store.orders.map (fun o => (o.shopifyId, o.customerId))
          = [("7", some 0), ("8", none)] :=
  ⟨_, rfl, rfl, rfl, rfl⟩

end ShopifyService

/-! # Customer linkage after a full sync -/

namespace ShopifyService

theorem outcomes_append (step : Store → Val → Step) :
    ∀ (a b : List Val) (st : Store),
      outcomes step (a ++ b) st = outcomes step a st ++ outcomes step b (loopStore step a st) := by
  intro a
  induction a with
  | nil => intro b st; rfl
  | cons x xs ih =>
    intro b st
    change (step st x).error :: outcomes step (xs ++ b) (step st x).store = _
    rw [ih]
    rfl

/-- The outcome of the record that follows `before` in a list is the outcome of
its loop body on the store the records before it left. -/
theorem outcomes_at (step : Store → Val → Step) (before after : List Val) (record : Val)
    (st : Store) :
    (outcomes step (before ++ record :: after) st)[before.length]?
      = some (step (loopStore step before st) record).error := by
  rw [outcomes_append, List.getElem?_append_right (by rw [outcomes_length])]
  simp [outcomes_length, outcomes]

theorem orderFields_customerId {r : Val} {cref : CustomerRef} {d : OrderData}
    (h : orderFields r cref = .ok d) : d.customerId = cref := by
  unfold orderFields at h
  simp only [bind, Except.bind, pure, Except.pure] at h
  repeat' split at h
  all_goals (cases h <;> rfl)

/-- An order that names a stored customer resolves to that customer's row. -/
theorem resolveCustomer_of_named {tid c : String} {st : Store} {r : Val} {row : CustomerRow}
    (hnamed : namedCustomer r = some c) (hfind : st.findCustomer tid c = some row) :
    resolveCustomer tid st r = .ok (.id row.id) := by
  unfold namedCustomer at hnamed
  unfold resolveCustomer
  cases hget : Js.getProp r "customer" with
  | error e => rw [hget] at hnamed; cases hnamed
  | ok named =>
    rw [hget] at hnamed
    simp only at hnamed
    by_cases ht : Js.truthy named = true
    · rw [if_pos ht] at hnamed
      unfold externalId at hnamed
      cases hid : Js.getProp named "id" with
      | error e => rw [hid] at hnamed; cases hnamed
      | ok idv =>
        rw [hid] at hnamed
        simp only at hnamed
        cases hs : Js.callToString idv with
        | error e => rw [hs] at hnamed; cases hnamed
        | ok s =>
          rw [hs] at hnamed
          simp only [Option.some.injEq] at hnamed
          subst hnamed
          simp [bind, Except.bind, ht, hid, hs, hfind, pure, Except.pure]
    · rw [if_neg ht] at hnamed
      cases hnamed

/-- A Customer row under a key is found by the lookup on that key. -/
theorem findCustomer_of_hasRow {st : Store} {tid sid : String}
    (h : Entity.customers.hasRow st tid sid) : ∃ row, st.findCustomer tid sid = some row := by
  obtain ⟨x, hx, h1, h2⟩ := h
  unfold Store.findCustomer
  cases hf : st.customers.find? (fun r => decide (r.tenantId = tid) && decide (r.shopifyId = sid))
    with
  | some row => exact ⟨row, rfl⟩
  | none =>
    exfalso
    rw [List.find?_eq_none] at hf
    have := hf x hx
    simp [h1, h2] at this

/-- The stages of a `fullSync` that returned a result. -/
theorem fullSync_ok {svc : ShopifyService} {api : Api} {schema : Schema} {clock : Nat → Nat}
    {st : Store} {run : FullSyncRun} {results : FullSyncResults}
    (hrun : fullSync svc api schema clock st = some run) (hok : run.result = .ok results) :
    ∃ (c o p : SyncRun) (cc oc pc : SyncCounts),
      svc.syncCustomers api schema clock st = some c ∧ c.result = .ok cc
      ∧ svc.syncOrders (laterApi api c.requests.length) schema (laterClock clock 2) c.store
          = some o
      ∧ o.result = .ok oc
      ∧ svc.syncProducts (laterApi api (c.requests.length + o.requests.length)) schema
          (laterClock clock 4) o.store = some p
      ∧ p.result = .ok pc ∧ run.store = p.store := by
  unfold fullSync at hrun
  cases hc : svc.syncCustomers api schema clock st with
  | none => simp [hc] at hrun
  | some c =>
    cases hcr : c.result with
    | error e =>
      simp only [hc, hcr, Option.some.injEq] at hrun
      subst hrun
      cases hok
    | ok cc =>
      cases ho : svc.syncOrders (laterApi api c.requests.length) schema (laterClock clock 2)
          c.store with
      | none => simp [hc, hcr, ho] at hrun
      | some o =>
        cases hor : o.result with
        | error e =>
          simp only [hc, hcr, ho, hor, Option.some.injEq] at hrun
          subst hrun
          cases hok
        | ok oc =>
          cases hp : svc.syncProducts (laterApi api (c.requests.length + o.requests.length))
              schema (laterClock clock 4) o.store with
          | none => simp [hc, hcr, ho, hor, hp] at hrun
          | some p =>
            cases hpr : p.result with
            | error e =>
              simp only [hc, hcr, ho, hor, hp, hpr, Option.some.injEq] at hrun
              subst hrun
              cases hok
            | ok pc =>
              simp only [hc, hcr, ho, hor, hp, hpr, Option.some.injEq] at hrun
              subst hrun
              exact ⟨c, o, p, cc, oc, pc, rfl, hcr, ho, hor, hp, hpr, rfl⟩

end ShopifyService

namespace ShopifyService

/-- After the order loop, the row of an order that was processed, names a
stored customer and is the last record of its order in the list carries the id
of that customer's row. -/
theorem orders_loop_links (schema : Schema) (tid c : String) (before after : List Val)
    (order : Val) (st : Store) (row : CustomerRow)
    (hfind : st.findCustomer tid c = some row)
    (hok : (syncOrderRecord schema tid (loopStore (syncOrderRecord schema tid) before st)
      order).error = none)
    (hnamed : namedCustomer order = some c)
    (hafter : ∀ r ∈ after, externalId r ≠ externalId order) :
    ∃ sid orderRow, externalId order = some sid
      ∧ (loopStore (syncOrderRecord schema tid) (before ++ order :: after) st).orders.find?
          (fun x => decide (orderKey x = (tid, sid))) = some orderRow
      ∧ orderRow.customerId = some row.id := by
  have hcust : (loopStore (syncOrderRecord schema tid) before st).customers = st.customers :=
    loopStore_preserves (fun s => s.customers) _
      (fun s r => (syncOrderRecord_frame schema tid s r).2.1) before st
  obtain ⟨k, f, _, hw, _⟩ := syncOrderRecord_error_none hok
  rw [orderWrite_customers hcust schema tid order] at hw
  obtain ⟨idv, cref, h1, h2, hres, hf, _, ht⟩ := orderWrite_some hw
  have hid := externalId_of_id h1 h2
  rw [resolveCustomer_of_named hnamed hfind] at hres
  have hcref : f.customerId = .id row.id := by
    rw [orderFields_customerId hf]
    exact (Except.ok.inj hres).symm
  have hk : k = (tid, k.2) := by rw [← ht]
  have hno : ∀ r ∈ after, ∀ y, orderWrite schema tid st r ≠ some ((tid, k.2), y) := by
    intro r hr y hwr
    obtain ⟨_, _, g1, g2, _, _, _, _⟩ := orderWrite_some hwr
    exact hafter r hr ((externalId_of_id g1 g2).trans hid.symm)
  rw [hk] at hw
  obtain ⟨orderRow, hfound, hq⟩ := keyedLoop_last orderKey orderUpd orderMk
    (syncOrderRecord schema tid) (fun s => s.orders) (fun s => s.customers = st.customers)
    (orderWrite schema tid st) Prod.fst orderLaws (orderKeyed schema tid st)
    (fun x orow => ∀ n, x.customerId = .id n → orow.customerId = some n)
    (by intro r d n hn; simp [orderUpd, Store.applyOrderUpdate, hn])
    (by intro i k1 d n hn; simp [orderMk, Store.newOrderRow, hn])
    (tid, k.2) f before after order st rfl hw hno
  exact ⟨k.2, orderRow, hid, hfound, hq row.id hcref⟩

/-- C17, as stated, fails: the fetched customers are 1 and 2, and the fetched
list of orders holds order 7 twice, first naming customer 1, then naming
customer 2. The full sync completes with both customers and both order records
processed; the one row of order 7 is linked to the row of customer 2, so the
first record, which names customer 1 and was synced successfully, is not
stored with the id of the row of customer 1. -/
theorem fullSync_links_order_to_customer_of_later_record :
    namedCustomer Sample.orderA = some "1" ∧ namedCustomer Sample.orderAB = some "2"
    ∧ externalId Sample.orderA = some "7" ∧ externalId Sample.orderAB = some "7"
    ∧ ∃ run, fullSync Sample.service
          (Sample.shop [Sample.customerA, Sample.customerB] [Sample.orderA, Sample.orderAB] [])
          Sample.schema Sample.clock {} = some run
        ∧ run.result = .ok { customers := { recordsProcessed := 2, recordsFailed := 0 }
                             orders := { recordsProcessed := 2, recordsFailed := 0 }
                             products := { recordsProcessed := 0, recordsFailed := 0 } }
        ∧ run.store.customers.map (fun row => (row.shopifyId, row.id)) = [("1", 0), ("2", 1)]
        ∧ run.store.orders.map (fun row => (row.shopifyId, row.customerId))
            = [("7", some 1)] := by
  refine ⟨rfl, rfl, rfl, rfl, _, rfl, rfl, rfl, rfl⟩

/-- C17, amended. If `fullSync` completes and the customer stage upserted the fetched
customer with external id `c`, then the final store holds a Customer row for
`c` under the tenant, and every fetched order that was processed in the run,
names customer `c` and is the last record of its order in the fetched list is
stored with its customer reference equal to the id of that row, whatever the
store held before the run. -/
theorem fullSync_links_orders_to_synced_customers (svc : ShopifyService) (api : Api)
    (schema : Schema) (clock : Nat → Nat) (st : Store) (run : FullSyncRun)
    (results : FullSyncResults) (fetchedCustomers : FetchRun) (customers : List Val) (i : Nat)
    (customer : Val) (c : String)
    (hrun : fullSync svc api schema clock st = some run) (hok : run.result = .ok results)
    (hfetch : svc.fetchCustomers api = some fetchedCustomers)
    (hcustomers : fetchedCustomers.result = .ok customers)
    (hi : customers[i]? = some customer)
    (hupserted : (outcomes (syncCustomerRecord schema svc.tenant.id) customers st)[i]?
      = some none)
    (hc : externalId customer = some c) :
    ∃ (stage1 : SyncRun) (customerRow : CustomerRow),
      svc.syncCustomers api schema clock st = some stage1
      ∧ run.store.findCustomer svc.tenant.id c = some customerRow
      ∧ ∀ (fetchedOrders : FetchRun) (before : List Val) (order : Val) (after : List Val),
          svc.fetchOrders (laterApi api stage1.requests.length) = some fetchedOrders →
          fetchedOrders.result = .ok (before ++ order :: after) →
          (outcomes (syncOrderRecord schema svc.tenant.id) (before ++ order :: after)
            stage1.store)[before.length]? = some none →
          namedCustomer order = some c →
          (∀ r ∈ after, externalId r ≠ externalId order) →
          ∃ sid orderRow, externalId order = some sid
            ∧ run.store.orders.find?
                (fun x => decide (orderKey x = (svc.tenant.id, sid))) = some orderRow
            ∧ orderRow.customerId = some customerRow.id := by
  obtain ⟨s1, s2, s3, cc, oc, pc, h1, h1r, h2, h2r, h3, h3r, hstore⟩ := fullSync_ok hrun hok
  -- the customer stage
  obtain ⟨f1, hf1, hcase1⟩ := Entity.sync_cases .customers svc api schema clock st
  change svc.fetchCustomers api = some f1 at hf1
  rw [hfetch] at hf1
  cases hf1
  have hs1 : ∃ d, s1.store
      = (loopStore (syncCustomerRecord schema svc.tenant.id) customers st).createSyncLog d := by
    rcases hcase1 with ⟨records, d, hr, _, _, hsync⟩ | ⟨error, d, hr, _, _, hsync⟩
    · rw [hcustomers] at hr
      cases hr
      change svc.syncCustomers api schema clock st = _ at hsync
      rw [h1] at hsync
      cases hsync
      exact ⟨d, rfl⟩
    · rw [hcustomers] at hr
      cases hr
  obtain ⟨d1, hs1⟩ := hs1
  obtain ⟨sid1, hsid1, hrow⟩ := Entity.loopStore_hasRow .customers schema svc.tenant.id
    customers st i customer hi hupserted
  rw [hc] at hsid1
  cases hsid1
  have hrow1 : Entity.customers.hasRow s1.store svc.tenant.id c := by
    rw [hs1]
    exact hrow
  obtain ⟨customerRow, hfind1⟩ := findCustomer_of_hasRow hrow1
  -- the later stages leave the customers as they are
  obtain ⟨_, mid2, _, hsync2, hst2, _, _, _, hcust2, _, _⟩ :=
    Entity.sync_summary .orders svc (laterApi api s1.requests.length) schema
      (laterClock clock 2) s1.store
  change svc.syncOrders (laterApi api s1.requests.length) schema (laterClock clock 2) s1.store
    = _ at hsync2
  rw [h2] at hsync2
  cases hsync2
  obtain ⟨_, mid3, _, hsync3, hst3, _, _, _, hcust3, hord3, _⟩ :=
    Entity.sync_summary .products svc (laterApi api (s1.requests.length + s2.requests.length))
      schema (laterClock clock 4) s2.store
  change svc.syncProducts (laterApi api (s1.requests.length + s2.requests.length)) schema
    (laterClock clock 4) s2.store = _ at hsync3
  rw [h3] at hsync3
  cases hsync3
  have hcustomersEq : run.store.customers = s1.store.customers := by
    rw [hstore, hst3]
    change mid3.customers = _
    rw [hcust3 (by decide), hst2]
    exact hcust2 (by decide)
  have hordersEq : run.store.orders = s2.store.orders := by
    rw [hstore, hst3]
    exact (hord3 (by decide)).1
  refine ⟨s1, customerRow, h1, ?_, ?_⟩
  · unfold Store.findCustomer at hfind1 ⊢
    rw [hcustomersEq]
    exact hfind1
  · intro fetchedOrders before order after hfo hro hout hnamed hafter
    obtain ⟨f2, hf2, hcase2⟩ := Entity.sync_cases .orders svc (laterApi api s1.requests.length)
      schema (laterClock clock 2) s1.store
    change svc.fetchOrders (laterApi api s1.requests.length) = some f2 at hf2
    rw [hfo] at hf2
    cases hf2
    have hs2 : ∃ d, s2.store = (loopStore (syncOrderRecord schema svc.tenant.id)
        (before ++ order :: after) s1.store).createSyncLog d := by
      rcases hcase2 with ⟨records, d, hr, _, _, hsync⟩ | ⟨error, d, hr, _, _, hsync⟩
      · rw [hro] at hr
        cases hr
        change svc.syncOrders (laterApi api s1.requests.length) schema (laterClock clock 2)
          s1.store = _ at hsync
        rw [h2] at hsync
        cases hsync
        exact ⟨d, rfl⟩
      · rw [hro] at hr
        cases hr
    obtain ⟨d2, hs2⟩ := hs2
    rw [outcomes_at] at hout
    obtain ⟨sid, orderRow, hsid, hfound, hlink⟩ := orders_loop_links schema svc.tenant.id c
      before after order s1.store customerRow hfind1 (Option.some.inj hout) hnamed hafter
    refine ⟨sid, orderRow, hsid, ?_, hlink⟩
    rw [hordersEq, hs2]
    exact hfound

end ShopifyService

namespace ShopifyService

theorem fullSync_links_orders_to_synced_customers_witness :
    ∃ run results customerRow orderRow,
      fullSync Sample.service
        (Sample.shop [Sample.customerA] [Sample.orderA, Sample.orderB] [Sample.productA])
        Sample.schema Sample.clock {} = some run
      ∧ run.result = .ok results
      ∧ namedCustomer Sample.orderA = some "1"
      ∧ run.store.findCustomer "tenant-1" "1" = some customerRow
      ∧ run.store.orders.find? (fun x => decide (orderKey x = ("tenant-1", "7")))
          = some orderRow
      ∧ orderRow.customerId = some customerRow.id := by
  obtain ⟨stage1, customerRow, h1, h2, hall⟩ :=
    fullSync_links_orders_to_synced_customers Sample.service
      (Sample.shop [Sample.customerA] [Sample.orderA, Sample.orderB] [Sample.productA])
      Sample.schema Sample.clock {} _ _ _ [Sample.customerA] 0 Sample.customerA "1"
      rfl rfl rfl rfl rfl rfl rfl
  have hs : Sample.service.syncCustomers
      (Sample.shop [Sample.customerA] [Sample.orderA, Sample.orderB] [Sample.productA])
      Sample.schema Sample.clock {} = some stage1 := h1
  have hlen : stage1.requests.length = 1 := by
    have h0 : (Sample.service.syncCustomers
      (Sample.shop [Sample.customerA] [Sample.orderA, Sample.orderB] [Sample.productA])
      Sample.schema Sample.clock {}).map (fun r => r.requests.length) = some 1 := rfl
    rw [hs] at h0
    exact Option.some.inj h0
  have hst : stage1.store = (loopStore (syncCustomerRecord Sample.schema "tenant-1")
      [Sample.customerA] {}).createSyncLog
        { tenantId := "tenant-1", entityType := "customers", status := "success",
          recordsProcessed := 1, recordsFailed := 0, errorMessage := none,
          completedAt := 1001 } := by
    have h0 : (Sample.service.syncCustomers
      (Sample.shop [Sample.customerA] [Sample.orderA, Sample.orderB] [Sample.productA])
      Sample.schema Sample.clock {}).map (fun r => r.store) = some _ := rfl
    rw [hs] at h0
    exact Option.some.inj h0
  obtain ⟨sid, orderRow, hsid, hfound, hlink⟩ :=
    hall _ [] Sample.orderA [Sample.orderB] (by rw [hlen]; rfl) rfl (by rw [hst]; rfl) rfl
      (by
        intro r hr
        rw [List.mem_singleton] at hr
        subst hr
        decide)
  have hsid7 : sid = "7" := by
    have h7 : externalId Sample.orderA = some "7" := rfl
    rw [h7] at hsid
    exact (Option.some.inj hsid).symm
  subst hsid7
  exact ⟨_, _, customerRow, orderRow, rfl, rfl, rfl, h2, hfound, hlink⟩

end ShopifyService

/-! # Tenant scoping -/

namespace ShopifyService

/-- The two ways an upsert ends: the row found is updated in place, or the new
row is appended. -/
theorem upsertRows_cases {α : Type} (p : α → Bool) (u : α → α) (c : α) (rows : List α) :
    (∃ x, rows.find? p = some x ∧ upsertRows p u c rows = (u x, mapFirst p u rows, false))
    ∨ (rows.find? p = none ∧ upsertRows p u c rows = (c, rows ++ [c], true)) := by
  unfold upsertRows
  cases h : rows.find? p with
  | none => right; exact ⟨rfl, rfl⟩
  | some x =>
    left
    refine ⟨x, rfl, ?_⟩
    simp only [replaceFirst_eq_mapFirst p u rows x h]

theorem filter_mapFirst {α : Type} (p out : α → Bool) (u : α → α)
    (h : ∀ x, p x = true → out x = false ∧ out (u x) = false) :
    ∀ rows : List α, (mapFirst p u rows).filter out = rows.filter out := by
  intro rows
  induction rows with
  | nil => rfl
  | cons x xs ih =>
    by_cases hx : p x = true
    · have hm : mapFirst p u (x :: xs) = u x :: xs := by simp [mapFirst, hx]
      rw [hm, List.filter_cons_of_neg (by simp [(h x hx).2]),
        List.filter_cons_of_neg (by simp [(h x hx).1])]
    · have hm : mapFirst p u (x :: xs) = x :: mapFirst p u xs := by simp [mapFirst, hx]
      rw [hm, List.filter_cons, List.filter_cons, ih]

theorem map_mapFirst {α β : Type} (p : α → Bool) (u : α → α) (f : α → β)
    (h : ∀ x, f (u x) = f x) : ∀ rows : List α, (mapFirst p u rows).map f = rows.map f := by
  intro rows
  induction rows with
  | nil => rfl
  | cons x xs ih =>
    by_cases hx : p x = true
    · simp [mapFirst, hx, h]
    · simp [mapFirst, hx, ih]

theorem mem_mapFirst {α : Type} (p : α → Bool) (u : α → α) :
    ∀ (rows : List α) (o : α), o ∈ mapFirst p u rows →
      o ∈ rows ∨ ∃ x ∈ rows, p x = true ∧ o = u x := by
  intro rows
  induction rows with
  | nil => intro o h; simp [mapFirst] at h
  | cons x xs ih =>
    intro o h
    by_cases hx : p x = true
    · have hm : mapFirst p u (x :: xs) = u x :: xs := by simp [mapFirst, hx]
      rw [hm, List.mem_cons] at h
      rcases h with h | h
      · right; exact ⟨x, List.mem_cons_self _ _, hx, h⟩
      · left; exact List.mem_cons_of_mem _ h
    · have hm : mapFirst p u (x :: xs) = x :: mapFirst p u xs := by simp [mapFirst, hx]
      rw [hm, List.mem_cons] at h
      rcases h with h | h
      · left; rw [h]; exact List.mem_cons_self _ _
      · rcases ih o h with h1 | ⟨y, hy, hpy, hoy⟩
        · left; exact List.mem_cons_of_mem _ h1
        · right; exact ⟨y, List.mem_cons_of_mem _ hy, hpy, hoy⟩

theorem sameOutside_refl (tid : String) (st : Store) : sameOutside tid st st :=
  ⟨rfl, rfl, rfl, rfl, rfl⟩

theorem foreignItem_congr {tid : String} {orders orders1 : List OrderRow}
    (h : orders1.filter (fun r => decide (r.tenantId ≠ tid))
      = orders.filter (fun r => decide (r.tenantId ≠ tid))) :
    foreignItem tid orders1 = foreignItem tid orders := by
  funext item
  unfold foreignItem
  rw [h]

theorem sameOutside_trans {tid : String} {a b c : Store} (h1 : sameOutside tid a b)
    (h2 : sameOutside tid b c) : sameOutside tid a c := by
  obtain ⟨a1, a2, a3, a4, a5⟩ := h1
  obtain ⟨b1, b2, b3, b4, b5⟩ := h2
  refine ⟨b1.trans a1, b2.trans a2, b3.trans a3, b4.trans a4, ?_⟩
  rw [foreignItem_congr a2] at b5
  exact b5.trans a5

end ShopifyService

namespace ShopifyService

/-- The body of the customer loop touches no row of another tenant and keeps
the order ids and the customer references well formed. -/
theorem syncCustomerRecord_scoped (schema : Schema) (tid : String) (st : Store) (r : Val)
    (hids : orderIdsFresh st) (hlinks : linksWithin tid st) :
    sameOutside tid st (syncCustomerRecord schema tid st r).store
    ∧ orderIdsFresh (syncCustomerRecord schema tid st r).store
    ∧ linksWithin tid (syncCustomerRecord schema tid st r).store := by
  rcases syncCustomerRecord_cases schema tid st r with
    ⟨e, h⟩ | ⟨sid, fields, row, st1, _, _, hu, h⟩
  · rw [h]
    exact ⟨sameOutside_refl tid st, hids, hlinks⟩
  · rw [h]
    obtain ⟨_, hst1⟩ := upsertCustomer_ok hu
    rcases upsertRows_cases (fun r : CustomerRow => r.tenantId = tid && r.shopifyId = sid)
        (fun row => { row with data := fields })
        { id := st.nextId, tenantId := tid, shopifyId := sid, data := fields }
        st.customers with ⟨x, _, heq⟩ | ⟨_, heq⟩
    · rw [heq] at hst1
      subst hst1
      refine ⟨⟨?_, rfl, rfl, rfl, rfl⟩, ⟨hids.1, ?_⟩, ?_⟩
      · apply filter_mapFirst
        intro y hy
        simp only [Bool.and_eq_true, decide_eq_true_eq] at hy
        simp [hy.1]
      · intro o ho
        have := hids.2 o ho
        simp only [Bool.toNat_false, Nat.add_zero]
        exact this
      · intro o ho ht n hn
        obtain ⟨c, hc, hc1, hc2⟩ := hlinks o ho ht n hn
        refine exists_mem_mapFirst _ _ (fun c : CustomerRow => c.id = n ∧ c.tenantId = tid)
          ?_ st.customers ⟨c, hc, hc1, hc2⟩
        intro y hy
        exact hy
    · rw [heq] at hst1
      subst hst1
      refine ⟨⟨?_, rfl, rfl, rfl, rfl⟩, ⟨hids.1, ?_⟩, ?_⟩
      · simp [List.filter_append]
      · intro o ho
        have := hids.2 o ho
        simp only [Bool.toNat_true]
        omega
      · intro o ho ht n hn
        obtain ⟨c, hc, hc1, hc2⟩ := hlinks o ho ht n hn
        exact ⟨c, List.mem_append_left _ hc, hc1, hc2⟩

/-- The body of the product loop touches no row of another tenant and keeps
the order ids and the customer references well formed. -/
theorem syncProductRecord_scoped (schema : Schema) (tid : String) (st : Store) (r : Val)
    (hids : orderIdsFresh st) (hlinks : linksWithin tid st) :
    sameOutside tid st (syncProductRecord schema tid st r).store
    ∧ orderIdsFresh (syncProductRecord schema tid st r).store
    ∧ linksWithin tid (syncProductRecord schema tid st r).store := by
  rcases syncProductRecord_cases schema tid st r with
    ⟨e, h⟩ | ⟨sid, fields, row, st1, _, _, hu, h⟩
  · rw [h]
    exact ⟨sameOutside_refl tid st, hids, hlinks⟩
  · rw [h]
    obtain ⟨_, hst1⟩ := upsertProduct_ok hu
    rcases upsertRows_cases (fun r : ProductRow => r.tenantId = tid && r.shopifyId = sid)
        (fun row => { row with data := fields })
        { id := st.nextId, tenantId := tid, shopifyId := sid, data := fields }
        st.products with ⟨x, _, heq⟩ | ⟨_, heq⟩
    · rw [heq] at hst1
      subst hst1
      refine ⟨⟨rfl, rfl, ?_, rfl, rfl⟩, ⟨hids.1, ?_⟩, hlinks⟩
      · apply filter_mapFirst
        intro y hy
        simp only [Bool.and_eq_true, decide_eq_true_eq] at hy
        simp [hy.1]
      · intro o ho
        have := hids.2 o ho
        simp only [Bool.toNat_false, Nat.add_zero]
        exact this
    · rw [heq] at hst1
      subst hst1
      refine ⟨⟨rfl, rfl, ?_, rfl, rfl⟩, ⟨hids.1, ?_⟩, hlinks⟩
      · simp [List.filter_append]
      · intro o ho
        have := hids.2 o ho
        simp only [Bool.toNat_true]
        omega

end ShopifyService

namespace ShopifyService

/-- A customer reference resolved for a tenant is the id of a Customer row of
that tenant. -/
theorem resolveCustomer_id {tid : String} {st : Store} {r : Val} {n : Nat}
    (h : resolveCustomer tid st r = .ok (.id n)) :
    ∃ c ∈ st.customers, c.id = n ∧ c.tenantId = tid := by
  unfold resolveCustomer at h
  simp only [bind, Except.bind, pure, Except.pure] at h
  split at h
  · cases h
  · rename_i named _
    split at h
    · split at h
      · cases h
      · split at h
        · cases h
        · rename_i ext _
          cases hfind : st.findCustomer tid ext with
          | none => rw [hfind] at h; cases h
          | some c =>
            rw [hfind] at h
            simp only [Except.ok.injEq, CustomerRef.id.injEq] at h
            unfold Store.findCustomer at hfind
            have hmem := List.mem_of_find?_eq_some hfind
            have hp := List.find?_some hfind
            simp only [Bool.and_eq_true, decide_eq_true_eq] at hp
            exact ⟨c, hmem, h, hp.1⟩
    · cases h

/-- Whatever the inner line-item loop does, it only appends line items of the
order at hand, and the id counter does not go back. -/
theorem createLineItems_shape (schema : Schema) (oid : Nat) :
    ∀ (items : List Val) (st : Store),
      ∃ rows, (createLineItems schema oid items st).store.lineItems = st.lineItems ++ rows
        ∧ (∀ row ∈ rows, row.data.orderId = oid)
        ∧ st.nextId ≤ (createLineItems schema oid items st).store.nextId := by
  intro items
  induction items with
  | nil => intro st; exact ⟨[], by simp [createLineItems], by simp, by simp [createLineItems]⟩
  | cons item rest ih =>
    intro st
    unfold createLineItems
    cases hf : lineItemFields oid item with
    | error e => exact ⟨[], by simp, by simp, by simp⟩
    | ok data =>
      simp only
      cases hc : st.createLineItem schema data with
      | error e => exact ⟨[], by simp, by simp, by simp⟩
      | ok st1 =>
        simp only
        have hst1 : st1 = { st with
            lineItems := st.lineItems ++ [{ id := st.nextId, data := data }]
            nextId := st.nextId + 1 } := by
          unfold Store.createLineItem at hc
          split at hc
          · exact (Except.ok.inj hc).symm
          · cases hc
        obtain ⟨rows, h1, h2, h3⟩ := ih st1
        refine ⟨{ id := st.nextId, data := data } :: rows, ?_, ?_, ?_⟩
        · rw [h1, hst1]
          simp
        · intro row hrow
          rw [List.mem_cons] at hrow
          rcases hrow with hrow | hrow
          · rw [hrow]
            exact lineItemFields_orderId hf
          · exact h2 row hrow
        · have : st.nextId ≤ st1.nextId := by rw [hst1]; simp
          omega

/-- Whatever the line-item block does, the stored line items afterwards are
those before, possibly without the ones of the order at hand, followed by new
line items of the order at hand. -/
theorem syncLineItems_shape (schema : Schema) (r : Val) (oid : Nat) (st : Store) :
    ∃ rows, ((syncLineItems schema r oid st).store.lineItems = st.lineItems ++ rows
        ∨ (syncLineItems schema r oid st).store.lineItems
            = st.lineItems.filter (fun x => decide (x.data.orderId ≠ oid)) ++ rows)
      ∧ (∀ row ∈ rows, row.data.orderId = oid)
      ∧ st.nextId ≤ (syncLineItems schema r oid st).store.nextId := by
  unfold syncLineItems
  cases hl : lineItemsToSync r with
  | error e => exact ⟨[], Or.inl (by simp), by simp, by simp⟩
  | ok found =>
    cases found with
    | none => exact ⟨[], Or.inl (by simp), by simp, by simp⟩
    | some lineItems =>
      simp only
      cases hi : Js.iterate lineItems with
      | error e =>
        exact ⟨[], Or.inr (by simp [Store.deleteLineItems]), by simp,
          by simp [Store.deleteLineItems]⟩
      | ok items =>
        obtain ⟨rows, h1, h2, h3⟩ := createLineItems_shape schema oid items
          (st.deleteLineItems oid)
        exact ⟨rows, Or.inr h1, h2, h3⟩

/-- The line-item block of an order leaves every line item of another order in
place. -/
theorem syncLineItems_filter (schema : Schema) (r : Val) (oid : Nat) (st : Store)
    (P : LineItemRow → Bool) (hP : ∀ item, P item = true → item.data.orderId ≠ oid) :
    (syncLineItems schema r oid st).store.lineItems.filter P = st.lineItems.filter P := by
  obtain ⟨rows, hshape, hrows, _⟩ := syncLineItems_shape schema r oid st
  have hnew : rows.filter P = [] := by
    rw [List.filter_eq_nil_iff]
    intro row hrow hp
    exact hP row hp (hrows row hrow)
  rcases hshape with h | h
  · rw [h, List.filter_append, hnew, List.append_nil]
  · rw [h, List.filter_append, hnew, List.append_nil, List.filter_filter]
    apply List.filter_congr
    intro x _
    by_cases hx : P x = true
    · simp [hx, hP x hx]
    · simp [hx]

end ShopifyService

namespace ShopifyService

/-- The customer reference of an updated or created order row is well formed
when the reference written was resolved in the store. -/
theorem orderLink_ok {tid : String} {st : Store} {r : Val} {cref : CustomerRef}
    (old : Option Nat) (n : Nat)
    (hn : (match cref with
      | .undefined => old
      | .null => none
      | .id m => some m) = some n)
    (hres : resolveCustomer tid st r = .ok cref)
    (hold : ∀ n, old = some n → ∃ c ∈ st.customers, c.id = n ∧ c.tenantId = tid) :
    ∃ c ∈ st.customers, c.id = n ∧ c.tenantId = tid := by
  cases cref with
  | undefined => exact hold n hn
  | null => cases hn
  | id m =>
    simp only [Option.some.injEq] at hn
    subst hn
    exact resolveCustomer_id hres

/-- The body of the order loop touches no row of another tenant and keeps the
order ids and the customer references well formed. -/
theorem syncOrderRecord_scoped (schema : Schema) (tid : String) (st : Store) (r : Val)
    (hids : orderIdsFresh st) (hlinks : linksWithin tid st) :
    sameOutside tid st (syncOrderRecord schema tid st r).store
    ∧ orderIdsFresh (syncOrderRecord schema tid st r).store
    ∧ linksWithin tid (syncOrderRecord schema tid st r).store := by
  rcases syncOrderRecord_cases schema tid st r with
    ⟨e, h⟩ | ⟨sid, cref, fields, row, st1, _, hres, hf, hu, h⟩
  · rw [h]
    exact ⟨sameOutside_refl tid st, hids, hlinks⟩
  · rw [h]
    obtain ⟨hrow, hst1⟩ := upsertOrder_ok hu
    have hcref := orderFields_customerId hf
    -- the store after the upsert
    have hmid : st1.customers = st.customers ∧ st1.products = st.products
        ∧ st1.syncLogs = st.syncLogs ∧ st1.lineItems = st.lineItems
        ∧ st1.orders.filter (fun o => decide (o.tenantId ≠ tid))
            = st.orders.filter (fun o => decide (o.tenantId ≠ tid))
        ∧ orderIdsFresh st1 ∧ linksWithin tid st1
        ∧ ∀ o ∈ st.orders, o.tenantId ≠ tid → o.id ≠ row.id := by
      rcases upsertRows_cases (fun r : OrderRow => r.tenantId = tid && r.shopifyId = sid)
          (fun row => Store.applyOrderUpdate row fields)
          (Store.newOrderRow st.nextId tid sid fields) st.orders with
        ⟨x, hfind, heq⟩ | ⟨hfind, heq⟩
      · rw [heq] at hst1 hrow
        subst hst1
        have hx := List.mem_of_find?_eq_some hfind
        have hpx := List.find?_some hfind
        simp only [Bool.and_eq_true, decide_eq_true_eq] at hpx
        refine ⟨rfl, rfl, rfl, rfl, ?_, ⟨?_, ?_⟩, ?_, ?_⟩
        · apply filter_mapFirst
          intro y hy
          simp only [Bool.and_eq_true, decide_eq_true_eq] at hy
          simp [hy.1, Store.applyOrderUpdate]
        · change ((mapFirst _ _ st.orders).map (fun o => o.id)).Nodup
          rw [map_mapFirst _ (fun row => Store.applyOrderUpdate row fields)
            (fun o : OrderRow => o.id) (fun y => rfl)]
          exact hids.1
        · intro o ho
          change o ∈ mapFirst _ _ st.orders at ho
          change o.id < st.nextId + 0
          rcases mem_mapFirst _ _ _ o ho with h1 | ⟨y, hy, _, hoy⟩
          · exact hids.2 o h1
          · rw [hoy]
            exact hids.2 y hy
        · intro o ho ht n hn
          change o ∈ mapFirst _ _ st.orders at ho
          change ∃ c ∈ st.customers, c.id = n ∧ c.tenantId = tid
          rcases mem_mapFirst _ _ _ o ho with h1 | ⟨y, hy, hpy, hoy⟩
          · exact hlinks o h1 ht n hn
          · simp only [Bool.and_eq_true, decide_eq_true_eq] at hpy
            rw [hoy] at hn
            simp only [Store.applyOrderUpdate, hcref] at hn
            exact orderLink_ok y.customerId n hn hres (hlinks y hy hpy.1)
        · intro o ho hto hid
          rw [hrow] at hid
          change o.id = x.id at hid
          have hox : o = x := List.inj_on_of_nodup_map hids.1 ho hx hid
          rw [hox] at hto
          exact hto hpx.1
      · rw [heq] at hst1 hrow
        subst hst1
        refine ⟨rfl, rfl, rfl, rfl, ?_, ⟨?_, ?_⟩, ?_, ?_⟩
        · simp [List.filter_append, Store.newOrderRow]
        · change ((st.orders ++ [Store.newOrderRow st.nextId tid sid fields]).map
            (fun o => o.id)).Nodup
          rw [List.map_append, List.nodup_append]
          refine ⟨hids.1, List.nodup_singleton _, ?_⟩
          intro a ha hb
          simp only [List.map_cons, List.map_nil, List.mem_singleton] at hb
          rw [List.mem_map] at ha
          obtain ⟨o, ho, hoa⟩ := ha
          have := hids.2 o ho
          rw [hoa, hb] at this
          exact Nat.lt_irrefl _ this
        · intro o ho
          change o ∈ st.orders ++ [Store.newOrderRow st.nextId tid sid fields] at ho
          change o.id < st.nextId + 1
          rw [List.mem_append, List.mem_singleton] at ho
          rcases ho with h1 | h1
          · have := hids.2 o h1
            omega
          · rw [h1]
            exact Nat.lt_succ_self _
        · intro o ho ht n hn
          change o ∈ st.orders ++ [Store.newOrderRow st.nextId tid sid fields] at ho
          change ∃ c ∈ st.customers, c.id = n ∧ c.tenantId = tid
          rw [List.mem_append, List.mem_singleton] at ho
          rcases ho with h1 | h1
          · exact hlinks o h1 ht n hn
          · rw [h1] at hn
            simp only [Store.newOrderRow, hcref] at hn
            cases cref with
            | undefined => cases hn
            | null => cases hn
            | id m =>
              simp only [Option.some.injEq] at hn
              subst hn
              exact resolveCustomer_id hres
        · intro o ho _ hid
          rw [hrow] at hid
          change o.id = st.nextId at hid
          have := hids.2 o ho
          omega
    obtain ⟨hc, hp, hl, hli, hof, hids1, hlinks1, hother⟩ := hmid
    obtain ⟨f1, f2, f3, f4⟩ := syncLineItems_frame schema r row.id st1
    obtain ⟨rows, _, _, hnext⟩ := syncLineItems_shape schema r row.id st1
    refine ⟨⟨?_, ?_, ?_, ?_, ?_⟩, ⟨?_, ?_⟩, ?_⟩
    · rw [f2, hc]
    · rw [f3, hof]
    · rw [f4, hp]
    · rw [f1, hl]
    · rw [syncLineItems_filter schema r row.id st1 (foreignItem tid st.orders), hli]
      intro item hitem
      unfold foreignItem at hitem
      rw [List.any_eq_true] at hitem
      obtain ⟨o, ho, hoid⟩ := hitem
      rw [List.mem_filter] at ho
      simp only [decide_eq_true_eq] at ho hoid
      intro heq
      exact hother o ho.1 ho.2 (hoid.trans heq)
    · rw [f3]
      exact hids1.1
    · intro o ho
      rw [f3] at ho
      have := hids1.2 o ho
      omega
    · intro o ho ht n hn
      rw [f3] at ho
      rw [f2]
      exact hlinks1 o ho ht n hn

end ShopifyService

namespace ShopifyService

theorem Entity.step_scoped (e : Entity) (schema : Schema) (tid : String) (st : Store) (r : Val)
    (hids : orderIdsFresh st) (hlinks : linksWithin tid st) :
    sameOutside tid st (e.step schema tid st r).store
    ∧ orderIdsFresh (e.step schema tid st r).store
    ∧ linksWithin tid (e.step schema tid st r).store := by
  cases e
  · exact syncCustomerRecord_scoped schema tid st r hids hlinks
  · exact syncOrderRecord_scoped schema tid st r hids hlinks
  · exact syncProductRecord_scoped schema tid st r hids hlinks

theorem Entity.loop_scoped (e : Entity) (schema : Schema) (tid : String) :
    ∀ (records : List Val) (st : Store), orderIdsFresh st → linksWithin tid st →
      sameOutside tid st (loopStore (e.step schema tid) records st)
      ∧ orderIdsFresh (loopStore (e.step schema tid) records st)
      ∧ linksWithin tid (loopStore (e.step schema tid) records st) := by
  intro records
  induction records with
  | nil => intro st hids hlinks; exact ⟨sameOutside_refl tid st, hids, hlinks⟩
  | cons r rest ih =>
    intro st hids hlinks
    obtain ⟨h1, h2, h3⟩ := Entity.step_scoped e schema tid st r hids hlinks
    obtain ⟨g1, g2, g3⟩ := ih (e.step schema tid st r).store h2 h3
    exact ⟨sameOutside_trans h1 g1, g2, g3⟩

/-- A ledger row of the tenant touches no row of another tenant. -/
theorem createSyncLog_scoped (tid : String) (st : Store) (d : SyncLogData)
    (hd : d.tenantId = tid) (hids : orderIdsFresh st) (hlinks : linksWithin tid st) :
    sameOutside tid st (st.createSyncLog d) ∧ orderIdsFresh (st.createSyncLog d)
    ∧ linksWithin tid (st.createSyncLog d) := by
  refine ⟨⟨rfl, rfl, rfl, ?_, rfl⟩, ⟨hids.1, ?_⟩, hlinks⟩
  · simp [Store.createSyncLog, List.filter_append, hd]
  · intro o ho
    have := hids.2 o ho
    change o.id < st.nextId + 1
    omega

/-- Every synchroniser returns, touches no row of another tenant and keeps the
order ids and the customer references well formed. -/
theorem Entity.sync_scoped (e : Entity) (svc : ShopifyService) (api : Api) (schema : Schema)
    (clock : Nat → Nat) (st : Store) (hids : orderIdsFresh st)
    (hlinks : linksWithin svc.tenant.id st) :
    ∃ run, e.sync svc api schema clock st = some run
      ∧ sameOutside svc.tenant.id st run.store
      ∧ orderIdsFresh run.store ∧ linksWithin svc.tenant.id run.store := by
  obtain ⟨fetched, _, hcase⟩ := Entity.sync_cases e svc api schema clock st
  rcases hcase with ⟨records, d, _, _, hd, hsync⟩ | ⟨error, d, _, _, hd, hsync⟩
  · obtain ⟨h1, h2, h3⟩ := Entity.loop_scoped e schema svc.tenant.id records st hids hlinks
    obtain ⟨g1, g2, g3⟩ := createSyncLog_scoped svc.tenant.id _ d hd h2 h3
    exact ⟨_, hsync, sameOutside_trans h1 g1, g2, g3⟩
  · obtain ⟨g1, g2, g3⟩ := createSyncLog_scoped svc.tenant.id st d hd hids hlinks
    exact ⟨_, hsync, g1, g2, g3⟩

/-- The store `fullSync` leaves is the store of the last stage it ran. -/
theorem fullSync_store (svc : ShopifyService) (api : Api) (schema : Schema)
    (clock : Nat → Nat) (st : Store) (c o p : SyncRun)
    (hc : svc.syncCustomers api schema clock st = some c)
    (ho : svc.syncOrders (laterApi api c.requests.length) schema (laterClock clock 2) c.store
      = some o)
    (hp : svc.syncProducts (laterApi api (c.requests.length + o.requests.length)) schema
      (laterClock clock 4) o.store = some p) :
    ∃ run, fullSync svc api schema clock st = some run
      ∧ (run.store = c.store ∨ run.store = o.store ∨ run.store = p.store) := by
  unfold fullSync
  cases hcr : c.result with
  | error e =>
    simp only [hc, hcr]
    exact ⟨_, rfl, Or.inl rfl⟩
  | ok cc =>
    cases hor : o.result with
    | error e =>
      simp only [hc, hcr, ho, hor]
      exact ⟨_, rfl, Or.inr (Or.inl rfl)⟩
    | ok oc =>
      cases hpr : p.result with
      | error e =>
        simp only [hc, hcr, ho, hor, hp, hpr]
        exact ⟨_, rfl, Or.inr (Or.inr rfl)⟩
      | ok pc =>
        simp only [hc, hcr, ho, hor, hp, hpr]
        exact ⟨_, rfl, Or.inr (Or.inr rfl)⟩

/-- C20. Run for tenant `T` on a store whose order ids are a primary key and
whose orders of `T` refer to customers of `T`, each of `syncCustomers`,
`syncOrders`, `syncProducts` and `fullSync` returns and leaves unchanged every
Customer, Order, Product and SyncLog row of another tenant and every line item
of an order of another tenant; afterwards every customer reference of an order
of `T` is still the id of a Customer row of `T`. -/
theorem sync_leaves_other_tenants_untouched (svc : ShopifyService) (api : Api)
    (schema : Schema) (clock : Nat → Nat) (st : Store) (hids : orderIdsFresh st)
    (hlinks : linksWithin svc.tenant.id st) :
    (∀ e : Entity, ∃ run, e.sync svc api schema clock st = some run
      ∧ sameOutside svc.tenant.id st run.store ∧ linksWithin svc.tenant.id run.store)
    ∧ ∃ run, fullSync svc api schema clock st = some run
      ∧ sameOutside svc.tenant.id st run.store ∧ linksWithin svc.tenant.id run.store := by
  constructor
  · intro e
    obtain ⟨run, h, h1, _, h3⟩ := Entity.sync_scoped e svc api schema clock st hids hlinks
    exact ⟨run, h, h1, h3⟩
  · obtain ⟨c, hc, c1, c2, c3⟩ :=
      Entity.sync_scoped .customers svc api schema clock st hids hlinks
    obtain ⟨o, ho, o1, o2, o3⟩ :=
      Entity.sync_scoped .orders svc (laterApi api c.requests.length) schema
        (laterClock clock 2) c.store c2 c3
    obtain ⟨p, hp, p1, _, p3⟩ :=
      Entity.sync_scoped .products svc (laterApi api (c.requests.length + o.requests.length))
        schema (laterClock clock 4) o.store o2 o3
    obtain ⟨run, hrun, hstore⟩ := fullSync_store svc api schema clock st c o p hc ho hp
    refine ⟨run, hrun, ?_⟩
    rcases hstore with h | h | h
    · rw [h]
      exact ⟨c1, c3⟩
    · rw [h]
      exact ⟨sameOutside_trans c1 o1, o3⟩
    · rw [h]
      exact ⟨sameOutside_trans c1 (sameOutside_trans o1 p1), p3⟩

end ShopifyService

namespace ShopifyService

theorem sync_leaves_other_tenants_untouched_witness :
    orderIdsFresh Sample.shared ∧ linksWithin "tenant-1" Sample.shared
    ∧ (∃ run, fullSync Sample.service
          (Sample.shop [Sample.customerA] [Sample.orderA] [Sample.productA])
          Sample.schema Sample.clock Sample.shared = some run
        ∧ run.store.customers.map (fun c => (c.id, c.tenantId, c.shopifyId))
            = [(0, "tenant-2", "1"), (5, "tenant-1", "1")]
        ∧ run.store.orders.map (fun o => (o.id, o.tenantId, o.shopifyId, o.customerId))
            = [(1, "tenant-2", "7", some 0), (7, "tenant-1", "7", some 5)]
        ∧ run.store.lineItems.map (fun i => (i.id, i.data.orderId)) = [(2, 1), (8, 7), (9, 7)])
    ∧ (∀ e : Entity, ∃ run, e.sync Sample.service
          (Sample.shop [Sample.customerA] [Sample.orderA] [Sample.productA])
          Sample.schema Sample.clock Sample.shared = some run
        ∧ sameOutside "tenant-1" Sample.shared run.store ∧ linksWithin "tenant-1" run.store)
    ∧ ∃ run, fullSync Sample.service
          (Sample.shop [Sample.customerA] [Sample.orderA] [Sample.productA])
          Sample.schema Sample.clock Sample.shared = some run
        ∧ sameOutside "tenant-1" Sample.shared run.store ∧ linksWithin "tenant-1" run.store := by
  have hids : orderIdsFresh Sample.shared := by
    refine ⟨by simp [Sample.shared], ?_⟩
    intro o ho
    simp only [Sample.shared, List.mem_singleton] at ho
    subst ho
    decide
  have hlinks : linksWithin "tenant-1" Sample.shared := by
    intro o ho ht
    simp only [Sample.shared, List.mem_singleton] at ho
    subst ho
    exact absurd ht (by decide)
  exact ⟨hids, hlinks, ⟨_, rfl, rfl, rfl, rfl⟩,
    sync_leaves_other_tenants_untouched Sample.service
      (Sample.shop [Sample.customerA] [Sample.orderA] [Sample.productA])
      Sample.schema Sample.clock Sample.shared hids hlinks⟩

end ShopifyService

/-! # The scheduler -/

namespace SchedulerService

open ShopifyService (SyncCounts)

/-- `Promise.all` on two promises is fulfilled exactly when both are, and is
otherwise rejected with the reason of one of them. -/
theorem all_two {α : Type} (a b : Settlement α) :
    ((∃ vs, Async.all [a, b] = .ok vs) ↔ (∃ x y, a.outcome = .ok x ∧ b.outcome = .ok y))
    ∧ ∀ e, Async.all [a, b] = .error e → a.outcome = .error e ∨ b.outcome = .error e := by
  unfold Async.all Async.firstRejection Async.firstRejection Async.firstRejection
  cases ha : a.outcome with
  | ok x =>
    cases hb : b.outcome with
    | ok y =>
      refine ⟨⟨fun _ => ⟨x, y, rfl, rfl⟩, fun _ => ⟨_, rfl⟩⟩, ?_⟩
      intro e h
      cases h
    | error e2 =>
      refine ⟨⟨?_, ?_⟩, ?_⟩
      · rintro ⟨vs, h⟩
        cases h
      · rintro ⟨_, _, _, h⟩
        cases h
      · intro e h
        right
        simp only [Except.error.injEq] at h
        rw [h]
  | error e1 =>
    cases hb : b.outcome with
    | ok y =>
      refine ⟨⟨?_, ?_⟩, ?_⟩
      · rintro ⟨vs, h⟩
        cases h
      · rintro ⟨_, _, h, _⟩
        cases h
      · intro e h
        left
        simp only [Except.error.injEq] at h
        rw [h]
    | error e2 =>
      refine ⟨⟨?_, ?_⟩, ?_⟩
      · rintro ⟨vs, h⟩
        by_cases hle : a.time ≤ b.time <;> simp [hle] at h
      · rintro ⟨_, _, h, _⟩
        cases h
      · intro e h
        by_cases hle : a.time ≤ b.time
        · simp [hle] at h
          left
          rw [h]
        · simp [hle] at h
          right
          rw [h]

/-- A quick sync invokes both synchronisers; it is fulfilled exactly when both
are, and otherwise rejected with the reason of one of them. -/
theorem syncTenant_outcome (exec : Execution) (tenant : Tenant) :
    (syncTenant exec tenant).started
      = [Call.syncCustomers tenant.id, Call.syncOrders tenant.id]
    ∧ ((syncTenant exec tenant).outcome = .ok ()
        ↔ ∃ x y, (exec.syncCustomers tenant).outcome = .ok x
            ∧ (exec.syncOrders tenant).outcome = .ok y)
    ∧ ∀ e, (syncTenant exec tenant).outcome = .error e →
        (exec.syncCustomers tenant).outcome = .error e
          ∨ (exec.syncOrders tenant).outcome = .error e := by
  obtain ⟨h1, h2⟩ := all_two (exec.syncCustomers tenant) (exec.syncOrders tenant)
  unfold syncTenant
  cases hall : Async.all [exec.syncCustomers tenant, exec.syncOrders tenant] with
  | ok vs =>
    refine ⟨rfl, ⟨fun _ => h1.mp ⟨vs, hall⟩, fun _ => rfl⟩, ?_⟩
    intro e h
    cases h
  | error e1 =>
    refine ⟨rfl, ⟨?_, ?_⟩, ?_⟩
    · intro h
      cases h
    · intro h
      obtain ⟨vs, hvs⟩ := h1.mpr h
      rw [hall] at hvs
      cases hvs
    · intro e h
      simp only [Except.error.injEq] at h
      subst h
      exact h2 e1 hall

end SchedulerService

namespace SchedulerService

/-- The four ways `syncTenantById` ends, according to what the lookup meets. -/
theorem syncTenantById_cases (table : TenantTable) (exec : Execution) (tenantId : String) :
    (∃ error, table = .error error
      ∧ syncTenantById table exec tenantId
        = { started := [], outcome := .ok { success := false, message := error.message } })
    ∨ (∃ rows, table = .ok rows ∧ rows.find? (fun t => decide (t.id = tenantId)) = none
      ∧ syncTenantById table exec tenantId
        = { started := [], outcome := .ok { success := false, message := "Tenant not found" } })
    ∨ (∃ rows tenant, table = .ok rows
      ∧ rows.find? (fun t => decide (t.id = tenantId)) = some tenant
      ∧ tenant.isActive = false
      ∧ syncTenantById table exec tenantId
        = { started := [],
            outcome := .ok { success := false, message := "Tenant is not active" } })
    ∨ (∃ rows tenant, table = .ok rows
      ∧ rows.find? (fun t => decide (t.id = tenantId)) = some tenant
      ∧ tenant.isActive = true
      ∧ ((∃ error, (syncTenant exec tenant).outcome = .error error
          ∧ syncTenantById table exec tenantId
            = { started := (syncTenant exec tenant).started,
                outcome := .ok { success := false, message := error.message } })
        ∨ ((syncTenant exec tenant).outcome = .ok ()
          ∧ syncTenantById table exec tenantId
            = { started := (syncTenant exec tenant).started,
                outcome := .ok { success := true,
                                 message := "Sync completed successfully" } }))) := by
  cases table with
  | error error => left; exact ⟨error, rfl, rfl⟩
  | ok rows =>
    right
    cases hfind : rows.find? (fun t => decide (t.id = tenantId)) with
    | none =>
      left
      refine ⟨rows, rfl, hfind, ?_⟩
      simp [syncTenantById, findUnique, Except.map, hfind, Js.newError]
    | some tenant =>
      right
      cases hact : tenant.isActive with
      | false =>
        left
        refine ⟨rows, tenant, rfl, hfind, hact, ?_⟩
        simp [syncTenantById, findUnique, Except.map, hfind, hact, Js.newError]
      | true =>
        right
        refine ⟨rows, tenant, rfl, hfind, hact, ?_⟩
        cases hout : (syncTenant exec tenant).outcome with
        | error error =>
          left
          refine ⟨error, rfl, ?_⟩
          simp [syncTenantById, findUnique, Except.map, hfind, hact, hout]
        | ok u =>
          right
          refine ⟨rfl, ?_⟩
          simp [syncTenantById, findUnique, Except.map, hfind, hact, hout]

end SchedulerService

namespace SchedulerService

/-- C18. `syncTenantById` never throws: it returns an object `{success,
message}` whatever the tenant table and the synchronisers do. The object is
`{false, 'Tenant not found'}` when no tenant has the id and `{false, 'Tenant is
not active'}` when the tenant is inactive, and in both cases no synchroniser is
started; it is `{true, 'Sync completed successfully'}` exactly when the tenant
exists, is active and its quick sync is fulfilled (both synchronisers are);
otherwise it is `{false, message}` with the message of the error thrown: the
reason for which the quick sync was rejected, which is the error of one of its
two synchronisers, or the error of the lookup. -/
theorem syncTenantById_returns_structured_result (table : TenantTable) (exec : Execution)
    (tenantId : String) :
    ∃ result, (syncTenantById table exec tenantId).outcome = .ok result
      ∧ (∀ rows, table = .ok rows → rows.find? (fun t => decide (t.id = tenantId)) = none →
          result = { success := false, message := "Tenant not found" }
          ∧ (syncTenantById table exec tenantId).started = [])
      ∧ (∀ rows tenant, table = .ok rows →
          rows.find? (fun t => decide (t.id = tenantId)) = some tenant →
          tenant.isActive = false →
          result = { success := false, message := "Tenant is not active" }
          ∧ (syncTenantById table exec tenantId).started = [])
      ∧ (result.success = true ↔
          ∃ rows tenant, table = .ok rows
            ∧ rows.find? (fun t => decide (t.id = tenantId)) = some tenant
            ∧ tenant.isActive = true
            ∧ (∃ x y, (exec.syncCustomers tenant).outcome = .ok x
                ∧ (exec.syncOrders tenant).outcome = .ok y))
      ∧ (result.success = true → result.message = "Sync completed successfully")
      ∧ (∀ rows tenant, table = .ok rows →
          rows.find? (fun t => decide (t.id = tenantId)) = some tenant →
          tenant.isActive = true → result.success = false →
          ∃ error, result.message = error.message
            ∧ ((exec.syncCustomers tenant).outcome = .error error
                ∨ (exec.syncOrders tenant).outcome = .error error))
      ∧ (∀ error, table = .error error →
          result = { success := false, message := error.message }
          ∧ (syncTenantById table exec tenantId).started = []) := by
  rcases syncTenantById_cases table exec tenantId with
    ⟨e0, ht, h⟩ | ⟨rows0, ht, hf, h⟩ | ⟨rows0, t0, ht, hf, ha, h⟩ | ⟨rows0, t0, ht, hf, ha, h⟩
  · rw [h]
    refine ⟨_, rfl, ?_, ?_, ⟨?_, ?_⟩, ?_, ?_, ?_⟩
    · intro rows h1; rw [ht] at h1; cases h1
    · intro rows tenant h1; rw [ht] at h1; cases h1
    · intro h1; cases h1
    · rintro ⟨rows, tenant, h1, _⟩; rw [ht] at h1; cases h1
    · intro h1; cases h1
    · intro rows tenant h1; rw [ht] at h1; cases h1
    · intro error h1
      rw [ht] at h1
      cases h1
      exact ⟨rfl, rfl⟩
  · rw [h]
    refine ⟨_, rfl, ?_, ?_, ⟨?_, ?_⟩, ?_, ?_, ?_⟩
    · intro rows h1 _; exact ⟨rfl, rfl⟩
    · intro rows tenant h1 h2
      rw [ht] at h1; cases h1
      rw [hf] at h2; cases h2
    · intro h1; cases h1
    · rintro ⟨rows, tenant, h1, h2, _⟩
      rw [ht] at h1; cases h1
      rw [hf] at h2; cases h2
    · intro h1; cases h1
    · intro rows tenant h1 h2
      rw [ht] at h1; cases h1
      rw [hf] at h2; cases h2
    · intro error h1; rw [ht] at h1; cases h1
  · rw [h]
    refine ⟨_, rfl, ?_, ?_, ⟨?_, ?_⟩, ?_, ?_, ?_⟩
    · intro rows h1 h2
      rw [ht] at h1; cases h1
      rw [hf] at h2; cases h2
    · intro rows tenant _ _ _; exact ⟨rfl, rfl⟩
    · intro h1; cases h1
    · rintro ⟨rows, tenant, h1, h2, h3, _⟩
      rw [ht] at h1; cases h1
      rw [hf] at h2; cases h2
      rw [ha] at h3; cases h3
    · intro h1; cases h1
    · intro rows tenant h1 h2 h3
      rw [ht] at h1; cases h1
      rw [hf] at h2; cases h2
      rw [ha] at h3; cases h3
    · intro error h1; rw [ht] at h1; cases h1
  · obtain ⟨_, hiff, hrej⟩ := syncTenant_outcome exec t0
    rcases h with ⟨error, hout, h⟩ | ⟨hout, h⟩
    · rw [h]
      refine ⟨_, rfl, ?_, ?_, ⟨?_, ?_⟩, ?_, ?_, ?_⟩
      · intro rows h1 h2
        rw [ht] at h1; cases h1
        rw [hf] at h2; cases h2
      · intro rows tenant h1 h2 h3
        rw [ht] at h1; cases h1
        rw [hf] at h2; cases h2
        rw [ha] at h3; cases h3
      · intro h1; cases h1
      · rintro ⟨rows, tenant, h1, h2, _, h4⟩
        rw [ht] at h1; cases h1
        rw [hf] at h2; cases h2
        have := hiff.mpr h4
        rw [hout] at this
        cases this
      · intro h1; cases h1
      · intro rows tenant h1 h2 _ _
        rw [ht] at h1; cases h1
        rw [hf] at h2; cases h2
        exact ⟨error, rfl, hrej error hout⟩
      · intro error1 h1; rw [ht] at h1; cases h1
    · rw [h]
      refine ⟨_, rfl, ?_, ?_, ⟨?_, ?_⟩, ?_, ?_, ?_⟩
      · intro rows h1 h2
        rw [ht] at h1; cases h1
        rw [hf] at h2; cases h2
      · intro rows tenant h1 h2 h3
        rw [ht] at h1; cases h1
        rw [hf] at h2; cases h2
        rw [ha] at h3; cases h3
      · intro _
        exact ⟨rows0, t0, ht, hf, ha, hiff.mp hout⟩
      · intro _; rfl
      · intro _; rfl
      · intro rows tenant _ _ _ h4
        cases h4
      · intro error1 h1; rw [ht] at h1; cases h1

end SchedulerService

namespace SchedulerService

theorem status_allSettled {α : Type} (os : List (Except Js.Error α)) :
    (Async.allSettled os).map (fun r => r.status)
      = os.map (fun o => if o.isOk then "fulfilled" else "rejected") := by
  unfold Async.allSettled
  rw [List.map_map]
  apply List.map_congr_left
  intro o _
  cases o <;> rfl

theorem count_fulfilled {α : Type} (os : List (Except Js.Error α)) :
    ((Async.allSettled os).filter (fun r => decide (r.status = "fulfilled"))).length
      = os.countP (fun o => o.isOk) := by
  induction os with
  | nil => rfl
  | cons o rest ih =>
    have hcons : Async.allSettled (o :: rest)
        = (Async.allSettled [o]) ++ Async.allSettled rest := rfl
    rw [hcons, List.filter_append, List.length_append, ih, List.countP_cons]
    cases o with
    | ok v => simp [Async.allSettled, Except.isOk, Except.toBool]; omega
    | error e => simp [Async.allSettled, Except.isOk, Except.toBool]

theorem count_rejected {α : Type} (os : List (Except Js.Error α)) :
    ((Async.allSettled os).filter (fun r => decide (r.status = "rejected"))).length
      = os.countP (fun o => !o.isOk) := by
  induction os with
  | nil => rfl
  | cons o rest ih =>
    have hcons : Async.allSettled (o :: rest)
        = (Async.allSettled [o]) ++ Async.allSettled rest := rfl
    rw [hcons, List.filter_append, List.length_append, ih, List.countP_cons]
    cases o with
    | ok v => simp [Async.allSettled, Except.isOk, Except.toBool]
    | error e => simp [Async.allSettled, Except.isOk, Except.toBool]; omega

theorem countP_add_countP_not {α : Type} (p : α → Bool) (l : List α) :
    l.countP p + l.countP (fun x => !p x) = l.length := by
  induction l with
  | nil => rfl
  | cons x xs ih =>
    rw [List.countP_cons, List.countP_cons, List.length_cons]
    cases p x <;> simp <;> omega

/-- A tick never throws, and accounts for the run of every active tenant. -/
theorem tick_accounts (found label : String) (run : Tenant → TenantRun) (table : TenantTable) :
    ∃ report, tick found label run table = .ok report ∧ report.accountsFor run table := by
  cases table with
  | error e => exact ⟨{}, rfl, rfl, rfl, rfl⟩
  | ok rows =>
    refine ⟨_, rfl, rfl, ?_, ?_, _, _, rfl, ?_, ?_, ?_⟩
    · change ((List.map run _).map _).flatten = _
      rw [List.map_map]
      rfl
    · change (Async.allSettled _).map _ = _
      rw [status_allSettled, List.map_map, List.map_map]
      rfl
    · rw [count_fulfilled, count_rejected, countP_add_countP_not, List.length_map,
        List.length_map]
    · rw [count_fulfilled, List.map_map, List.countP_map]
      rfl
    · rw [count_rejected, List.map_map, List.countP_map]
      rfl

end SchedulerService

namespace SchedulerService

/-- A tick over two active tenants of which the first run is rejected and the
second fulfilled. -/
theorem tick_one_fails (found label : String) (run : Tenant → TenantRun) (a b : Tenant)
    (e : Js.Error) (ha : a.isActive = true) (hb : b.isActive = true)
    (hfail : (run a).outcome = .error e) (hdone : (run b).outcome = .ok ()) :
    ∃ report, tick found label run (.ok [a, b]) = .ok report
      ∧ report.dispatched = [a, b]
      ∧ report.counts = some (1, 1)
      ∧ report.results.map (fun r => r.status) = ["rejected", "fulfilled"] := by
  refine ⟨_, rfl, ?_, ?_, ?_⟩
  · simp [findManyActive, Except.map, ha, hb]
  · simp [findManyActive, Except.map, ha, hb, hfail, hdone, Async.allSettled]
  · simp [findManyActive, Except.map, ha, hb, hfail, hdone, Async.allSettled]

/-- C19. A scheduler tick (`syncAllTenants`, `fullSyncAllTenants`) never
throws, whatever the individual runs do and also when listing the tenants
fails. It dispatches exactly one run for each active tenant and none for an
inactive one, and its counts satisfy `successful + failed =` the number of
active tenants, with `failed` the number of tenants whose run was rejected.
With two active tenants of which one run is rejected and the other fulfilled,
it counts one failure and one success, and the other run is recorded as
fulfilled. -/
theorem scheduler_tick_isolates_tenant_failures (table : TenantTable) (exec : Execution) :
    (∃ report, syncAllTenants table exec = .ok report
      ∧ report.accountsFor (syncTenant exec) table)
    ∧ (∃ report, fullSyncAllTenants table exec = .ok report
      ∧ report.accountsFor (fullSyncTenant exec) table)
    ∧ ∀ (a b : Tenant) (e : Js.Error), a.isActive = true → b.isActive = true →
        ((syncTenant exec a).outcome = .error e → (syncTenant exec b).outcome = .ok () →
          ∃ report, syncAllTenants (.ok [a, b]) exec = .ok report
            ∧ report.dispatched = [a, b] ∧ report.counts = some (1, 1)
            ∧ report.results.map (fun r => r.status) = ["rejected", "fulfilled"])
        ∧ ((fullSyncTenant exec a).outcome = .error e →
            (fullSyncTenant exec b).outcome = .ok () →
          ∃ report, fullSyncAllTenants (.ok [a, b]) exec = .ok report
            ∧ report.dispatched = [a, b] ∧ report.counts = some (1, 1)
            ∧ report.results.map (fun r => r.status) = ["rejected", "fulfilled"]) := by
  refine ⟨tick_accounts _ _ (syncTenant exec) table,
    tick_accounts _ _ (fullSyncTenant exec) table, ?_⟩
  intro a b e ha hb
  exact ⟨fun h1 h2 => tick_one_fails _ _ (syncTenant exec) a b e ha hb h1 h2,
    fun h1 h2 => tick_one_fails _ _ (fullSyncTenant exec) a b e ha hb h1 h2⟩

/-- A tick over the sample tenants: `tenant-2` is refused by its shop,
`tenant-3` is inactive. -/
theorem syncAllTenants_sample :
    ∃ report, syncAllTenants (.ok [Sample.tenant, Sample.tenantB, Sample.tenantOff])
        Sample.oneFails = .ok report
      ∧ report.dispatched.map (fun t => t.id) = ["tenant-1", "tenant-2"]
      ∧ report.started
          = [Call.syncCustomers "tenant-1", Call.syncOrders "tenant-1",
             Call.syncCustomers "tenant-2", Call.syncOrders "tenant-2"]
      ∧ report.results.map (fun r => (r.status, r.reason.map (fun e => e.message)))
          = [("fulfilled", none),
             ("rejected", some "Failed to fetch /customers.json: Invalid API key")]
      ∧ report.counts = some (1, 1)
      ∧ report.console
          = ["Found 2 active tenants to sync", "Sync completed: 1 successful, 1 failed"] :=
  ⟨_, rfl, rfl, rfl, rfl, rfl, by decide⟩

/-- Manual syncs of the sample tenants. -/
theorem syncTenantById_sample :
    (syncTenantById (.ok [Sample.tenant, Sample.tenantB, Sample.tenantOff]) Sample.oneFails
        "tenant-1").outcome.toOption
      = some { success := true, message := "Sync completed successfully" }
    ∧ (syncTenantById (.ok [Sample.tenant, Sample.tenantB, Sample.tenantOff]) Sample.oneFails
        "tenant-2").outcome.toOption
      = some { success := false,
               message := "Failed to fetch /customers.json: Invalid API key" }
    ∧ (syncTenantById (.ok [Sample.tenant, Sample.tenantB, Sample.tenantOff]) Sample.oneFails
        "tenant-3").outcome.toOption
      = some { success := false, message := "Tenant is not active" }
    ∧ (syncTenantById (.ok [Sample.tenant, Sample.tenantB, Sample.tenantOff]) Sample.oneFails
        "tenant-9").outcome.toOption
      = some { success := false, message := "Tenant not found" }
    ∧ (syncTenantById (.error { message := "Connection refused" }) Sample.oneFails
        "tenant-1").outcome.toOption
      = some { success := false, message := "Connection refused" } :=
  ⟨rfl, rfl, rfl, rfl, rfl⟩

end SchedulerService

/-! # Counts and the ledger row -/

namespace ShopifyService

/-- C28. After a successful fetch of `N` records every entity synchroniser
returns counts with `recordsProcessed + recordsFailed = N`: each record has
exactly one outcome, `recordsProcessed` is the number of records whose loop
iteration completed (the upsert and, for an order, the line-item block) and
`recordsFailed` the number whose iteration threw. -/
theorem sync_counts_each_record_once (e : Entity) (svc : ShopifyService) (api : Api)
    (schema : Schema) (clock : Nat → Nat) (st : Store) (fetched : FetchRun)
    (records : List Val)
    (hfetch : e.fetch svc api = some fetched) (hrecords : fetched.result = .ok records) :
    ∃ run counts, e.sync svc api schema clock st = some run ∧ run.result = .ok counts
      ∧ counts.recordsProcessed + counts.recordsFailed = records.length
      ∧ (outcomes (e.step schema svc.tenant.id) records st).length = records.length
      ∧ counts.recordsProcessed
          = ((outcomes (e.step schema svc.tenant.id) records st).filter Option.isNone).length
      ∧ counts.recordsFailed
          = ((outcomes (e.step schema svc.tenant.id) records st).filter Option.isSome).length := by
  obtain ⟨d, hsync⟩ := Entity.sync_of_fetched_store e svc api schema clock st fetched records
    hfetch hrecords
  refine ⟨_, _, hsync, rfl, ?_, outcomes_length _ records st, rfl, rfl⟩
  exact successes_add_failures (e.step schema svc.tenant.id) records st

theorem sync_counts_each_record_once_witness :
    ∃ run counts, Entity.customers.sync Sample.service
        (Sample.onePage "customers" [Sample.customerA, Val.null, Sample.customerB])
        Sample.schema Sample.clock {} = some run
      ∧ run.result = .ok counts
      ∧ counts.recordsProcessed + counts.recordsFailed = 3
      ∧ (outcomes (Entity.customers.step Sample.schema Sample.service.tenant.id)
          [Sample.customerA, Val.null, Sample.customerB] {}).length = 3
      ∧ counts.recordsProcessed
          = ((outcomes (Entity.customers.step Sample.schema Sample.service.tenant.id)
              [Sample.customerA, Val.null, Sample.customerB] {}).filter Option.isNone).length
      ∧ counts.recordsFailed
          = ((outcomes (Entity.customers.step Sample.schema Sample.service.tenant.id)
              [Sample.customerA, Val.null, Sample.customerB] {}).filter Option.isSome).length :=
  sync_counts_each_record_once .customers Sample.service
    (Sample.onePage "customers" [Sample.customerA, Val.null, Sample.customerB])
    Sample.schema Sample.clock {} _ [Sample.customerA, Val.null, Sample.customerB] rfl rfl

/-- C27: the start time is read and dropped. Every synchroniser reads the
clock when it is invoked (`startTime`), but the run and the ledger row it
writes depend on the second reading only (`completedAt`): two clocks that
agree on the second reading give the same run, and the `data` object of the
ledger row holds the tenant, the entity type, the status, the two counts, the
error message and `completedAt`, with no start timestamp. -/
theorem sync_log_drops_start_time :
    (∀ (e : Entity) (svc : ShopifyService) (api : Api) (schema : Schema)
        (clock1 clock2 : Nat → Nat) (st : Store), clock1 1 = clock2 1 →
        e.sync svc api schema clock1 st = e.sync svc api schema clock2 st)
    ∧ Sample.clock 0 = 1000 ∧ Sample.lateClock 0 = 5
    ∧ ∃ run, syncCustomers Sample.service (Sample.onePage "customers" [Sample.customerA])
          Sample.schema Sample.clock {} = some run
        ∧ syncCustomers Sample.service (Sample.onePage "customers" [Sample.customerA])
          Sample.schema Sample.lateClock {} = some run
        ∧ run.store.syncLogs.map (fun row => row.data)
            = [{ tenantId := "tenant-1", entityType := "customers", status := "success",
                 recordsProcessed := 1, recordsFailed := 0, errorMessage := none,
                 completedAt := 1001 }] := by
  refine ⟨?_, rfl, rfl, _, rfl, rfl, rfl⟩
  intro e svc api schema clock1 clock2 st h
  cases e <;>
    simp only [Entity.sync, syncCustomers, syncOrders, syncProducts, syncEntity, h]

end ShopifyService

/-! # The URL of the connection test -/

namespace Ingestion

/-- C26: the connection test embeds the stored URL as it is. For the tenant
whose stored URL is `https://Demo-Store.myshopify.com/` the service's base URL
is built on the normalised domain, while the route requests a URL with two
schemes, the capitals and a doubled slash. -/
theorem testConnectionUrl_embeds_raw_url :
    Sample.tenant.shopifyUrl = some "https://Demo-Store.myshopify.com/"
    ∧ (ShopifyService.new Sample.toLowerCase Sample.tenant).baseUrl ++ "/shop.json"
        = "https://demo-store.myshopify.com/admin/api/2023-10/shop.json"
    ∧ testConnectionUrl Sample.tenant
        = "https://https://Demo-Store.myshopify.com//admin/api/2023-10/shop.json"
    ∧ testConnectionUrl Sample.tenant ≠ (ShopifyService.new Sample.toLowerCase Sample.tenant).baseUrl ++ "/shop.json" := by
  refine ⟨rfl, by decide, by decide, by decide⟩

end Ingestion

/-! # The cursor and the error message of the fetcher -/

namespace ShopifyService

/-- C25: the cursor keeps what follows `page_info` in the next URL. The
expression `nextMatch[1].split('page_info=')[1]` takes the text after
`page_info=` to the end of the URL: for the next URL
`...customers.json?page_info=n1&limit=2` the cursor is `n1&limit=2`, and the
following request of `fetchCustomers` sends it as `page_info`. A previous
relation and parameters before `page_info` do not disturb the extraction. -/
theorem nextCursor_keeps_trailing_parameters :
    nextCursor (some Sample.trailingLink) = some "n1&limit=2"
    ∧ (∃ run, fetchCustomers Sample.service Sample.trailingApi = some run
        ∧ run.requests.map (fun request => request.params)
            = [[("limit", Val.num (Js.Num.ofNat 250))], [("page_info", Val.str "n1&limit=2")]])
    ∧ nextCursor (some Sample.bothLink) = some "n2" := by
  refine ⟨by decide, ⟨_, rfl, rfl⟩, by decide⟩

/-- The detail of a request error without a response is its own message. -/
theorem fetchFailure_no_response (endpoint : String) (e : Js.Error) (h : e.response = none) :
    (fetchFailure endpoint e).message = "Failed to fetch " ++ endpoint ++ ": " ++ e.message := by
  simp [fetchFailure, errorDetail, h, Js.nullish, Js.or, Js.truthy, Js.toStr, Js.newError]

/-- The detail of a request error whose body has the `errors` entry `v`. -/
theorem errorDetail_of_errors (e : Js.Error) (body v : Val) (h : e.response = some body)
    (herrors : Js.getProp body "errors" = .ok v) :
    errorDetail e
      = Js.or (if Js.nullish v then .undefined else Js.getIndex v 0) (.str e.message) := by
  have hbody : Js.nullish body = false := by
    cases body <;> first | rfl | (simp [Js.getProp] at herrors)
  unfold errorDetail
  simp only [h, Option.getD_some, hbody, herrors, Bool.false_eq_true, if_false]

/-- The detail of a request error whose body has an `errors` list with a
truthy first entry is the text of that entry. -/
theorem fetchFailure_first (endpoint : String) (e : Js.Error) (body first : Val)
    (rest : List Val) (text : String) (h : e.response = some body)
    (herrors : Js.getProp body "errors" = .ok (.arr (first :: rest)))
    (htruthy : Js.truthy first = true) (htext : Js.toStr first = .ok text) :
    (fetchFailure endpoint e).message = "Failed to fetch " ++ endpoint ++ ": " ++ text := by
  unfold fetchFailure
  rw [errorDetail_of_errors e body _ h herrors]
  simp [Js.nullish, Js.getIndex, Js.or, htruthy, htext, Js.newError]

/-- The detail of a request error whose body has no `errors` entry, or an
empty `errors` list, is the message of the request error. -/
theorem fetchFailure_no_errors (endpoint : String) (e : Js.Error) (body v : Val)
    (h : e.response = some body) (herrors : Js.getProp body "errors" = .ok v)
    (hv : v = .undefined ∨ v = .null ∨ v = .arr []) :
    (fetchFailure endpoint e).message = "Failed to fetch " ++ endpoint ++ ": " ++ e.message := by
  unfold fetchFailure
  rw [errorDetail_of_errors e body v h herrors]
  rcases hv with hv | hv | hv <;> subst hv <;>
    simp [Js.nullish, Js.getIndex, Js.or, Js.truthy, Js.toStr, Js.newError]

/-- C24, as stated, fails: when the body of the rejected request carries two
messages, the thrown message holds the first one only, not the whole detail;
when `errors` is the text `Not Found`, the thrown message holds its first
character. -/
theorem fetchCustomers_message_keeps_first_entry_only :
    (∃ run err, fetchCustomers Sample.service
          (Sample.rejecting (.obj [("errors",
            .arr [.str "Invalid API key", .str "Unrecognized login"])])) = some run
        ∧ run.result = .error err
        ∧ err.message = "Failed to fetch /customers.json: Invalid API key")
    ∧ (∃ run err, fetchCustomers Sample.service
          (Sample.rejecting (.obj [("errors", .str "Not Found")])) = some run
        ∧ run.result = .error err
        ∧ err.message = "Failed to fetch /customers.json: N") := by
  refine ⟨⟨_, _, rfl, rfl, by decide⟩, ⟨_, _, rfl, rfl, by decide⟩⟩

/-- C24, amended. For every failed request of `fetchPaginatedData` the run
throws an error whose message is `'Failed to fetch ' + endpoint + ': ' +
detail`, where the detail is the text of the first entry of the `errors` list
of the response body when the body has such a list and that entry is truthy,
and the message of the request error itself when the error has no response,
when the body has no `errors` entry (or `null`), or when the list is empty. -/
theorem fetchPaginatedData_failure_message (svc : ShopifyService) (api : Api)
    (endpoint key : String) (limit : Nat) (extra : List (String × Val)) (run : FetchRun)
    (i : Nat) (request : Request) (e : Js.Error)
    (hrun : fetchPaginatedData svc api endpoint key limit extra = some run)
    (hreq : run.requests[i]? = some request) (hfail : api i request = .error e) :
    ∃ err, run.result = .error err
      ∧ (e.response = none →
          err.message = "Failed to fetch " ++ endpoint ++ ": " ++ e.message)
      ∧ (∀ body first rest text, e.response = some body →
          Js.getProp body "errors" = .ok (.arr (first :: rest)) → Js.truthy first = true →
          Js.toStr first = .ok text →
          err.message = "Failed to fetch " ++ endpoint ++ ": " ++ text)
      ∧ (∀ body v, e.response = some body → Js.getProp body "errors" = .ok v →
          v = .undefined ∨ v = .null ∨ v = .arr [] →
          err.message = "Failed to fetch " ++ endpoint ++ ": " ++ e.message) := by
  obtain ⟨new, hnew, _, _, herr, _⟩ :=
    fetchLoop_trace svc api endpoint key limit extra 10 1 [] none [] run hrun
  rw [List.nil_append] at hnew
  rw [hnew] at hreq
  obtain ⟨hres, _⟩ := herr i request e hreq (by simpa using hfail)
  refine ⟨_, hres, fetchFailure_no_response endpoint e, ?_, ?_⟩
  · intro body first rest text
    exact fetchFailure_first endpoint e body first rest text
  · intro body v
    exact fetchFailure_no_errors endpoint e body v

theorem fetchPaginatedData_failure_message_witness :
    ∃ run err, fetchCustomers Sample.service (Sample.failingApi "customers" 3 2 1) = some run
      ∧ run.requests.length = 2
      ∧ run.result = .error err
      ∧ err.message = "Failed to fetch /customers.json: Invalid API key" := by
  obtain ⟨err, hres, _, hfirst, _⟩ :=
    fetchPaginatedData_failure_message Sample.service (Sample.failingApi "customers" 3 2 1)
      "/customers.json" "customers" 250 []
      (((fetchCustomers Sample.service (Sample.failingApi "customers" 3 2 1)).getD
        { requests := [], result := .ok [] }))
      1 _ _ rfl rfl rfl
  exact ⟨_, err, rfl, rfl, hres, hfirst _ _ _ _ rfl rfl rfl rfl⟩

end ShopifyService

/-! # What a failed order leaves behind -/

namespace ShopifyService

/-- The inner line-item loop inserts the mapped items one after the other and
stops at the first one that throws: the rows it leaves are those of a prefix
of the items, the whole list exactly when it does not throw. -/
theorem createLineItems_written (schema : Schema) (oid : Nat) :
    ∀ (items : List Val) (st : Store),
      ∃ k rows, (createLineItems schema oid items st).store.lineItems = st.lineItems ++ rows
        ∧ rows.map (fun row => (Except.ok row.data : Except Js.Error LineItemData))
            = (items.take k).map (lineItemFields oid)
        ∧ ((createLineItems schema oid items st).error = none → k = items.length)
        ∧ ((createLineItems schema oid items st).error ≠ none → k < items.length) := by
  intro items
  induction items with
  | nil => intro st; exact ⟨0, [], by simp [createLineItems], by simp, by simp,
      by simp [createLineItems]⟩
  | cons item rest ih =>
    intro st
    unfold createLineItems
    cases hf : lineItemFields oid item with
    | error e => exact ⟨0, [], by simp, by simp, by simp, by simp⟩
    | ok data =>
      simp only
      cases hc : st.createLineItem schema data with
      | error e => exact ⟨0, [], by simp, by simp, by simp, by simp⟩
      | ok st1 =>
        simp only
        have hst1 : st1 = { st with
            lineItems := st.lineItems ++ [{ id := st.nextId, data := data }]
            nextId := st.nextId + 1 } := by
          unfold Store.createLineItem at hc
          split at hc
          · exact (Except.ok.inj hc).symm
          · cases hc
        obtain ⟨k, rows, h1, h2, h3, h4⟩ := ih st1
        refine ⟨k + 1, { id := st.nextId, data := data } :: rows, ?_, ?_, ?_, ?_⟩
        · rw [h1, hst1]
          simp
        · simp only [List.map_cons, List.take_succ_cons, hf, h2]
        · intro h
          simp [h3 h]
        · intro h
          have := h4 h
          simp only [List.length_cons]
          omega

/-- The stored line items of an order after the line-item block threw: those
before (the throw came before the delete), none (the delete went through and
`line_items` could not be iterated), or the mapped items that precede the one
that threw. The line items of every other order stay. -/
theorem syncLineItems_failed (schema : Schema) (r : Val) (oid : Nat) (st : Store)
    (herr : (syncLineItems schema r oid st).error ≠ none) :
    lineItemsOf (syncLineItems schema r oid st).store oid = lineItemsOf st oid
    ∨ ∃ lineItems, lineItemsToSync r = .ok (some lineItems)
        ∧ ((∃ e, Js.iterate lineItems = .error e
              ∧ lineItemsOf (syncLineItems schema r oid st).store oid = [])
          ∨ ∃ items k, Js.iterate lineItems = .ok items ∧ k < items.length
              ∧ (lineItemsOf (syncLineItems schema r oid st).store oid).map Except.ok
                  = (items.take k).map (lineItemFields oid)) := by
  have hdel : ((st.deleteLineItems oid).lineItems.filter
      (fun x => decide (x.data.orderId = oid))) = [] := by
    rw [List.filter_eq_nil_iff]
    intro x hx
    simp only [Store.deleteLineItems, List.mem_filter, decide_eq_true_eq] at hx
    simpa using hx.2
  unfold syncLineItems at herr ⊢
  cases hl : lineItemsToSync r with
  | error e => left; rfl
  | ok found =>
    cases found with
    | none => left; rfl
    | some lineItems =>
      right
      refine ⟨lineItems, rfl, ?_⟩
      simp only [hl] at herr ⊢
      cases hi : Js.iterate lineItems with
      | error e =>
        left
        refine ⟨e, rfl, ?_⟩
        simp only [lineItemsOf, hdel, List.map_nil]
      | ok items =>
        right
        simp only [hi] at herr ⊢
        obtain ⟨k, rows, h1, h2, _, h4⟩ :=
          createLineItems_written schema oid items (st.deleteLineItems oid)
        refine ⟨items, k, rfl, h4 herr, ?_⟩
        have hrows : ∀ row ∈ rows, row.data.orderId = oid := by
          intro row hrow
          have hmem : (Except.ok row.data : Except Js.Error LineItemData)
              ∈ (items.take k).map (lineItemFields oid) := by
            rw [← h2]
            exact List.mem_map_of_mem _ hrow
          obtain ⟨item, _, hitem⟩ := List.mem_map.mp hmem
          exact lineItemFields_orderId hitem
        have hfilter : rows.filter (fun x => decide (x.data.orderId = oid)) = rows := by
          rw [List.filter_eq_self]
          intro row hrow
          simpa using hrows row hrow
        simp only [lineItemsOf, h1, List.filter_append, hdel, List.nil_append, hfilter,
          List.map_map]
        rw [← h2]
        rfl

/-- C30, as stated, fails: order 7 is stored with the line items `A` and `B`;
it is fetched again with another currency and the line items `C` and `null`.
The order is counted in `recordsFailed`, yet its row carries the new currency
and its stored line items are `C` alone. -/
theorem syncOrders_failed_order_keeps_half_written_rows :
    Sample.seeded.orders.map (fun row => row.currency) = [Val.str "USD"]
    ∧ (lineItemsOf Sample.seeded 1).map (fun d => d.title) = [Val.str "A", Val.str "B"]
    ∧ ∃ run, syncOrders Sample.service (Sample.onePage "orders" [Sample.orderHalf])
          Sample.schema Sample.clock Sample.seeded = some run
        ∧ run.result = .ok { recordsProcessed := 0, recordsFailed := 1 }
        ∧ run.store.orders.map (fun row => row.currency) = [Val.str "EUR"]
        ∧ (lineItemsOf run.store 1).map (fun d => d.title) = [Val.str "C"] := by
  refine ⟨rfl, rfl, _, rfl, rfl, rfl, rfl⟩

/-- C30, amended. When the processing of a fetched order throws, either it
threw before the order upsert completed (customer lookup, field mapping, the
upsert itself) and the store is as it was, or the upsert went through and the
throw came from the line-item block. In that case the order table holds the
upserted row, the other tables and the line items of every other order are
unchanged, and the stored line items of the order are those before (the throw
preceded the delete), or none (`line_items` could not be iterated after the
delete), or the mapped items that precede the one whose insertion threw. -/
theorem syncOrders_failed_order_effects (schema : Schema) (tenantId : String) (st : Store)
    (shopifyOrder : Val)
    (herr : (syncOrderRecord schema tenantId st shopifyOrder).error ≠ none) :
    (syncOrderRecord schema tenantId st shopifyOrder).store = st
    ∨ ∃ sid cref fields row st1, externalId shopifyOrder = some sid
        ∧ resolveCustomer tenantId st shopifyOrder = .ok cref
        ∧ orderFields shopifyOrder cref = .ok fields
        ∧ st.upsertOrder schema tenantId sid fields fields = .ok (row, st1)
        ∧ (syncOrderRecord schema tenantId st shopifyOrder).store.orders = st1.orders
        ∧ (syncOrderRecord schema tenantId st shopifyOrder).store.customers = st.customers
        ∧ (syncOrderRecord schema tenantId st shopifyOrder).store.products = st.products
        ∧ (syncOrderRecord schema tenantId st shopifyOrder).store.syncLogs = st.syncLogs
        ∧ (∀ other, other ≠ row.id →
            lineItemsOf (syncOrderRecord schema tenantId st shopifyOrder).store other
              = lineItemsOf st other)
        ∧ (lineItemsOf (syncOrderRecord schema tenantId st shopifyOrder).store row.id
              = lineItemsOf st row.id
          ∨ ∃ lineItems, lineItemsToSync shopifyOrder = .ok (some lineItems)
              ∧ ((∃ e, Js.iterate lineItems = .error e
                    ∧ lineItemsOf (syncOrderRecord schema tenantId st shopifyOrder).store row.id
                        = [])
                ∨ ∃ items k, Js.iterate lineItems = .ok items ∧ k < items.length
                    ∧ (lineItemsOf (syncOrderRecord schema tenantId st shopifyOrder).store
                          row.id).map Except.ok
                        = (items.take k).map (lineItemFields row.id))) := by
  rcases syncOrderRecord_cases schema tenantId st shopifyOrder with ⟨e, h⟩ | h
  · left
    rw [h]
  · obtain ⟨sid, cref, fields, row, st1, hsid, hres, hfields, hup, hstep⟩ := h
    right
    rw [hstep] at herr ⊢
    have hst1 := (upsertOrder_ok hup).2
    have hitems : st1.lineItems = st.lineItems := by rw [hst1]
    have hframe := syncLineItems_frame schema shopifyOrder row.id st1
    have hof : ∀ o, lineItemsOf st1 o = lineItemsOf st o := by
      intro o
      simp only [lineItemsOf, hitems]
    refine ⟨sid, cref, fields, row, st1, hsid, hres, hfields, hup, hframe.2.2.1, ?_, ?_, ?_, ?_, ?_⟩
    · rw [hframe.2.1, hst1]
    · rw [hframe.2.2.2, hst1]
    · rw [hframe.1, hst1]
    · intro other hother
      rw [← hof other]
      unfold lineItemsOf
      rw [syncLineItems_filter schema shopifyOrder row.id st1
        (fun x => decide (x.data.orderId = other))]
      intro item hitem
      simp only [decide_eq_true_eq] at hitem
      rw [hitem]
      exact hother
    · rw [← hof row.id]
      exact syncLineItems_failed schema shopifyOrder row.id st1 herr

theorem syncOrders_failed_order_effects_witness :
    (syncOrderRecord Sample.schema "tenant-1" Sample.seeded Sample.orderHalf).error ≠ none
    ∧ ((syncOrderRecord Sample.schema "tenant-1" Sample.seeded Sample.orderHalf).store
          = Sample.seeded
      ∨ ∃ sid cref fields row st1, externalId Sample.orderHalf = some sid
        ∧ resolveCustomer "tenant-1" Sample.seeded Sample.orderHalf = .ok cref
        ∧ orderFields Sample.orderHalf cref = .ok fields
        ∧ Sample.seeded.upsertOrder Sample.schema "tenant-1" sid fields fields = .ok (row, st1)
        ∧ (syncOrderRecord Sample.schema "tenant-1" Sample.seeded Sample.orderHalf).store.orders
            = st1.orders
        ∧ (syncOrderRecord Sample.schema "tenant-1" Sample.seeded Sample.orderHalf).store.customers
            = Sample.seeded.customers
        ∧ (syncOrderRecord Sample.schema "tenant-1" Sample.seeded Sample.orderHalf).store.products
            = Sample.seeded.products
        ∧ (syncOrderRecord Sample.schema "tenant-1" Sample.seeded Sample.orderHalf).store.syncLogs
            = Sample.seeded.syncLogs
        ∧ (∀ other, other ≠ row.id →
            lineItemsOf (syncOrderRecord Sample.schema "tenant-1" Sample.seeded
                Sample.orderHalf).store other
              = lineItemsOf Sample.seeded other)
        ∧ (lineItemsOf (syncOrderRecord Sample.schema "tenant-1" Sample.seeded
                Sample.orderHalf).store row.id
              = lineItemsOf Sample.seeded row.id
          ∨ ∃ lineItems, lineItemsToSync Sample.orderHalf = .ok (some lineItems)
              ∧ ((∃ e, Js.iterate lineItems = .error e
                    ∧ lineItemsOf (syncOrderRecord Sample.schema "tenant-1" Sample.seeded
                        Sample.orderHalf).store row.id = [])
                ∨ ∃ items k, Js.iterate lineItems = .ok items ∧ k < items.length
                    ∧ (lineItemsOf (syncOrderRecord Sample.schema "tenant-1" Sample.seeded
                          Sample.orderHalf).store row.id).map Except.ok
                        = (items.take k).map (lineItemFields row.id)))) :=
  ⟨Option.isSome_iff_ne_none.mp rfl,
    syncOrders_failed_order_effects Sample.schema "tenant-1" Sample.seeded Sample.orderHalf
      (Option.isSome_iff_ne_none.mp rfl)⟩

end ShopifyService

/-! # The scheduler lifecycle -/

namespace SchedulerService

/-- The task at a position after `start()` or `stop()` was called on a
position. -/
theorem setRunning_get (b : Bool) :
    ∀ (i : Nat) (tasks : List CronTask) (j : Nat),
      (setRunning b i tasks)[j]?
        = if j = i then tasks[j]?.map (fun t => { t with running := b }) else tasks[j]? := by
  intro i tasks
  induction tasks generalizing i with
  | nil => intro j; simp [setRunning]
  | cons t rest ih =>
    intro j
    cases i with
    | zero =>
      cases j with
      | zero => simp [setRunning]
      | succ j => simp [setRunning]
    | succ i =>
      cases j with
      | zero => simp [setRunning]
      | succ j => simp [setRunning, ih]

/-- Stopping the jobs of a registry one after the other: a task the registry
refers to ends stopped, every other task is as it was. -/
theorem stopAll_get (jobs : List (String × Nat)) :
    ∀ (tasks : List CronTask) (j : Nat),
      (jobs.foldl (fun tasks job => setRunning false job.2 tasks) tasks)[j]?
        = if j ∈ jobs.map (fun job => job.2)
          then tasks[j]?.map (fun t => { t with running := false }) else tasks[j]? := by
  induction jobs with
  | nil => intro tasks j; simp
  | cons job rest ih =>
    intro tasks j
    simp only [List.foldl_cons, List.map_cons, List.mem_cons]
    rw [ih, setRunning_get]
    by_cases h1 : j = job.2
    · by_cases h2 : j ∈ rest.map (fun job => job.2)
      · rw [if_pos h2, if_pos h1, if_pos (Or.inl h1)]
        cases tasks[j]? <;> rfl
      · rw [if_neg h2, if_pos h1, if_pos (Or.inl h1)]
    · by_cases h2 : j ∈ rest.map (fun job => job.2)
      · rw [if_pos h2, if_neg h1, if_pos (Or.inr h2)]
      · rw [if_neg h2, if_neg h1, if_neg (fun h => h.elim h1 h2)]

/-- C21. `stopScheduledSync` stops every job of the registry (the task of
each registered job is stopped afterwards, every name of the registry is
reported once, in order, and no other task is touched) and empties the
registry. It is idempotent: a second call in a row stops nothing and leaves
the state of the first. Called on the fresh service, before any start, it
changes nothing. -/
theorem stopScheduledSync_stops_all_idempotent :
    (∀ s : Lifecycle, (stopScheduledSync s).state.jobs = []
      ∧ (stopScheduledSync s).stopped = s.jobs.map (fun job => job.1)
      ∧ (∀ job ∈ s.jobs, (stopScheduledSync s).state.tasks[job.2]?
          = s.tasks[job.2]?.map (fun t => { t with running := false }))
      ∧ (∀ i, (∀ job ∈ s.jobs, job.2 ≠ i) →
          (stopScheduledSync s).state.tasks[i]? = s.tasks[i]?))
    ∧ (∀ s : Lifecycle, stopScheduledSync (stopScheduledSync s).state
        = { state := (stopScheduledSync s).state, stopped := [] })
    ∧ stopScheduledSync {} = { state := {}, stopped := [] }
    ∧ (stopScheduledSync (startScheduledSync {})).stopped = ["sync", "fullSync"]
    ∧ active (startScheduledSync {}) = 2
    ∧ active (stopScheduledSync (startScheduledSync {})).state = 0 := by
  refine ⟨?_, ?_, rfl, by decide, by decide, by decide⟩
  · intro s
    refine ⟨rfl, rfl, ?_, ?_⟩
    · intro job hjob
      simp only [stopScheduledSync]
      rw [stopAll_get, if_pos (List.mem_map_of_mem _ hjob)]
    · intro i hi
      simp only [stopScheduledSync]
      rw [stopAll_get, if_neg]
      intro hmem
      obtain ⟨job, hjob, hji⟩ := List.mem_map.mp hmem
      exact hi job hjob hji
  · intro s
    rfl

end SchedulerService

/-! # Sequences of lifecycle calls -/

namespace SchedulerService

/-- The call `start()` or `stop()` on the task that follows `older`. -/
theorem setRunning_at_length (b : Bool) (t : CronTask) (rest : List CronTask) :
    ∀ older : List CronTask,
      setRunning b older.length (older ++ t :: rest)
        = older ++ { t with running := b } :: rest := by
  intro older
  induction older with
  | nil => rfl
  | cons o older ih => simp [setRunning, ih]

/-- The tasks after `startScheduledSync`: those before, followed by the two
new ones, started. -/
theorem startScheduledSync_tasks (s : Lifecycle) :
    (startScheduledSync s).tasks
      = s.tasks ++ [{ expression := "*/15 * * * *", callback := .syncAllTenants, running := true },
                    { expression := "0 * * * *", callback := .fullSyncAllTenants,
                      running := true }] := by
  unfold startScheduledSync
  simp only [List.append_assoc, List.singleton_append]
  rw [setRunning_at_length]
  have h := setRunning_at_length true
    { expression := "0 * * * *", callback := .fullSyncAllTenants, running := false } []
    (s.tasks ++ [{ expression := "*/15 * * * *", callback := .syncAllTenants, running := true }])
  simp only [List.append_assoc, List.singleton_append, List.length_append, List.length_singleton]
    at h
  simp only [List.length_append, List.length_singleton, List.length_cons, List.length_nil]
  exact h

/-- A `start` on a service that is not started leaves it started. -/
theorem startScheduledSync_consistent (s : Lifecycle) (h : s.consistent false) :
    (startScheduledSync s).consistent true := by
  simp only [Lifecycle.consistent, Bool.false_eq_true, if_false, active] at h
  simp only [Lifecycle.consistent, if_true]
  refine ⟨s.tasks, _, _, startScheduledSync_tasks s, h.2, rfl, rfl, ?_⟩
  simp [startScheduledSync, h.1, mapSet]

/-- A `stop` leaves a service whose calls alternate not started. -/
theorem stopScheduledSync_consistent (started : Bool) (s : Lifecycle)
    (h : s.consistent started) : (stopScheduledSync s).state.consistent false := by
  simp only [Lifecycle.consistent, Bool.false_eq_true, if_false, active]
  refine ⟨rfl, ?_⟩
  cases started with
  | false =>
    simp only [Lifecycle.consistent, Bool.false_eq_true, if_false, active] at h
    simp only [stopScheduledSync, h.1, List.foldl_nil]
    exact h.2
  | true =>
    simp only [Lifecycle.consistent, if_true] at h
    obtain ⟨older, a, b, htasks, hold, _, _, hjobs⟩ := h
    simp only [stopScheduledSync, hjobs, htasks, List.foldl_cons, List.foldl_nil]
    rw [setRunning_at_length]
    have h2 := setRunning_at_length false b [] (older ++ [{ a with running := false }])
    simp only [List.append_assoc, List.singleton_append, List.length_append,
      List.length_singleton] at h2
    rw [h2]
    simp only [List.filter_append, List.length_append, hold]
    simp

/-- The counts of a consistent state: as many active triggers as registered
jobs, none or two. -/
theorem Lifecycle.consistent_counts (started : Bool) (s : Lifecycle)
    (h : s.consistent started) :
    active s = s.jobs.length ∧ s.jobs.length ≤ 2 ∧ (started = false → active s = 0 ∧ s.jobs = []) := by
  cases started with
  | false =>
    simp only [Lifecycle.consistent, Bool.false_eq_true, if_false] at h
    simp [h.1, h.2]
  | true =>
    simp only [Lifecycle.consistent, if_true] at h
    obtain ⟨older, a, b, htasks, hold, ha, hb, hjobs⟩ := h
    simp [active, htasks, hjobs, List.filter_append, hold, List.filter_cons, ha, hb]

/-- Along a sequence of calls that alternate, the state stays consistent. -/
theorem runOps_consistent :
    ∀ (ops : List Op) (started : Bool) (s : Lifecycle), alternates started ops = true →
      s.consistent started → (runOps ops s).consistent (endsStarted started ops) := by
  intro ops
  induction ops with
  | nil => intro started s _ h; exact h
  | cons op rest ih =>
    intro started s halt h
    cases op with
    | start =>
      simp only [alternates, Bool.and_eq_true, Bool.not_eq_true'] at halt
      rw [halt.1] at h
      exact ih true _ halt.2 (startScheduledSync_consistent s h)
    | stop =>
      simp only [alternates] at halt
      exact ih false _ halt (stopScheduledSync_consistent started s h)

/-- A prefix of a sequence that alternates alternates. -/
theorem alternates_take :
    ∀ (ops : List Op) (started : Bool) (k : Nat), alternates started ops = true →
      alternates started (ops.take k) = true := by
  intro ops
  induction ops with
  | nil => intro started k _; simp [alternates]
  | cons op rest ih =>
    intro started k h
    cases k with
    | zero => simp [alternates]
    | succ k =>
      cases op with
      | start =>
        simp only [alternates, Bool.and_eq_true, Bool.not_eq_true'] at h
        simp only [List.take_succ_cons, alternates, Bool.and_eq_true, Bool.not_eq_true']
        exact ⟨h.1, ih true k h.2⟩
      | stop =>
        simp only [alternates] at h
        simp only [List.take_succ_cons, alternates]
        exact ih false k h

/-- A sequence that ends with `stop` leaves the service not started. -/
theorem endsStarted_of_last_stop :
    ∀ (ops : List Op) (started : Bool), ops.getLast? = some .stop →
      endsStarted started ops = false := by
  intro ops
  induction ops with
  | nil => intro started h; simp at h
  | cons op rest ih =>
    intro started h
    cases rest with
    | nil =>
      simp only [List.getLast?_singleton, Option.some.injEq] at h
      subst h
      rfl
    | cons op2 rest2 =>
      rw [List.getLast?_cons_cons] at h
      cases op with
      | start => exact ih true h
      | stop => exact ih false h

/-- C29: a second start orphans the triggers of the first. After
`start, start` four triggers are active and the registry holds two jobs, the
two created last; after `start, start, stop` the registry is empty and the two
triggers of the first `start` are still active, although `stopScheduledSync`
is to stop all scheduled jobs. -/
theorem second_start_leaves_first_triggers_active :
    active (runOps [.start, .start] {}) = 4
    ∧ (runOps [.start, .start] {}).jobs = [("sync", 2), ("fullSync", 3)]
    ∧ active (runOps [.start, .start, .stop] {}) = 2
    ∧ (runOps [.start, .start, .stop] {}).jobs = []
    ∧ (runOps [.start, .start, .stop] {}).tasks.map (fun task => task.running)
        = [true, true, false, false] := by
  decide

/-- Along calls that alternate (no start follows another start without a stop
in between, as when the server starts the scheduler once and stops it on a
signal), at every point the number of active triggers equals the number of
jobs in the registry, which is at most two, and after a `stopScheduledSync` no
trigger is active and the registry is empty. -/
theorem lifecycle_invariant_of_alternating_calls (ops : List Op)
    (h : alternates false ops = true) :
    (∀ k, active (runOps (ops.take k) {}) = (runOps (ops.take k) {}).jobs.length
      ∧ (runOps (ops.take k) {}).jobs.length ≤ 2)
    ∧ (ops.getLast? = some .stop →
        active (runOps ops {}) = 0 ∧ (runOps ops {}).jobs = []) := by
  have hfresh : ({} : Lifecycle).consistent false := by
    simp [Lifecycle.consistent, active]
  constructor
  · intro k
    have hc := runOps_consistent (ops.take k) false {} (alternates_take ops false k h) hfresh
    have := Lifecycle.consistent_counts _ _ hc
    exact ⟨this.1, this.2.1⟩
  · intro hlast
    have hc := runOps_consistent ops false {} h hfresh
    rw [endsStarted_of_last_stop ops false hlast] at hc
    exact (Lifecycle.consistent_counts _ _ hc).2.2 rfl

theorem lifecycle_invariant_of_alternating_calls_witness :
    alternates false [.stop, .start, .stop, .start, .stop] = true
    ∧ (∀ k, active (runOps (([.stop, .start, .stop, .start, .stop] : List Op).take k) {})
          = (runOps (([.stop, .start, .stop, .start, .stop] : List Op).take k) {}).jobs.length
        ∧ (runOps (([.stop, .start, .stop, .start, .stop] : List Op).take k) {}).jobs.length ≤ 2)
    ∧ (([.stop, .start, .stop, .start, .stop] : List Op).getLast? = some .stop →
        active (runOps [.stop, .start, .stop, .start, .stop] {}) = 0
        ∧ (runOps [.stop, .start, .stop, .start, .stop] {}).jobs = []) :=
  ⟨by decide, lifecycle_invariant_of_alternating_calls [.stop, .start, .stop, .start, .stop]
    (by decide)⟩

end SchedulerService

/-! # Domain normalisation -/

namespace ShopifyService

/-- Lower-casing leaves a character alone unless it is an ASCII capital. -/
theorem toLower_cases (c : Char) :
    (¬ (65 ≤ c.toNat ∧ c.toNat ≤ 90) ∧ c.toLower = c)
    ∨ (65 ≤ c.toNat ∧ c.toNat ≤ 90 ∧ c.toLower = Char.ofNat (c.toNat + 32)) := by
  by_cases h : 65 ≤ c.toNat ∧ c.toNat ≤ 90
  · right
    refine ⟨h.1, h.2, ?_⟩
    simp [Char.toLower, h]
  · left
    refine ⟨h, ?_⟩
    simp only [Char.toLower]
    rw [if_neg]
    simpa using h

/-- The lower-case letters are neither slashes nor capitals nor white space. -/
theorem lowered_letter (n : Nat) (h1 : 65 ≤ n) (h2 : n ≤ 90) :
    Char.ofNat (n + 32) ≠ '/' ∧ Js.isUpperAscii (Char.ofNat (n + 32)) = false := by
  interval_cases n <;> decide

theorem toLower_ne_slash (c : Char) (h : c ≠ '/') : c.toLower ≠ '/' := by
  rcases toLower_cases c with ⟨_, hc⟩ | ⟨h1, h2, hc⟩
  · rw [hc]; exact h
  · rw [hc]; exact (lowered_letter _ h1 h2).1

theorem toLower_not_upper (c : Char) : Js.isUpperAscii c.toLower = false := by
  rcases toLower_cases c with ⟨hn, hc⟩ | ⟨h1, h2, hc⟩
  · rw [hc]
    simpa [Js.isUpperAscii] using hn
  · rw [hc]; exact (lowered_letter _ h1 h2).2

/-- An ASCII capital is not white space. -/
theorem upper_not_space (c : Char) (h1 : 65 ≤ c.toNat) (h2 : c.toNat ≤ 90) :
    Js.isSpace c = false := by
  unfold Js.isSpace
  generalize c.toNat = n at h1 h2
  interval_cases n <;> decide

/-- The characters of a scheme are not white space. -/
theorem scheme_not_space (scheme : List Char) (h : isSchemeText scheme = true) :
    ∀ c ∈ scheme, Js.isSpace c = false := by
  intro c hc
  have hlow : c.toLower ∈ ['h', 't', 'p', 's', ':', '/'] := by
    have hmem : c.toLower ∈ scheme.map Char.toLower := List.mem_map_of_mem _ hc
    simp only [isSchemeText, Bool.or_eq_true, decide_eq_true_eq] at h
    rcases h with h | h <;> rw [h] at hmem <;> revert hmem <;>
      generalize c.toLower = x <;> intro hmem <;> simp at hmem ⊢ <;> tauto
  rcases toLower_cases c with ⟨_, hc1⟩ | ⟨h1, h2, _⟩
  · rw [hc1] at hlow
    simp only [List.mem_cons, List.mem_singleton, List.not_mem_nil, or_false] at hlow
    rcases hlow with h | h | h | h | h | h <;> rw [h] <;> decide
  · exact upper_not_space c h1 h2

/-- Dropping from a text that holds a character outside `p`: what precedes it
is dropped as far as `p` holds, the rest stays. -/
theorem dropWhile_append_cons {p : Char → Bool} {c : Char} (hc : p c = false) (ys : List Char) :
    ∀ xs : List Char, (xs ++ c :: ys).dropWhile p = xs.dropWhile p ++ c :: ys := by
  intro xs
  induction xs with
  | nil => simp [List.dropWhile, hc]
  | cons x xs ih =>
    by_cases hx : p x = true
    · simp [List.dropWhile, hx, ih]
    · simp [List.dropWhile, hx]

theorem dropWhile_none {p : Char → Bool} :
    ∀ xs : List Char, (∀ c ∈ xs, p c = false) → xs.dropWhile p = [] ∨ xs.dropWhile p = xs := by
  intro xs h
  cases xs with
  | nil => left; rfl
  | cons x xs => right; simp [List.dropWhile, h x (List.mem_cons_self _ _)]

/-- Trimming a text without white space changes nothing. -/
theorem trim_keep (a : List Char) (ha : ∀ c ∈ a, Js.isSpace c = false) : Js.trim a = a := by
  unfold Js.trim Js.trimStart
  have h1 : a.dropWhile Js.isSpace = a := by
    cases a with
    | nil => rfl
    | cons x xs => simp [List.dropWhile, ha x (List.mem_cons_self _ _)]
  rw [h1]
  have h2 : a.reverse.dropWhile Js.isSpace = a.reverse := by
    cases hr : a.reverse with
    | nil => rfl
    | cons x xs =>
      have hx : x ∈ a := by
        rw [← List.mem_reverse, hr]
        exact List.mem_cons_self _ _
      simp [List.dropWhile, ha x hx]
  rw [h2, List.reverse_reverse]

/-- Trimming a text whose part before a slash has no white space keeps that
part and the slash, and a prefix of what follows. -/
theorem trim_append_slash (a q : List Char) (ha : ∀ c ∈ a, Js.isSpace c = false) :
    ∃ q1, Js.trim (a ++ '/' :: q) = a ++ '/' :: q1 ∧ q1 <+: q := by
  unfold Js.trim Js.trimStart
  have hslash : Js.isSpace '/' = false := by decide
  have h1 : (a ++ '/' :: q).dropWhile Js.isSpace = a ++ '/' :: q := by
    cases a with
    | nil => simp [List.dropWhile, hslash]
    | cons x xs => simp [List.dropWhile, ha x (List.mem_cons_self _ _)]
  rw [h1]
  have h2 : (a ++ '/' :: q).reverse = q.reverse ++ '/' :: a.reverse := by simp
  rw [h2, dropWhile_append_cons hslash]
  refine ⟨(q.reverse.dropWhile Js.isSpace).reverse, by simp, ?_⟩
  exact List.rdropWhile_prefix Js.isSpace q

/-- The model's `startsWith` is the prefix relation. -/
theorem startsWith_iff : ∀ (p l : List Char), Js.startsWith p l = true ↔ p <+: l := by
  intro p
  induction p with
  | nil => intro l; simp [Js.startsWith]
  | cons x xs ih =>
    intro l
    cases l with
    | nil => simp [Js.startsWith]
    | cons y ys =>
      simp only [Js.startsWith, Bool.and_eq_true, decide_eq_true_eq, ih, List.cons_prefix_cons]

/-- A leading scheme is removed. -/
theorem stripScheme_scheme (scheme rest : List Char) (h : isSchemeText scheme = true) :
    stripScheme (scheme ++ rest) = rest := by
  simp only [isSchemeText, Bool.or_eq_true, decide_eq_true_eq] at h
  rcases h with h | h
  · have hlen : scheme.length = 7 := by
      have := congrArg List.length h
      simpa using this
    have htake : ((scheme ++ rest).take 8).map Char.toLower
        = "http://".toList ++ (rest.take 1).map Char.toLower := by
      rw [List.take_append_eq_append_take, List.map_append,
        List.take_of_length_le (by omega), hlen, h]
    unfold stripScheme
    simp only [htake]
    rw [if_neg, if_pos]
    · rw [← hlen, List.drop_left]
    · rw [startsWith_iff]
      exact List.prefix_append _ _
    · rw [startsWith_iff]
      intro hp
      obtain ⟨t, ht⟩ := hp
      have h4 := congrArg (fun l => l[4]?) ht
      have e1 : "https://".toList = ['h', 't', 't', 'p', 's', ':', '/', '/'] := rfl
      have e2 : "http://".toList = ['h', 't', 't', 'p', ':', '/', '/'] := rfl
      rw [e1, e2] at h4
      simp at h4
  · have hlen : scheme.length = 8 := by
      have := congrArg List.length h
      simpa using this
    have htake : ((scheme ++ rest).take 8).map Char.toLower = "https://".toList := by
      rw [← hlen, List.take_left, h]
    unfold stripScheme
    simp only [htake]
    rw [if_pos]
    · rw [← hlen, List.drop_left]
    · decide

/-- A text of which no prefix is a scheme is left as it is. -/
theorem stripScheme_none (cs : List Char) (h : ∀ y, y <+: cs → isSchemeText y = false) :
    stripScheme cs = cs := by
  unfold stripScheme
  simp only
  rw [if_neg, if_neg]
  · rw [startsWith_iff]
    intro hp
    have h7 := h (cs.take 7) ( List.take_prefix _ _)
    have hlow : (cs.take 7).map Char.toLower = "http://".toList := by
      obtain ⟨t, ht⟩ := hp
      have := congrArg (List.take 7) ht
      rw [← List.map_take, List.take_take] at this
      have e : min 7 8 = 7 := rfl
      rw [e] at this
      rw [← this]
      rfl
    simp [isSchemeText, hlow] at h7
  · rw [startsWith_iff]
    intro hp
    have h8 := h (cs.take 8) ( List.take_prefix _ _)
    have hlow : (cs.take 8).map Char.toLower = "https://".toList := by
      obtain ⟨t, ht⟩ := hp
      have hl := congrArg List.length ht
      have hle : ((cs.take 8).map Char.toLower).length ≤ 8 := by simp [Nat.min_le_left]
      rw [← hl] at hle
      have ht0 : t = [] := by
        cases t with
        | nil => rfl
        | cons x xs =>
          simp only [List.length_append, List.length_cons] at hle
          have : ("https://".toList).length = 8 := by decide
          omega
      rw [ht0, List.append_nil] at ht
      exact ht.symm
    simp [isSchemeText, hlow] at h8

/-- The text before the first slash of a host followed by a path is the host. -/
theorem beforeFirst_host (p : List Char) (hp : p = [] ∨ ∃ q, p = '/' :: q) :
    ∀ host : List Char, (∀ c ∈ host, c ≠ '/') → Js.beforeFirst ['/'] (host ++ p) = host := by
  intro host
  induction host with
  | nil =>
    intro _
    rcases hp with hp | ⟨q, hp⟩ <;> subst hp
    · rfl
    · simp [Js.beforeFirst, Js.startsWith]
  | cons c cs ih =>
    intro h
    have hc : c ≠ '/' := h c (List.mem_cons_self _ _)
    have hcs := ih (fun x hx => h x (List.mem_cons_of_mem _ hx))
    simp [Js.beforeFirst, Js.startsWith, Ne.symm hc, hcs]

/-- The text before the first slash holds no slash. -/
theorem beforeFirst_no_slash : ∀ cs : List Char, ∀ c ∈ Js.beforeFirst ['/'] cs, c ≠ '/' := by
  intro cs
  induction cs with
  | nil => intro c hc; simp [Js.beforeFirst] at hc
  | cons x xs ih =>
    intro c hc
    by_cases hx : x = '/'
    · simp [Js.beforeFirst, Js.startsWith, hx] at hc
    · simp only [Js.beforeFirst, Js.startsWith, Bool.and_true, decide_eq_true_eq,
        if_neg (Ne.symm hx), List.mem_cons] at hc
      rcases hc with hc | hc
      · rw [hc]; exact hx
      · exact ih c hc

/-- A text without a slash, followed by the API path, holds no `://`. -/
theorem occurrences_domain_tail :
    ∀ d : List Char, (∀ c ∈ d, c ≠ '/') →
      Js.occurrences "://".toList (d ++ "/admin/api/2023-10".toList) = 0 := by
  intro d
  induction d with
  | nil => intro _; decide
  | cons c cs ih =>
    intro h
    have hcs := ih (fun x hx => h x (List.mem_cons_of_mem _ hx))
    have hno : Js.startsWith "://".toList (c :: cs ++ "/admin/api/2023-10".toList) = false := by
      cases cs with
      | nil =>
        by_cases hc : ':' = c
        · subst hc; decide
        · simp [Js.startsWith, hc]
      | cons x xs =>
        have hx : x ≠ '/' := h x (List.mem_cons_of_mem _ (List.mem_cons_self _ _))
        simp [Js.startsWith, Ne.symm hx]
    simp only [List.cons_append] at hno ⊢
    simp only [Js.occurrences, hno, Bool.false_eq_true, if_false, Nat.zero_add]
    exact hcs

/-- The base URL built on a domain without a slash holds `://` once. -/
theorem occurrences_baseUrl (d : List Char) (h : ∀ c ∈ d, c ≠ '/') :
    Js.occurrences "://".toList ("https://".toList ++ d ++ "/admin/api/2023-10".toList) = 1 := by
  have htail := occurrences_domain_tail d h
  have : "https://".toList ++ d ++ "/admin/api/2023-10".toList
      = 'h' :: 't' :: 't' :: 'p' :: 's' :: ':' :: '/' :: '/'
          :: (d ++ "/admin/api/2023-10".toList) := by
    simp
  rw [this]
  simp only [Js.occurrences, htail]
  simp [Js.startsWith]

end ShopifyService

namespace ShopifyService

/-- The trimmed text of a URL made of a scheme and a host without white space
and a path: the scheme, the host and a path that is a prefix of the given
one. -/
theorem trim_url (a path : List Char) (ha : ∀ c ∈ a, Js.isSpace c = false)
    (hpath : path = [] ∨ path.head? = some '/') :
    ∃ p1, Js.trim (a ++ path) = a ++ p1 ∧ (p1 = [] ∨ ∃ q, p1 = '/' :: q) ∧ p1 <+: path := by
  rcases hpath with hp | hp
  · subst hp
    exact ⟨[], by rw [List.append_nil, trim_keep a ha], Or.inl rfl, List.prefix_refl _⟩
  · cases path with
    | nil => simp at hp
    | cons x q =>
      simp only [List.head?_cons, Option.some.injEq] at hp
      subst hp
      obtain ⟨q1, h1, h2⟩ := trim_append_slash a q ha
      exact ⟨'/' :: q1, h1, Or.inr ⟨q1, rfl⟩, by simpa using h2⟩

/-- C22. The constructor normalises the domain. The method `toLowerCase` is
that of the runtime, whatever its table of letters. For every tenant URL made
of an optional scheme (`http://` or `https://` in any letter case), a host
without slash and white space, and an optional path that starts with a slash,
the computed domain is the lower-cased host and the base URL is `https://`,
the lower-cased host and `/admin/api/2023-10`. The parts are read as a URL is
read: when no scheme is written, the text does not begin with one. For every
stored URL whatsoever (also none), on a runtime whose `toLowerCase` returns no
ASCII capital and no slash that its argument does not hold, the computed
domain holds no slash and no ASCII capital, and the base URL holds `://`
exactly once. Lower-casing of ASCII text is such a method, and with it the
sample tenant, stored with `https://Demo-Store.myshopify.com/`, has the domain
`demo-store.myshopify.com`. -/
theorem constructor_normalizes_domain :
    (∀ (toLowerCase : String → String) (tenant : Tenant) (scheme host path : String),
        tenant.shopifyUrl = some (scheme ++ host ++ path) →
        (scheme = "" ∨ isSchemeText scheme.toList = true) →
        (∀ c ∈ host.toList, c ≠ '/' ∧ Js.isSpace c = false) →
        (path = "" ∨ path.toList.head? = some '/') →
        (scheme = "" → ∀ y, y <+: (host ++ path).toList → isSchemeText y = false) →
        (new toLowerCase tenant).domain = toLowerCase host
        ∧ (new toLowerCase tenant).baseUrl
            = "https://" ++ toLowerCase host ++ "/admin/api/2023-10")
    ∧ (∀ (toLowerCase : String → String) (tenant : Tenant),
        (∀ s c, c ∈ (toLowerCase s).toList → Js.isUpperAscii c = false) →
        (∀ s, '/' ∈ (toLowerCase s).toList → '/' ∈ s.toList) →
        (∀ c ∈ (new toLowerCase tenant).domain.toList, c ≠ '/' ∧ Js.isUpperAscii c = false)
        ∧ Js.occurrences "://".toList (new toLowerCase tenant).baseUrl.toList = 1)
    ∧ (∀ s c, c ∈ (Sample.toLowerCase s).toList → Js.isUpperAscii c = false)
    ∧ (∀ s, '/' ∈ (Sample.toLowerCase s).toList → '/' ∈ s.toList)
    ∧ Sample.tenant.shopifyUrl = some ("https://" ++ "Demo-Store.myshopify.com" ++ "/")
    ∧ (new Sample.toLowerCase Sample.tenant).domain = "demo-store.myshopify.com"
    ∧ (new Sample.toLowerCase Sample.tenant).baseUrl
        = "https://demo-store.myshopify.com/admin/api/2023-10" := by
  refine ⟨?_, ?_, ?_, ?_, rfl, by decide, by decide⟩
  · intro toLowerCase tenant scheme host path hurl hscheme hhost hpath hread
    have hdomain : (new toLowerCase tenant).domain = toLowerCase host := by
      have hnew : (new toLowerCase tenant).domain
          = normalizeDomain toLowerCase tenant.shopifyUrl := rfl
      rw [hnew, hurl]
      unfold normalizeDomain
      simp only [Option.getD_some, String.toList, String.data_append]
      have hs : ∀ c ∈ scheme.data, Js.isSpace c = false := by
        rcases hscheme with h | h
        · subst h; intro c hc; simp at hc
        · exact scheme_not_space _ h
      have ha : ∀ c ∈ scheme.data ++ host.data, Js.isSpace c = false := by
        intro c hc
        rcases List.mem_append.mp hc with h | h
        · exact hs c h
        · exact (hhost c h).2
      have hp : path.data = [] ∨ path.data.head? = some '/' := by
        rcases hpath with h | h
        · left; subst h; rfl
        · right; exact h
      obtain ⟨p1, htrim, hshape, hpre⟩ := trim_url _ path.data ha hp
      rw [htrim]
      have hstrip : stripScheme (scheme.data ++ host.data ++ p1) = host.data ++ p1 := by
        rcases hscheme with h | h
        · subst h
          change stripScheme ([] ++ host.data ++ p1) = host.data ++ p1
          rw [List.nil_append]
          refine stripScheme_none _ ?_
          intro y hy
          refine hread rfl y ?_
          simp only [String.toList, String.data_append]
          exact hy.trans (Iff.mpr ( List.prefix_append_right_inj _) hpre)
        · rw [List.append_assoc]
          exact stripScheme_scheme _ _ h
      rw [hstrip, beforeFirst_host p1 hshape host.data (fun c hc => (hhost c hc).1)]
    exact ⟨hdomain, by
      have hbase : (new toLowerCase tenant).baseUrl
          = "https://" ++ (new toLowerCase tenant).domain ++ "/admin/api/2023-10" := rfl
      rw [hbase, hdomain]⟩
  · intro toLowerCase tenant hupper hslash
    have hnew : (new toLowerCase tenant).domain
        = normalizeDomain toLowerCase tenant.shopifyUrl := rfl
    have hdom : ∀ c ∈ (new toLowerCase tenant).domain.toList,
        c ≠ '/' ∧ Js.isUpperAscii c = false := by
      intro c hc
      refine ⟨?_, hupper _ c (by rw [hnew] at hc; exact hc)⟩
      intro hcs
      subst hcs
      rw [hnew] at hc
      have hin := hslash _ hc
      exact beforeFirst_no_slash _ '/' hin rfl
    refine ⟨hdom, ?_⟩
    have hbase : (new toLowerCase tenant).baseUrl.toList
        = "https://".toList ++ (new toLowerCase tenant).domain.toList
          ++ "/admin/api/2023-10".toList := by
      have : (new toLowerCase tenant).baseUrl
          = "https://" ++ (new toLowerCase tenant).domain ++ "/admin/api/2023-10" := rfl
      rw [this]
      simp only [String.toList, String.data_append]
    rw [hbase]
    exact occurrences_baseUrl _ (fun c hc => (hdom c hc).1)
  · intro s c hc
    simp only [Sample.toLowerCase, String.toList, List.mem_map] at hc
    obtain ⟨y, _, rfl⟩ := hc
    exact toLower_not_upper y
  · intro s hs
    simp only [Sample.toLowerCase, String.toList, List.mem_map] at hs
    obtain ⟨y, hy, hy2⟩ := hs
    by_cases hys : y = '/'
    · rw [← hys]; exact hy
    · exact absurd hy2 (toLower_ne_slash y hys)

end ShopifyService

/-! # Decimal texts -/

namespace ShopifyService

/-- A decimal digit is one of the ten digit characters. -/
theorem digit_cases (c : Char) (h : Js.isDecDigit c = true) :
    c ∈ ['0', '1', '2', '3', '4', '5', '6', '7', '8', '9'] := by
  have hc : c = Char.ofNat c.toNat := (Char.ofNat_toNat c).symm
  simp only [Js.isDecDigit, decide_eq_true_eq] at h
  rw [hc]
  generalize c.toNat = n at h
  obtain ⟨h1, h2⟩ := h
  interval_cases n <;> decide

/-- What the parsers need of a digit: its value, and that it is none of the
characters they look for. -/
theorem digit_facts (c : Char) (h : Js.isDecDigit c = true) :
    Js.digitOf 10 c = some (c.toNat - 48) ∧ Js.isSpace c = false ∧ c ≠ '-' ∧ c ≠ '+'
      ∧ c ≠ 'I' ∧ c ≠ 'x' ∧ c ≠ 'X' := by
  have hc := digit_cases c h
  simp only [List.mem_cons, List.mem_singleton, List.not_mem_nil, or_false] at hc
  rcases hc with h | h | h | h | h | h | h | h | h | h <;> subst h <;> decide

/-- Reading digits consumes a run of digits and accumulates its value. -/
theorem readDigits_digits :
    ∀ (ds rest : List Char) (acc cnt : Nat), (∀ c ∈ ds, Js.isDecDigit c = true) →
      Js.readDigits 10 (ds ++ rest) acc cnt
        = Js.readDigits 10 rest (ds.foldl (fun a c => a * 10 + (c.toNat - 48)) acc)
            (cnt + ds.length) := by
  intro ds
  induction ds with
  | nil => intro rest acc cnt _; rfl
  | cons d ds ih =>
    intro rest acc cnt h
    have hd := (digit_facts d (h d (List.mem_cons_self _ _))).1
    simp only [List.cons_append, Js.readDigits, hd, List.foldl_cons, List.length_cons]
    change Js.readDigits 10 (ds ++ rest) _ _ = _
    rw [ih rest _ _ (fun c hc => h c (List.mem_cons_of_mem _ hc))]
    congr 1
    omega

theorem readSign_digit (c : Char) (t : List Char) (h : Js.isDecDigit c = true) :
    Js.readSign (c :: t) = (false, c :: t) := by
  obtain ⟨_, _, h1, h2, _⟩ := digit_facts c h
  unfold Js.readSign
  split
  · rename_i heq; cases heq; exact absurd rfl h1
  · rename_i heq; cases heq; exact absurd rfl h2
  · rfl

/-- The value `parseFloat` reads from a plain decimal text: the Number value
for the decimal. -/
theorem parseFloat_decimal (whole frac : List Char) (hwhole : whole ≠ [])
    (hdigits : ∀ c ∈ whole ++ frac, Js.isDecDigit c = true) :
    Js.parseFloat (.str (String.mk (if frac = [] then whole else whole ++ '.' :: frac)))
      = .ok (Js.decimalValue whole frac) := by
  obtain ⟨w, ws, rfl⟩ := List.exists_cons_of_ne_nil hwhole
  have hw : Js.isDecDigit w = true := hdigits w (by simp)
  have hws : ∀ c ∈ w :: ws, Js.isDecDigit c = true :=
    fun c hc => hdigits c (List.mem_append_left _ hc)
  have hfr : ∀ c ∈ frac, Js.isDecDigit c = true :=
    fun c hc => hdigits c (List.mem_append_right _ hc)
  obtain ⟨_, hspace, _, _, hI, _⟩ := digit_facts w hw
  have hinf : ∀ t, Js.startsWith "Infinity".toList (w :: t) = false := by
    intro t
    have e : "Infinity".toList = 'I' :: "nfinity".toList := rfl
    rw [e]
    simp [Js.startsWith, Ne.symm hI]
  have hnil : ∀ acc cnt, Js.readDigits 10 [] acc cnt = (acc, cnt, []) := fun _ _ => rfl
  by_cases hf : frac = []
  · subst hf
    simp only [if_true, Js.parseFloat, Js.toStr, Js.trimStart, List.dropWhile, hspace,
      Js.readDecimalLiteral, readSign_digit w ws hw, hinf]
    have hread := readDigits_digits (w :: ws) [] 0 0 hws
    rw [List.append_nil] at hread
    rw [hread]
    simp [hnil, Js.readExponent, Js.scaleBy, Js.decimalValue, Js.digitsValue]
  · rw [if_neg hf]
    simp only [Js.parseFloat, Js.toStr, Js.trimStart, List.cons_append, List.dropWhile, hspace,
      Js.readDecimalLiteral, readSign_digit w _ hw, hinf]
    have hread := readDigits_digits (w :: ws) ('.' :: frac) 0 0 hws
    rw [List.cons_append] at hread
    rw [hread]
    have hpoint : ∀ acc cnt, Js.readDigits 10 ('.' :: frac) acc cnt = (acc, cnt, '.' :: frac) := by
      intro acc cnt
      have hp : Js.digitOf 10 '.' = none := by decide
      simp [Js.readDigits, hp]
    have hread2 := fun acc => readDigits_digits frac [] acc 0 hfr
    simp only [List.append_nil] at hread2
    simp only [hpoint, hread2, hnil, Js.readExponent, Js.scaleBy, Js.decimalValue,
      Js.digitsValue, List.foldl_append, List.foldl_cons, List.length_cons, Nat.zero_add]
    simp

end ShopifyService

namespace ShopifyService

theorem digitChar_digit (k : Nat) (h : k < 10) :
    Js.isDecDigit (Nat.digitChar k) = true ∧ (Nat.digitChar k).toNat - 48 = k := by
  interval_cases k <;> decide

/-- The digits `Nat.toDigits` produces are decimal digits that spell the
number. -/
theorem toDigitsCore_spec :
    ∀ (fuel n : Nat) (ds : List Char), n < fuel →
      ∃ pre, Nat.toDigitsCore 10 fuel n ds = pre ++ ds ∧ pre ≠ []
        ∧ (∀ c ∈ pre, Js.isDecDigit c = true) ∧ Js.digitsValue pre = n := by
  intro fuel
  induction fuel with
  | zero => intro n ds h; omega
  | succ fuel ih =>
    intro n ds h
    have hd := digitChar_digit (n % 10) (Nat.mod_lt _ (by decide))
    unfold Nat.toDigitsCore
    simp only
    by_cases h0 : n / 10 = 0
    · rw [if_pos h0]
      refine ⟨[Nat.digitChar (n % 10)], rfl, by simp, ?_, ?_⟩
      · intro c hc
        rw [List.mem_singleton] at hc
        rw [hc]
        exact hd.1
      · simp only [Js.digitsValue, List.foldl_cons, List.foldl_nil, hd.2]
        omega
    · rw [if_neg h0]
      obtain ⟨pre, h1, _, h3, h4⟩ := ih (n / 10) (Nat.digitChar (n % 10) :: ds) (by omega)
      refine ⟨pre ++ [Nat.digitChar (n % 10)], by rw [h1]; simp, by simp, ?_, ?_⟩
      · intro c hc
        rcases List.mem_append.mp hc with hc | hc
        · exact h3 c hc
        · rw [List.mem_singleton] at hc
          rw [hc]
          exact hd.1
      · unfold Js.digitsValue at h4 ⊢
        rw [List.foldl_append, h4]
        simp only [List.foldl_cons, List.foldl_nil, hd.2]
        omega

/-- The text of a natural number: decimal digits that spell it. -/
theorem toString_digits (n : Nat) :
    ∃ ds, (toString n).toList = ds ∧ ds ≠ [] ∧ (∀ c ∈ ds, Js.isDecDigit c = true)
      ∧ Js.digitsValue ds = n := by
  obtain ⟨pre, h1, h2, h3, h4⟩ := toDigitsCore_spec (n + 1) n [] (by omega)
  refine ⟨pre, ?_, h2, h3, h4⟩
  rw [List.append_nil] at h1
  show (Nat.repr n).toList = pre
  unfold Nat.repr Nat.toDigits
  rw [h1]
  rfl

/-- A text of digits does not start with the hexadecimal mark. -/
theorem not_hex (ds : List Char) (h : ∀ c ∈ ds, Js.isDecDigit c = true) :
    Js.startsWith "0x".toList ds = false ∧ Js.startsWith "0X".toList ds = false := by
  have e1 : "0x".toList = ['0', 'x'] := rfl
  have e2 : "0X".toList = ['0', 'X'] := rfl
  rw [e1, e2]
  cases ds with
  | nil => exact ⟨rfl, rfl⟩
  | cons a t =>
    cases t with
    | nil => simp [Js.startsWith]
    | cons b t =>
      obtain ⟨_, _, _, _, _, hx, hX⟩ :=
        digit_facts b (h b (List.mem_cons_of_mem _ (List.mem_cons_self _ _)))
      simp [Js.startsWith, Ne.symm hx, Ne.symm hX]

/-- The text of a whole number below `2 ^ 53`: its decimal digits. -/
theorem toStr_count (n : Nat) (hn : n < 2 ^ 53) :
    Js.toStr (.num (Js.Num.ofNat n)) = .ok (toString n) := by
  by_cases h0 : n = 0
  · subst h0; rfl
  · have h1 : (Int.ofNat n) ≠ 0 := by simpa using h0
    have h2 : (Int.ofNat n).natAbs < 2 ^ 53 := by simpa using hn
    simp only [Js.toStr, Js.Num.ofNat, Js.Num.toStr, h1, if_false, h2, and_self, if_true]
    rfl

/-- A whole number below `2 ^ 53` is a double. -/
theorem ofRatio_count (n : Nat) (hn : n < 2 ^ 53) :
    Js.Num.ofRatio false n 1 = Js.Num.ofNat n := by
  by_cases h0 : n = 0
  · subst h0; rfl
  · unfold Js.Num.ofRatio
    rw [if_neg h0, if_pos ⟨Nat.mod_one n, by rw [Nat.div_one]; exact hn⟩]
    simp [Nat.div_one, Js.Num.ofNat]

/-- The value `parseInt` reads from a whole number below `2 ^ 53`. -/
theorem parseInt_count (n : Nat) (hn : n < 2 ^ 53) :
    Js.parseInt (.num (Js.Num.ofNat n)) = .ok (Js.Num.ofNat n) := by
  obtain ⟨ds, h1, h2, h3, h4⟩ := toString_digits n
  obtain ⟨d, t, rfl⟩ := List.exists_cons_of_ne_nil h2
  have hd : Js.isDecDigit d = true := h3 d (List.mem_cons_self _ _)
  have hread := readDigits_digits (d :: t) [] 0 0 h3
  rw [List.append_nil] at hread
  obtain ⟨hx1, hx2⟩ := not_hex (d :: t) h3
  unfold Js.parseInt
  rw [toStr_count n hn]
  simp only [h1, Js.trimStart, List.dropWhile, (digit_facts d hd).2.1, readSign_digit d t hd,
    hx1, hx2, Bool.or_self, Bool.false_eq_true, if_false, hread]
  have hnil : ∀ acc cnt, Js.readDigits 10 [] acc cnt = (acc, cnt, []) := fun _ _ => rfl
  unfold Js.digitsValue at h4
  simp [hnil, h4, ofRatio_count n hn]

end ShopifyService

/-! # The mapping of a valid customer -/

namespace ShopifyService

theorem or_text {text : Option String} {v : Val} (h : textField text v) :
    Js.or v .null = storedText text := by
  cases text with
  | some s =>
    obtain ⟨hs, hv⟩ := h
    subst hv
    simp [Js.or, Js.truthy, hs, storedText]
  | none =>
    rcases h with h | h | h <;> subst h <;> rfl

theorem or_count {count : Option Nat} {v : Val}
    (h : match count with
      | some n => n < 2 ^ 53 ∧ v = .num (Js.Num.ofNat n)
      | none => v = .undefined ∨ v = .null) :
    Js.parseInt (Js.or v zero) = .ok (Js.Num.ofNat (count.getD 0)) := by
  cases count with
  | some n =>
    simp only at h
    obtain ⟨hn, h⟩ := h
    subst h
    have hor : Js.or (.num (Js.Num.ofNat n)) zero = .num (Js.Num.ofNat n) := by
      by_cases hn : n = 0
      · subst hn; rfl
      · simp [Js.or, Js.truthy, Js.Num.isFalsy, Js.Num.ofNat, hn]
    rw [hor]
    exact parseInt_count n hn
  | none =>
    simp only at h
    rcases h with h | h <;> subst h <;> rfl

/-- The mapped fields of a valid customer record are the expected ones. -/
theorem customerFields_valid (c : ValidCustomer) (r : Val) (h : c.describes r) :
    customerFields r = .ok c.expected := by
  obtain ⟨_, ⟨v1, g1, t1⟩, ⟨v2, g2, t2⟩, ⟨v3, g3, t3⟩, ⟨v4, g4, t4⟩, hwhole, hdigits, g5,
    ⟨v6, g6, t6⟩⟩ := h
  have hne : c.spentText ≠ "" := by
    intro he
    have hd := congrArg String.data he
    simp only [ValidCustomer.spentText] at hd
    split at hd
    · exact hwhole hd
    · simp at hd
  have hspent : Js.parseFloat (Js.or (.str c.spentText) zero)
      = .ok (Js.decimalValue c.spentWhole c.spentFrac) := by
    have hor : Js.or (.str c.spentText) zero = .str c.spentText := by
      simp [Js.or, Js.truthy, hne]
    rw [hor]
    exact parseFloat_decimal c.spentWhole c.spentFrac hwhole hdigits
  unfold customerFields
  simp only [bind, Except.bind, pure, Except.pure, g1, g2, g3, g4, g5, g6, hspent, or_count t6,
    or_text t1, or_text t2, or_text t3, or_text t4]
  rfl

/-- The write a valid customer record amounts to. -/
theorem customerWrite_valid (schema : Schema) (tid : String) (c : ValidCustomer) (r : Val)
    (h : c.describes r) (haccept : schema.acceptsCustomer tid c.id c.expected = true) :
    customerWrite schema tid r = some ((tid, c.id), c.expected) := by
  unfold customerWrite
  rw [h.1, customerFields_valid c r h]
  simp only [haccept, if_true]

section KeyedCount

variable {ρ κ δ : Type} [DecidableEq κ] (key : ρ → κ) (upd : ρ → δ → ρ)
  (mk : Nat → κ → δ → ρ)

/-- An upsert under another key leaves the rows under `k` as they are. -/
theorem filter_tableUpsert_other (laws : TableLaws key upd mk) (op : κ × δ) (rows : List ρ)
    (n : Nat) (k : κ) (hk : op.1 ≠ k) :
    (tableUpsert key upd mk op (rows, n)).1.filter (fun r => decide (key r = k))
      = rows.filter (fun r => decide (key r = k)) := by
  rw [tableUpsert_eq]
  split
  · simp only
    apply filter_mapFirst
    intro x hx
    simp only [decide_eq_true_eq] at hx
    simp only [decide_eq_false_iff_not, laws.key_upd, hx]
    exact ⟨hk, hk⟩
  · simp only [List.filter_append, List.filter_cons, List.filter_nil, laws.key_mk,
      decide_eq_true_eq, if_neg hk, List.append_nil]

/-- An upsert under `k` on a table with at most one row under `k` leaves
exactly one, carrying the data written. -/
theorem filter_tableUpsert_same (laws : TableLaws key upd mk) (k : κ) (d : δ) (rows : List ρ)
    (n : Nat) (hle : (rows.filter (fun r => decide (key r = k))).length ≤ 1) :
    ∃ row, (tableUpsert key upd mk (k, d) (rows, n)).1.filter (fun r => decide (key r = k))
        = [row]
      ∧ ((∃ old, row = upd old d) ∨ row = mk n k d) := by
  rw [tableUpsert_eq]
  induction rows with
  | nil =>
    refine ⟨mk n k d, ?_, Or.inr rfl⟩
    simp [laws.key_mk]
  | cons x xs ih =>
    by_cases hx : key x = k
    · refine ⟨upd x d, ?_, Or.inl ⟨x, rfl⟩⟩
      have hxs : xs.filter (fun r => decide (key r = k)) = [] := by
        rw [List.filter_cons_of_pos (by simp [hx])] at hle
        simp only [List.length_cons] at hle
        exact List.length_eq_zero.mp (by omega)
      simp [mapFirst, hx, laws.key_upd, hxs]
    · have hle1 : (xs.filter (fun r => decide (key r = k))).length ≤ 1 := by
        rw [List.filter_cons_of_neg (by simp [hx])] at hle
        exact hle
      obtain ⟨row, h1, h2⟩ := ih hle1
      refine ⟨row, ?_, ?_⟩
      · by_cases hf : (xs.find? (fun r => decide (key r = k))).isSome = true
        · simp only [hf, if_true] at h1
          simp [mapFirst, hx, hf, h1]
        · simp only [hf, Bool.false_eq_true, if_false] at h1
          simp only [Bool.not_eq_true] at hf
          simp [hx, hf, h1]
      · by_cases hf : (xs.find? (fun r => decide (key r = k))).isSome = true
        · simp only [hf, if_true] at h1
          rcases h2 with h2 | h2
          · exact Or.inl h2
          · exact Or.inr h2
        · exact h2

end KeyedCount

end ShopifyService

namespace ShopifyService

/-- The rows under a key after one iteration of the customer loop: untouched
when the record fails or is written under another key. -/
theorem syncCustomerRecord_filter_other (schema : Schema) (tid : String) (st : Store) (r : Val)
    (k : String × String) (hk : ∀ d, customerWrite schema tid r ≠ some (k, d)) :
    (syncCustomerRecord schema tid st r).store.customers.filter
        (fun x => decide (customerKey x = k))
      = st.customers.filter (fun x => decide (customerKey x = k)) := by
  cases hw : customerWrite schema tid r with
  | none =>
    obtain ⟨e, h⟩ := customerWrite_none hw st
    rw [h]
  | some op =>
    rw [syncCustomerRecord_write hw st]
    simp only
    refine filter_tableUpsert_other customerKey customerUpd customerMk customerLaws op _ _ k ?_
    intro hop
    refine hk op.2 ?_
    rw [hw, ← hop]

/-- One iteration of the customer loop keeps at most one row under a key. -/
theorem syncCustomerRecord_filter_le (schema : Schema) (tid : String) (st : Store) (r : Val)
    (k : String × String)
    (hle : (st.customers.filter (fun x => decide (customerKey x = k))).length ≤ 1) :
    ((syncCustomerRecord schema tid st r).store.customers.filter
        (fun x => decide (customerKey x = k))).length ≤ 1 := by
  by_cases hk : ∃ d, customerWrite schema tid r = some (k, d)
  · obtain ⟨d, hw⟩ := hk
    rw [syncCustomerRecord_write hw st]
    simp only
    obtain ⟨row, hrow, _⟩ := filter_tableUpsert_same customerKey customerUpd customerMk
      customerLaws k d st.customers st.nextId hle
    rw [hrow]
    simp
  · rw [syncCustomerRecord_filter_other schema tid st r k (fun d hd => hk ⟨d, hd⟩)]
    exact hle

theorem customerLoop_filter_le (schema : Schema) (tid : String) (k : String × String) :
    ∀ (records : List Val) (st : Store),
      (st.customers.filter (fun x => decide (customerKey x = k))).length ≤ 1 →
      ((loopStore (syncCustomerRecord schema tid) records st).customers.filter
        (fun x => decide (customerKey x = k))).length ≤ 1 := by
  intro records
  induction records with
  | nil => intro st h; exact h
  | cons r rest ih =>
    intro st h
    exact ih _ (syncCustomerRecord_filter_le schema tid st r k h)

theorem customerLoop_filter_other (schema : Schema) (tid : String) (k : String × String) :
    ∀ (records : List Val) (st : Store),
      (∀ r ∈ records, ∀ d, customerWrite schema tid r ≠ some (k, d)) →
      (loopStore (syncCustomerRecord schema tid) records st).customers.filter
          (fun x => decide (customerKey x = k))
        = st.customers.filter (fun x => decide (customerKey x = k)) := by
  intro records
  induction records with
  | nil => intro st _; rfl
  | cons r rest ih =>
    intro st h
    have h1 := ih (syncCustomerRecord schema tid st r).store
      (fun x hx => h x (List.mem_cons_of_mem _ hx))
    have h2 := syncCustomerRecord_filter_other schema tid st r k (h r (List.mem_cons_self _ _))
    exact h1.trans h2

/-- A record with another external id is not written under the key. -/
theorem customerWrite_other_id (schema : Schema) (tid sid : String) (r : Val)
    (h : externalId r ≠ some sid) : ∀ d, customerWrite schema tid r ≠ some ((tid, sid), d) := by
  intro d hw
  obtain ⟨idv, h1, h2, _, _, _⟩ := customerWrite_some hw
  exact h (externalId_of_id h1 h2)

/-- C23, as stated, fails in three ways. A valid record that is followed in
the fetched list by another record with its id does not determine the row:
after `customerA` and `customerA2` the row of customer 1 carries the address
and the amount of `customerA2`. The amount is stored as a double: for the
`total_spent` text `9007199254740993` the row holds 9007199254740992. The count
is read with `parseInt` from the text of `orders_count`: for the number `1e21`,
whose text is `1e+21`, the row holds 1. -/
theorem syncCustomers_row_is_later_record_and_rounded :
    Sample.validCustomer.describes Sample.customerA
    ∧ externalId Sample.customerA2 = some "1"
    ∧ (∃ run, syncCustomers Sample.service
          (Sample.onePage "customers" [Sample.customerA, Sample.customerA2])
          Sample.schema Sample.clock {} = some run
        ∧ run.result = .ok { recordsProcessed := 2, recordsFailed := 0 }
        ∧ run.store.customers.map (fun row => (row.shopifyId, row.data.email,
            row.data.totalSpent))
            = [("1", Val.str "a2@x.com", Js.Num.dec 125 1)])
    ∧ (∃ run, syncCustomers Sample.service (Sample.onePage "customers" [Sample.customerBig])
          Sample.schema Sample.clock {} = some run
        ∧ run.result = .ok { recordsProcessed := 1, recordsFailed := 0 }
        ∧ run.store.customers.map (fun row => (row.shopifyId, row.data.totalSpent))
            = [("4", Js.Num.ofNat 9007199254740992)])
    ∧ Js.toStr (.num (Js.Num.ofNat (10 ^ 21))) = .ok "1e+21"
    ∧ ∃ run, syncCustomers Sample.service (Sample.onePage "customers" [Sample.customerMany])
          Sample.schema Sample.clock {} = some run
        ∧ run.result = .ok { recordsProcessed := 1, recordsFailed := 0 }
        ∧ run.store.customers.map (fun row => (row.shopifyId, row.data.ordersCount))
            = [("5", Js.Num.ofNat 1)] := by
  have hd : Sample.validCustomer.describes Sample.customerA :=
    ⟨rfl, ⟨_, rfl, by decide, rfl⟩, ⟨_, rfl, Or.inl rfl⟩, ⟨_, rfl, Or.inl rfl⟩,
      ⟨_, rfl, Or.inl rfl⟩, by decide, by decide, rfl, ⟨_, rfl, Or.inl rfl⟩⟩
  exact ⟨hd, rfl, ⟨_, rfl, rfl, rfl⟩, ⟨_, rfl, rfl, rfl⟩, rfl, ⟨_, rfl, rfl, rfl⟩⟩

/-- C23, amended. Customer mapping. Let the fetch of `syncCustomers` return a
list that holds the valid customer record `r` (its texts, its decimal
`total_spent` and its count `orders_count`, a whole number below `2 ^ 53`, as
the valid customer `c` describes them, the mapped fields accepted by the
database), let no Customer row be stored for the tenant and the id of `r`, and
let `r` be the last fetched record with its id. Then `syncCustomers` returns,
and afterwards exactly one Customer row is stored under
`(tenantId, String(r.id))`; its email, first name, last name and phone are the
record's texts (`null` when absent or empty), its `totalSpent` is the Number
value for the decimal `total_spent` (the double nearest to it) and its
`ordersCount` is `orders_count` (0 when absent). -/
theorem syncCustomers_maps_valid_record (svc : ShopifyService) (api : Api) (schema : Schema)
    (clock : Nat → Nat) (st : Store) (fetched : FetchRun) (before after : List Val) (r : Val)
    (c : ValidCustomer)
    (hfetch : fetchCustomers svc api = some fetched)
    (hrecords : fetched.result = .ok (before ++ r :: after))
    (hvalid : c.describes r)
    (haccept : schema.acceptsCustomer svc.tenant.id c.id c.expected = true)
    (hnew : ∀ row ∈ st.customers, customerKey row ≠ (svc.tenant.id, c.id))
    (hlast : ∀ x ∈ after, externalId x ≠ some c.id) :
    ∃ run row, syncCustomers svc api schema clock st = some run
      ∧ run.store.customers.filter
          (fun x => decide (customerKey x = (svc.tenant.id, c.id))) = [row]
      ∧ row.tenantId = svc.tenant.id ∧ row.shopifyId = c.id
      ∧ row.data.email = storedText c.email
      ∧ row.data.firstName = storedText c.firstName
      ∧ row.data.lastName = storedText c.lastName
      ∧ row.data.phone = storedText c.phone
      ∧ row.data.totalSpent = Js.decimalValue c.spentWhole c.spentFrac
      ∧ row.data.ordersCount = Js.Num.ofNat (c.ordersCount.getD 0) := by
  obtain ⟨d, hsync⟩ := Entity.sync_of_fetched_store .customers svc api schema clock st fetched
    (before ++ r :: after) hfetch hrecords
  have hsync1 : syncCustomers svc api schema clock st = _ := hsync
  have hw := customerWrite_valid schema svc.tenant.id c r hvalid haccept
  have h0 : (st.customers.filter
      (fun x => decide (customerKey x = (svc.tenant.id, c.id)))).length ≤ 1 := by
    have : st.customers.filter (fun x => decide (customerKey x = (svc.tenant.id, c.id))) = [] := by
      rw [List.filter_eq_nil_iff]
      intro row hrow
      simpa using hnew row hrow
    rw [this]
    exact Nat.zero_le _
  have h1 := customerLoop_filter_le schema svc.tenant.id (svc.tenant.id, c.id) before st h0
  obtain ⟨row, hrow, hdata⟩ := filter_tableUpsert_same customerKey customerUpd customerMk
    customerLaws (svc.tenant.id, c.id) c.expected
    (loopStore (syncCustomerRecord schema svc.tenant.id) before st).customers
    (loopStore (syncCustomerRecord schema svc.tenant.id) before st).nextId h1
  have hfinal : (loopStore (syncCustomerRecord schema svc.tenant.id) (before ++ r :: after)
      st).customers.filter (fun x => decide (customerKey x = (svc.tenant.id, c.id))) = [row] := by
    rw [loopStore_append]
    change (loopStore (syncCustomerRecord schema svc.tenant.id) after
      (syncCustomerRecord schema svc.tenant.id
        (loopStore (syncCustomerRecord schema svc.tenant.id) before st) r).store).customers.filter
        _ = _
    rw [customerLoop_filter_other schema svc.tenant.id (svc.tenant.id, c.id) after _
      (fun x hx => customerWrite_other_id schema svc.tenant.id c.id x (hlast x hx)),
      syncCustomerRecord_write hw]
    exact hrow
  have hkey : customerKey row = (svc.tenant.id, c.id) := by
    have hmem : row ∈ [row] := List.mem_singleton.mpr rfl
    rw [← hfinal, List.mem_filter] at hmem
    simpa using hmem.2
  have hd : row.data = c.expected := by
    rcases hdata with ⟨old, h⟩ | h <;> rw [h] <;> rfl
  refine ⟨_, row, hsync1, hfinal, congrArg Prod.fst hkey, congrArg Prod.snd hkey, ?_, ?_, ?_, ?_,
    ?_, ?_⟩ <;> rw [hd] <;> rfl

theorem syncCustomers_maps_valid_record_witness :
    Sample.validCustomer.describes Sample.customerText
    ∧ (∃ run row, syncCustomers Sample.service (Sample.onePage "customers" [Sample.customerText])
          Sample.schema Sample.clock {} = some run
        ∧ run.store.customers.filter
            (fun x => decide (customerKey x = (Sample.service.tenant.id, Sample.validCustomer.id)))
            = [row]
        ∧ row.tenantId = Sample.service.tenant.id ∧ row.shopifyId = Sample.validCustomer.id
        ∧ row.data.email = storedText Sample.validCustomer.email
        ∧ row.data.firstName = storedText Sample.validCustomer.firstName
        ∧ row.data.lastName = storedText Sample.validCustomer.lastName
        ∧ row.data.phone = storedText Sample.validCustomer.phone
        ∧ row.data.totalSpent
            = Js.decimalValue Sample.validCustomer.spentWhole Sample.validCustomer.spentFrac
        ∧ row.data.ordersCount = Js.Num.ofNat (Sample.validCustomer.ordersCount.getD 0))
    ∧ Js.decimalValue "10".toList "00".toList = Js.Num.ofNat 10
    ∧ Js.decimalValue "19".toList "99".toList
        = Js.Num.dec 19989999999999998436805981327779591083526611328125 48
    ∧ ∃ run, syncCustomers Sample.service (Sample.onePage "customers" [Sample.customerText])
          Sample.schema Sample.clock {} = some run
        ∧ run.result = .ok { recordsProcessed := 1, recordsFailed := 0 }
        ∧ run.store.customers.map (fun row => (row.tenantId, row.shopifyId, row.data.email,
            row.data.totalSpent, row.data.ordersCount))
            = [("tenant-1", "1", Val.str "a@x.com", Js.Num.ofNat 10, Js.Num.ofNat 0)]
        ∧ run.store.syncLogs.map (fun row => (row.data.entityType, row.data.status,
            row.data.recordsProcessed, row.data.recordsFailed))
            = [("customers", "success", 1, 0)] := by
  have hd : Sample.validCustomer.describes Sample.customerText :=
    ⟨rfl, ⟨_, rfl, by decide, rfl⟩, ⟨_, rfl, Or.inl rfl⟩, ⟨_, rfl, Or.inl rfl⟩,
      ⟨_, rfl, Or.inl rfl⟩, by decide, by decide, rfl, ⟨_, rfl, Or.inl rfl⟩⟩
  exact ⟨hd,
    syncCustomers_maps_valid_record Sample.service
      (Sample.onePage "customers" [Sample.customerText]) Sample.schema Sample.clock {}
      _ [] [] Sample.customerText Sample.validCustomer rfl rfl hd (by decide)
      (fun _ h => nomatch h) (fun _ h => nomatch h),
    by decide, by decide, _, rfl, rfl, rfl, rfl⟩

end ShopifyService

/-! # The line items of a synced order -/

namespace ShopifyService

/-- The `data` object of a line item, field by field: the order id, the
quantity read with `parseInt` and the price read with `parseFloat` from the
item's values (0 for a falsy one), the title (the empty text for a falsy one)
and the text of the variant id (`null` for a falsy one). -/
theorem lineItemFields_spec {oid : Nat} {item : Val} {d : LineItemData}
    (h : lineItemFields oid item = .ok d) :
    d.orderId = oid
    ∧ ∃ quantity price title variant,
        Js.getProp item "quantity" = .ok quantity
        ∧ Js.getProp item "price" = .ok price
        ∧ Js.getProp item "title" = .ok title
        ∧ Js.getProp item "variant_id" = .ok variant
        ∧ Js.parseInt (Js.or quantity zero) = .ok d.quantity
        ∧ Js.parseFloat (Js.or price zero) = .ok d.price
        ∧ d.title = Js.or title (.str "")
        ∧ (Js.truthy variant = true →
            ∃ text, Js.callToString variant = .ok text ∧ d.variantId = some text)
        ∧ (Js.truthy variant = false → d.variantId = none) := by
  unfold lineItemFields at h
  simp only [bind, Except.bind, pure, Except.pure] at h
  rcases hq : Js.getProp item "quantity" with e | quantity
  · simp [hq] at h
  rcases hqi : Js.parseInt (Js.or quantity zero) with e | qn
  · simp [hq, hqi] at h
  rcases hp : Js.getProp item "price" with e | price
  · simp [hq, hqi, hp] at h
  rcases hpf : Js.parseFloat (Js.or price zero) with e | pn
  · simp [hq, hqi, hp, hpf] at h
  rcases ht : Js.getProp item "title" with e | title
  · simp [hq, hqi, hp, hpf, ht] at h
  rcases hv : Js.getProp item "variant_id" with e | variant
  · simp [hq, hqi, hp, hpf, ht, hv] at h
  simp only [hq, hqi, hp, hpf, ht, hv] at h
  by_cases htr : Js.truthy variant = true
  · simp only [htr, if_true, Except.map] at h
    rcases hc : Js.callToString variant with e | text
    · simp [hc] at h
    · simp only [hc, Except.ok.injEq] at h
      subst h
      exact ⟨rfl, quantity, price, title, variant, rfl, rfl, rfl, rfl, hqi, hpf, rfl,
        fun _ => ⟨text, hc, rfl⟩, fun hf => by rw [htr] at hf; cases hf⟩
  · simp only [htr, Bool.false_eq_true, if_false, Except.ok.injEq] at h
    subst h
    exact ⟨rfl, quantity, price, title, variant, rfl, rfl, rfl, rfl, hqi, hpf, rfl,
      fun ht2 => absurd ht2 htr, fun _ => rfl⟩

/-- C15. When the payload of an order carries a non-empty list of line items
and the order's loop iteration completes, the stored line items of that order
are exactly the mapped items of the payload, one per item and in the same
order, with nothing of the previous set left and nothing duplicated. The
stored item at each position belongs to the order and carries the quantity
(`parseInt` of the item's `quantity`, 0 for a falsy one), the price
(`parseFloat` of its `price`, 0 for a falsy one), the title (the empty text for
a falsy one) and the variant id (the text of `variant_id`, none for a falsy
one) of the external item at that position: a whole quantity below `2 ^ 53` is
stored as it is, a decimal price as its Number value, a title as it is and a
whole variant id as its digits. The line items of every other order are
unchanged. -/
theorem syncOrders_replaces_line_items (schema : Schema) (tenantId : String) (st : Store)
    (shopifyOrder : Val) (items : List Val)
    (hitems : Js.getProp shopifyOrder "line_items" = .ok (.arr items)) (hne : items ≠ [])
    (hok : (syncOrderRecord schema tenantId st shopifyOrder).error = none) :
    ∃ sid orderId stored, externalId shopifyOrder = some sid
      ∧ orderIdOf (syncOrderRecord schema tenantId st shopifyOrder).store.orders
          (tenantId, sid) = some orderId
      ∧ lineItemsOf (syncOrderRecord schema tenantId st shopifyOrder).store orderId = stored
      ∧ stored.length = items.length
      ∧ (∀ (i : Nat) (item : Val) (d : LineItemData),
          items[i]? = some item → stored[i]? = some d →
          d.orderId = orderId
          ∧ ∃ quantity price title variant,
              Js.getProp item "quantity" = .ok quantity
              ∧ Js.getProp item "price" = .ok price
              ∧ Js.getProp item "title" = .ok title
              ∧ Js.getProp item "variant_id" = .ok variant
              ∧ Js.parseInt (Js.or quantity zero) = .ok d.quantity
              ∧ Js.parseFloat (Js.or price zero) = .ok d.price
              ∧ d.title = Js.or title (.str "")
              ∧ (Js.truthy variant = true →
                  ∃ text, Js.callToString variant = .ok text ∧ d.variantId = some text)
              ∧ (Js.truthy variant = false → d.variantId = none)
              ∧ (∀ n, n < 2 ^ 53 → quantity = .num (Js.Num.ofNat n) →
                  d.quantity = Js.Num.ofNat n)
              ∧ (∀ whole frac, whole ≠ [] →
                  (∀ c ∈ whole ++ frac, Js.isDecDigit c = true) →
                  price = .str (String.mk (if frac = [] then whole else whole ++ '.' :: frac)) →
                  d.price = Js.decimalValue whole frac)
              ∧ (∀ s, s ≠ "" → title = .str s → d.title = .str s)
              ∧ (∀ n, 0 < n → n < 2 ^ 53 → variant = .num (Js.Num.ofNat n) →
                  d.variantId = some (toString n))
              ∧ (variant = .undefined ∨ variant = .null → d.variantId = none))
      ∧ ∀ other, other ≠ orderId →
          lineItemsOf (syncOrderRecord schema tenantId st shopifyOrder).store other
            = lineItemsOf st other := by
  obtain ⟨sid, oid, plan, hsid, hoid, hplan, hstored⟩ := syncOrderRecord_completed hok
  rw [linePlan_arr oid hitems hne] at hplan
  cases hd : lineData schema oid items with
  | none => simp [hd] at hplan
  | some ds =>
    simp only [hd, Option.map_some', Option.some.injEq] at hplan
    subst hplan
    have hmap := lineData_map schema oid items ds hd
    have hds : lineItemsOf (syncOrderRecord schema tenantId st shopifyOrder).store oid = ds := by
      have h := hstored oid
      simp only [if_true] at h
      exact h
    refine ⟨sid, oid, ds, hsid, hoid, hds, ?_, ?_, ?_⟩
    · have := congrArg List.length hmap
      simpa using this.symm
    · intro i item d hi hdi
      have hfields : lineItemFields oid item = .ok d := by
        have h1 := congrArg (fun l => l[i]?) hmap
        simp only [List.getElem?_map, hi, hdi, Option.map_some', Option.some.injEq] at h1
        exact h1
      obtain ⟨ho, quantity, price, title, variant, hq, hp, ht, hv, hqi, hpf, htitle, hv1, hv2⟩ :=
        lineItemFields_spec hfields
      refine ⟨ho, quantity, price, title, variant, hq, hp, ht, hv, hqi, hpf, htitle, hv1, hv2,
        ?_, ?_, ?_, ?_, ?_⟩
      · intro n hn hqn
        have h := @or_count (some n) quantity ⟨hn, hqn⟩
        rw [hqi] at h
        exact Except.ok.inj h
      · intro whole frac hwhole hdigits hprice
        subst hprice
        have hne2 : String.mk (if frac = [] then whole else whole ++ '.' :: frac) ≠ "" := by
          intro he
          have hd2 := congrArg String.data he
          simp only at hd2
          split at hd2
          · exact hwhole hd2
          · simp at hd2
        have hor : Js.or (.str (String.mk (if frac = [] then whole else whole ++ '.' :: frac)))
            zero = .str (String.mk (if frac = [] then whole else whole ++ '.' :: frac)) := by
          simp [Js.or, Js.truthy, hne2]
        rw [hor, parseFloat_decimal whole frac hwhole hdigits] at hpf
        exact (Except.ok.inj hpf).symm
      · intro s hs hts
        subst hts
        rw [htitle]
        simp [Js.or, Js.truthy, hs]
      · intro n hpos hn hvn
        subst hvn
        have htruthy : Js.truthy (.num (Js.Num.ofNat n)) = true := by
          simp [Js.truthy, Js.Num.isFalsy, Js.Num.ofNat]
          omega
        obtain ⟨text, htext, hvar⟩ := hv1 htruthy
        have hcall : Js.callToString (.num (Js.Num.ofNat n)) = Js.toStr (.num (Js.Num.ofNat n)) :=
          rfl
        rw [hcall, toStr_count n hn] at htext
        rw [hvar, ← Except.ok.inj htext]
      · intro hvn
        refine hv2 ?_
        rcases hvn with h | h <;> subst h <;> rfl
    · intro other hother
      have h := hstored other
      simp only [if_neg hother] at h
      exact h

theorem syncOrders_replaces_line_items_witness :
    lineItemsOf Sample.seeded 1
      = [{ orderId := 1, quantity := Js.Num.ofNat 2, price := Js.Num.dec 35 1,
           title := .str "A", variantId := some "11" },
         { orderId := 1, quantity := Js.Num.ofNat 1, price := Js.Num.ofNat 18,
           title := .str "B", variantId := none }]
    ∧ lineItemsOf (syncOrderRecord Sample.schema "tenant-1" Sample.seeded Sample.orderAC).store 1
      = [{ orderId := 1, quantity := Js.Num.ofNat 2, price := Js.Num.dec 35 1,
           title := .str "A", variantId := some "11" },
         { orderId := 1, quantity := Js.Num.ofNat 4, price := Js.Num.dec 125 2,
           title := .str "C", variantId := none }]
    ∧ (syncOrderRecord Sample.schema "tenant-1" Sample.seeded Sample.orderAC).store.lineItems.length
        = 2
    ∧ ∃ sid orderId stored, externalId Sample.orderAC = some sid
      ∧ orderIdOf (syncOrderRecord Sample.schema "tenant-1" Sample.seeded Sample.orderAC).store.orders
          ("tenant-1", sid) = some orderId
      ∧ lineItemsOf (syncOrderRecord Sample.schema "tenant-1" Sample.seeded Sample.orderAC).store orderId = stored
      ∧ stored.length = [Sample.itemA, Sample.itemC].length
      ∧ (∀ (i : Nat) (item : Val) (d : LineItemData),
          [Sample.itemA, Sample.itemC][i]? = some item → stored[i]? = some d →
          d.orderId = orderId
          ∧ ∃ quantity price title variant,
              Js.getProp item "quantity" = .ok quantity
              ∧ Js.getProp item "price" = .ok price
              ∧ Js.getProp item "title" = .ok title
              ∧ Js.getProp item "variant_id" = .ok variant
              ∧ Js.parseInt (Js.or quantity zero) = .ok d.quantity
              ∧ Js.parseFloat (Js.or price zero) = .ok d.price
              ∧ d.title = Js.or title (.str "")
              ∧ (Js.truthy variant = true →
                  ∃ text, Js.callToString variant = .ok text ∧ d.variantId = some text)
              ∧ (Js.truthy variant = false → d.variantId = none)
              ∧ (∀ n, n < 2 ^ 53 → quantity = .num (Js.Num.ofNat n) →
                  d.quantity = Js.Num.ofNat n)
              ∧ (∀ whole frac, whole ≠ [] →
                  (∀ c ∈ whole ++ frac, Js.isDecDigit c = true) →
                  price = .str (String.mk (if frac = [] then whole else whole ++ '.' :: frac)) →
                  d.price = Js.decimalValue whole frac)
              ∧ (∀ s, s ≠ "" → title = .str s → d.title = .str s)
              ∧ (∀ n, 0 < n → n < 2 ^ 53 → variant = .num (Js.Num.ofNat n) →
                  d.variantId = some (toString n))
              ∧ (variant = .undefined ∨ variant = .null → d.variantId = none))
      ∧ ∀ other, other ≠ orderId →
          lineItemsOf (syncOrderRecord Sample.schema "tenant-1" Sample.seeded Sample.orderAC).store other
            = lineItemsOf Sample.seeded other :=
  ⟨rfl, rfl, rfl, syncOrders_replaces_line_items Sample.schema "tenant-1" Sample.seeded
    Sample.orderAC [Sample.itemA, Sample.itemC] rfl (by simp) rfl⟩

end ShopifyService
